import Mathlib

/-!
# CHESS rules engine: a shallow embedding of `chess.hpp`, `chessPiece.hpp`,
`chessBoard.hpp` and the turn body of `game.hpp`

The C++ program keeps squares as two-character `std::string`s ("e1"), pieces as heap
objects reached through pointers, and one shared `chessBoard` whose cells the pieces
overwrite.  The embedding keeps that shape:

* a square is the pair of its two `char` codes (`'a'` = 97 … `'h'` = 104, `'1'` = 49 …
  `'8'` = 56); all `char` arithmetic of the source stays far inside the range of `char`,
  so the codes are plain integers;
* a piece carries the address it was allocated at (`ptr`), so pointer comparisons and
  `std::find` over the collections are comparisons of `ptr`;
* every operation that the C++ standard leaves undefined (indexing an empty vector,
  `pop_back` on an empty vector, dereferencing a null pointer, writing through a board
  key that is not in the map) and every `throw std::logic_error` is a `Fault`.
-/

namespace CHESS

/-! ## Squares -/

/-- A two-character position string: `file` is the code of `pos[0]`, `rank` of `pos[1]`. -/
structure Square where
  file : Int
  rank : Int
deriving DecidableEq, Repr

def a1 : Square := ⟨97, 49⟩
def a2 : Square := ⟨97, 50⟩
def a3 : Square := ⟨97, 51⟩
def a4 : Square := ⟨97, 52⟩
def a5 : Square := ⟨97, 53⟩
def a6 : Square := ⟨97, 54⟩
def a7 : Square := ⟨97, 55⟩
def a8 : Square := ⟨97, 56⟩
def b1 : Square := ⟨98, 49⟩
def b2 : Square := ⟨98, 50⟩
def b3 : Square := ⟨98, 51⟩
def b4 : Square := ⟨98, 52⟩
def b5 : Square := ⟨98, 53⟩
def b6 : Square := ⟨98, 54⟩
def b7 : Square := ⟨98, 55⟩
def b8 : Square := ⟨98, 56⟩
def c1 : Square := ⟨99, 49⟩
def c2 : Square := ⟨99, 50⟩
def c3 : Square := ⟨99, 51⟩
def c4 : Square := ⟨99, 52⟩
def c5 : Square := ⟨99, 53⟩
def c6 : Square := ⟨99, 54⟩
def c7 : Square := ⟨99, 55⟩
def c8 : Square := ⟨99, 56⟩
def d1 : Square := ⟨100, 49⟩
def d2 : Square := ⟨100, 50⟩
def d3 : Square := ⟨100, 51⟩
def d4 : Square := ⟨100, 52⟩
def d5 : Square := ⟨100, 53⟩
def d6 : Square := ⟨100, 54⟩
def d7 : Square := ⟨100, 55⟩
def d8 : Square := ⟨100, 56⟩
def e1 : Square := ⟨101, 49⟩
def e2 : Square := ⟨101, 50⟩
def e3 : Square := ⟨101, 51⟩
def e4 : Square := ⟨101, 52⟩
def e5 : Square := ⟨101, 53⟩
def e6 : Square := ⟨101, 54⟩
def e7 : Square := ⟨101, 55⟩
def e8 : Square := ⟨101, 56⟩
def f1 : Square := ⟨102, 49⟩
def f2 : Square := ⟨102, 50⟩
def f3 : Square := ⟨102, 51⟩
def f4 : Square := ⟨102, 52⟩
def f5 : Square := ⟨102, 53⟩
def f6 : Square := ⟨102, 54⟩
def f7 : Square := ⟨102, 55⟩
def f8 : Square := ⟨102, 56⟩
def g1 : Square := ⟨103, 49⟩
def g2 : Square := ⟨103, 50⟩
def g3 : Square := ⟨103, 51⟩
def g4 : Square := ⟨103, 52⟩
def g5 : Square := ⟨103, 53⟩
def g6 : Square := ⟨103, 54⟩
def g7 : Square := ⟨103, 55⟩
def g8 : Square := ⟨103, 56⟩
def h1 : Square := ⟨104, 49⟩
def h2 : Square := ⟨104, 50⟩
def h3 : Square := ⟨104, 51⟩
def h4 : Square := ⟨104, 52⟩
def h5 : Square := ⟨104, 53⟩
def h6 : Square := ⟨104, 54⟩
def h7 : Square := ⟨104, 55⟩
def h8 : Square := ⟨104, 56⟩

/-- The 64 keys of `chessBoard::m_map`, in the order the constructor inserts them. -/
def allSquares : List Square :=
  [a1, a2, a3, a4, a5, a6, a7, a8, b1, b2, b3, b4, b5, b6, b7, b8,
   c1, c2, c3, c4, c5, c6, c7, c8, d1, d2, d3, d4, d5, d6, d7, d8,
   e1, e2, e3, e4, e5, e6, e7, e8, f1, f2, f3, f4, f5, f6, f7, f8,
   g1, g2, g3, g4, g5, g6, g7, g8, h1, h2, h3, h4, h5, h6, h7, h8]

/-- The test `boardMap.find(position) != boardMap.end()`: the key is one of the 64. -/
def inBoardMap (position : Square) : Bool :=
  decide (97 ≤ position.file) && decide (position.file ≤ 104) &&
  decide (49 ≤ position.rank) && decide (position.rank ≤ 56)

/-! ## Faults -/

/-- The ways a call can fail to return: undefined behaviour of the C++ abstract machine,
or a thrown `std::logic_error` with its message. -/
inductive Fault where
  | undefinedBehaviour
  | logic_error (what : String)
deriving DecidableEq, Repr

/-! ## chessBoard -/

/-- The type `wchar_t`, by code point. -/
abbrev wchar_t := Nat

/-- The character `'_'` of an empty cell. -/
def emptyCell : wchar_t := 95

/-- The class `chessBoard`: the cell each key of `m_map` points at. -/
structure chessBoard where
  cell : Square → wchar_t

/-- The board of `chessBoard::chessBoard()`: every mapped cell holds `'_'`. -/
def chessBoard.new : chessBoard := ⟨fun _ => emptyCell⟩

/-- The method `chessBoard::isSquareOccupied`. -/
def chessBoard.isSquareOccupied (b : chessBoard) (position : Square) : Bool :=
  if inBoardMap position then b.cell position != emptyCell else false

/-- The assignment `*m_map[position] = c`.  For a key that is not in the map `operator[]`
inserts a null pointer and the store through it is undefined. -/
def chessBoard.write (b : chessBoard) (position : Square) (c : wchar_t) :
    Except Fault chessBoard :=
  if inBoardMap position then
    .ok ⟨fun q => if q = position then c else b.cell q⟩
  else .error Fault.undefinedBehaviour

/-! ## chessPiece -/

/-- The enumeration `chessPiece::COLOR`. -/
inductive COLOR where
  | WHITE | BLACK
deriving DecidableEq, Repr

/-- The enumeration `chessPiece::PIECE`. -/
inductive PIECE where
  | KING | QUEEN | KNIGHT | BISHOP | ROOK | PAWN | NONE
deriving DecidableEq, Repr

/-- One piece object.  `ptr` is its address, `m_piece` tells which of the six classes it
is; `m_firstMove` exists in `King`, `Rook` and `Pawn` only and is ignored for the rest. -/
structure chessPiece where
  ptr : Nat
  m_color : COLOR
  m_piece : PIECE
  m_position : Square
  m_firstMove : Bool
deriving DecidableEq, Repr

namespace chessPiece

/-- The accessor `getColor`. -/
def getColor (p : chessPiece) : COLOR := p.m_color

/-- The accessor `getPiece`. -/
def getPiece (p : chessPiece) : PIECE := p.m_piece

/-- The accessor `getPosition`. -/
def getPosition (p : chessPiece) : Square := p.m_position

/-- The virtual `isFirstMove`: the flag for King, Rook and Pawn, the base class's
`false` for the others. -/
def isFirstMove (p : chessPiece) : Bool :=
  match p.m_piece with
  | PIECE.KING | PIECE.ROOK | PIECE.PAWN => p.m_firstMove
  | _ => false

/-- The glyph `setPosition` stores for a colour and class. -/
def glyph (color : COLOR) (piece : PIECE) : wchar_t :=
  match color, piece with
  | COLOR.WHITE, PIECE.KING => 0x265A
  | COLOR.BLACK, PIECE.KING => 0x2654
  | COLOR.WHITE, PIECE.QUEEN => 0x265B
  | COLOR.BLACK, PIECE.QUEEN => 0x2655
  | COLOR.WHITE, PIECE.BISHOP => 0x265D
  | COLOR.BLACK, PIECE.BISHOP => 0x2657
  | COLOR.WHITE, PIECE.ROOK => 0x265C
  | COLOR.BLACK, PIECE.ROOK => 0x2656
  | COLOR.WHITE, PIECE.KNIGHT => 0x265E
  | COLOR.BLACK, PIECE.KNIGHT => 0x2658
  | COLOR.WHITE, PIECE.PAWN => 0x265F
  | COLOR.BLACK, PIECE.PAWN => 0x2659
  | _, PIECE.NONE => emptyCell

/-- The method `setPosition`: store the glyph in the board cell, then set `m_position`. -/
def setPosition (p : chessPiece) (b : chessBoard) (position : Square) :
    Except Fault (chessPiece × chessBoard) :=
  match b.write position (glyph p.m_color p.m_piece) with
  | .ok b1 => .ok ({ p with m_position := position }, b1)
  | .error e => .error e

/-- The method `move(destination)` of the six classes: `setPosition(destination)`, blank
the source cell, and for King, Rook and Pawn clear `m_firstMove`. -/
def move (p : chessPiece) (b : chessBoard) (destination : Square) :
    Except Fault (chessPiece × chessBoard) :=
  let source := p.m_position
  match p.setPosition b destination with
  | .error e => .error e
  | .ok (p1, b1) =>
    match b1.write source emptyCell with
    | .error e => .error e
    | .ok b2 =>
      match p1.m_piece with
      | PIECE.KING | PIECE.ROOK | PIECE.PAWN => .ok ({ p1 with m_firstMove := false }, b2)
      | _ => .ok (p1, b2)

/-- The last loop of every `getAttackingSquares`: keep the entries that are board keys. -/
def keepBoardSquares (vec : List Square) : List Square :=
  vec.filter inBoardMap

/-- One `while (inRange) { vec.push_back({letter, digit}); if (occupied) break; step }`
loop of a sliding piece.  `n` bounds the iterations; the callers pass the number of
values the stepped coordinate can still take inside the loop condition, so the bound is
never what ends the loop. -/
def rayLoop (b : chessBoard) (inRange : Int → Int → Bool) (dl dd : Int) :
    Nat → Int → Int → List Square
  | 0, _, _ => []
  | n + 1, letter, digit =>
    if inRange letter digit then
      ⟨letter, digit⟩ ::
        (if b.isSquareOccupied ⟨letter, digit⟩ then []
         else rayLoop b inRange dl dd n (letter + dl) (digit + dd))
    else []

/-- Iterations left for a loop that counts `x` upwards while `x <= hi`. -/
def stepsUp (x hi : Int) : Nat := (hi + 1 - x).toNat

/-- Iterations left for a loop that counts `x` downwards while `x >= lo`. -/
def stepsDown (x lo : Int) : Nat := (x + 1 - lo).toNat

/-- The four loops of `Rook::getAttackingSquares`, before the board-key filter: letter
up, letter down, digit up, digit down. -/
def rookRays (b : chessBoard) (pos : Square) : List Square :=
  rayLoop b (fun letter _ => decide (letter ≤ 104)) 1 0
      (stepsUp (pos.file + 1) 104) (pos.file + 1) pos.rank ++
  rayLoop b (fun letter _ => decide (letter ≥ 97)) (-1) 0
      (stepsDown (pos.file - 1) 97) (pos.file - 1) pos.rank ++
  rayLoop b (fun _ digit => decide (digit ≤ 56)) 0 1
      (stepsUp (pos.rank + 1) 56) pos.file (pos.rank + 1) ++
  rayLoop b (fun _ digit => decide (digit ≥ 49)) 0 (-1)
      (stepsDown (pos.rank - 1) 49) pos.file (pos.rank - 1)

/-- The four loops of `Bishop::getAttackingSquares`, before the board-key filter. -/
def bishopRays (b : chessBoard) (pos : Square) : List Square :=
  rayLoop b (fun letter digit => decide (letter ≤ 104) && decide (digit ≤ 56)) 1 1
      (stepsUp (pos.file + 1) 104) (pos.file + 1) (pos.rank + 1) ++
  rayLoop b (fun letter digit => decide (letter ≤ 104) && decide (digit ≥ 49)) 1 (-1)
      (stepsUp (pos.file + 1) 104) (pos.file + 1) (pos.rank - 1) ++
  rayLoop b (fun letter digit => decide (letter ≥ 97) && decide (digit ≤ 56)) (-1) 1
      (stepsDown (pos.file - 1) 97) (pos.file - 1) (pos.rank + 1) ++
  rayLoop b (fun letter digit => decide (letter ≥ 97) && decide (digit ≥ 49)) (-1) (-1)
      (stepsDown (pos.file - 1) 97) (pos.file - 1) (pos.rank - 1)

/-- The eight loops of `Queen::getAttackingSquares` (chessPiece.hpp:207–282), in source
order, before the board-key filter: the squares a loop pushes onto the vector `vec`,
followed by those of the loops after it.  Letter up, letter down, digit up, digit down,
then both up, letter up and digit down, letter down and digit up, both down. -/
def queenRays (b : chessBoard) (pos : Square) : List Square :=
  rayLoop b (fun letter _ => decide (letter ≤ 104)) 1 0
      (stepsUp (pos.file + 1) 104) (pos.file + 1) pos.rank ++
  (rayLoop b (fun letter _ => decide (letter ≥ 97)) (-1) 0
      (stepsDown (pos.file - 1) 97) (pos.file - 1) pos.rank ++
  (rayLoop b (fun _ digit => decide (digit ≤ 56)) 0 1
      (stepsUp (pos.rank + 1) 56) pos.file (pos.rank + 1) ++
  (rayLoop b (fun _ digit => decide (digit ≥ 49)) 0 (-1)
      (stepsDown (pos.rank - 1) 49) pos.file (pos.rank - 1) ++
  (rayLoop b (fun letter digit => decide (letter ≤ 104) && decide (digit ≤ 56)) 1 1
      (stepsUp (pos.file + 1) 104) (pos.file + 1) (pos.rank + 1) ++
  (rayLoop b (fun letter digit => decide (letter ≤ 104) && decide (digit ≥ 49)) 1 (-1)
      (stepsUp (pos.file + 1) 104) (pos.file + 1) (pos.rank - 1) ++
  (rayLoop b (fun letter digit => decide (letter ≥ 97) && decide (digit ≤ 56)) (-1) 1
      (stepsDown (pos.file - 1) 97) (pos.file - 1) (pos.rank + 1) ++
  rayLoop b (fun letter digit => decide (letter ≥ 97) && decide (digit ≥ 49)) (-1) (-1)
      (stepsDown (pos.file - 1) 97) (pos.file - 1) (pos.rank - 1)))))))

/-- The eight candidates `tmp1 … tmp8` of `King::getAttackingSquares`, in source order. -/
def kingOffsets (pos : Square) : List Square :=
  [⟨pos.file + 1, pos.rank⟩, ⟨pos.file + 1, pos.rank - 1⟩, ⟨pos.file + 1, pos.rank + 1⟩,
   ⟨pos.file, pos.rank + 1⟩, ⟨pos.file, pos.rank - 1⟩, ⟨pos.file - 1, pos.rank⟩,
   ⟨pos.file - 1, pos.rank + 1⟩, ⟨pos.file - 1, pos.rank - 1⟩]

/-- The eight candidates `tmp1 … tmp8` of `Knight::getAttackingSquares`, in source order. -/
def knightOffsets (pos : Square) : List Square :=
  [⟨pos.file + 2, pos.rank + 1⟩, ⟨pos.file + 2, pos.rank - 1⟩, ⟨pos.file + 1, pos.rank + 2⟩,
   ⟨pos.file + 1, pos.rank - 2⟩, ⟨pos.file - 2, pos.rank + 1⟩, ⟨pos.file - 2, pos.rank - 1⟩,
   ⟨pos.file - 1, pos.rank + 2⟩, ⟨pos.file - 1, pos.rank - 2⟩]

/-- The two candidates of `Pawn::getAttackingSquares`, in source order. -/
def pawnOffsets (color : COLOR) (pos : Square) : List Square :=
  match color with
  | COLOR.WHITE => [⟨pos.file + 1, pos.rank + 1⟩, ⟨pos.file - 1, pos.rank + 1⟩]
  | COLOR.BLACK => [⟨pos.file + 1, pos.rank - 1⟩, ⟨pos.file - 1, pos.rank - 1⟩]

/-- The virtual `getAttackingSquares`, dispatched on the class of the piece. -/
def getAttackingSquares (p : chessPiece) (b : chessBoard) : List Square :=
  match p.m_piece with
  | PIECE.KING => keepBoardSquares (kingOffsets p.m_position)
  | PIECE.QUEEN => keepBoardSquares (queenRays b p.m_position)
  | PIECE.BISHOP => keepBoardSquares (bishopRays b p.m_position)
  | PIECE.ROOK => keepBoardSquares (rookRays b p.m_position)
  | PIECE.KNIGHT => keepBoardSquares (knightOffsets p.m_position)
  | PIECE.PAWN => keepBoardSquares (pawnOffsets p.m_color p.m_position)
  | PIECE.NONE => []

/-- One `while (inRange pos) { attackingPathVec.push_back(pos); step }` loop of a
`getAttackingPath`; `n` is the number of iterations the condition allows. -/
def pathLoop (inRange : Int → Int → Bool) (dl dd : Int) : Nat → Int → Int → List Square
  | 0, _, _ => []
  | n + 1, letter, digit =>
    if inRange letter digit then
      ⟨letter, digit⟩ :: pathLoop inRange dl dd n (letter + dl) (digit + dd)
    else []

/-- The four branches of `Rook::getAttackingPath`; `none` when none of the four
conditions holds and the function returns `{}`. -/
def straightPath (pos destination : Square) : Option (List Square) :=
  if pos.file = destination.file ∧ pos.rank < destination.rank then
    some (pathLoop (fun _ digit => decide (digit ≤ destination.rank)) 0 1
      (stepsUp pos.rank destination.rank) pos.file pos.rank)
  else if pos.file = destination.file ∧ pos.rank > destination.rank then
    some (pathLoop (fun _ digit => decide (digit ≥ destination.rank)) 0 (-1)
      (stepsDown pos.rank destination.rank) pos.file pos.rank)
  else if pos.file < destination.file ∧ pos.rank = destination.rank then
    some (pathLoop (fun letter _ => decide (letter ≤ destination.file)) 1 0
      (stepsUp pos.file destination.file) pos.file pos.rank)
  else if pos.file > destination.file ∧ pos.rank = destination.rank then
    some (pathLoop (fun letter _ => decide (letter ≥ destination.file)) (-1) 0
      (stepsDown pos.file destination.file) pos.file pos.rank)
  else none

/-- The four branches of `Bishop::getAttackingPath`, with the final `return {}`. -/
def diagonalPath (pos destination : Square) : List Square :=
  if pos.file < destination.file ∧ pos.rank < destination.rank then
    pathLoop (fun letter digit =>
        decide (letter ≤ destination.file) && decide (digit ≤ destination.rank)) 1 1
      (stepsUp pos.file destination.file) pos.file pos.rank
  else if pos.file > destination.file ∧ pos.rank < destination.rank then
    pathLoop (fun letter digit =>
        decide (letter ≥ destination.file) && decide (digit ≤ destination.rank)) (-1) 1
      (stepsDown pos.file destination.file) pos.file pos.rank
  else if pos.file < destination.file ∧ pos.rank > destination.rank then
    pathLoop (fun letter digit =>
        decide (letter ≤ destination.file) && decide (digit ≥ destination.rank)) 1 (-1)
      (stepsUp pos.file destination.file) pos.file pos.rank
  else if pos.file > destination.file ∧ pos.rank > destination.rank then
    pathLoop (fun letter digit =>
        decide (letter ≥ destination.file) && decide (digit ≥ destination.rank)) (-1) (-1)
      (stepsDown pos.file destination.file) pos.file pos.rank
  else []

/-- The method `Queen::getAttackingPath` (chessPiece.hpp:291–360): eight branches in
source order, each returning the squares its loop pushed, and the final `return {}`. -/
def queenPath (pos destination : Square) : List Square :=
  if pos.file = destination.file ∧ pos.rank < destination.rank then
    pathLoop (fun _ digit => decide (digit ≤ destination.rank)) 0 1
      (stepsUp pos.rank destination.rank) pos.file pos.rank
  else if pos.file = destination.file ∧ pos.rank > destination.rank then
    pathLoop (fun _ digit => decide (digit ≥ destination.rank)) 0 (-1)
      (stepsDown pos.rank destination.rank) pos.file pos.rank
  else if pos.file < destination.file ∧ pos.rank = destination.rank then
    pathLoop (fun letter _ => decide (letter ≤ destination.file)) 1 0
      (stepsUp pos.file destination.file) pos.file pos.rank
  else if pos.file > destination.file ∧ pos.rank = destination.rank then
    pathLoop (fun letter _ => decide (letter ≥ destination.file)) (-1) 0
      (stepsDown pos.file destination.file) pos.file pos.rank
  else if pos.file < destination.file ∧ pos.rank < destination.rank then
    pathLoop (fun letter digit =>
        decide (letter ≤ destination.file) && decide (digit ≤ destination.rank)) 1 1
      (stepsUp pos.file destination.file) pos.file pos.rank
  else if pos.file > destination.file ∧ pos.rank < destination.rank then
    pathLoop (fun letter digit =>
        decide (letter ≥ destination.file) && decide (digit ≤ destination.rank)) (-1) 1
      (stepsDown pos.file destination.file) pos.file pos.rank
  else if pos.file < destination.file ∧ pos.rank > destination.rank then
    pathLoop (fun letter digit =>
        decide (letter ≤ destination.file) && decide (digit ≥ destination.rank)) 1 (-1)
      (stepsUp pos.file destination.file) pos.file pos.rank
  else if pos.file > destination.file ∧ pos.rank > destination.rank then
    pathLoop (fun letter digit =>
        decide (letter ≥ destination.file) && decide (digit ≥ destination.rank)) (-1) (-1)
      (stepsDown pos.file destination.file) pos.file pos.rank
  else []

/-- The virtual `getAttackingPath`: overridden by Queen, Bishop and Rook; the base
class's `return {}` for King, Knight and Pawn. -/
def getAttackingPath (p : chessPiece) (destination : Square) : List Square :=
  match p.m_piece with
  | PIECE.QUEEN => queenPath p.m_position destination
  | PIECE.ROOK => (straightPath p.m_position destination).getD []
  | PIECE.BISHOP => diagonalPath p.m_position destination
  | _ => []

/-- The method `Pawn::getValidMovesWithoutAttack`. -/
def getValidMovesWithoutAttack (p : chessPiece) : List Square :=
  match p.m_color with
  | COLOR.WHITE =>
    ⟨p.m_position.file, p.m_position.rank + 1⟩ ::
      (if p.m_firstMove then [⟨p.m_position.file, p.m_position.rank + 2⟩] else [])
  | COLOR.BLACK =>
    ⟨p.m_position.file, p.m_position.rank - 1⟩ ::
      (if p.m_firstMove then [⟨p.m_position.file, p.m_position.rank - 2⟩] else [])

/-- The method `Pawn::isValidMove`. -/
def pawnIsValidMove (p : chessPiece) (b : chessBoard) (source destination : Square) : Bool :=
  if !inBoardMap source || !inBoardMap destination || decide (source = destination) then false
  else if b.isSquareOccupied destination && !(p.getAttackingSquares b).contains destination then
    false
  else if (decide (p.m_color = COLOR.WHITE) && decide (destination.rank ≤ source.rank)) ||
          (decide (p.m_color = COLOR.BLACK) && decide (destination.rank ≥ source.rank)) then
    false
  else
    (decide (source.file = destination.file) &&
        decide ((destination.rank - source.rank).natAbs = 2) && p.m_firstMove) ||
    (decide (source.file = destination.file) &&
        decide ((destination.rank - source.rank).natAbs = 1))

/-- The virtual `isValidMove(source, destination)` of the piece classes: the Pawn's own
rule, and for the other five the board-key test followed by membership of `destination`
in `getAttackingSquares()`. -/
def isValidMove (p : chessPiece) (b : chessBoard) (source destination : Square) : Bool :=
  match p.m_piece with
  | PIECE.PAWN => p.pawnIsValidMove b source destination
  | PIECE.NONE => false
  | _ =>
    if !inBoardMap source || !inBoardMap destination || decide (source = destination) then false
    else (p.getAttackingSquares b).contains destination

end chessPiece

/-! ## Chess -/

/-- The class `Chess`: the board, the two collections, the move history and the four
classification flags.  `heapNext` is the address the next `new` returns. -/
structure Chess where
  m_chessBoard : chessBoard
  whitePieces : List chessPiece
  blackPieces : List chessPiece
  m_moveDB : List (Square × Square)
  m_activateCastling : Bool
  m_activatePawnCapturing : Bool
  m_enPassant : Bool
  m_activatePromotion : Bool
  heapNext : Nat

namespace Chess

/-- The state before `setWhitePieces()`: a fresh board and nothing else. -/
def empty : Chess :=
  { m_chessBoard := chessBoard.new, whitePieces := [], blackPieces := [], m_moveDB := [],
    m_activateCastling := false, m_activatePawnCapturing := false, m_enPassant := false,
    m_activatePromotion := false, heapNext := 0 }

/-- The statement pair `chessPiece* x = new K(color, position, m_chessBoard);
pieces.push_back(x);` — the constructor runs `setPosition(position)`. -/
def pushNew (c : Chess) (color : COLOR) (piece : PIECE) (position : Square) :
    Except Fault Chess :=
  match chessPiece.setPosition ⟨c.heapNext, color, piece, position, true⟩ c.m_chessBoard
      position with
  | .error e => .error e
  | .ok (p, b) =>
    match color with
    | COLOR.WHITE =>
      .ok { c with m_chessBoard := b, whitePieces := c.whitePieces ++ [p],
                   heapNext := c.heapNext + 1 }
    | COLOR.BLACK =>
      .ok { c with m_chessBoard := b, blackPieces := c.blackPieces ++ [p],
                   heapNext := c.heapNext + 1 }

/-- Run `pushNew` over a list of (class, square) pairs, in order. -/
def pushAll (color : COLOR) : Chess → List (PIECE × Square) → Except Fault Chess
  | c, [] => .ok c
  | c, (piece, position) :: rest =>
    match c.pushNew color piece position with
    | .error e => .error e
    | .ok c1 => pushAll color c1 rest

/-- The method `Chess::setWhitePieces`. -/
def setWhitePieces (c : Chess) : Except Fault Chess :=
  pushAll COLOR.WHITE c
    [(PIECE.KING, e1), (PIECE.QUEEN, d1), (PIECE.BISHOP, f1), (PIECE.BISHOP, c1),
     (PIECE.ROOK, h1), (PIECE.ROOK, a1), (PIECE.KNIGHT, g1), (PIECE.KNIGHT, b1),
     (PIECE.PAWN, a2), (PIECE.PAWN, b2), (PIECE.PAWN, c2), (PIECE.PAWN, d2),
     (PIECE.PAWN, e2), (PIECE.PAWN, f2), (PIECE.PAWN, g2), (PIECE.PAWN, h2)]

/-- The method `Chess::setBlackPieces`. -/
def setBlackPieces (c : Chess) : Except Fault Chess :=
  pushAll COLOR.BLACK c
    [(PIECE.KING, e8), (PIECE.QUEEN, d8), (PIECE.BISHOP, f8), (PIECE.BISHOP, c8),
     (PIECE.ROOK, h8), (PIECE.ROOK, a8), (PIECE.KNIGHT, b8), (PIECE.KNIGHT, g8),
     (PIECE.PAWN, a7), (PIECE.PAWN, b7), (PIECE.PAWN, c7), (PIECE.PAWN, d7),
     (PIECE.PAWN, e7), (PIECE.PAWN, f7), (PIECE.PAWN, g7), (PIECE.PAWN, h7)]

/-- The constructor `Chess::Chess()`. -/
def construct : Except Fault Chess :=
  match setWhitePieces empty with
  | .error e => .error e
  | .ok c => setBlackPieces c

/-- The method `Chess::resetFlags`. -/
def resetFlags (c : Chess) : Chess :=
  { c with m_activateCastling := false, m_activatePawnCapturing := false,
           m_enPassant := false, m_activatePromotion := false }

/-- The method `Chess::getLastMove`: `m_moveDB[m_moveDB.size() - 1]`, which indexes out of
bounds on an empty history. -/
def getLastMove (c : Chess) : Except Fault (Square × Square) :=
  match c.m_moveDB.getLast? with
  | some m => .ok m
  | none => .error Fault.undefinedBehaviour

/-- The method `Chess::getPieceFromPosition`; `none` is the null pointer. -/
def getPieceFromPosition (c : Chess) (position : Square) : Option chessPiece :=
  match c.whitePieces.find? (fun p => decide (p.getPosition = position)) with
  | some p => some p
  | none => c.blackPieces.find? (fun p => decide (p.getPosition = position))

/-- The piece a pointer refers to, looked up by address in both collections; `none` for
a pointer to a deleted piece. -/
def deref (c : Chess) (ptr : Nat) : Option chessPiece :=
  match c.whitePieces.find? (fun p => decide (p.ptr = ptr)) with
  | some p => some p
  | none => c.blackPieces.find? (fun p => decide (p.ptr = ptr))

/-- The inner loops `for (pos : piece->getAttackingSquares()) if (pos == position) return
true;` over a range of pieces. -/
def anyAttacks (b : chessBoard) (pieces : List chessPiece) (position : Square) : Bool :=
  pieces.any (fun p => (p.getAttackingSquares b).contains position)

/-- The method `Chess::isWhiteKingUnderAttack`: `whitePieces[0]` and the iterator step
`++iter` past `blackPieces.begin()` are undefined on empty collections. -/
def isWhiteKingUnderAttack (c : Chess) : Except Fault Bool :=
  match c.whitePieces, c.blackPieces with
  | wKing :: _, _ :: rest => .ok (anyAttacks c.m_chessBoard rest wKing.getPosition)
  | _, _ => .error Fault.undefinedBehaviour

/-- The method `Chess::isBlackKingUnderAttack`. -/
def isBlackKingUnderAttack (c : Chess) : Except Fault Bool :=
  match c.blackPieces, c.whitePieces with
  | bKing :: _, _ :: rest => .ok (anyAttacks c.m_chessBoard rest bKing.getPosition)
  | _, _ => .error Fault.undefinedBehaviour

/-- The method `Chess::isSquareUnderAttackByWhitePieces`. -/
def isSquareUnderAttackByWhitePieces (c : Chess) (position : Square) : Bool :=
  anyAttacks c.m_chessBoard c.whitePieces position

/-- The method `Chess::isSquareUnderAttackByBlackPieces`. -/
def isSquareUnderAttackByBlackPieces (c : Chess) (position : Square) : Bool :=
  anyAttacks c.m_chessBoard c.blackPieces position

/-- The test `p_destPiece && p_destPiece->getPiece() == chessPiece::PIECE::ROOK` on
`getPieceFromPosition(corner)`. -/
def rookStandsOn (c : Chess) (corner : Square) : Bool :=
  match c.getPieceFromPosition corner with
  | some r => decide (r.getPiece = PIECE.ROOK)
  | none => false

/-- The method `Chess::canCastle`.  `dynamic_cast<King*>` succeeds exactly for a piece of
class King. -/
def canCastle (c : Chess) (p_chessPiece : chessPiece) (_source destination : Square) :
    Except Fault Bool :=
  if p_chessPiece.getPiece ≠ PIECE.KING then .ok false
  else
    match p_chessPiece.getColor with
    | COLOR.WHITE =>
      match c.isWhiteKingUnderAttack with
      | .error e => .error e
      | .ok attacked =>
        if attacked || !p_chessPiece.isFirstMove then .ok false
        else if destination = g1 ∧
            (c.m_chessBoard.isSquareOccupied f1 || c.m_chessBoard.isSquareOccupied g1 ||
             c.isSquareUnderAttackByBlackPieces f1 || c.isSquareUnderAttackByBlackPieces g1)
          then .ok false
        else if destination = g1 ∧ (c.rookStandsOn h1 && p_chessPiece.isFirstMove) then .ok true
        else if destination = c1 ∧
            (c.m_chessBoard.isSquareOccupied d1 || c.m_chessBoard.isSquareOccupied c1 ||
             c.m_chessBoard.isSquareOccupied b1 || c.isSquareUnderAttackByBlackPieces d1 ||
             c.isSquareUnderAttackByBlackPieces c1)
          then .ok false
        else if destination = c1 ∧ (c.rookStandsOn a1 && p_chessPiece.isFirstMove) then .ok true
        else .ok false
    | COLOR.BLACK =>
      match c.isBlackKingUnderAttack with
      | .error e => .error e
      | .ok attacked =>
        if attacked || !p_chessPiece.isFirstMove then .ok false
        else if destination = g8 ∧
            (c.m_chessBoard.isSquareOccupied f8 || c.m_chessBoard.isSquareOccupied g8 ||
             c.isSquareUnderAttackByWhitePieces f8 || c.isSquareUnderAttackByWhitePieces g8)
          then .ok false
        else if destination = g8 ∧ (c.rookStandsOn h8 && p_chessPiece.isFirstMove) then .ok true
        else if destination = c8 ∧
            (c.m_chessBoard.isSquareOccupied d8 || c.m_chessBoard.isSquareOccupied c8 ||
             c.m_chessBoard.isSquareOccupied b8 || c.isSquareUnderAttackByWhitePieces d8 ||
             c.isSquareUnderAttackByWhitePieces c8)
          then .ok false
        else if destination = c8 ∧ (c.rookStandsOn a8 && p_chessPiece.isFirstMove) then .ok true
        else .ok false

/-- The method `Chess::getWhiteKingAttackers`: the black pieces after the first whose
attacking squares hold the white king's square, in collection order. -/
def getWhiteKingAttackers (c : Chess) : Except Fault (List chessPiece) :=
  match c.whitePieces, c.blackPieces with
  | wKing :: _, _ :: rest =>
    .ok (rest.filter (fun p => (p.getAttackingSquares c.m_chessBoard).contains wKing.getPosition))
  | _, _ => .error Fault.undefinedBehaviour

/-- The method `Chess::getBlackKingAttackers`. -/
def getBlackKingAttackers (c : Chess) : Except Fault (List chessPiece) :=
  match c.blackPieces, c.whitePieces with
  | bKing :: _, _ :: rest =>
    .ok (rest.filter (fun p => (p.getAttackingSquares c.m_chessBoard).contains bKing.getPosition))
  | _, _ => .error Fault.undefinedBehaviour

/-- The loops at lines 334–338 and 340–344 of `Chess::isValidMove`: whether a piece of
the colour opposite to `color` stands on `destination`. -/
def enemyStandsOn (c : Chess) (color : COLOR) (destination : Square) : Bool :=
  match color with
  | COLOR.WHITE => c.blackPieces.any (fun q => decide (q.getPosition = destination))
  | COLOR.BLACK => c.whitePieces.any (fun q => decide (q.getPosition = destination))

/-- The test `dynamic_cast<Pawn*>(lastMover)` at line 350 is non-null. -/
def isPawnPtr (lastMover : Option chessPiece) : Bool :=
  match lastMover with
  | some q => decide (q.getPiece = PIECE.PAWN)
  | none => false

/-- Lines 322–360 of `Chess::isValidMove`, entered with the piece found on `source`.
The result `some r` says the function returned `r` inside the block, `none` that control
reaches line 361; the state carries the flags as the block left them. -/
def isValidMove_rules (c : Chess) (p : chessPiece) (source destination : Square) :
    Except Fault (Option Bool × Chess) :=
  if p.isValidMove c.m_chessBoard source destination then .ok (none, c)
  else if p.getPiece = PIECE.KING then
    match c.canCastle p source destination with
    | .error e => .error e
    | .ok r => .ok (some r, { c with m_activateCastling := r })
  else
    let fallThrough (c2 : Chess) : Except Fault (Option Bool × Chess) :=
      if !c2.m_activatePawnCapturing && !c2.m_enPassant then .ok (some false, c2)
      else .ok (none, c2)
    if p.getPiece = PIECE.PAWN then
      if !(p.getAttackingSquares c.m_chessBoard).contains destination then .ok (some false, c)
      else
        let c1 : Chess :=
          if c.enemyStandsOn p.getColor destination then
            { c with m_activatePawnCapturing := true }
          else c
        if !c1.m_activatePawnCapturing then
          match c1.getLastMove with
          | .error e => .error e
          | .ok lastMove =>
            let lastMover := c1.getPieceFromPosition lastMove.2
            if !isPawnPtr lastMover ||
                decide ((lastMove.1.rank - lastMove.2.rank).natAbs ≠ 2) ||
                decide ((p.getPosition.file - lastMove.2.file).natAbs ≠ 1) ||
                decide (p.getPosition.rank ≠ lastMove.2.rank) then
              .ok (some false, c1)
            else fallThrough { c1 with m_enPassant := true }
        else fallThrough c1
    else fallThrough c

/-- Lines 366–396 of `Chess::isValidMove`: `true` when one of the `return false`
statements of the king-destination block is reached. -/
def kingDestinationAttacked (c : Chess) (p : chessPiece) (destination : Square) :
    Except Fault Bool :=
  if p.getPiece ≠ PIECE.KING then .ok false
  else
    match p.getColor with
    | COLOR.WHITE =>
      if c.isSquareUnderAttackByBlackPieces destination then .ok true
      else
        match c.getWhiteKingAttackers with
        | .error e => .error e
        | .ok attackers =>
          .ok (attackers.any (fun a => (a.getAttackingPath destination).contains destination))
    | COLOR.BLACK =>
      if c.isSquareUnderAttackByWhitePieces destination then .ok true
      else
        match c.getBlackKingAttackers with
        | .error e => .error e
        | .ok attackers =>
          .ok (attackers.any (fun a => (a.getAttackingPath destination).contains destination))

/-- The walk over `getAttackingPath(kingPos)` at lines 426–435 (451–460 for Black):
`true` when the walk reaches `return false`, `false` when it ends by `break` or by
running out of squares. -/
def pathReachesKing (b : chessBoard) (ownPosition source destination kingPos : Square) :
    List Square → Bool
  | [] => false
  | squareOnPath :: rest =>
    if squareOnPath = ownPosition ∨ (kingPos ≠ destination ∧ source = squareOnPath) then
      pathReachesKing b ownPosition source destination kingPos rest
    else if (b.isSquareOccupied squareOnPath || decide (squareOnPath = destination)) &&
        decide (squareOnPath ≠ kingPos) then false
    else if squareOnPath = kingPos then true
    else pathReachesKing b ownPosition source destination kingPos rest

/-- The loop at lines 437–440 (462–465): an attacked square other than the piece's own
square equals the king's square. -/
def attacksKingSquare (b : chessBoard) (q : chessPiece) (kingPos : Square) : Bool :=
  (q.getAttackingSquares b).any
    (fun attackedSquare => decide (attackedSquare ≠ q.getPosition) &&
      decide (attackedSquare = kingPos))

/-- The test `piece != p_pieceFromDestination` on pointers. -/
def notThePiece (q : chessPiece) (p_pieceFromDestination : Option chessPiece) : Bool :=
  match p_pieceFromDestination with
  | some d => decide (q.ptr ≠ d.ptr)
  | none => true

/-- Lines 415–468 of `Chess::isValidMove`: `true` when a `return false` of the block is
reached.  The White branch tests `blackPiece != dest && (QUEEN || ROOK || BISHOP)`, the
Black branch `(whitePiece != dest && (QUEEN || ROOK)) || BISHOP`, as written. -/
def exposesOwnKing (c : Chess) (p : chessPiece) (p_pieceFromDestination : Option chessPiece)
    (source destination : Square) : Except Fault Bool :=
  match p.getColor with
  | COLOR.WHITE =>
    match c.whitePieces with
    | [] => .error Fault.undefinedBehaviour
    | wKing :: _ =>
      let wKingPos := if wKing.getPosition = source then destination else wKing.getPosition
      .ok (c.blackPieces.any (fun blackPiece =>
        if notThePiece blackPiece p_pieceFromDestination &&
            (decide (blackPiece.getPiece = PIECE.QUEEN) ||
             decide (blackPiece.getPiece = PIECE.ROOK) ||
             decide (blackPiece.getPiece = PIECE.BISHOP)) then
          pathReachesKing c.m_chessBoard blackPiece.getPosition source destination wKingPos
            (blackPiece.getAttackingPath wKingPos)
        else if notThePiece blackPiece p_pieceFromDestination then
          attacksKingSquare c.m_chessBoard blackPiece wKingPos
        else false))
  | COLOR.BLACK =>
    match c.blackPieces with
    | [] => .error Fault.undefinedBehaviour
    | bKing :: _ =>
      let bKingPos := if bKing.getPosition = source then destination else bKing.getPosition
      .ok (c.whitePieces.any (fun whitePiece =>
        if (notThePiece whitePiece p_pieceFromDestination &&
            (decide (whitePiece.getPiece = PIECE.QUEEN) ||
             decide (whitePiece.getPiece = PIECE.ROOK))) ||
             decide (whitePiece.getPiece = PIECE.BISHOP) then
          pathReachesKing c.m_chessBoard whitePiece.getPosition source destination bKingPos
            (whitePiece.getAttackingPath bKingPos)
        else if notThePiece whitePiece p_pieceFromDestination then
          attacksKingSquare c.m_chessBoard whitePiece bKingPos
        else false))

/-- Lines 361–470 of `Chess::isValidMove`: the occupancy test for a pawn's forward move,
the king-destination block, the own-colour test and the self-check block. -/
def isValidMove_checks (c : Chess) (p : chessPiece) (source destination : Square) :
    Except Fault Bool :=
  if decide (p.getPiece = PIECE.PAWN) && p.isValidMove c.m_chessBoard source destination &&
      c.m_chessBoard.isSquareOccupied destination then .ok false
  else
    match c.kingDestinationAttacked p destination with
    | .error e => .error e
    | .ok true => .ok false
    | .ok false =>
      let p_pieceFromDestination := c.getPieceFromPosition destination
      let sameColour : Bool :=
        match p_pieceFromDestination with
        | some d => decide (p.getColor = d.getColor)
        | none => false
      if sameColour then .ok false
      else
        match c.exposesOwnKing p p_pieceFromDestination source destination with
        | .error e => .error e
        | .ok exposed => .ok (!exposed)

/-- The method `Chess::isValidMove`: the returned boolean and the object with the flags
the call left behind. -/
def isValidMove (c : Chess) (source destination : Square) : Except Fault (Bool × Chess) :=
  match c.getPieceFromPosition source with
  | none => .ok (false, c)
  | some p =>
    match c.isValidMove_rules p source destination with
    | .error e => .error e
    | .ok (some r, c1) => .ok (r, c1)
    | .ok (none, c1) =>
      match c1.isValidMove_checks p source destination with
      | .error e => .error e
      | .ok r => .ok (r, c1)

/-- A loop `for (d : squares) if (isValidMove(source, d)) return true;` with the flags
carried from call to call. -/
def tryDestinations (source : Square) : Chess → List Square → Except Fault (Bool × Chess)
  | c, [] => .ok (false, c)
  | c, d :: rest =>
    match c.isValidMove source d with
    | .error e => .error e
    | .ok (true, c1) => .ok (true, c1)
    | .ok (false, c1) => tryDestinations source c1 rest

/-- The candidate list built at lines 532–541 (and 758–766): the attacking squares, and
for a Pawn its `getValidMovesWithoutAttack()` appended. -/
def candidateSquares (c : Chess) (q : chessPiece) : List Square :=
  if q.getPiece = PIECE.PAWN then
    q.getAttackingSquares c.m_chessBoard ++ q.getValidMovesWithoutAttack
  else q.getAttackingSquares c.m_chessBoard

/-- The loop at lines 542–549 for one piece standing on `source`: for every candidate
`s`, first `s == attackerPosition && isValidMove(source, s)`, then `!attackingPath.empty()
&& find(s) && isValidMove(source, s)`, with `&&` short-circuiting. -/
def tryEliminate (source attackerPosition : Square) (attackingPath : List Square) :
    Chess → List Square → Except Fault (Bool × Chess)
  | c, [] => .ok (false, c)
  | c, s :: rest =>
    let first : Except Fault (Bool × Chess) :=
      if s = attackerPosition then c.isValidMove source s else .ok (false, c)
    match first with
    | .error e => .error e
    | .ok (true, c1) => .ok (true, c1)
    | .ok (false, c1) =>
      let second : Except Fault (Bool × Chess) :=
        if !attackingPath.isEmpty && attackingPath.contains s then c1.isValidMove source s
        else .ok (false, c1)
      match second with
      | .error e => .error e
      | .ok (true, c2) => .ok (true, c2)
      | .ok (false, c2) => tryEliminate source attackerPosition attackingPath c2 rest

/-- The loop at lines 530–550 over the own pieces after the first. -/
def tryEliminateAll (attackerPosition : Square) (attackingPath : List Square) :
    Chess → List chessPiece → Except Fault (Bool × Chess)
  | c, [] => .ok (false, c)
  | c, q :: rest =>
    match tryEliminate q.getPosition attackerPosition attackingPath c (c.candidateSquares q) with
    | .error e => .error e
    | .ok (true, c1) => .ok (true, c1)
    | .ok (false, c1) => tryEliminateAll attackerPosition attackingPath c1 rest

/-- Lines 517–552 (564–594), shared by the two colours: from the list of attackers to the
result.  `pop_back()` on an empty path is undefined. -/
def eliminateAttacker (c : Chess) (attackers : List chessPiece) (kingPos : Square)
    (ownRest : List chessPiece) : Except Fault (Bool × Chess) :=
  match attackers with
  | [] => .error (Fault.logic_error "Invalid function use")
  | [attacker] =>
    match attacker.getAttackingPath kingPos with
    | [] => .error Fault.undefinedBehaviour
    | sq :: path =>
      tryEliminateAll attacker.getPosition (sq :: path).dropLast c ownRest
  | _ :: _ :: _ => .ok (false, c)

/-- The method `Chess::whiteKingCheckCanBeEliminated`. -/
def whiteKingCheckCanBeEliminated (c : Chess) : Except Fault (Bool × Chess) :=
  match c.whitePieces with
  | [] => .error Fault.undefinedBehaviour
  | wKing :: ownRest =>
    match tryDestinations wKing.getPosition c (wKing.getAttackingSquares c.m_chessBoard) with
    | .error e => .error e
    | .ok (true, c1) => .ok (true, c1)
    | .ok (false, c1) =>
      match c1.getWhiteKingAttackers with
      | .error e => .error e
      | .ok attackers => c1.eliminateAttacker attackers wKing.getPosition ownRest

/-- The method `Chess::blackKingCheckCanBeEliminated`. -/
def blackKingCheckCanBeEliminated (c : Chess) : Except Fault (Bool × Chess) :=
  match c.blackPieces with
  | [] => .error Fault.undefinedBehaviour
  | bKing :: ownRest =>
    match tryDestinations bKing.getPosition c (bKing.getAttackingSquares c.m_chessBoard) with
    | .error e => .error e
    | .ok (true, c1) => .ok (true, c1)
    | .ok (false, c1) =>
      match c1.getBlackKingAttackers with
      | .error e => .error e
      | .ok attackers => c1.eliminateAttacker attackers bKing.getPosition ownRest

/-- The method `Chess::isWhiteCheckMated`: `isWhiteKingUnderAttack() &&
!whiteKingCheckCanBeEliminated()`. -/
def isWhiteCheckMated (c : Chess) : Except Fault (Bool × Chess) :=
  match c.isWhiteKingUnderAttack with
  | .error e => .error e
  | .ok false => .ok (false, c)
  | .ok true =>
    match c.whiteKingCheckCanBeEliminated with
    | .error e => .error e
    | .ok (r, c1) => .ok (!r, c1)

/-- The method `Chess::isBlackCheckMated`. -/
def isBlackCheckMated (c : Chess) : Except Fault (Bool × Chess) :=
  match c.isBlackKingUnderAttack with
  | .error e => .error e
  | .ok false => .ok (false, c)
  | .ok true =>
    match c.blackKingCheckCanBeEliminated with
    | .error e => .error e
    | .ok (r, c1) => .ok (!r, c1)

/-- The loop of `isWhiteStalemate` / `isBlackStalemate` over the pieces of one side:
`true` when some `isValidMove(sourcePos, dest)` returned true (the function then returns
false). -/
def anyPieceCanMove : Chess → List chessPiece → Except Fault (Bool × Chess)
  | c, [] => .ok (false, c)
  | c, q :: rest =>
    match tryDestinations q.getPosition c (c.candidateSquares q) with
    | .error e => .error e
    | .ok (true, c1) => .ok (true, c1)
    | .ok (false, c1) => anyPieceCanMove c1 rest

/-- The method `Chess::isWhiteStalemate`. -/
def isWhiteStalemate (c : Chess) : Except Fault (Bool × Chess) :=
  match c.isWhiteKingUnderAttack with
  | .error e => .error e
  | .ok true => .ok (false, c)
  | .ok false =>
    match anyPieceCanMove c c.whitePieces with
    | .error e => .error e
    | .ok (r, c1) => .ok (!r, c1)

/-- The method `Chess::isBlackStalemate`. -/
def isBlackStalemate (c : Chess) : Except Fault (Bool × Chess) :=
  match c.isBlackKingUnderAttack with
  | .error e => .error e
  | .ok true => .ok (false, c)
  | .ok false =>
    match anyPieceCanMove c c.blackPieces with
    | .error e => .error e
    | .ok (r, c1) => .ok (!r, c1)

/-- Store a changed piece object back at its address. -/
def storePiece (pieces : List chessPiece) (q : chessPiece) : List chessPiece :=
  pieces.map (fun r => if r.ptr = q.ptr then q else r)

/-- The call `ptr->move(destination)` on a piece of the collections; a null or dangling
pointer is undefined. -/
def movePiece (c : Chess) (ptr : Option Nat) (destination : Square) : Except Fault Chess :=
  match ptr with
  | none => .error Fault.undefinedBehaviour
  | some a =>
    match c.deref a with
    | none => .error Fault.undefinedBehaviour
    | some q =>
      match q.move c.m_chessBoard destination with
      | .error e => .error e
      | .ok (q1, b1) =>
        .ok { c with m_chessBoard := b1, whitePieces := storePiece c.whitePieces q1,
                     blackPieces := storePiece c.blackPieces q1 }

/-- The pattern `iter1 = std::find(whitePieces…, x); iter2 = std::find(blackPieces…, x);
if (iter1 != end) erase from white; else if (iter2 != end) erase from black; else throw
std::logic_error(what)`; `x` null is found in neither collection. -/
def erasePiece (c : Chess) (x : Option chessPiece) (what : String) : Except Fault Chess :=
  match x with
  | none => .error (Fault.logic_error what)
  | some d =>
    if c.whitePieces.any (fun r => decide (r.ptr = d.ptr)) then
      .ok { c with whitePieces := c.whitePieces.eraseP (fun r => decide (r.ptr = d.ptr)) }
    else if c.blackPieces.any (fun r => decide (r.ptr = d.ptr)) then
      .ok { c with blackPieces := c.blackPieces.eraseP (fun r => decide (r.ptr = d.ptr)) }
    else .error (Fault.logic_error what)

/-- The method `Chess::performCastle`. -/
def performCastle (c : Chess) (source destination : Square) : Except Fault Chess :=
  match c.getPieceFromPosition source with
  | none => .error Fault.undefinedBehaviour
  | some p =>
    let castle (kingTo corner rookTo : Square) (c0 : Chess) : Except Fault Chess :=
      let p_destPiece := c0.getPieceFromPosition corner
      match c0.movePiece (some p.ptr) kingTo with
      | .error e => .error e
      | .ok c1 => c1.movePiece (p_destPiece.map (fun r => r.ptr)) rookTo
    let moved : Except Fault Chess :=
      match p.getColor with
      | COLOR.WHITE =>
        if destination = g1 then castle g1 h1 f1 c
        else if destination = c1 then castle c1 a1 d1 c
        else .ok c
      | COLOR.BLACK =>
        if destination = g8 then castle g8 h8 f8 c
        else if destination = c8 then castle c8 a8 d8 c
        else .ok c
    match moved with
    | .error e => .error e
    | .ok c2 => .ok { c2 with m_activateCastling := false }

/-- The method `Chess::performPawnCapture`. -/
def performPawnCapture (c : Chess) (source destination : Square) : Except Fault Chess :=
  let p_chessPiece := c.getPieceFromPosition source
  if c.m_enPassant then
    match c.getLastMove with
    | .error e => .error e
    | .ok lastMove =>
      let lastMover := c.getPieceFromPosition lastMove.2
      let destSquare : Square :=
        ⟨lastMove.2.file, Int.tdiv (lastMove.2.rank + lastMove.1.rank) 2⟩
      match c.movePiece (p_chessPiece.map (fun r => r.ptr)) destSquare with
      | .error e => .error e
      | .ok c1 =>
        match c1.erasePiece lastMover "En passant failure\n" with
        | .error e => .error e
        | .ok c2 =>
          match c2.m_chessBoard.write lastMove.2 emptyCell with
          | .error e => .error e
          | .ok b3 => .ok { c2 with m_chessBoard := b3, m_enPassant := false }
  else if c.m_activatePawnCapturing then
    let p_pieceFromDestination := c.getPieceFromPosition destination
    match c.movePiece (p_chessPiece.map (fun r => r.ptr)) destination with
    | .error e => .error e
    | .ok c1 =>
      match c1.erasePiece p_pieceFromDestination "Pawn capturing failure\n" with
      | .error e => .error e
      | .ok c2 => .ok { c2 with m_activatePawnCapturing := false }
  else .ok c

/-- The method `Chess::performPromotion`, on the pointer `ptr`. -/
def performPromotion (c : Chess) (ptr : Nat) : Except Fault Chess :=
  match c.deref ptr with
  | none => .error Fault.undefinedBehaviour
  | some p =>
    let pos := p.getPosition
    if p.getColor = COLOR.WHITE ∧ pos.rank = 56 then
      if c.whitePieces.any (fun r => decide (r.ptr = ptr)) then
        pushNew { c with whitePieces := c.whitePieces.eraseP (fun r => decide (r.ptr = ptr)) }
          COLOR.WHITE PIECE.QUEEN pos
      else .error (Fault.logic_error "Couldn't find the pawn to promote!\n")
    else if p.getColor = COLOR.BLACK ∧ pos.rank = 49 then
      if c.blackPieces.any (fun r => decide (r.ptr = ptr)) then
        pushNew { c with blackPieces := c.blackPieces.eraseP (fun r => decide (r.ptr = ptr)) }
          COLOR.BLACK PIECE.QUEEN pos
      else .error (Fault.logic_error "Couldn't find the pawn to promote!\n")
    else .ok c

/-- The method `Chess::move`. -/
def move (c : Chess) (source destination : Square) : Except Fault Chess :=
  match c.getPieceFromPosition source with
  | none => .error Fault.undefinedBehaviour
  | some p =>
    if decide (p.getPiece = PIECE.KING) && c.m_activateCastling then
      c.performCastle source destination
    else
      let c0 : Chess :=
        if decide (p.getPiece = PIECE.PAWN) &&
            (decide (destination.rank = 56) || decide (destination.rank = 49)) then
          { c with m_activatePromotion := true }
        else c
      if decide (p.getPiece = PIECE.PAWN) && (c0.m_activatePawnCapturing || c0.m_enPassant) then
        match c0.performPawnCapture source destination with
        | .error e => .error e
        | .ok c1 => if c1.m_activatePromotion then c1.performPromotion p.ptr else .ok c1
      else
        let p_pieceFromDestination := c0.getPieceFromPosition destination
        match c0.movePiece (some p.ptr) destination with
        | .error e => .error e
        | .ok c1 =>
          let erased : Except Fault Chess :=
            match p_pieceFromDestination with
            | none => .ok c1
            | some d => c1.erasePiece (some d) "Piece capturing failure\n"
          match erased with
          | .error e => .error e
          | .ok c2 =>
            let promoted : Except Fault Chess :=
              if c2.m_activatePromotion then c2.performPromotion p.ptr else .ok c2
            match promoted with
            | .error e => .error e
            | .ok c3 => .ok { c3 with m_moveDB := c3.m_moveDB ++ [(source, destination)] }

/-- The state after `move(source, destination)` called right after an
`isValidMove(source, destination)` that returned true, with the flags that call left
(before any `resetFlags()`); `none` when the move is rejected or a call faults. -/
def validatedMove (c : Chess) (source destination : Square) : Option Chess :=
  match c.isValidMove source destination with
  | .ok (true, c1) =>
    match c1.move source destination with
    | .ok c2 => some c2
    | .error _ => none
  | _ => none

/-- The method `Chess::isRepetition`. -/
def isRepetition (c : Chess) : Bool :=
  let lastThreeMoves := (c.m_moveDB.reverse).take 12
  if lastThreeMoves.length < 12 then false
  else
    decide (lastThreeMoves[0]? = lastThreeMoves[4]?) && decide (lastThreeMoves[4]? = lastThreeMoves[8]?) &&
    decide (lastThreeMoves[2]? = lastThreeMoves[6]?) && decide (lastThreeMoves[6]? = lastThreeMoves[10]?) &&
    decide (lastThreeMoves[1]? = lastThreeMoves[5]?) && decide (lastThreeMoves[5]? = lastThreeMoves[9]?) &&
    decide (lastThreeMoves[3]? = lastThreeMoves[7]?) && decide (lastThreeMoves[7]? = lastThreeMoves[11]?)

end Chess

/-! ## Game -/

namespace Game

/-- The chess calls of one turn of `Game::play` (lines 117–124 and 151–157) for an input
that passed `isValidInput` and the colour test: `isValidMove`; on rejection `resetFlags()`
(the loop then asks again); on acceptance `move` and `resetFlags()`.  The boolean says
whether the move was accepted. -/
def turn (c : Chess) (source destination : Square) : Except Fault (Bool × Chess) :=
  match c.isValidMove source destination with
  | .error e => .error e
  | .ok (false, c1) => .ok (false, c1.resetFlags)
  | .ok (true, c1) =>
    match c1.move source destination with
    | .error e => .error e
    | .ok c2 => .ok (true, c2.resetFlags)

/-- A sequence of turns, each of which has to be accepted; stops at the first rejected
move. -/
def turns : Chess → List (Square × Square) → Except Fault (Bool × Chess)
  | c, [] => .ok (true, c)
  | c, (source, destination) :: rest =>
    match turn c source destination with
    | .error e => .error e
    | .ok (false, c1) => .ok (false, c1)
    | .ok (true, c1) => turns c1 rest

/-- A game from `Chess::Chess()`: construct, then the turns. -/
def play (moves : List (Square × Square)) : Except Fault (Bool × Chess) :=
  match Chess.construct with
  | .error e => .error e
  | .ok c => turns c moves

/-- The position a game reaches when every one of its turns is accepted. -/
def reached (moves : List (Square × Square)) : Option Chess :=
  match play moves with
  | .ok (true, c) => some c
  | _ => none

end Game

/-! ## Reading results -/

deriving instance DecidableEq for Except

/-- The boolean a call returned, `none` when it faulted. -/
def returned {σ : Type} (r : Except Fault (Bool × σ)) : Option Bool :=
  match r with
  | .ok (b, _) => some b
  | .error _ => none

/-- The value a call returned, `none` when it faulted. -/
def value {α : Type} (r : Except Fault α) : Option α :=
  match r with
  | .ok a => some a
  | .error _ => none

/-! ## Positions -/

/-- Pairwise distinct entries. -/
def distinct {α : Type} [DecidableEq α] : List α → Bool
  | [] => true
  | x :: xs => !xs.contains x && distinct xs

namespace Chess

/-- Every piece of both collections. -/
def pieces (c : Chess) : List chessPiece := c.whitePieces ++ c.blackPieces

/-- Each collection starts with the King of its colour and holds no other King. -/
def kingFirst (c : Chess) : Bool :=
  (match c.whitePieces with
   | k :: rest =>
     decide (k.getPiece = PIECE.KING) && decide (k.getColor = COLOR.WHITE) &&
       rest.all (fun q => decide (q.getPiece ≠ PIECE.KING))
   | [] => false) &&
  (match c.blackPieces with
   | k :: rest =>
     decide (k.getPiece = PIECE.KING) && decide (k.getColor = COLOR.BLACK) &&
       rest.all (fun q => decide (q.getPiece ≠ PIECE.KING))
   | [] => false)

/-- The four classification flags are false, as after `resetFlags()`. -/
def flagsCleared (c : Chess) : Bool :=
  !c.m_activateCastling && !c.m_activatePawnCapturing && !c.m_enPassant &&
    !c.m_activatePromotion

/-- On each of the 64 squares `isSquareOccupied` agrees with the collections. -/
def boardAgrees (c : Chess) : Bool :=
  allSquares.all (fun q =>
    c.m_chessBoard.isSquareOccupied q == c.pieces.any (fun p => decide (p.getPosition = q)))

/-- A consistent position: board occupancy agrees with the collections, each king is
first in its collection, the flags are cleared; and the collections are well formed
(pieces of the six classes, on board squares, of the colour of their collection, no two
on one square, no address twice). -/
def consistent (c : Chess) : Bool :=
  c.kingFirst && c.flagsCleared && c.boardAgrees &&
  c.pieces.all (fun p => inBoardMap p.getPosition && decide (p.getPiece ≠ PIECE.NONE)) &&
  c.whitePieces.all (fun p => decide (p.getColor = COLOR.WHITE)) &&
  c.blackPieces.all (fun p => decide (p.getColor = COLOR.BLACK)) &&
  distinct (c.pieces.map (fun p => p.getPosition)) &&
  distinct (c.pieces.map (fun p => p.ptr)) &&
  c.pieces.all (fun p => decide (p.ptr < c.heapNext))

/-- Piece objects of one colour at consecutive addresses from `start`, from their class,
square and `m_firstMove`. -/
def allocate (color : COLOR) : Nat → List (PIECE × Square × Bool) → List chessPiece
  | _, [] => []
  | start, (piece, position, firstMove) :: rest =>
    ⟨start, color, piece, position, firstMove⟩ :: allocate color (start + 1) rest

/-- A position set up piece by piece, with cleared flags: the collections in the given
order, every board cell holding the glyph of the piece that stands on it, and the given
history. -/
def setUp (white black : List (PIECE × Square × Bool)) (history : List (Square × Square)) :
    Chess :=
  let w := allocate COLOR.WHITE 0 white
  let b := allocate COLOR.BLACK white.length black
  { m_chessBoard :=
      ⟨fun q =>
        match (w ++ b).find? (fun p => decide (p.getPosition = q)) with
        | some p => chessPiece.glyph p.m_color p.m_piece
        | none => emptyCell⟩,
    whitePieces := w, blackPieces := b, m_moveDB := history,
    m_activateCastling := false, m_activatePawnCapturing := false, m_enPassant := false,
    m_activatePromotion := false, heapNext := white.length + black.length }

end Chess

/-- A legal game of fourteen half-moves that brings the white king to h5 and a black rook
to a5 with the pawns e5 (white) and d5 (black, just advanced d7-d5) between them. -/
def enPassantPinGame : List (Square × Square) :=
  [(e2, e4), (a7, a5), (e4, e5), (a8, a6), (e1, e2), (a5, a4), (e2, e3), (a6, a5),
   (e3, f4), (b7, b6), (f4, g4), (c8, b7), (g4, h5), (d7, d5)]

/-- White: Ke3, pawns d4 and f3.  Black: Kh8, Qe5 (just arrived from h5, giving check),
Ba7 (pinning the pawn d4), Ra2, pawn c4. -/
def stickyMatePosition : Chess :=
  Chess.setUp
    [(PIECE.KING, e3, false), (PIECE.PAWN, d4, false), (PIECE.PAWN, f3, false)]
    [(PIECE.KING, h8, false), (PIECE.QUEEN, e5, false), (PIECE.BISHOP, a7, false),
     (PIECE.ROOK, a2, false), (PIECE.PAWN, c4, false)]
    [(h5, e5)]

/-- The four half-moves of the fool's mate. -/
def foolsMateGame : List (Square × Square) :=
  [(f2, f3), (e7, e5), (g2, g4), (d8, h4)]

/-- White: Kh1, pawn g2 (unmoved).  Black: Ka7, Bb7 (pinning the pawn g2), Nh3 (just
arrived from g5), Bd6. -/
def stickyStalematePosition : Chess :=
  Chess.setUp
    [(PIECE.KING, h1, false), (PIECE.PAWN, g2, true)]
    [(PIECE.KING, a7, false), (PIECE.BISHOP, b7, false), (PIECE.KNIGHT, h3, false),
     (PIECE.BISHOP, d6, false)]
    [(g5, h3)]

/-- The king-vs-king-and-queen stalemate: White Ke1 and Qb6, Black Ka8 alone, with any
`m_firstMove` of the two kings and any history. -/
def queenStalematePosition (whiteKingFirstMove blackKingFirstMove : Bool)
    (history : List (Square × Square)) : Chess :=
  Chess.setUp
    [(PIECE.KING, e1, whiteKingFirstMove), (PIECE.QUEEN, b6, false)]
    [(PIECE.KING, a8, blackKingFirstMove)]
    history

/-- The six half-moves that clear f1 and g1: Nf3, a6, e3, a5, Be2, a4. -/
def castleGame : List (Square × Square) :=
  [(g1, f3), (a7, a6), (e2, e3), (a6, a5), (f1, e2), (a5, a4)]

/-- The game `castleGame` followed by Rg1, b6, Rh1, b5: the h1 rook leaves and returns. -/
def rookReturnsGame : List (Square × Square) :=
  castleGame ++ [(h1, g1), (b7, b6), (g1, h1), (b6, b5)]

/-- The white king of `Chess::Chess()`: the first object allocated, unmoved on e1. -/
def whiteKingAtHome : chessPiece := ⟨0, COLOR.WHITE, PIECE.KING, e1, true⟩

/-- An unmoved white king on e1 with its unmoved rook on h1, the black king on e8. -/
def castleReadyPosition : Chess :=
  Chess.setUp [(PIECE.KING, e1, true), (PIECE.ROOK, h1, true)] [(PIECE.KING, e8, true)] []

/-- A black knight, freshly allocated, put on g3 (from where it attacks f1). -/
def withBlackKnightOnG3 (c : Chess) : Chess :=
  { c with
    blackPieces := c.blackPieces ++ [⟨c.heapNext, COLOR.BLACK, PIECE.KNIGHT, g3, false⟩],
    m_chessBoard :=
      ⟨fun q => if q = g3 then chessPiece.glyph COLOR.BLACK PIECE.KNIGHT
                else c.m_chessBoard.cell q⟩,
    heapNext := c.heapNext + 1 }

/-! ## Geometry of the board, in the words of the specification -/

/-- The integer `x` lies strictly between `a` and `b` (in either order). -/
def strictlyBetween (a b x : Int) : Prop :=
  (a < x ∧ x < b) ∨ (b < x ∧ x < a)

namespace Square

/-- The squares `p` and `q` lie on one file or one rank. -/
def onLine (p q : Square) : Prop :=
  p.file = q.file ∨ p.rank = q.rank

/-- The squares `p` and `q` lie on one diagonal. -/
def onDiagonal (p q : Square) : Prop :=
  q.file - p.file = q.rank - p.rank ∨ q.file - p.file = -(q.rank - p.rank)

/-- The square `s` lies strictly between `p` and `q` on the file, rank or diagonal that
`p` and `q` share. -/
def between (p q s : Square) : Prop :=
  (p.file = q.file ∧ s.file = p.file ∧ strictlyBetween p.rank q.rank s.rank) ∨
  (p.rank = q.rank ∧ s.rank = p.rank ∧ strictlyBetween p.file q.file s.file) ∨
  (q.file - p.file = q.rank - p.rank ∧ s.file - p.file = s.rank - p.rank ∧
    strictlyBetween p.file q.file s.file) ∨
  (q.file - p.file = -(q.rank - p.rank) ∧ s.file - p.file = -(s.rank - p.rank) ∧
    strictlyBetween p.file q.file s.file)

end Square

/-- Whether two squares share a file or rank can be computed. -/
instance (p q : Square) : Decidable (Square.onLine p q) := by
  unfold Square.onLine; infer_instance

/-- Whether two squares share a diagonal can be computed. -/
instance (p q : Square) : Decidable (Square.onDiagonal p q) := by
  unfold Square.onDiagonal; infer_instance

/-- A legal game of ten half-moves: 1.d3 f5 2.a4 f4 3.h3 b5 4.Be3 fxe3 5.fxe3 bxa4.  The
last three half-moves are pawn captures. -/
def ownPawnEnPassantGame : List (Square × Square) :=
  [(d2, d3), (f7, f5), (a2, a4), (f5, f4), (h2, h3), (b7, b5), (c1, e3), (f4, e3),
   (f2, e3), (b5, a4)]

/-- A legal game of four half-moves: 1.e4 a6 2.e5 f5; the black pawn has just advanced
f7-f5 past the white pawn e5. -/
def wrongFileEnPassantGame : List (Square × Square) :=
  [(e2, e4), (a7, a6), (e4, e5), (f7, f5)]

/-- A legal game of eight half-moves: 1.e4 b5 2.e5 b4 3.a3 h5 4.g4 f5; the black pawn
has just advanced f7-f5 past the white pawn e5, and each side has a pawn capture at hand
(axb4 and hxg4). -/
def staleEnPassantGame : List (Square × Square) :=
  [(e2, e4), (b7, b5), (e4, e5), (b5, b4), (a2, a3), (h7, h5), (g2, g4), (f7, f5)]

/-- White: Ke1, pawn e5.  Black: Ke8, pawn f5, which has just advanced f7-f5. -/
def enPassantReadyPosition : Chess :=
  Chess.setUp [(PIECE.KING, e1, true), (PIECE.PAWN, e5, false)]
    [(PIECE.KING, e8, true), (PIECE.PAWN, f5, false)] [(f7, f5)]

/-- A legal game of eighteen half-moves: 1.e4 d5 2.f4 g5 3.fxg5 h5 4.g6 h4 5.g7 Rh5 6.g4
a6 7.g5 a5 8.g6 Rh7 9.gxh7 dxe4.  White pawns stand on g7 and h7; the last two half-moves
are pawn captures. -/
def falsePromotionGame : List (Square × Square) :=
  [(e2, e4), (d7, d5), (f2, f4), (g7, g5), (f4, g5), (h7, h5), (g5, g6), (h5, h4),
   (g6, g7), (h8, h5), (g2, g4), (a7, a6), (g4, g5), (a6, a5), (g5, g6), (h5, h7),
   (g6, h7), (d5, e4)]

/-- The fault a call ended with, `none` when it returned. -/
def fault {α : Type} (r : Except Fault α) : Option Fault :=
  match r with
  | .ok _ => none
  | .error e => some e

/-- A legal game of eight half-moves: 1.e4 e5 2.f4 exf4 3.Nf3 d5 4.Nc3 Qe7.  The white
pawn e4 is pinned against the king e1 by the queen e7 and the black pawn d5 stands on one
of its capture squares. -/
def pinnedPawnGame : List (Square × Square) :=
  [(e2, e4), (e7, e5), (f2, f4), (e5, f4), (g1, f3), (d7, d5), (b1, c3), (d8, e7)]

/-- The half-moves 1.e4 d5, after which the pawn e4 can take on d5. -/
def pawnCaptureReadyGame : List (Square × Square) := [(e2, e4), (d7, d5)]

/-- The half-moves 1.e4 e5, after which neither king is attacked and each king can step
to the square its pawn left. -/
def openKingsGame : List (Square × Square) := [(e2, e4), (e7, e5)]

/-- The standard arrangement, in the words of the specification: on ranks 1 (White) and 8
(Black) rooks on files a and h, knights on b and g, bishops on c and f, the queen on d and
the king on e; white pawns on every file of rank 2, black pawns on every file of rank 7;
nothing elsewhere. -/
def standardArrangement (q : Square) : Option (COLOR × PIECE) :=
  let backRank (file : Int) : Option PIECE :=
    if file = 97 ∨ file = 104 then some PIECE.ROOK
    else if file = 98 ∨ file = 103 then some PIECE.KNIGHT
    else if file = 99 ∨ file = 102 then some PIECE.BISHOP
    else if file = 100 then some PIECE.QUEEN
    else if file = 101 then some PIECE.KING
    else none
  if q.file < 97 ∨ 104 < q.file then none
  else if q.rank = 49 then (backRank q.file).map (fun k => (COLOR.WHITE, k))
  else if q.rank = 50 then some (COLOR.WHITE, PIECE.PAWN)
  else if q.rank = 55 then some (COLOR.BLACK, PIECE.PAWN)
  else if q.rank = 56 then (backRank q.file).map (fun k => (COLOR.BLACK, k))
  else none

/-- The square `n` ranks ahead of `q` for a pawn of the given colour, in the words of the
specification: towards rank 8 for White, towards rank 1 for Black. -/
def Square.ahead (color : COLOR) (q : Square) (n : Int) : Square :=
  match color with
  | COLOR.WHITE => ⟨q.file, q.rank + n⟩
  | COLOR.BLACK => ⟨q.file, q.rank - n⟩

namespace Chess

/-- Two states of the object that differ at most in the four classification flags. -/
def sameButFlags (c c1 : Chess) : Prop :=
  c1.m_chessBoard = c.m_chessBoard ∧ c1.whitePieces = c.whitePieces ∧
  c1.blackPieces = c.blackPieces ∧ c1.m_moveDB = c.m_moveDB ∧ c1.heapNext = c.heapNext

/-- The live piece objects have pairwise different addresses, all below the address the
next `new` returns. -/
def addressesOk (c : Chess) : Bool :=
  distinct (c.pieces.map (fun p => p.ptr)) && c.pieces.all (fun p => decide (p.ptr < c.heapNext))

/-- How the piece objects of `c2` relate to those of `c`: each one was allocated after
`c`, or is an object of `c` (same address) that is either unchanged in every member or
reports `isFirstMove()` = false and stands on the square `ms` lists for its address. -/
def keptOrMoved (c c2 : Chess) (ms : List (Nat × Square)) : Prop :=
  ∀ q2 ∈ c2.pieces, c.heapNext ≤ q2.ptr ∨
    ∃ q ∈ c.pieces, q.ptr = q2.ptr ∧
      (q2 = q ∨ (q2.isFirstMove = false ∧ (q2.ptr, q2.getPosition) ∈ ms))

end Chess

namespace Chess

/-- One or more operations led from `c` to `c1`: the piece objects are related as in
`keptOrMoved`, well-formed addresses stay well formed, and the allocator never goes
back. -/
def stepped (c c1 : Chess) (ms : List (Nat × Square)) : Prop :=
  keptOrMoved c c1 ms ∧ (c.addressesOk = true → c1.addressesOk = true) ∧
    c.heapNext ≤ c1.heapNext

end Chess

namespace Chess

/-- What `move(source, destination)` may do to the object at address `x.1`, called in
state `c`: take the piece found on `source` to `destination`, or, with `m_enPassant` set,
to the square of the last record's destination file midway between its ranks; or take the
piece found on a corner to the castled rook's square. -/
def relocation (c : Chess) (source destination : Square) (x : Nat × Square) : Prop :=
  (∃ p, c.getPieceFromPosition source = some p ∧ x.1 = p.ptr ∧
    (x.2 = destination ∨
     (c.m_enPassant = true ∧ ∃ lm : Square × Square, c.m_moveDB.getLast? = some lm ∧
        x.2 = ⟨lm.2.file, Int.tdiv (lm.2.rank + lm.1.rank) 2⟩))) ∨
  (∃ corner r, c.getPieceFromPosition corner = some r ∧ x.1 = r.ptr ∧
    (corner, x.2) ∈ [(h1, f1), (a1, d1), (h8, f8), (a8, d8)])

end Chess

/-! ## Input boundary -/

namespace Chess

/-- The method `Chess::isWhiteMoved`: `getPieceFromPosition(source)->getColor() == WHITE`;
the pointer is dereferenced without a test. -/
def isWhiteMoved (c : Chess) (source : Square) : Except Fault Bool :=
  match c.getPieceFromPosition source with
  | none => .error Fault.undefinedBehaviour
  | some p => .ok (decide (p.getColor = COLOR.WHITE))

/-- The method `Chess::isBlackMoved`. -/
def isBlackMoved (c : Chess) (source : Square) : Except Fault Bool :=
  match c.getPieceFromPosition source with
  | none => .error Fault.undefinedBehaviour
  | some p => .ok (decide (p.getColor = COLOR.BLACK))

end Chess

namespace Game

/-- The method `Game::isValidInput`.  A `std::string` is the list of its characters'
values; a string of two characters names the square with these two values, which is how
`getPieceFromPosition` compares it with the pieces' positions. -/
def isValidInput (c : Chess) (source destination : List Int) : Bool :=
  if source.length ≠ 2 ∨ destination.length ≠ 2 ∨ source = destination then false
  else
    match source, destination with
    | [s0, s1], [d0, d1] =>
      if s0 < 97 ∨ s0 > 104 ∨ d0 < 97 ∨ d0 > 104 ∨
          s1 < 49 ∨ s1 > 56 ∨ d1 < 49 ∨ d1 > 56 then false
      else if (c.getPieceFromPosition ⟨s0, s1⟩).isNone then false
      else true
    | _, _ => false

/-- One pass through the input loop of `Game::play` (lines 115–124 for White, 149–157 for
Black) with the two strings `getMoves` produced: the condition
`!isValidInput(..) || !isWhiteMoved(source) || !isValidMove(..)` evaluates from left to
right and stops at the first true operand; then `resetFlags()` and `continue`, or `move`
and `resetFlags()`. -/
def inputTurn (white : Bool) (c : Chess) (source destination : List Int) :
    Except Fault (Bool × Chess) :=
  if !isValidInput c source destination then .ok (false, c.resetFlags)
  else
    match source, destination with
    | [s0, s1], [d0, d1] =>
      match (if white then c.isWhiteMoved ⟨s0, s1⟩ else c.isBlackMoved ⟨s0, s1⟩) with
      | .error e => .error e
      | .ok false => .ok (false, c.resetFlags)
      | .ok true => turn c ⟨s0, s1⟩ ⟨d0, d1⟩
    | _, _ => .error Fault.undefinedBehaviour

/-- The input boundary in the words of the specification: both strings have length
exactly 2, each has its first character in 'a'..'h' and its second in '1'..'8', they
differ, and a piece stands on the square `source` names. -/
def validInputSpec (c : Chess) (source destination : List Int) : Prop :=
  source.length = 2 ∧ destination.length = 2 ∧
  (∀ x ∈ [source, destination],
    (∃ f, x[0]? = some f ∧ 97 ≤ f ∧ f ≤ 104) ∧ (∃ r, x[1]? = some r ∧ 49 ≤ r ∧ r ≤ 56)) ∧
  source ≠ destination ∧
  ∃ f r p, source = [f, r] ∧ c.getPieceFromPosition ⟨f, r⟩ = some p

end Game

/-! ## Positions and games of the later claims -/

/-- The square next to `k` on the line from `a` through `k`, on the far side from `a`. -/
def Square.beyond (a k : Square) : Square :=
  ⟨k.file + Int.sign (k.file - a.file), k.rank + Int.sign (k.rank - a.rank)⟩

/-- The half-moves 1.Nf3 a6: the white knight stands right in front of the unmoved pawn
f2, and f4 is empty. -/
def pawnJumpGame : List (Square × Square) := [(g1, f3), (a7, a6)]

/-- The square with the same file on the rank `9 - r`. -/
def Square.mirror (q : Square) : Square := ⟨q.file, 105 - q.rank⟩

/-- The other colour. -/
def COLOR.other : COLOR → COLOR
  | COLOR.WHITE => COLOR.BLACK
  | COLOR.BLACK => COLOR.WHITE

/-- A piece with its colour swapped and its square mirrored. -/
def chessPiece.mirror (p : chessPiece) : chessPiece :=
  { p with m_color := p.m_color.other, m_position := p.m_position.mirror }

/-- The mirrored position, in the words of the specification: every piece's colour swapped
and its rank `r` replaced by `9 - r`, the history mirrored likewise; the board shows the
mirrored pieces; flags and allocator are kept. -/
def Chess.mirror (c : Chess) : Chess :=
  { c with
    m_chessBoard :=
      ⟨fun q =>
        match (c.blackPieces.map chessPiece.mirror ++ c.whitePieces.map chessPiece.mirror).find?
            (fun p => decide (p.getPosition = q)) with
        | some p => chessPiece.glyph p.m_color p.m_piece
        | none => emptyCell⟩,
    whitePieces := c.blackPieces.map chessPiece.mirror,
    blackPieces := c.whitePieces.map chessPiece.mirror,
    m_moveDB := c.m_moveDB.map (fun m => (m.1.mirror, m.2.mirror)) }

/-- White: Ke1, pawn a3.  Black: Ke8, Bb4, which has just arrived from f8 and gives check
along b4-c3-d2-e1. -/
def bishopCheckPosition : Chess :=
  Chess.setUp [(PIECE.KING, e1, true), (PIECE.PAWN, a3, false)]
    [(PIECE.KING, e8, true), (PIECE.BISHOP, b4, false)] [(f8, b4)]

/-- A legal game of five half-moves: 1.e4 a6 2.h3 d6 3.Bb5+.  The bishop b5 is the only
piece attacking the black king; the pawn a6 attacks it. -/
def bishopCheckGame : List (Square × Square) :=
  [(e2, e4), (a7, a6), (h2, h3), (d7, d6), (f1, b5)]

/-- A legal game of four half-moves: 1.a3 e5 2.d3 Bb4+, the same with colours swapped. -/
def bishopCheckGameMirrored : List (Square × Square) :=
  [(a2, a3), (e7, e5), (d2, d3), (f8, b4)]

/-- A legal game of six half-moves: 1.a3 Nc6 2.a4 Ne5 3.a5 Nd3+.  The knight d3 is the
only piece attacking the white king, which stands on e1 between its own pieces; the pawns
c2 and e2 attack d3. -/
def knightCheckGame : List (Square × Square) :=
  [(a2, a3), (b8, c6), (a3, a4), (c6, e5), (a4, a5), (e5, d3)]

/-- A legal game of five half-moves: 1.Nc3 a6 2.Ne4 a5 3.Nd6+, the same with colours
swapped. -/
def knightCheckGameBlack : List (Square × Square) :=
  [(b1, c3), (a7, a6), (c3, e4), (a6, a5), (e4, d6)]

/-- The game `enPassantPinGame` followed by White's en passant capture e5xd6, which opens
the fifth rank between the rook a5 and the king h5, and Black's reply Ra5xh5. -/
def kingCaptureGame : List (Square × Square) :=
  enPassantPinGame ++ [(e5, d6), (a5, h5)]

/-- White: Ke1.  Black: Ke8 and Ra1, which has just arrived from a8 and gives check along
the first rank. -/
def rookCheckPosition : Chess :=
  Chess.setUp [(PIECE.KING, e1, false)]
    [(PIECE.KING, e8, false), (PIECE.ROOK, a1, false)] [(a8, a1)]

/-- A legal game of ten half-moves: 1.e4 b5 2.a4 c6 3.g4 d6 4.g5 f5 5.exf5 bxa4.  The last
record is Black's advance f7-f5; the pawn that made it has been captured on f5 by the
white e-pawn, which now stands there beside the white pawn g5. -/
def capturedAdvancerGame : List (Square × Square) :=
  [(e2, e4), (b7, b5), (a2, a4), (c7, c6), (g2, g4), (d7, d6), (g4, g5), (f7, f5),
   (e4, f5), (b5, a4)]

/-- A legal game of six half-moves: 1.e4 e6 2.e5 Bd6 3.a3 d5.  The black pawn has just
advanced d7-d5 past the white pawn e5; the black bishop stands on d6, the square that
pawn passed over. -/
def bishopBehindPawnGame : List (Square × Square) :=
  [(e2, e4), (e7, e6), (e4, e5), (f8, d6), (a2, a3), (d7, d5)]

/-! ## Auxiliary lemmas -/

open Chess

section QueenLoops

open chessPiece

/-- The Queen's eight loops are the Rook's four followed by the Bishop's four. -/
theorem queenRays_eq (b : chessBoard) (pos : Square) :
    queenRays b pos = rookRays b pos ++ bishopRays b pos := by
  unfold queenRays rookRays bishopRays
  simp only [List.append_assoc]

/-- The Queen's eight branches are the Rook's four and, when none of them is taken, the
Bishop's four. -/
theorem queenPath_eq (pos destination : Square) :
    queenPath pos destination =
      match straightPath pos destination with
      | some path => path
      | none => diagonalPath pos destination := by
  unfold queenPath straightPath diagonalPath
  split_ifs <;> rfl

end QueenLoops

theorem anyAttacks_iff (b : chessBoard) (pieces : List chessPiece) (position : Square) :
    anyAttacks b pieces position = true ↔
      ∃ q ∈ pieces, position ∈ q.getAttackingSquares b := by
  simp [anyAttacks, List.any_eq_true]

theorem anyAttacks_eq_false_iff (b : chessBoard) (pieces : List chessPiece)
    (position : Square) :
    anyAttacks b pieces position = false ↔
      ∀ q ∈ pieces, position ∉ q.getAttackingSquares b := by
  rw [← Bool.not_eq_true, anyAttacks_iff]
  simp

theorem isWhiteKingUnderAttack_total (c : Chess) (hw : c.whitePieces ≠ [])
    (hb : c.blackPieces ≠ []) : ∃ r, c.isWhiteKingUnderAttack = .ok r := by
  unfold isWhiteKingUnderAttack
  cases h1 : c.whitePieces with
  | nil => exact absurd h1 hw
  | cons k ws =>
    cases h2 : c.blackPieces with
    | nil => exact absurd h2 hb
    | cons k2 bs => exact ⟨_, rfl⟩

theorem isBlackKingUnderAttack_total (c : Chess) (hw : c.whitePieces ≠ [])
    (hb : c.blackPieces ≠ []) : ∃ r, c.isBlackKingUnderAttack = .ok r := by
  unfold isBlackKingUnderAttack
  cases h1 : c.whitePieces with
  | nil => exact absurd h1 hw
  | cons k ws =>
    cases h2 : c.blackPieces with
    | nil => exact absurd h2 hb
    | cons k2 bs => exact ⟨_, rfl⟩

theorem kingFirst_white {c : Chess} (h : c.kingFirst = true) :
    ∃ wKing rest, c.whitePieces = wKing :: rest ∧ wKing.getPiece = PIECE.KING ∧
      wKing.getColor = COLOR.WHITE ∧ ∀ q ∈ rest, q.getPiece ≠ PIECE.KING := by
  unfold kingFirst at h
  cases hw : c.whitePieces with
  | nil => simp [hw] at h
  | cons k rest =>
    simp only [hw, Bool.and_eq_true, decide_eq_true_eq, List.all_eq_true] at h
    exact ⟨k, rest, rfl, h.1.1.1, h.1.1.2, h.1.2⟩

theorem kingFirst_black {c : Chess} (h : c.kingFirst = true) :
    ∃ bKing rest, c.blackPieces = bKing :: rest ∧ bKing.getPiece = PIECE.KING ∧
      bKing.getColor = COLOR.BLACK ∧ ∀ q ∈ rest, q.getPiece ≠ PIECE.KING := by
  unfold kingFirst at h
  cases hb : c.blackPieces with
  | nil => simp [hb] at h
  | cons k rest =>
    simp only [hb, Bool.and_eq_true, decide_eq_true_eq, List.all_eq_true] at h
    exact ⟨k, rest, rfl, h.2.1.1, h.2.1.2, h.2.2⟩

theorem mem_nonKing_iff {k : chessPiece} {rest : List chessPiece}
    (hk : k.getPiece = PIECE.KING) (hrest : ∀ q ∈ rest, q.getPiece ≠ PIECE.KING)
    (q : chessPiece) : (q ∈ k :: rest ∧ q.getPiece ≠ PIECE.KING) ↔ q ∈ rest := by
  constructor
  · rintro ⟨hq, hne⟩
    rcases List.mem_cons.1 hq with rfl | hq
    · exact absurd hk hne
    · exact hq
  · intro hq
    exact ⟨List.mem_cons_of_mem _ hq, hrest q hq⟩

theorem filter_nonKing {k : chessPiece} {rest : List chessPiece}
    (hk : k.getPiece = PIECE.KING) (hrest : ∀ q ∈ rest, q.getPiece ≠ PIECE.KING)
    (f : chessPiece → Bool) :
    (k :: rest).filter (fun q => decide (q.getPiece ≠ PIECE.KING) && f q) = rest.filter f := by
  rw [List.filter_cons]
  simp only [hk, ne_eq, not_true_eq_false, decide_False, Bool.false_and, Bool.false_eq_true,
    if_false]
  apply List.filter_congr
  intro q hq
  simp [hrest q hq]

/-! ### Rays and paths of the sliding pieces -/

section Geometry

open chessPiece

theorem mem_rayLoop (b : chessBoard) (inRange : Int → Int → Bool) (dl dd : Int) :
    ∀ (n : Nat) (l d x y : Int),
      (⟨x, y⟩ : Square) ∈ rayLoop b inRange dl dd n l d ↔
        ∃ k : Nat, k < n ∧ x = l + k * dl ∧ y = d + k * dd ∧
          (∀ j : Nat, j ≤ k → inRange (l + j * dl) (d + j * dd) = true) ∧
          (∀ j : Nat, j < k → b.isSquareOccupied ⟨l + j * dl, d + j * dd⟩ = false) := by
  intro n
  induction n with
  | zero => intro l d x y; simp [rayLoop]
  | succ n ih =>
    intro l d x y
    unfold rayLoop
    by_cases hr : inRange l d = true
    · simp only [hr, if_true, List.mem_cons]
      constructor
      · rintro (h | h)
        · injection h with hx hy
          exact ⟨0, Nat.succ_pos _, by simp [hx], by simp [hy],
            fun j hj => by
              have : j = 0 := Nat.le_zero.1 hj
              subst this; simpa using hr,
            fun j hj => absurd hj (Nat.not_lt_zero _)⟩
        · by_cases ho : b.isSquareOccupied ⟨l, d⟩ = true
          · simp [ho] at h
          · simp only [ho, if_false] at h
            obtain ⟨k, hk, hx, hy, hin, hocc⟩ := (ih _ _ _ _).1 h
            refine ⟨k + 1, Nat.succ_lt_succ hk, ?_, ?_, ?_, ?_⟩
            · rw [hx]; push_cast; ring
            · rw [hy]; push_cast; ring
            · intro j hj
              cases j with
              | zero => simpa using hr
              | succ j =>
                have := hin j (Nat.le_of_succ_le_succ hj)
                have e1 : l + ((j + 1 : Nat) : Int) * dl = l + dl + j * dl := by push_cast; ring
                have e2 : d + ((j + 1 : Nat) : Int) * dd = d + dd + j * dd := by push_cast; ring
                rw [e1, e2]; exact this
            · intro j hj
              cases j with
              | zero => simpa using ho
              | succ j =>
                have := hocc j (Nat.lt_of_succ_lt_succ hj)
                have e1 : l + ((j + 1 : Nat) : Int) * dl = l + dl + j * dl := by push_cast; ring
                have e2 : d + ((j + 1 : Nat) : Int) * dd = d + dd + j * dd := by push_cast; ring
                rw [e1, e2]; exact this
      · rintro ⟨k, hk, hx, hy, hin, hocc⟩
        cases k with
        | zero => left; simp [hx, hy]
        | succ k =>
          right
          have ho : b.isSquareOccupied ⟨l, d⟩ = false := by
            have := hocc 0 (Nat.succ_pos _)
            simpa using this
          simp only [ho, Bool.false_eq_true, if_false]
          refine (ih _ _ _ _).2 ⟨k, Nat.lt_of_succ_lt_succ hk, ?_, ?_, ?_, ?_⟩
          · rw [hx]; push_cast; ring
          · rw [hy]; push_cast; ring
          · intro j hj
            have := hin (j + 1) (Nat.succ_le_succ hj)
            have e1 : l + ((j + 1 : Nat) : Int) * dl = l + dl + j * dl := by push_cast; ring
            have e2 : d + ((j + 1 : Nat) : Int) * dd = d + dd + j * dd := by push_cast; ring
            rw [e1, e2] at this; exact this
          · intro j hj
            have := hocc (j + 1) (Nat.succ_lt_succ hj)
            have e1 : l + ((j + 1 : Nat) : Int) * dl = l + dl + j * dl := by push_cast; ring
            have e2 : d + ((j + 1 : Nat) : Int) * dd = d + dd + j * dd := by push_cast; ring
            rw [e1, e2] at this; exact this
    · simp only [hr, Bool.false_eq_true, if_false, List.not_mem_nil, false_iff]
      rintro ⟨k, hk, hx, hy, hin, hocc⟩
      have := hin 0 (Nat.zero_le _)
      simp at this
      exact hr this

theorem mem_ray_east (b : chessBoard) (p q : Square) :
    q ∈ rayLoop b (fun letter _ => decide (letter ≤ 104)) 1 0
        (stepsUp (p.file + 1) 104) (p.file + 1) (p.rank) ↔
      q.rank = p.rank ∧ p.file < q.file ∧ q.file ≤ 104 ∧
        ∀ v : Int, p.file < v → v < q.file → b.isSquareOccupied ⟨v, p.rank⟩ = false := by
  obtain ⟨x, y⟩ := q
  rw [mem_rayLoop]
  simp only [decide_eq_true_eq, Bool.and_eq_true, stepsUp, stepsDown]
  constructor
  · rintro ⟨k, hk, hx, hy, hin, hocc⟩
    have hk' := hin k (Nat.le_refl k)
    refine ⟨by omega, by omega, by omega, ?_⟩
    intro v h1 h2
    have := hocc (v - p.file - 1).toNat (by omega)
    have e : (⟨p.file + 1 + ((v - p.file - 1).toNat : Nat) * 1,
        p.rank + ((v - p.file - 1).toNat : Nat) * 0⟩ : Square) = ⟨v, p.rank⟩ := by
      rw [Square.mk.injEq]
      constructor <;> omega
    rw [e] at this
    exact this
  · rintro ⟨h0, h1, h2, hocc⟩
    refine ⟨(x - p.file - 1).toNat, by omega, by omega, by omega, ?_, ?_⟩
    · intro j hj
      omega
    · intro j hj
      have := hocc (p.file + 1 + (j : Int)) (by omega) (by omega)
      have e : (⟨p.file + 1 + (j : Nat) * 1, p.rank + (j : Nat) * 0⟩ : Square)
          = (fun v : Int => (⟨v, p.rank⟩ : Square)) (p.file + 1 + (j : Int)) := by
        simp only [Square.mk.injEq]
        constructor <;> omega
      rw [e]
      exact this

theorem mem_ray_west (b : chessBoard) (p q : Square) :
    q ∈ rayLoop b (fun letter _ => decide (letter ≥ 97)) (-1) 0
        (stepsDown (p.file - 1) 97) (p.file - 1) (p.rank) ↔
      q.rank = p.rank ∧ q.file < p.file ∧ 97 ≤ q.file ∧
        ∀ v : Int, q.file < v → v < p.file → b.isSquareOccupied ⟨v, p.rank⟩ = false := by
  obtain ⟨x, y⟩ := q
  rw [mem_rayLoop]
  simp only [decide_eq_true_eq, Bool.and_eq_true, stepsUp, stepsDown]
  constructor
  · rintro ⟨k, hk, hx, hy, hin, hocc⟩
    have hk' := hin k (Nat.le_refl k)
    refine ⟨by omega, by omega, by omega, ?_⟩
    intro v h1 h2
    have := hocc (p.file - 1 - v).toNat (by omega)
    have e : (⟨p.file - 1 + ((p.file - 1 - v).toNat : Nat) * (-1),
        p.rank + ((p.file - 1 - v).toNat : Nat) * 0⟩ : Square) = ⟨v, p.rank⟩ := by
      rw [Square.mk.injEq]
      constructor <;> omega
    rw [e] at this
    exact this
  · rintro ⟨h0, h1, h2, hocc⟩
    refine ⟨(p.file - 1 - x).toNat, by omega, by omega, by omega, ?_, ?_⟩
    · intro j hj
      omega
    · intro j hj
      have := hocc (p.file - 1 - (j : Int)) (by omega) (by omega)
      have e : (⟨p.file - 1 + (j : Nat) * (-1), p.rank + (j : Nat) * 0⟩ : Square)
          = (fun v : Int => (⟨v, p.rank⟩ : Square)) (p.file - 1 - (j : Int)) := by
        simp only [Square.mk.injEq]
        constructor <;> omega
      rw [e]
      exact this

theorem mem_ray_north (b : chessBoard) (p q : Square) :
    q ∈ rayLoop b (fun _ digit => decide (digit ≤ 56)) 0 1
        (stepsUp (p.rank + 1) 56) (p.file) (p.rank + 1) ↔
      q.file = p.file ∧ p.rank < q.rank ∧ q.rank ≤ 56 ∧
        ∀ v : Int, p.rank < v → v < q.rank → b.isSquareOccupied ⟨p.file, v⟩ = false := by
  obtain ⟨x, y⟩ := q
  rw [mem_rayLoop]
  simp only [decide_eq_true_eq, Bool.and_eq_true, stepsUp, stepsDown]
  constructor
  · rintro ⟨k, hk, hx, hy, hin, hocc⟩
    have hk' := hin k (Nat.le_refl k)
    refine ⟨by omega, by omega, by omega, ?_⟩
    intro v h1 h2
    have := hocc (v - p.rank - 1).toNat (by omega)
    have e : (⟨p.file + ((v - p.rank - 1).toNat : Nat) * 0,
        p.rank + 1 + ((v - p.rank - 1).toNat : Nat) * 1⟩ : Square) = ⟨p.file, v⟩ := by
      rw [Square.mk.injEq]
      constructor <;> omega
    rw [e] at this
    exact this
  · rintro ⟨h0, h1, h2, hocc⟩
    refine ⟨(y - p.rank - 1).toNat, by omega, by omega, by omega, ?_, ?_⟩
    · intro j hj
      omega
    · intro j hj
      have := hocc (p.rank + 1 + (j : Int)) (by omega) (by omega)
      have e : (⟨p.file + (j : Nat) * 0, p.rank + 1 + (j : Nat) * 1⟩ : Square)
          = (fun v : Int => (⟨p.file, v⟩ : Square)) (p.rank + 1 + (j : Int)) := by
        simp only [Square.mk.injEq]
        constructor <;> omega
      rw [e]
      exact this

theorem mem_ray_south (b : chessBoard) (p q : Square) :
    q ∈ rayLoop b (fun _ digit => decide (digit ≥ 49)) 0 (-1)
        (stepsDown (p.rank - 1) 49) (p.file) (p.rank - 1) ↔
      q.file = p.file ∧ q.rank < p.rank ∧ 49 ≤ q.rank ∧
        ∀ v : Int, q.rank < v → v < p.rank → b.isSquareOccupied ⟨p.file, v⟩ = false := by
  obtain ⟨x, y⟩ := q
  rw [mem_rayLoop]
  simp only [decide_eq_true_eq, Bool.and_eq_true, stepsUp, stepsDown]
  constructor
  · rintro ⟨k, hk, hx, hy, hin, hocc⟩
    have hk' := hin k (Nat.le_refl k)
    refine ⟨by omega, by omega, by omega, ?_⟩
    intro v h1 h2
    have := hocc (p.rank - 1 - v).toNat (by omega)
    have e : (⟨p.file + ((p.rank - 1 - v).toNat : Nat) * 0,
        p.rank - 1 + ((p.rank - 1 - v).toNat : Nat) * (-1)⟩ : Square) = ⟨p.file, v⟩ := by
      rw [Square.mk.injEq]
      constructor <;> omega
    rw [e] at this
    exact this
  · rintro ⟨h0, h1, h2, hocc⟩
    refine ⟨(p.rank - 1 - y).toNat, by omega, by omega, by omega, ?_, ?_⟩
    · intro j hj
      omega
    · intro j hj
      have := hocc (p.rank - 1 - (j : Int)) (by omega) (by omega)
      have e : (⟨p.file + (j : Nat) * 0, p.rank - 1 + (j : Nat) * (-1)⟩ : Square)
          = (fun v : Int => (⟨p.file, v⟩ : Square)) (p.rank - 1 - (j : Int)) := by
        simp only [Square.mk.injEq]
        constructor <;> omega
      rw [e]
      exact this

theorem mem_ray_northEast (b : chessBoard) (p q : Square) :
    q ∈ rayLoop b (fun letter digit => decide (letter ≤ 104) && decide (digit ≤ 56)) 1 1
        (stepsUp (p.file + 1) 104) (p.file + 1) (p.rank + 1) ↔
      q.file - p.file = q.rank - p.rank ∧ p.file < q.file ∧ q.file ≤ 104 ∧ q.rank ≤ 56 ∧
        ∀ v : Int, p.file < v → v < q.file → b.isSquareOccupied ⟨v, p.rank + (v - p.file)⟩ = false := by
  obtain ⟨x, y⟩ := q
  rw [mem_rayLoop]
  simp only [decide_eq_true_eq, Bool.and_eq_true, stepsUp, stepsDown]
  constructor
  · rintro ⟨k, hk, hx, hy, hin, hocc⟩
    have hk' := hin k (Nat.le_refl k)
    refine ⟨by omega, by omega, by omega, by omega, ?_⟩
    intro v h1 h2
    have := hocc (v - p.file - 1).toNat (by omega)
    have e : (⟨p.file + 1 + ((v - p.file - 1).toNat : Nat) * 1,
        p.rank + 1 + ((v - p.file - 1).toNat : Nat) * 1⟩ : Square) = ⟨v, p.rank + (v - p.file)⟩ := by
      rw [Square.mk.injEq]
      constructor <;> omega
    rw [e] at this
    exact this
  · rintro ⟨h0, h1, h2, h3, hocc⟩
    refine ⟨(x - p.file - 1).toNat, by omega, by omega, by omega, ?_, ?_⟩
    · intro j hj
      omega
    · intro j hj
      have := hocc (p.file + 1 + (j : Int)) (by omega) (by omega)
      have e : (⟨p.file + 1 + (j : Nat) * 1, p.rank + 1 + (j : Nat) * 1⟩ : Square)
          = (fun v : Int => (⟨v, p.rank + (v - p.file)⟩ : Square)) (p.file + 1 + (j : Int)) := by
        simp only [Square.mk.injEq]
        constructor <;> omega
      rw [e]
      exact this

theorem mem_ray_southEast (b : chessBoard) (p q : Square) :
    q ∈ rayLoop b (fun letter digit => decide (letter ≤ 104) && decide (digit ≥ 49)) 1 (-1)
        (stepsUp (p.file + 1) 104) (p.file + 1) (p.rank - 1) ↔
      q.file - p.file = -(q.rank - p.rank) ∧ p.file < q.file ∧ q.file ≤ 104 ∧ 49 ≤ q.rank ∧
        ∀ v : Int, p.file < v → v < q.file → b.isSquareOccupied ⟨v, p.rank - (v - p.file)⟩ = false := by
  obtain ⟨x, y⟩ := q
  rw [mem_rayLoop]
  simp only [decide_eq_true_eq, Bool.and_eq_true, stepsUp, stepsDown]
  constructor
  · rintro ⟨k, hk, hx, hy, hin, hocc⟩
    have hk' := hin k (Nat.le_refl k)
    refine ⟨by omega, by omega, by omega, by omega, ?_⟩
    intro v h1 h2
    have := hocc (v - p.file - 1).toNat (by omega)
    have e : (⟨p.file + 1 + ((v - p.file - 1).toNat : Nat) * 1,
        p.rank - 1 + ((v - p.file - 1).toNat : Nat) * (-1)⟩ : Square) = ⟨v, p.rank - (v - p.file)⟩ := by
      rw [Square.mk.injEq]
      constructor <;> omega
    rw [e] at this
    exact this
  · rintro ⟨h0, h1, h2, h3, hocc⟩
    refine ⟨(x - p.file - 1).toNat, by omega, by omega, by omega, ?_, ?_⟩
    · intro j hj
      omega
    · intro j hj
      have := hocc (p.file + 1 + (j : Int)) (by omega) (by omega)
      have e : (⟨p.file + 1 + (j : Nat) * 1, p.rank - 1 + (j : Nat) * (-1)⟩ : Square)
          = (fun v : Int => (⟨v, p.rank - (v - p.file)⟩ : Square)) (p.file + 1 + (j : Int)) := by
        simp only [Square.mk.injEq]
        constructor <;> omega
      rw [e]
      exact this

theorem mem_ray_northWest (b : chessBoard) (p q : Square) :
    q ∈ rayLoop b (fun letter digit => decide (letter ≥ 97) && decide (digit ≤ 56)) (-1) 1
        (stepsDown (p.file - 1) 97) (p.file - 1) (p.rank + 1) ↔
      q.file - p.file = -(q.rank - p.rank) ∧ q.file < p.file ∧ 97 ≤ q.file ∧ q.rank ≤ 56 ∧
        ∀ v : Int, q.file < v → v < p.file → b.isSquareOccupied ⟨v, p.rank + (p.file - v)⟩ = false := by
  obtain ⟨x, y⟩ := q
  rw [mem_rayLoop]
  simp only [decide_eq_true_eq, Bool.and_eq_true, stepsUp, stepsDown]
  constructor
  · rintro ⟨k, hk, hx, hy, hin, hocc⟩
    have hk' := hin k (Nat.le_refl k)
    refine ⟨by omega, by omega, by omega, by omega, ?_⟩
    intro v h1 h2
    have := hocc (p.file - 1 - v).toNat (by omega)
    have e : (⟨p.file - 1 + ((p.file - 1 - v).toNat : Nat) * (-1),
        p.rank + 1 + ((p.file - 1 - v).toNat : Nat) * 1⟩ : Square) = ⟨v, p.rank + (p.file - v)⟩ := by
      rw [Square.mk.injEq]
      constructor <;> omega
    rw [e] at this
    exact this
  · rintro ⟨h0, h1, h2, h3, hocc⟩
    refine ⟨(p.file - 1 - x).toNat, by omega, by omega, by omega, ?_, ?_⟩
    · intro j hj
      omega
    · intro j hj
      have := hocc (p.file - 1 - (j : Int)) (by omega) (by omega)
      have e : (⟨p.file - 1 + (j : Nat) * (-1), p.rank + 1 + (j : Nat) * 1⟩ : Square)
          = (fun v : Int => (⟨v, p.rank + (p.file - v)⟩ : Square)) (p.file - 1 - (j : Int)) := by
        simp only [Square.mk.injEq]
        constructor <;> omega
      rw [e]
      exact this

theorem mem_ray_southWest (b : chessBoard) (p q : Square) :
    q ∈ rayLoop b (fun letter digit => decide (letter ≥ 97) && decide (digit ≥ 49)) (-1) (-1)
        (stepsDown (p.file - 1) 97) (p.file - 1) (p.rank - 1) ↔
      q.file - p.file = q.rank - p.rank ∧ q.file < p.file ∧ 97 ≤ q.file ∧ 49 ≤ q.rank ∧
        ∀ v : Int, q.file < v → v < p.file → b.isSquareOccupied ⟨v, p.rank - (p.file - v)⟩ = false := by
  obtain ⟨x, y⟩ := q
  rw [mem_rayLoop]
  simp only [decide_eq_true_eq, Bool.and_eq_true, stepsUp, stepsDown]
  constructor
  · rintro ⟨k, hk, hx, hy, hin, hocc⟩
    have hk' := hin k (Nat.le_refl k)
    refine ⟨by omega, by omega, by omega, by omega, ?_⟩
    intro v h1 h2
    have := hocc (p.file - 1 - v).toNat (by omega)
    have e : (⟨p.file - 1 + ((p.file - 1 - v).toNat : Nat) * (-1),
        p.rank - 1 + ((p.file - 1 - v).toNat : Nat) * (-1)⟩ : Square) = ⟨v, p.rank - (p.file - v)⟩ := by
      rw [Square.mk.injEq]
      constructor <;> omega
    rw [e] at this
    exact this
  · rintro ⟨h0, h1, h2, h3, hocc⟩
    refine ⟨(p.file - 1 - x).toNat, by omega, by omega, by omega, ?_, ?_⟩
    · intro j hj
      omega
    · intro j hj
      have := hocc (p.file - 1 - (j : Int)) (by omega) (by omega)
      have e : (⟨p.file - 1 + (j : Nat) * (-1), p.rank - 1 + (j : Nat) * (-1)⟩ : Square)
          = (fun v : Int => (⟨v, p.rank - (p.file - v)⟩ : Square)) (p.file - 1 - (j : Int)) := by
        simp only [Square.mk.injEq]
        constructor <;> omega
      rw [e]
      exact this

theorem inBoardMap_iff (q : Square) :
    inBoardMap q = true ↔ 97 ≤ q.file ∧ q.file ≤ 104 ∧ 49 ≤ q.rank ∧ q.rank ≤ 56 := by
  simp [inBoardMap, and_assoc]

theorem mem_keepBoardSquares (vec : List Square) (q : Square) :
    q ∈ keepBoardSquares vec ↔ q ∈ vec ∧ inBoardMap q = true := by
  simp [keepBoardSquares, List.mem_filter]

theorem mem_rookRays_iff (b : chessBoard) (p q : Square) :
    (q ∈ rookRays b p ∧ inBoardMap q = true) ↔
      inBoardMap q = true ∧ q ≠ p ∧ Square.onLine p q ∧
        ∀ s, Square.between p q s → b.isSquareOccupied s = false := by
  simp only [rookRays, List.mem_append, mem_ray_east, mem_ray_west, mem_ray_north,
    mem_ray_south, inBoardMap_iff, or_assoc]
  obtain ⟨px, py⟩ := p
  obtain ⟨qx, qy⟩ := q
  simp only [Square.onLine, Square.between, strictlyBetween, ne_eq, Square.mk.injEq]
  constructor
  · rintro ⟨(⟨h1, h2, h3, hocc⟩ | ⟨h1, h2, h3, hocc⟩ | ⟨h1, h2, h3, hocc⟩ | ⟨h1, h2, h3, hocc⟩), hb⟩
    all_goals
      refine ⟨hb, by omega, by omega, ?_⟩
      rintro ⟨sx, sy⟩ hs
      simp only at hs
    · have e : sy = py := by omega
      subst e
      exact hocc sx (by omega) (by omega)
    · have e : sy = py := by omega
      subst e
      exact hocc sx (by omega) (by omega)
    · have e : sx = px := by omega
      subst e
      exact hocc sy (by omega) (by omega)
    · have e : sx = px := by omega
      subst e
      exact hocc sy (by omega) (by omega)
  · rintro ⟨hb, hne, hline, hocc⟩
    refine ⟨?_, hb⟩
    by_cases hr : py = qy
    · by_cases hlt : px < qx
      · left
        refine ⟨by omega, by omega, by omega, fun v h1 h2 => hocc ⟨v, py⟩ (Or.inr (Or.inl ⟨by omega, rfl, Or.inl ⟨h1, h2⟩⟩))⟩
      · right; left
        refine ⟨by omega, by omega, by omega, fun v h1 h2 => hocc ⟨v, py⟩ (Or.inr (Or.inl ⟨by omega, rfl, Or.inr ⟨h1, h2⟩⟩))⟩
    · by_cases hlt : py < qy
      · right; right; left
        refine ⟨by omega, by omega, by omega, fun v h1 h2 => hocc ⟨px, v⟩ (Or.inl ⟨by omega, rfl, Or.inl ⟨h1, h2⟩⟩)⟩
      · right; right; right
        refine ⟨by omega, by omega, by omega, fun v h1 h2 => hocc ⟨px, v⟩ (Or.inl ⟨by omega, rfl, Or.inr ⟨h1, h2⟩⟩)⟩

theorem mem_bishopRays_iff (b : chessBoard) (p q : Square) :
    (q ∈ bishopRays b p ∧ inBoardMap q = true) ↔
      inBoardMap q = true ∧ q ≠ p ∧ Square.onDiagonal p q ∧
        ∀ s, Square.between p q s → b.isSquareOccupied s = false := by
  simp only [bishopRays, List.mem_append, mem_ray_northEast, mem_ray_southEast,
    mem_ray_northWest, mem_ray_southWest, inBoardMap_iff, or_assoc]
  obtain ⟨px, py⟩ := p
  obtain ⟨qx, qy⟩ := q
  simp only [Square.onDiagonal, Square.between, strictlyBetween, ne_eq, Square.mk.injEq]
  constructor
  · rintro ⟨(⟨h1, h2, h3, h4, hocc⟩ | ⟨h1, h2, h3, h4, hocc⟩ | ⟨h1, h2, h3, h4, hocc⟩ |
      ⟨h1, h2, h3, h4, hocc⟩), hb⟩
    all_goals
      refine ⟨hb, by omega, by omega, ?_⟩
      rintro ⟨sx, sy⟩ hs
      simp only at hs
    · have e : sy = py + (sx - px) := by omega
      subst e
      exact hocc sx (by omega) (by omega)
    · have e : sy = py - (sx - px) := by omega
      subst e
      exact hocc sx (by omega) (by omega)
    · have e : sy = py + (px - sx) := by omega
      subst e
      exact hocc sx (by omega) (by omega)
    · have e : sy = py - (px - sx) := by omega
      subst e
      exact hocc sx (by omega) (by omega)
  · rintro ⟨hb, hne, hdiag, hocc⟩
    refine ⟨?_, hb⟩
    by_cases hlt : px < qx
    · by_cases hup : py < qy
      · left
        refine ⟨by omega, by omega, by omega, by omega,
          fun v h1 h2 => hocc ⟨v, py + (v - px)⟩ (Or.inr (Or.inr (Or.inl ⟨by omega, by dsimp only; omega, Or.inl ⟨h1, h2⟩⟩)))⟩
      · right; left
        refine ⟨by omega, by omega, by omega, by omega,
          fun v h1 h2 => hocc ⟨v, py - (v - px)⟩ (Or.inr (Or.inr (Or.inr ⟨by omega, by dsimp only; omega, Or.inl ⟨h1, h2⟩⟩)))⟩
    · by_cases hup : py < qy
      · right; right; left
        refine ⟨by omega, by omega, by omega, by omega,
          fun v h1 h2 => hocc ⟨v, py + (px - v)⟩ (Or.inr (Or.inr (Or.inr ⟨by omega, by dsimp only; omega, Or.inr ⟨h1, h2⟩⟩)))⟩
      · right; right; right
        refine ⟨by omega, by omega, by omega, by omega,
          fun v h1 h2 => hocc ⟨v, py - (px - v)⟩ (Or.inr (Or.inr (Or.inl ⟨by omega, by dsimp only; omega, Or.inr ⟨h1, h2⟩⟩)))⟩

theorem pathLoop_eq_map (inRange : Int → Int → Bool) (dl dd : Int) :
    ∀ (n m : Nat) (l d : Int), m ≤ n →
      (∀ j : Nat, j < m → inRange (l + j * dl) (d + j * dd) = true) →
      (m < n → inRange (l + m * dl) (d + m * dd) = false) →
      pathLoop inRange dl dd n l d =
        (List.range m).map (fun j : Nat => (⟨l + j * dl, d + j * dd⟩ : Square)) := by
  intro n
  induction n with
  | zero =>
    intro m l d hm _ _
    have : m = 0 := Nat.le_zero.1 hm
    subst this
    simp [pathLoop]
  | succ n ih =>
    intro m l d hm hin hout
    cases m with
    | zero =>
      have := hout (Nat.succ_pos _)
      simp only [Nat.cast_zero, zero_mul, add_zero] at this
      simp [pathLoop, this]
    | succ m =>
      have h0 := hin 0 (Nat.succ_pos _)
      simp only [Nat.cast_zero, zero_mul, add_zero] at h0
      have e1 : ∀ j : Nat, l + ((j + 1 : Nat) : Int) * dl = l + dl + j * dl := by
        intro j; push_cast; ring
      have e2 : ∀ j : Nat, d + ((j + 1 : Nat) : Int) * dd = d + dd + j * dd := by
        intro j; push_cast; ring
      have ih' := ih m (l + dl) (d + dd) (Nat.le_of_succ_le_succ hm)
        (fun j hj => by
          have := hin (j + 1) (Nat.succ_lt_succ hj)
          rw [e1, e2] at this; exact this)
        (fun hlt => by
          have := hout (Nat.succ_lt_succ hlt)
          rw [e1, e2] at this; exact this)
      unfold pathLoop
      simp only [h0, if_true]
      rw [ih', List.range_succ_eq_map]
      simp only [List.map_cons, List.map_map, Nat.cast_zero, zero_mul, add_zero]
      congr 1
      apply List.map_congr_left
      intro j _
      simp only [Function.comp, Square.mk.injEq]
      exact ⟨(e1 j).symm, (e2 j).symm⟩

theorem mem_range_map_square (m : Nat) (f : Nat → Square) (q : Square) :
    q ∈ (List.range m).map f ↔ ∃ j, j < m ∧ f j = q := by
  simp [List.mem_map, List.mem_range]

theorem getLast?_range_map (m : Nat) (f : Nat → Square) :
    ((List.range (m + 1)).map f).getLast? = some (f m) := by
  rw [List.range_succ, List.map_append]
  simp

/-- What the C19 proofs need of a path that is the image of `0, …, k` under `f`. -/
theorem range_map_facts (k : Nat) (f : Nat → Square) (L : List Square)
    (hL : L = (List.range (k + 1)).map f) (q : Square) :
    L ≠ [] ∧ L.getLast? = some (f k) ∧ (q ∈ L ↔ ∃ j, j ≤ k ∧ f j = q) := by
  subst hL
  refine ⟨?_, getLast?_range_map k f, ?_⟩
  · simp [List.range_succ]
  · rw [mem_range_map_square]
    constructor
    · rintro ⟨j, hj, h⟩
      exact ⟨j, Nat.le_of_lt_succ hj, h⟩
    · rintro ⟨j, hj, h⟩
      exact ⟨j, Nat.lt_succ_of_le hj, h⟩

theorem straightPath_north (p d : Square) (h1 : p.file = d.file) (h2 : p.rank < d.rank) :
    straightPath p d = some ((List.range ((d.rank - p.rank).toNat + 1)).map
      (fun j : Nat => (⟨p.file + j * 0, p.rank + j * 1⟩ : Square))) := by
  have hc : p.file = d.file ∧ p.rank < d.rank := ⟨h1, h2⟩
  unfold straightPath
  rw [if_pos hc, Option.some.injEq]
  apply pathLoop_eq_map
  · unfold stepsUp; omega
  · intro j hj; simp only [decide_eq_true_eq]; omega
  · intro hlt; unfold stepsUp at hlt; omega

theorem straightPath_south (p d : Square) (h1 : p.file = d.file) (h2 : p.rank > d.rank) :
    straightPath p d = some ((List.range ((p.rank - d.rank).toNat + 1)).map
      (fun j : Nat => (⟨p.file + j * 0, p.rank + j * (-1)⟩ : Square))) := by
  have hn : ¬ (p.file = d.file ∧ p.rank < d.rank) := by omega
  have hc : p.file = d.file ∧ p.rank > d.rank := ⟨h1, h2⟩
  unfold straightPath
  rw [if_neg hn, if_pos hc, Option.some.injEq]
  apply pathLoop_eq_map
  · unfold stepsDown; omega
  · intro j hj; simp only [decide_eq_true_eq]; omega
  · intro hlt; unfold stepsDown at hlt; omega

theorem straightPath_east (p d : Square) (h1 : p.file < d.file) (h2 : p.rank = d.rank) :
    straightPath p d = some ((List.range ((d.file - p.file).toNat + 1)).map
      (fun j : Nat => (⟨p.file + j * 1, p.rank + j * 0⟩ : Square))) := by
  have hn1 : ¬ (p.file = d.file ∧ p.rank < d.rank) := by omega
  have hn2 : ¬ (p.file = d.file ∧ p.rank > d.rank) := by omega
  have hc : p.file < d.file ∧ p.rank = d.rank := ⟨h1, h2⟩
  unfold straightPath
  rw [if_neg hn1, if_neg hn2, if_pos hc, Option.some.injEq]
  apply pathLoop_eq_map
  · unfold stepsUp; omega
  · intro j hj; simp only [decide_eq_true_eq]; omega
  · intro hlt; unfold stepsUp at hlt; omega

theorem straightPath_west (p d : Square) (h1 : p.file > d.file) (h2 : p.rank = d.rank) :
    straightPath p d = some ((List.range ((p.file - d.file).toNat + 1)).map
      (fun j : Nat => (⟨p.file + j * (-1), p.rank + j * 0⟩ : Square))) := by
  have hn1 : ¬ (p.file = d.file ∧ p.rank < d.rank) := by omega
  have hn2 : ¬ (p.file = d.file ∧ p.rank > d.rank) := by omega
  have hn3 : ¬ (p.file < d.file ∧ p.rank = d.rank) := by omega
  have hc : p.file > d.file ∧ p.rank = d.rank := ⟨h1, h2⟩
  unfold straightPath
  rw [if_neg hn1, if_neg hn2, if_neg hn3, if_pos hc, Option.some.injEq]
  apply pathLoop_eq_map
  · unfold stepsDown; omega
  · intro j hj; simp only [decide_eq_true_eq]; omega
  · intro hlt; unfold stepsDown at hlt; omega

theorem Square.eq_iff (p q : Square) : p = q ↔ p.file = q.file ∧ p.rank = q.rank := by
  obtain ⟨px, py⟩ := p
  obtain ⟨qx, qy⟩ := q
  simp only [Square.mk.injEq]

theorem straightPath_none (p d : Square) (h : ¬ (d ≠ p ∧ Square.onLine p d)) :
    straightPath p d = none := by
  simp only [Square.onLine, ne_eq, Square.eq_iff] at h
  have hn1 : ¬ (p.file = d.file ∧ p.rank < d.rank) := by omega
  have hn2 : ¬ (p.file = d.file ∧ p.rank > d.rank) := by omega
  have hn3 : ¬ (p.file < d.file ∧ p.rank = d.rank) := by omega
  have hn4 : ¬ (p.file > d.file ∧ p.rank = d.rank) := by omega
  unfold straightPath
  rw [if_neg hn1, if_neg hn2, if_neg hn3, if_neg hn4]

/-- The straight branches of a path: taken exactly for a destination on the file or rank
of `p`, and then the path runs from `p` to the destination. -/
theorem straightPath_spec (p d : Square) :
    (straightPath p d = none ∧ ¬ (d ≠ p ∧ Square.onLine p d)) ∨
    (∃ L, straightPath p d = some L ∧ (d ≠ p ∧ Square.onLine p d) ∧ L ≠ [] ∧
      L.getLast? = some d ∧ d ∈ L) := by
  by_cases h : d ≠ p ∧ Square.onLine p d
  · right
    have h' := h
    simp only [Square.onLine, ne_eq, Square.eq_iff] at h'
    by_cases hf : p.file = d.file
    · by_cases hlt : p.rank < d.rank
      · have e := straightPath_north p d hf hlt
        obtain ⟨f1, f2, f3⟩ := range_map_facts _ _ _ rfl d
        refine ⟨_, e, h, f1, ?_, ?_⟩
        · rw [f2, Option.some.injEq, Square.eq_iff]; dsimp only
          rw [Int.toNat_of_nonneg (by omega)]; constructor <;> linarith
        · rw [f3]; exact ⟨(d.rank - p.rank).toNat, Nat.le_refl _, by
            rw [Square.eq_iff]; dsimp only
            rw [Int.toNat_of_nonneg (by omega)]; constructor <;> linarith⟩
      · have e := straightPath_south p d hf (by omega)
        obtain ⟨f1, f2, f3⟩ := range_map_facts _ _ _ rfl d
        refine ⟨_, e, h, f1, ?_, ?_⟩
        · rw [f2, Option.some.injEq, Square.eq_iff]; dsimp only
          rw [Int.toNat_of_nonneg (by omega)]; constructor <;> linarith
        · rw [f3]; exact ⟨(p.rank - d.rank).toNat, Nat.le_refl _, by
            rw [Square.eq_iff]; dsimp only
            rw [Int.toNat_of_nonneg (by omega)]; constructor <;> linarith⟩
    · by_cases hlt : p.file < d.file
      · have hr : p.rank = d.rank := by omega
        have e := straightPath_east p d hlt hr
        obtain ⟨f1, f2, f3⟩ := range_map_facts _ _ _ rfl d
        refine ⟨_, e, h, f1, ?_, ?_⟩
        · rw [f2, Option.some.injEq, Square.eq_iff]; dsimp only
          rw [Int.toNat_of_nonneg (by omega)]; constructor <;> linarith
        · rw [f3]; exact ⟨(d.file - p.file).toNat, Nat.le_refl _, by
            rw [Square.eq_iff]; dsimp only
            rw [Int.toNat_of_nonneg (by omega)]; constructor <;> linarith⟩
      · have hr : p.rank = d.rank := by omega
        have e := straightPath_west p d (by omega) hr
        obtain ⟨f1, f2, f3⟩ := range_map_facts _ _ _ rfl d
        refine ⟨_, e, h, f1, ?_, ?_⟩
        · rw [f2, Option.some.injEq, Square.eq_iff]; dsimp only
          rw [Int.toNat_of_nonneg (by omega)]; constructor <;> linarith
        · rw [f3]; exact ⟨(p.file - d.file).toNat, Nat.le_refl _, by
            rw [Square.eq_iff]; dsimp only
            rw [Int.toNat_of_nonneg (by omega)]; constructor <;> linarith⟩
  · left
    exact ⟨straightPath_none p d h, h⟩
theorem diagonalPath_northEast (p d : Square) (k : Nat) (hc : p.file < d.file ∧ p.rank < d.rank)
    (hk1 : (k : Int) ≤ d.file - p.file) (hk2 : (k : Int) ≤ d.rank - p.rank)
    (hk3 : (k : Int) = d.file - p.file ∨ (k : Int) = d.rank - p.rank) :
    diagonalPath p d = (List.range (k + 1)).map
      (fun j : Nat => (⟨p.file + j * 1, p.rank + j * 1⟩ : Square)) := by
  unfold diagonalPath
  rw [if_pos hc]
  apply pathLoop_eq_map
  · unfold stepsUp; omega
  · intro j hj; simp only [decide_eq_true_eq, Bool.and_eq_true]; omega
  · intro hlt; unfold stepsUp at hlt
    simp only [Bool.and_eq_false_iff, decide_eq_false_iff_not]; push_cast; omega

theorem diagonalPath_northWest (p d : Square) (k : Nat) (hc : p.file > d.file ∧ p.rank < d.rank)
    (hk1 : (k : Int) ≤ p.file - d.file) (hk2 : (k : Int) ≤ d.rank - p.rank)
    (hk3 : (k : Int) = p.file - d.file ∨ (k : Int) = d.rank - p.rank) :
    diagonalPath p d = (List.range (k + 1)).map
      (fun j : Nat => (⟨p.file + j * (-1), p.rank + j * 1⟩ : Square)) := by
  have hn0 : ¬ (p.file < d.file ∧ p.rank < d.rank) := by omega
  unfold diagonalPath
  rw [if_neg hn0, if_pos hc]
  apply pathLoop_eq_map
  · unfold stepsDown; omega
  · intro j hj; simp only [decide_eq_true_eq, Bool.and_eq_true]; omega
  · intro hlt; unfold stepsDown at hlt
    simp only [Bool.and_eq_false_iff, decide_eq_false_iff_not]; push_cast; omega

theorem diagonalPath_southEast (p d : Square) (k : Nat) (hc : p.file < d.file ∧ p.rank > d.rank)
    (hk1 : (k : Int) ≤ d.file - p.file) (hk2 : (k : Int) ≤ p.rank - d.rank)
    (hk3 : (k : Int) = d.file - p.file ∨ (k : Int) = p.rank - d.rank) :
    diagonalPath p d = (List.range (k + 1)).map
      (fun j : Nat => (⟨p.file + j * 1, p.rank + j * (-1)⟩ : Square)) := by
  have hn0 : ¬ (p.file < d.file ∧ p.rank < d.rank) := by omega
  have hn1 : ¬ (p.file > d.file ∧ p.rank < d.rank) := by omega
  unfold diagonalPath
  rw [if_neg hn0, if_neg hn1, if_pos hc]
  apply pathLoop_eq_map
  · unfold stepsUp; omega
  · intro j hj; simp only [decide_eq_true_eq, Bool.and_eq_true]; omega
  · intro hlt; unfold stepsUp at hlt
    simp only [Bool.and_eq_false_iff, decide_eq_false_iff_not]; push_cast; omega

theorem diagonalPath_southWest (p d : Square) (k : Nat) (hc : p.file > d.file ∧ p.rank > d.rank)
    (hk1 : (k : Int) ≤ p.file - d.file) (hk2 : (k : Int) ≤ p.rank - d.rank)
    (hk3 : (k : Int) = p.file - d.file ∨ (k : Int) = p.rank - d.rank) :
    diagonalPath p d = (List.range (k + 1)).map
      (fun j : Nat => (⟨p.file + j * (-1), p.rank + j * (-1)⟩ : Square)) := by
  have hn0 : ¬ (p.file < d.file ∧ p.rank < d.rank) := by omega
  have hn1 : ¬ (p.file > d.file ∧ p.rank < d.rank) := by omega
  have hn2 : ¬ (p.file < d.file ∧ p.rank > d.rank) := by omega
  unfold diagonalPath
  rw [if_neg hn0, if_neg hn1, if_neg hn2, if_pos hc]
  apply pathLoop_eq_map
  · unfold stepsDown; omega
  · intro j hj; simp only [decide_eq_true_eq, Bool.and_eq_true]; omega
  · intro hlt; unfold stepsDown at hlt
    simp only [Bool.and_eq_false_iff, decide_eq_false_iff_not]; push_cast; omega

theorem diagonalPath_nil (p d : Square) (h : ¬ (p.file ≠ d.file ∧ p.rank ≠ d.rank)) :
    diagonalPath p d = [] := by
  have hn1 : ¬ (p.file < d.file ∧ p.rank < d.rank) := by omega
  have hn2 : ¬ (p.file > d.file ∧ p.rank < d.rank) := by omega
  have hn3 : ¬ (p.file < d.file ∧ p.rank > d.rank) := by omega
  have hn4 : ¬ (p.file > d.file ∧ p.rank > d.rank) := by omega
  unfold diagonalPath
  rw [if_neg hn1, if_neg hn2, if_neg hn3, if_neg hn4]
/-- The diagonal branches of a path: non-empty as soon as file and rank both differ, but
reaching the destination only when it lies on a diagonal through `p`. -/
theorem diagonalPath_spec (p d : Square) :
    (diagonalPath p d ≠ [] ↔ p.file ≠ d.file ∧ p.rank ≠ d.rank) ∧
    (d ∈ diagonalPath p d ↔ d ≠ p ∧ Square.onDiagonal p d) ∧
    (d ∈ diagonalPath p d → (diagonalPath p d).getLast? = some d) := by
  by_cases h : p.file ≠ d.file ∧ p.rank ≠ d.rank
  · have hcases : (p.file < d.file ∧ p.rank < d.rank) ∨ (p.file > d.file ∧ p.rank < d.rank) ∨
        (p.file < d.file ∧ p.rank > d.rank) ∨ (p.file > d.file ∧ p.rank > d.rank) := by omega
    rcases hcases with hc | hc | hc | hc
    · obtain ⟨k, hk1, hk2, hk3⟩ : ∃ k : Nat, (k : Int) ≤ d.file - p.file ∧ (k : Int) ≤ d.rank - p.rank ∧
          ((k : Int) = d.file - p.file ∨ (k : Int) = d.rank - p.rank) := by
        by_cases hle : d.file - p.file ≤ d.rank - p.rank
        · exact ⟨(d.file - p.file).toNat, by omega, by omega, Or.inl (by omega)⟩
        · exact ⟨(d.rank - p.rank).toNat, by omega, by omega, Or.inr (by omega)⟩
      rw [diagonalPath_northEast p d k hc hk1 hk2 hk3]
      obtain ⟨f1, f2, f3⟩ := range_map_facts k (fun j : Nat => (⟨p.file + j * 1, p.rank + j * 1⟩ : Square)) _ rfl d
      have hmem : d ∈ (List.range (k + 1)).map (fun j : Nat => (⟨p.file + j * 1, p.rank + j * 1⟩ : Square)) ↔ d ≠ p ∧ Square.onDiagonal p d := by
        rw [f3]
        constructor
        · rintro ⟨j, hj, hjd⟩
          rw [Square.eq_iff] at hjd
          dsimp only at hjd
          refine ⟨?_, Or.inl (by omega)⟩
          intro heq
          rw [Square.eq_iff] at heq
          omega
        · rintro ⟨_, hdiag⟩
          unfold Square.onDiagonal at hdiag
          refine ⟨k, Nat.le_refl _, ?_⟩
          rw [Square.eq_iff]
          dsimp only
          constructor <;> omega
      refine ⟨⟨fun _ => h, fun _ => f1⟩, hmem, ?_⟩
      intro hd
      have hdiag := (hmem.mp hd).2
      unfold Square.onDiagonal at hdiag
      rw [f2, Option.some.injEq, Square.eq_iff]
      dsimp only
      constructor <;> omega
    · obtain ⟨k, hk1, hk2, hk3⟩ : ∃ k : Nat, (k : Int) ≤ p.file - d.file ∧ (k : Int) ≤ d.rank - p.rank ∧
          ((k : Int) = p.file - d.file ∨ (k : Int) = d.rank - p.rank) := by
        by_cases hle : p.file - d.file ≤ d.rank - p.rank
        · exact ⟨(p.file - d.file).toNat, by omega, by omega, Or.inl (by omega)⟩
        · exact ⟨(d.rank - p.rank).toNat, by omega, by omega, Or.inr (by omega)⟩
      rw [diagonalPath_northWest p d k hc hk1 hk2 hk3]
      obtain ⟨f1, f2, f3⟩ := range_map_facts k (fun j : Nat => (⟨p.file + j * (-1), p.rank + j * 1⟩ : Square)) _ rfl d
      have hmem : d ∈ (List.range (k + 1)).map (fun j : Nat => (⟨p.file + j * (-1), p.rank + j * 1⟩ : Square)) ↔ d ≠ p ∧ Square.onDiagonal p d := by
        rw [f3]
        constructor
        · rintro ⟨j, hj, hjd⟩
          rw [Square.eq_iff] at hjd
          dsimp only at hjd
          refine ⟨?_, Or.inr (by omega)⟩
          intro heq
          rw [Square.eq_iff] at heq
          omega
        · rintro ⟨_, hdiag⟩
          unfold Square.onDiagonal at hdiag
          refine ⟨k, Nat.le_refl _, ?_⟩
          rw [Square.eq_iff]
          dsimp only
          constructor <;> omega
      refine ⟨⟨fun _ => h, fun _ => f1⟩, hmem, ?_⟩
      intro hd
      have hdiag := (hmem.mp hd).2
      unfold Square.onDiagonal at hdiag
      rw [f2, Option.some.injEq, Square.eq_iff]
      dsimp only
      constructor <;> omega
    · obtain ⟨k, hk1, hk2, hk3⟩ : ∃ k : Nat, (k : Int) ≤ d.file - p.file ∧ (k : Int) ≤ p.rank - d.rank ∧
          ((k : Int) = d.file - p.file ∨ (k : Int) = p.rank - d.rank) := by
        by_cases hle : d.file - p.file ≤ p.rank - d.rank
        · exact ⟨(d.file - p.file).toNat, by omega, by omega, Or.inl (by omega)⟩
        · exact ⟨(p.rank - d.rank).toNat, by omega, by omega, Or.inr (by omega)⟩
      rw [diagonalPath_southEast p d k hc hk1 hk2 hk3]
      obtain ⟨f1, f2, f3⟩ := range_map_facts k (fun j : Nat => (⟨p.file + j * 1, p.rank + j * (-1)⟩ : Square)) _ rfl d
      have hmem : d ∈ (List.range (k + 1)).map (fun j : Nat => (⟨p.file + j * 1, p.rank + j * (-1)⟩ : Square)) ↔ d ≠ p ∧ Square.onDiagonal p d := by
        rw [f3]
        constructor
        · rintro ⟨j, hj, hjd⟩
          rw [Square.eq_iff] at hjd
          dsimp only at hjd
          refine ⟨?_, Or.inr (by omega)⟩
          intro heq
          rw [Square.eq_iff] at heq
          omega
        · rintro ⟨_, hdiag⟩
          unfold Square.onDiagonal at hdiag
          refine ⟨k, Nat.le_refl _, ?_⟩
          rw [Square.eq_iff]
          dsimp only
          constructor <;> omega
      refine ⟨⟨fun _ => h, fun _ => f1⟩, hmem, ?_⟩
      intro hd
      have hdiag := (hmem.mp hd).2
      unfold Square.onDiagonal at hdiag
      rw [f2, Option.some.injEq, Square.eq_iff]
      dsimp only
      constructor <;> omega
    · obtain ⟨k, hk1, hk2, hk3⟩ : ∃ k : Nat, (k : Int) ≤ p.file - d.file ∧ (k : Int) ≤ p.rank - d.rank ∧
          ((k : Int) = p.file - d.file ∨ (k : Int) = p.rank - d.rank) := by
        by_cases hle : p.file - d.file ≤ p.rank - d.rank
        · exact ⟨(p.file - d.file).toNat, by omega, by omega, Or.inl (by omega)⟩
        · exact ⟨(p.rank - d.rank).toNat, by omega, by omega, Or.inr (by omega)⟩
      rw [diagonalPath_southWest p d k hc hk1 hk2 hk3]
      obtain ⟨f1, f2, f3⟩ := range_map_facts k (fun j : Nat => (⟨p.file + j * (-1), p.rank + j * (-1)⟩ : Square)) _ rfl d
      have hmem : d ∈ (List.range (k + 1)).map (fun j : Nat => (⟨p.file + j * (-1), p.rank + j * (-1)⟩ : Square)) ↔ d ≠ p ∧ Square.onDiagonal p d := by
        rw [f3]
        constructor
        · rintro ⟨j, hj, hjd⟩
          rw [Square.eq_iff] at hjd
          dsimp only at hjd
          refine ⟨?_, Or.inl (by omega)⟩
          intro heq
          rw [Square.eq_iff] at heq
          omega
        · rintro ⟨_, hdiag⟩
          unfold Square.onDiagonal at hdiag
          refine ⟨k, Nat.le_refl _, ?_⟩
          rw [Square.eq_iff]
          dsimp only
          constructor <;> omega
      refine ⟨⟨fun _ => h, fun _ => f1⟩, hmem, ?_⟩
      intro hd
      have hdiag := (hmem.mp hd).2
      unfold Square.onDiagonal at hdiag
      rw [f2, Option.some.injEq, Square.eq_iff]
      dsimp only
      constructor <;> omega
  · rw [diagonalPath_nil p d h]
    refine ⟨⟨fun hne => absurd rfl hne, fun hh => absurd hh h⟩, ⟨fun hm => ?_, fun hh => ?_⟩, fun hm => ?_⟩
    · exact absurd hm (List.not_mem_nil d)
    · exfalso
      obtain ⟨hne, hdiag⟩ := hh
      rw [ne_eq, Square.eq_iff] at hne
      unfold Square.onDiagonal at hdiag
      omega
    · exact absurd hm (List.not_mem_nil d)

theorem between_ne (p q s : Square) (h : Square.between p q s) : s ≠ q := by
  intro e
  subst e
  unfold Square.between strictlyBetween at h
  omega

end Geometry

section RayLists

open chessPiece

theorem rayLoop_nodup (b : chessBoard) (inRange : Int → Int → Bool) (dl dd : Int)
    (hdir : dl ≠ 0 ∨ dd ≠ 0) :
    ∀ (n : Nat) (l d : Int), (rayLoop b inRange dl dd n l d).Nodup := by
  intro n
  induction n with
  | zero => intro l d; simp [rayLoop]
  | succ n ih =>
    intro l d
    unfold rayLoop
    split_ifs with h1 h2
    · simp
    · rw [List.nodup_cons]
      refine ⟨?_, ih _ _⟩
      rw [mem_rayLoop]
      rintro ⟨k, _, hx, hy, _, _⟩
      have e1 : ((k : Int) + 1) * dl = 0 := by linarith
      have e2 : ((k : Int) + 1) * dd = 0 := by linarith
      have hk : ((k : Int) + 1) ≠ 0 := by omega
      rcases hdir with hd | hd
      · exact hd ((mul_eq_zero.mp e1).resolve_left hk)
      · exact hd ((mul_eq_zero.mp e2).resolve_left hk)
    · simp

theorem rookRays_nodup (b : chessBoard) (p : Square) : (rookRays b p).Nodup := by
  unfold rookRays
  refine List.Nodup.append (List.Nodup.append (List.Nodup.append ?_ ?_ ?_) ?_ ?_) ?_ ?_
  · exact rayLoop_nodup b _ 1 0 (Or.inl (by decide)) _ _ _
  · exact rayLoop_nodup b _ (-1) 0 (Or.inl (by decide)) _ _ _
  · intro q h1 h2
    rw [mem_ray_east] at h1
    rw [mem_ray_west] at h2
    omega
  · exact rayLoop_nodup b _ 0 1 (Or.inr (by decide)) _ _ _
  · intro q h1 h2
    rw [List.mem_append, mem_ray_east, mem_ray_west] at h1
    rw [mem_ray_north] at h2
    omega
  · exact rayLoop_nodup b _ 0 (-1) (Or.inr (by decide)) _ _ _
  · intro q h1 h2
    rw [List.mem_append, List.mem_append, mem_ray_east, mem_ray_west, mem_ray_north] at h1
    rw [mem_ray_south] at h2
    omega

theorem bishopRays_nodup (b : chessBoard) (p : Square) : (bishopRays b p).Nodup := by
  unfold bishopRays
  refine List.Nodup.append (List.Nodup.append (List.Nodup.append ?_ ?_ ?_) ?_ ?_) ?_ ?_
  · exact rayLoop_nodup b _ 1 1 (Or.inl (by decide)) _ _ _
  · exact rayLoop_nodup b _ 1 (-1) (Or.inl (by decide)) _ _ _
  · intro q h1 h2
    rw [mem_ray_northEast] at h1
    rw [mem_ray_southEast] at h2
    omega
  · exact rayLoop_nodup b _ (-1) 1 (Or.inl (by decide)) _ _ _
  · intro q h1 h2
    rw [List.mem_append, mem_ray_northEast, mem_ray_southEast] at h1
    rw [mem_ray_northWest] at h2
    omega
  · exact rayLoop_nodup b _ (-1) (-1) (Or.inl (by decide)) _ _ _
  · intro q h1 h2
    rw [List.mem_append, List.mem_append, mem_ray_northEast, mem_ray_southEast,
      mem_ray_northWest] at h1
    rw [mem_ray_southWest] at h2
    omega

theorem rookRays_line (b : chessBoard) (p q : Square) (h : q ∈ rookRays b p) :
    (q.rank = p.rank ∧ q.file ≠ p.file) ∨ (q.file = p.file ∧ q.rank ≠ p.rank) := by
  unfold rookRays at h
  rw [List.mem_append, List.mem_append, List.mem_append, mem_ray_east, mem_ray_west,
    mem_ray_north, mem_ray_south] at h
  omega

theorem bishopRays_diagonal (b : chessBoard) (p q : Square) (h : q ∈ bishopRays b p) :
    q.file ≠ p.file ∧ q.rank ≠ p.rank := by
  unfold bishopRays at h
  rw [List.mem_append, List.mem_append, List.mem_append, mem_ray_northEast,
    mem_ray_southEast, mem_ray_northWest, mem_ray_southWest] at h
  omega

theorem queenRays_nodup (b : chessBoard) (p : Square) :
    (rookRays b p ++ bishopRays b p).Nodup := by
  refine List.Nodup.append (rookRays_nodup b p) (bishopRays_nodup b p) ?_
  intro q h1 h2
  have := rookRays_line b p q h1
  have := bishopRays_diagonal b p q h2
  omega

end RayLists

section Repetition

theorem exists_last_twelve {α : Type} (h : List α) (hn : 12 ≤ h.length) :
    ∃ (pre : List α) (x0 x1 x2 x3 x4 x5 x6 x7 x8 x9 x10 x11 : α),
      h = pre ++ [x0, x1, x2, x3, x4, x5, x6, x7, x8, x9, x10, x11] ∧
      pre.length = h.length - 12 := by
  have hd : (h.drop (h.length - 12)).length = 12 := by
    rw [List.length_drop]; omega
  refine ⟨h.take (h.length - 12), ?_⟩
  match hl : h.drop (h.length - 12), hd with
  | [x0, x1, x2, x3, x4, x5, x6, x7, x8, x9, x10, x11], _ =>
    refine ⟨x0, x1, x2, x3, x4, x5, x6, x7, x8, x9, x10, x11, ?_, ?_⟩
    · rw [← hl, List.take_append_drop]
    · rw [List.length_take]; omega

theorem isRepetition_eq (c : Chess) (pre : List (Square × Square))
    (x0 x1 x2 x3 x4 x5 x6 x7 x8 x9 x10 x11 : Square × Square)
    (h : c.m_moveDB = pre ++ [x0, x1, x2, x3, x4, x5, x6, x7, x8, x9, x10, x11]) :
    c.isRepetition =
      (decide (x11 = x7) && decide (x7 = x3) && decide (x9 = x5) && decide (x5 = x1) &&
       decide (x10 = x6) && decide (x6 = x2) && decide (x8 = x4) && decide (x4 = x0)) := by
  have hr : (c.m_moveDB.reverse).take 12 =
      [x11, x10, x9, x8, x7, x6, x5, x4, x3, x2, x1, x0] := by
    rw [h, List.reverse_append]
    exact List.take_left' rfl
  unfold isRepetition
  rw [hr]
  simp

end Repetition

/-! ### Positions, collections and the en passant classification -/

section Consistency

open Chess

theorem distinct_iff_nodup {α : Type} [DecidableEq α] (l : List α) :
    distinct l = true ↔ l.Nodup := by
  induction l with
  | nil => simp [distinct]
  | cons x xs ih =>
    simp only [distinct, Bool.and_eq_true, Bool.not_eq_true', List.nodup_cons, ih]
    constructor
    · rintro ⟨h1, h2⟩
      refine ⟨?_, h2⟩
      intro hm
      have : xs.contains x = true := by simpa using hm
      rw [h1] at this
      exact Bool.false_ne_true this
    · rintro ⟨h1, h2⟩
      refine ⟨?_, h2⟩
      cases hc : xs.contains x
      · rfl
      · exact absurd (by simpa using hc) h1

theorem consistent_facts (c : Chess) (h : c.consistent = true) :
    c.flagsCleared = true ∧
    (∀ q, inBoardMap q = true →
      c.m_chessBoard.isSquareOccupied q = c.pieces.any (fun p => decide (p.getPosition = q))) ∧
    (∀ p ∈ c.pieces, inBoardMap p.getPosition = true) ∧
    (c.pieces.map (fun p => p.getPosition)).Nodup ∧
    (c.pieces.map (fun p => p.ptr)).Nodup := by
  unfold consistent at h
  simp only [Bool.and_eq_true, List.all_eq_true, decide_eq_true_eq, distinct_iff_nodup] at h
  obtain ⟨⟨⟨⟨⟨⟨⟨⟨_, hf⟩, hb⟩, hp⟩, _⟩, _⟩, hpos⟩, hptr⟩, _⟩ := h
  refine ⟨hf, ?_, fun p hp1 => (hp p hp1).1, hpos, hptr⟩
  intro q hq
  unfold boardAgrees at hb
  rw [List.all_eq_true] at hb
  have hmem : q ∈ allSquares := by
    obtain ⟨x, y⟩ := q
    rw [inBoardMap_iff] at hq
    dsimp only at hq
    obtain ⟨h1, h2, h3, h4⟩ := hq
    interval_cases x <;> interval_cases y <;> decide
  have := hb q hmem
  simpa using this

end Consistency

section EnPassantClassification

open Chess

theorem isValidMove_enPassant (c : Chess) (s d : Square) (hf : c.flagsCleared = true)
    (hv : (value (c.isValidMove s d)).map (fun r => (r.1, r.2.m_enPassant)) =
      some (true, true)) :
    ∃ p lastMove lastMover,
      c.getPieceFromPosition s = some p ∧ p.getPiece = PIECE.PAWN ∧
      c.m_moveDB.getLast? = some lastMove ∧
      c.getPieceFromPosition lastMove.2 = some lastMover ∧
      lastMover.getPiece = PIECE.PAWN ∧
      (lastMove.1.rank - lastMove.2.rank).natAbs = 2 ∧
      (p.getPosition.file - lastMove.2.file).natAbs = 1 ∧
      p.getPosition.rank = lastMove.2.rank ∧
      c.isValidMove s d = .ok (true, { c with m_enPassant := true }) := by
  unfold flagsCleared at hf
  simp only [Bool.and_eq_true, Bool.not_eq_true'] at hf
  obtain ⟨⟨⟨hf1, hf2⟩, hf3⟩, hf4⟩ := hf
  unfold isValidMove at hv ⊢
  cases hp : c.getPieceFromPosition s with
  | none =>
    rw [hp] at hv
    simp [value] at hv
  | some p =>
    rw [hp] at hv
    simp only at hv ⊢
    unfold isValidMove_rules at hv ⊢
    by_cases h1 : p.isValidMove c.m_chessBoard s d = true
    · simp only [h1, if_true] at hv
      cases hc : c.isValidMove_checks p s d with
      | error e => rw [hc] at hv; simp [value] at hv
      | ok r => rw [hc] at hv; simp [value, hf3] at hv
    · simp only [h1, if_false] at hv ⊢
      by_cases h2 : p.getPiece = PIECE.KING
      · simp only [h2, if_true] at hv
        cases hc : c.canCastle p s d with
        | error e => rw [hc] at hv; simp [value] at hv
        | ok r => rw [hc] at hv; simp [value, hf3] at hv
      · simp only [h2, if_false] at hv ⊢
        by_cases h3 : p.getPiece = PIECE.PAWN
        · simp only [h3, if_true] at hv ⊢
          by_cases h4 : (p.getAttackingSquares c.m_chessBoard).contains d = true
          · simp only [h4, Bool.not_true, Bool.false_eq_true, if_false] at hv ⊢
            by_cases h5 : c.enemyStandsOn p.getColor d = true
            · simp only [h5, if_true, Bool.not_true, Bool.false_eq_true, if_false,
                Bool.false_and] at hv
              cases hc : isValidMove_checks { c with m_activatePawnCapturing := true } p s d with
              | error e => rw [hc] at hv; simp [value] at hv
              | ok r => rw [hc] at hv; simp [value, hf3] at hv
            · simp only [h5, Bool.false_eq_true, if_false, hf2, Bool.not_false, if_true] at hv ⊢
              unfold getLastMove at hv ⊢
              cases hl : c.m_moveDB.getLast? with
              | none => rw [hl] at hv; simp [value] at hv
              | some lastMove =>
                rw [hl] at hv
                simp only at hv ⊢
                by_cases h6 : (!isPawnPtr (c.getPieceFromPosition lastMove.2) ||
                    decide ((lastMove.1.rank - lastMove.2.rank).natAbs ≠ 2) ||
                    decide ((p.getPosition.file - lastMove.2.file).natAbs ≠ 1) ||
                    decide (p.getPosition.rank ≠ lastMove.2.rank)) = true
                · simp only [h6, if_true] at hv
                  simp [value] at hv
                · simp only [h6, if_false, Bool.not_true, Bool.and_false, Bool.false_eq_true]
                    at hv ⊢
                  simp only [Bool.or_eq_true, Bool.not_eq_true', decide_eq_true_eq, not_or,
                    Bool.not_eq_false, ne_eq, not_not] at h6
                  obtain ⟨⟨⟨h61, h62⟩, h63⟩, h64⟩ := h6
                  cases hm : c.getPieceFromPosition lastMove.2 with
                  | none => rw [hm] at h61; simp [isPawnPtr] at h61
                  | some lastMover =>
                    rw [hm] at h61
                    simp only [isPawnPtr, decide_eq_true_eq] at h61
                    refine ⟨p, lastMove, lastMover, rfl, h3, rfl, hm, h61, h62, h63, h64, ?_⟩
                    cases hc : isValidMove_checks
                        { c with m_enPassant := true, m_activatePawnCapturing := false } p s d with
                    | error e => rw [hc] at hv; simp [value] at hv
                    | ok r =>
                      rw [hc] at hv
                      simp only [value, Option.map_some', Option.some.injEq, Prod.mk.injEq,
                        and_true] at hv
                      simp only [hv]
          · simp only [h4, Bool.not_false, if_true] at hv
            simp [value, hf3] at hv
        · simp only [h3, if_false, hf2, hf3] at hv
          simp [value] at hv

end EnPassantClassification

section Collections

open Chess

theorem find?_some_mem {l : List chessPiece} {f : chessPiece → Bool} {p : chessPiece}
    (h : l.find? f = some p) : p ∈ l ∧ f p = true :=
  ⟨List.mem_of_find?_eq_some h, List.find?_some h⟩

theorem getPieceFromPosition_some (c : Chess) (s : Square) (p : chessPiece)
    (h : c.getPieceFromPosition s = some p) : p ∈ c.pieces ∧ p.getPosition = s := by
  unfold getPieceFromPosition at h
  unfold pieces
  cases hw : c.whitePieces.find? (fun p => decide (p.getPosition = s)) with
  | some q =>
    rw [hw] at h
    simp only [Option.some.injEq] at h
    subst h
    obtain ⟨h1, h2⟩ := find?_some_mem hw
    exact ⟨List.mem_append_left _ h1, by simpa using h2⟩
  | none =>
    rw [hw] at h
    simp only at h
    obtain ⟨h1, h2⟩ := find?_some_mem h
    exact ⟨List.mem_append_right _ h1, by simpa using h2⟩

theorem getPieceFromPosition_none (c : Chess) (s : Square) :
    c.getPieceFromPosition s = none ↔ ∀ q ∈ c.pieces, q.getPosition ≠ s := by
  unfold getPieceFromPosition pieces
  cases hw : c.whitePieces.find? (fun p => decide (p.getPosition = s)) with
  | some q =>
    obtain ⟨h1, h2⟩ := find?_some_mem hw
    constructor
    · intro h
      exact absurd h (Option.some_ne_none q)
    · intro h
      exact absurd (by simpa using h2) (h q (List.mem_append_left _ h1))
  | none =>
    simp only [List.find?_eq_none, decide_eq_true_eq, List.mem_append] at hw ⊢
    constructor
    · intro hb q hq
      rcases hq with hq | hq
      · exact hw q hq
      · exact hb q hq
    · intro h q hq
      exact h q (Or.inr hq)

theorem find?_ptr_of_mem (l : List chessPiece) (p : chessPiece)
    (hn : (l.map (fun q => q.ptr)).Nodup) (hp : p ∈ l) :
    l.find? (fun q => decide (q.ptr = p.ptr)) = some p := by
  induction l with
  | nil => exact absurd hp (List.not_mem_nil p)
  | cons x xs ih =>
    rw [List.map_cons, List.nodup_cons] at hn
    rcases List.mem_cons.1 hp with rfl | hp1
    · simp
    · have hne : x.ptr ≠ p.ptr := by
        intro e
        exact hn.1 (e ▸ List.mem_map_of_mem (fun q => q.ptr) hp1)
      rw [List.find?_cons]
      simp only [hne, decide_False]
      exact ih hn.2 hp1

theorem find?_ptr_none (l : List chessPiece) (a : Nat) (h : ∀ q ∈ l, q.ptr ≠ a) :
    l.find? (fun q => decide (q.ptr = a)) = none := by
  simp only [List.find?_eq_none, decide_eq_true_eq]
  exact h

theorem deref_of_mem (c : Chess) (p : chessPiece)
    (hn : (c.pieces.map (fun q => q.ptr)).Nodup) (hp : p ∈ c.pieces) :
    c.deref p.ptr = some p := by
  unfold pieces at hn hp
  rw [List.map_append, List.nodup_append] at hn
  obtain ⟨hw, hb, hd⟩ := hn
  unfold deref
  rcases List.mem_append.1 hp with h | h
  · rw [find?_ptr_of_mem _ p hw h]
  · have : ∀ q ∈ c.whitePieces, q.ptr ≠ p.ptr := by
      intro q hq e
      exact hd (List.mem_map_of_mem (fun q => q.ptr) hq)
        (e ▸ List.mem_map_of_mem (fun q => q.ptr) h)
    rw [find?_ptr_none _ _ this, find?_ptr_of_mem _ p hb h]

theorem storePiece_map_ptr (l : List chessPiece) (q : chessPiece) :
    (storePiece l q).map (fun r => r.ptr) = l.map (fun r => r.ptr) := by
  unfold storePiece
  rw [List.map_map]
  apply List.map_congr_left
  intro r _
  simp only [Function.comp]
  split_ifs with h
  · exact h.symm
  · rfl

theorem mem_storePiece (l : List chessPiece) (q r : chessPiece) :
    r ∈ storePiece l q ↔
      (r ∈ l ∧ r.ptr ≠ q.ptr) ∨ (r = q ∧ ∃ x ∈ l, x.ptr = q.ptr) := by
  unfold storePiece
  rw [List.mem_map]
  constructor
  · rintro ⟨x, hx, rfl⟩
    split_ifs with h
    · exact Or.inr ⟨rfl, x, hx, h⟩
    · exact Or.inl ⟨hx, h⟩
  · rintro (⟨h1, h2⟩ | ⟨rfl, x, hx, h⟩)
    · exact ⟨r, h1, by simp [h2]⟩
    · exact ⟨x, hx, by simp [h]⟩

theorem eraseP_ptr_eq_filter (l : List chessPiece) (a : Nat)
    (hn : (l.map (fun q => q.ptr)).Nodup) :
    l.eraseP (fun r => decide (r.ptr = a)) = l.filter (fun r => decide (r.ptr ≠ a)) := by
  induction l with
  | nil => rfl
  | cons x xs ih =>
    rw [List.map_cons, List.nodup_cons] at hn
    by_cases h : x.ptr = a
    · rw [List.eraseP_cons_of_pos (by simpa using h), List.filter_cons_of_neg (by simpa using h)]
      symm
      rw [List.filter_eq_self]
      intro q hq
      simp only [ne_eq, decide_eq_true_eq, decide_not, Bool.not_eq_true', decide_eq_false_iff_not]
      intro e
      exact hn.1 (h ▸ e ▸ List.mem_map_of_mem (fun q => q.ptr) hq)
    · rw [List.eraseP_cons_of_neg (by simpa using h), List.filter_cons_of_pos (by simpa using h),
        ih hn.2]

theorem mem_eraseP_ptr (l : List chessPiece) (a : Nat) (r : chessPiece)
    (hn : (l.map (fun q => q.ptr)).Nodup) :
    r ∈ l.eraseP (fun r => decide (r.ptr = a)) ↔ r ∈ l ∧ r.ptr ≠ a := by
  rw [eraseP_ptr_eq_filter l a hn, List.mem_filter]
  simp

end Collections

section MoveEffects

open Chess

theorem movePiece_pawn (c : Chess) (q : chessPiece) (dst : Square)
    (hd : c.deref q.ptr = some q) (hk : q.getPiece = PIECE.PAWN)
    (hdst : inBoardMap dst = true) (hsrc : inBoardMap q.getPosition = true) :
    c.movePiece (some q.ptr) dst = .ok
      { c with
        m_chessBoard := ⟨fun x => if x = q.getPosition then emptyCell
          else if x = dst then chessPiece.glyph q.getColor PIECE.PAWN
          else c.m_chessBoard.cell x⟩,
        whitePieces := storePiece c.whitePieces { q with m_position := dst, m_firstMove := false },
        blackPieces := storePiece c.blackPieces { q with m_position := dst, m_firstMove := false } } := by
  unfold chessPiece.getPiece at hk
  unfold chessPiece.getPosition at hsrc
  simp only [movePiece, hd, chessPiece.move, chessPiece.setPosition, chessBoard.write, hdst,
    hsrc, if_true, hk, chessPiece.getPosition, chessPiece.getColor]

theorem erasePiece_some (c : Chess) (d : chessPiece) (what : String)
    (hn : (c.pieces.map (fun q => q.ptr)).Nodup) (hex : ∃ r ∈ c.pieces, r.ptr = d.ptr) :
    c.erasePiece (some d) what = .ok
      { c with
        whitePieces := c.whitePieces.eraseP (fun r => decide (r.ptr = d.ptr)),
        blackPieces := c.blackPieces.eraseP (fun r => decide (r.ptr = d.ptr)) } := by
  unfold pieces at hn hex
  rw [List.map_append, List.nodup_append] at hn
  obtain ⟨_, _, hdis⟩ := hn
  unfold erasePiece
  by_cases hw : c.whitePieces.any (fun r => decide (r.ptr = d.ptr)) = true
  · simp only [hw, if_true]
    have hb : c.blackPieces.eraseP (fun r => decide (r.ptr = d.ptr)) = c.blackPieces := by
      apply List.eraseP_of_forall_not
      intro r hr
      simp only [decide_eq_true_eq]
      intro e
      rw [List.any_eq_true] at hw
      obtain ⟨x, hx, hxe⟩ := hw
      simp only [decide_eq_true_eq] at hxe
      exact hdis (List.mem_map_of_mem (fun q => q.ptr) hx)
        (by rw [hxe, ← e]; exact List.mem_map_of_mem (fun q => q.ptr) hr)
    rw [hb]
  · have hw2 : c.whitePieces.eraseP (fun r => decide (r.ptr = d.ptr)) = c.whitePieces := by
      apply List.eraseP_of_forall_not
      intro r hr hre
      exact hw (List.any_eq_true.2 ⟨r, hr, hre⟩)
    have hb : c.blackPieces.any (fun r => decide (r.ptr = d.ptr)) = true := by
      obtain ⟨r, hr, hre⟩ := hex
      rcases List.mem_append.1 hr with h | h
      · exact absurd (List.any_eq_true.2 ⟨r, h, by simpa using hre⟩) hw
      · exact List.any_eq_true.2 ⟨r, h, by simpa using hre⟩
    simp only [hw, hb, if_true, Bool.false_eq_true, if_false]
    rw [hw2]

theorem performPromotion_not_far (c : Chess) (p : chessPiece)
    (hd : c.deref p.ptr = some p)
    (h : 49 < p.getPosition.rank ∧ p.getPosition.rank < 56) :
    c.performPromotion p.ptr = .ok c := by
  unfold performPromotion
  rw [hd]
  have h1 : ¬ (p.getColor = COLOR.WHITE ∧ p.getPosition.rank = 56) := by omega
  have h2 : ¬ (p.getColor = COLOR.BLACK ∧ p.getPosition.rank = 49) := by omega
  simp only [h1, h2, if_false]

theorem performPawnCapture_enPassant (c : Chess) (s d a b : Square) (p lm : chessPiece)
    (he : c.m_enPassant = true)
    (hn : (c.pieces.map (fun q => q.ptr)).Nodup)
    (hpos : ∀ q ∈ c.pieces, inBoardMap q.getPosition = true)
    (hp : c.getPieceFromPosition s = some p) (hk : p.getPiece = PIECE.PAWN)
    (hl : c.m_moveDB.getLast? = some (a, b))
    (hm : c.getPieceFromPosition b = some lm)
    (hmid : inBoardMap ⟨b.file, Int.tdiv (b.rank + a.rank) 2⟩ = true) :
    c.performPawnCapture s d = .ok
      { c with
        m_chessBoard := ⟨fun x => if x = b then emptyCell
          else if x = s then emptyCell
          else if x = ⟨b.file, Int.tdiv (b.rank + a.rank) 2⟩ then
            chessPiece.glyph p.getColor PIECE.PAWN
          else c.m_chessBoard.cell x⟩,
        whitePieces := (storePiece c.whitePieces
            { p with m_position := ⟨b.file, Int.tdiv (b.rank + a.rank) 2⟩,
                     m_firstMove := false }).eraseP (fun r => decide (r.ptr = lm.ptr)),
        blackPieces := (storePiece c.blackPieces
            { p with m_position := ⟨b.file, Int.tdiv (b.rank + a.rank) 2⟩,
                     m_firstMove := false }).eraseP (fun r => decide (r.ptr = lm.ptr)),
        m_enPassant := false } := by
  obtain ⟨hpmem, hps⟩ := getPieceFromPosition_some c s p hp
  obtain ⟨hlmem, hlb⟩ := getPieceFromPosition_some c b lm hm
  have hd := deref_of_mem c p hn hpmem
  have hsrc : inBoardMap p.getPosition = true := hpos p hpmem
  have hb : inBoardMap b = true := hlb ▸ hpos lm hlmem
  have hmove := movePiece_pawn c p ⟨b.file, Int.tdiv (b.rank + a.rank) 2⟩ hd hk hmid hsrc
  unfold performPawnCapture
  simp only [he, if_true, getLastMove, hl, hp, hm, Option.map_some', hmove]
  rw [erasePiece_some]
  · simp only [chessBoard.write, hb, if_true, hps]
  · simp only [pieces, List.map_append, storePiece_map_ptr]
    simpa only [pieces, List.map_append] using hn
  · simp only [pieces]
    have : lm.ptr ∈ (c.whitePieces ++ c.blackPieces).map (fun q => q.ptr) :=
      List.mem_map_of_mem (fun q => q.ptr) hlmem
    rw [List.map_append, ← storePiece_map_ptr c.whitePieces
        { p with m_position := ⟨b.file, Int.tdiv (b.rank + a.rank) 2⟩, m_firstMove := false },
      ← storePiece_map_ptr c.blackPieces
        { p with m_position := ⟨b.file, Int.tdiv (b.rank + a.rank) 2⟩, m_firstMove := false },
      ← List.map_append, List.mem_map] at this
    obtain ⟨r, hr, hre⟩ := this
    exact ⟨r, hr, hre⟩

theorem nodup_ptr_split (W B : List chessPiece)
    (hn : ((W ++ B).map (fun q => q.ptr)).Nodup) :
    (W.map (fun q => q.ptr)).Nodup ∧ (B.map (fun q => q.ptr)).Nodup := by
  rw [List.map_append, List.nodup_append] at hn
  exact ⟨hn.1, hn.2.1⟩

theorem after_capture_nodup (W0 B0 : List chessPiece) (p1 : chessPiece) (x : Nat)
    (hn : ((W0 ++ B0).map (fun q => q.ptr)).Nodup) :
    ((((storePiece W0 p1).eraseP (fun r => decide (r.ptr = x))) ++
      ((storePiece B0 p1).eraseP (fun r => decide (r.ptr = x)))).map (fun q => q.ptr)).Nodup := by
  have hsub : List.Sublist
      ((((storePiece W0 p1).eraseP (fun r => decide (r.ptr = x))) ++
        ((storePiece B0 p1).eraseP (fun r => decide (r.ptr = x)))).map (fun q => q.ptr))
      ((W0 ++ B0).map (fun q => q.ptr)) := by
    have h1 := List.Sublist.append (List.eraseP_sublist (storePiece W0 p1)
      (p := fun r => decide (r.ptr = x)))
      (List.eraseP_sublist (storePiece B0 p1) (p := fun r => decide (r.ptr = x)))
    have h2 := List.Sublist.map (fun q : chessPiece => q.ptr) h1
    have e : (storePiece W0 p1 ++ storePiece B0 p1).map (fun q => q.ptr) =
        (W0 ++ B0).map (fun q => q.ptr) := by
      rw [List.map_append, storePiece_map_ptr, storePiece_map_ptr, List.map_append]
    rw [e] at h2
    exact h2
  exact List.Nodup.sublist hsub hn

theorem after_capture_mem (W0 B0 : List chessPiece) (p p1 : chessPiece) (x : Nat)
    (hn : ((W0 ++ B0).map (fun q => q.ptr)).Nodup) (hp : p ∈ W0 ++ B0)
    (hptr : p1.ptr = p.ptr) (hne : x ≠ p.ptr) :
    p1 ∈ ((storePiece W0 p1).eraseP (fun r => decide (r.ptr = x))) ++
      ((storePiece B0 p1).eraseP (fun r => decide (r.ptr = x))) := by
  obtain ⟨hw, hb⟩ := nodup_ptr_split W0 B0 hn
  rw [List.mem_append]
  rcases List.mem_append.1 hp with h | h
  · left
    rw [mem_eraseP_ptr _ _ _ (by rw [storePiece_map_ptr]; exact hw), mem_storePiece]
    exact ⟨Or.inr ⟨rfl, p, h, hptr.symm⟩, by rw [hptr]; exact fun e => hne e.symm⟩
  · right
    rw [mem_eraseP_ptr _ _ _ (by rw [storePiece_map_ptr]; exact hb), mem_storePiece]
    exact ⟨Or.inr ⟨rfl, p, h, hptr.symm⟩, by rw [hptr]; exact fun e => hne e.symm⟩

theorem move_enPassant (c : Chess) (s d a b : Square) (p lm : chessPiece)
    (hn : (c.pieces.map (fun q => q.ptr)).Nodup)
    (hpos : ∀ q ∈ c.pieces, inBoardMap q.getPosition = true)
    (hp : c.getPieceFromPosition s = some p) (hk : p.getPiece = PIECE.PAWN)
    (hl : c.m_moveDB.getLast? = some (a, b))
    (hm : c.getPieceFromPosition b = some lm)
    (hmid : inBoardMap ⟨b.file, Int.tdiv (b.rank + a.rank) 2⟩ = true)
    (hrank : 49 < Int.tdiv (b.rank + a.rank) 2 ∧ Int.tdiv (b.rank + a.rank) 2 < 56)
    (hne : lm.ptr ≠ p.ptr) :
    ∃ c2, Chess.move { c with m_enPassant := true } s d = .ok c2 ∧
      c2.m_chessBoard = ⟨fun x => if x = b then emptyCell
          else if x = s then emptyCell
          else if x = ⟨b.file, Int.tdiv (b.rank + a.rank) 2⟩ then
            chessPiece.glyph p.getColor PIECE.PAWN
          else c.m_chessBoard.cell x⟩ ∧
      c2.whitePieces = (storePiece c.whitePieces
            { p with m_position := ⟨b.file, Int.tdiv (b.rank + a.rank) 2⟩,
                     m_firstMove := false }).eraseP (fun r => decide (r.ptr = lm.ptr)) ∧
      c2.blackPieces = (storePiece c.blackPieces
            { p with m_position := ⟨b.file, Int.tdiv (b.rank + a.rank) 2⟩,
                     m_firstMove := false }).eraseP (fun r => decide (r.ptr = lm.ptr)) ∧
      c2.m_moveDB = c.m_moveDB := by
  obtain ⟨hpmem, hps⟩ := getPieceFromPosition_some c s p hp
  have hkk : ¬ p.getPiece = PIECE.KING := by rw [hk]; decide
  have hp1 : Chess.getPieceFromPosition { c with m_enPassant := true } s = some p := hp
  have hprom : ∀ c3 : Chess,
      c3.whitePieces = (storePiece c.whitePieces
        { p with m_position := ⟨b.file, Int.tdiv (b.rank + a.rank) 2⟩,
                 m_firstMove := false }).eraseP (fun r => decide (r.ptr = lm.ptr)) →
      c3.blackPieces = (storePiece c.blackPieces
        { p with m_position := ⟨b.file, Int.tdiv (b.rank + a.rank) 2⟩,
                 m_firstMove := false }).eraseP (fun r => decide (r.ptr = lm.ptr)) →
      c3.performPromotion p.ptr = .ok c3 := by
    intro c3 hw hb
    apply performPromotion_not_far c3
      { p with m_position := ⟨b.file, Int.tdiv (b.rank + a.rank) 2⟩, m_firstMove := false }
    · apply deref_of_mem
      · unfold pieces
        rw [hw, hb]
        exact after_capture_nodup _ _ _ _ hn
      · unfold pieces
        rw [hw, hb]
        exact after_capture_mem _ _ p _ _ hn hpmem rfl hne
    · exact hrank
  have hpk : decide (PIECE.PAWN = PIECE.KING) = false := by decide
  have hpp : decide (PIECE.PAWN = PIECE.PAWN) = true := by decide
  unfold Chess.move
  rw [hp1]
  simp only [hk, hpk, hpp, decide_True, decide_False, Bool.true_and, Bool.false_and,
    Bool.false_eq_true, if_false]
  by_cases hfar : (decide (d.rank = 56) || decide (d.rank = 49)) = true
  · simp only [hfar, if_true, Bool.or_true, eq_self_iff_true]
    rw [performPawnCapture_enPassant { c with m_enPassant := true, m_activatePromotion := true }
      s d a b p lm rfl hn hpos hp hk hl hm hmid]
    simp only [if_true]
    refine ⟨_, hprom _ rfl rfl, rfl, rfl, rfl, rfl⟩
  · simp only [hfar, Bool.false_eq_true, if_false, if_true, Bool.or_true, eq_self_iff_true]
    rw [performPawnCapture_enPassant { c with m_enPassant := true }
      s d a b p lm rfl hn hpos hp hk hl hm hmid]
    by_cases hflag : c.m_activatePromotion = true
    · simp only [hflag, if_true]
      refine ⟨_, hprom _ rfl rfl, rfl, rfl, rfl, rfl⟩
    · simp only [hflag, Bool.false_eq_true, if_false]
      exact ⟨_, rfl, rfl, rfl, rfl, rfl⟩

end MoveEffects

section CaptureEffects

open Chess

theorem mem_after_capture (l : List chessPiece) (p1 : chessPiece) (x : Nat) (q : chessPiece)
    (hn : (l.map (fun r => r.ptr)).Nodup) :
    q ∈ (storePiece l p1).eraseP (fun r => decide (r.ptr = x)) ↔
      ((q ∈ l ∧ q.ptr ≠ p1.ptr) ∨ (q = p1 ∧ ∃ y ∈ l, y.ptr = p1.ptr)) ∧ q.ptr ≠ x := by
  rw [mem_eraseP_ptr _ _ _ (by rw [storePiece_map_ptr]; exact hn), mem_storePiece]

theorem midway_rank (a b : Int) (ha : 49 ≤ a ∧ a ≤ 56) (hb : 49 ≤ b ∧ b ≤ 56)
    (h : (a - b).natAbs = 2) :
    49 < Int.tdiv (b + a) 2 ∧ Int.tdiv (b + a) 2 < 56 ∧ Int.tdiv (b + a) 2 ≠ b := by
  rw [Int.tdiv_eq_ediv (by omega) (by decide)]
  omega

end CaptureEffects

section OwnColour

open Chess

theorem consistent_sides (c : Chess) (h : c.consistent = true) :
    c.kingFirst = true ∧
    (∀ p ∈ c.whitePieces, p.getColor = COLOR.WHITE) ∧
    (∀ p ∈ c.blackPieces, p.getColor = COLOR.BLACK) ∧
    (∀ p ∈ c.pieces, p.ptr < c.heapNext) := by
  unfold consistent at h
  simp only [Bool.and_eq_true, List.all_eq_true, decide_eq_true_eq] at h
  obtain ⟨⟨⟨⟨⟨⟨⟨⟨hk, _⟩, _⟩, _⟩, hw⟩, hb⟩, _⟩, _⟩, hh⟩ := h
  exact ⟨hk, hw, hb, hh⟩

theorem kingFirst_nonempty (c : Chess) (h : c.kingFirst = true) :
    c.whitePieces ≠ [] ∧ c.blackPieces ≠ [] := by
  obtain ⟨wk, wr, hw, _⟩ := kingFirst_white h
  obtain ⟨bk, br, hb, _⟩ := kingFirst_black h
  rw [hw, hb]
  exact ⟨List.cons_ne_nil _ _, List.cons_ne_nil _ _⟩

theorem getWhiteKingAttackers_total (c : Chess) (hw : c.whitePieces ≠ [])
    (hb : c.blackPieces ≠ []) : ∃ r, c.getWhiteKingAttackers = .ok r := by
  unfold getWhiteKingAttackers
  cases h1 : c.whitePieces with
  | nil => exact absurd h1 hw
  | cons k ws =>
    cases h2 : c.blackPieces with
    | nil => exact absurd h2 hb
    | cons k2 bs => exact ⟨_, rfl⟩

theorem getBlackKingAttackers_total (c : Chess) (hw : c.whitePieces ≠ [])
    (hb : c.blackPieces ≠ []) : ∃ r, c.getBlackKingAttackers = .ok r := by
  unfold getBlackKingAttackers
  cases h2 : c.blackPieces with
  | nil => exact absurd h2 hb
  | cons k2 bs =>
    cases h1 : c.whitePieces with
    | nil => exact absurd h1 hw
    | cons k ws => exact ⟨_, rfl⟩

theorem kingDestinationAttacked_total (c : Chess) (p : chessPiece) (d : Square)
    (hw : c.whitePieces ≠ []) (hb : c.blackPieces ≠ []) :
    ∃ r, c.kingDestinationAttacked p d = .ok r := by
  unfold kingDestinationAttacked
  by_cases h1 : p.getPiece ≠ PIECE.KING
  · rw [if_pos h1]
    exact ⟨_, rfl⟩
  · rw [if_neg h1]
    cases p.getColor with
    | WHITE =>
      simp only
      by_cases h2 : c.isSquareUnderAttackByBlackPieces d = true
      · rw [if_pos h2]
        exact ⟨_, rfl⟩
      · rw [if_neg h2]
        obtain ⟨r, hr⟩ := getWhiteKingAttackers_total c hw hb
        rw [hr]
        exact ⟨_, rfl⟩
    | BLACK =>
      simp only
      by_cases h2 : c.isSquareUnderAttackByWhitePieces d = true
      · rw [if_pos h2]
        exact ⟨_, rfl⟩
      · rw [if_neg h2]
        obtain ⟨r, hr⟩ := getBlackKingAttackers_total c hw hb
        rw [hr]
        exact ⟨_, rfl⟩

theorem isValidMove_checks_own (c : Chess) (p q : chessPiece) (s d : Square)
    (hw : c.whitePieces ≠ []) (hb : c.blackPieces ≠ [])
    (hq : c.getPieceFromPosition d = some q) (hcol : p.getColor = q.getColor) :
    c.isValidMove_checks p s d = .ok false := by
  unfold isValidMove_checks
  split_ifs with h1
  · rfl
  · obtain ⟨r, hr⟩ := kingDestinationAttacked_total c p d hw hb
    rw [hr]
    cases r with
    | true => rfl
    | false =>
      simp only [hq, hcol, decide_True, if_true]

theorem canCastle_total (c : Chess) (p : chessPiece) (s d : Square)
    (hw : c.whitePieces ≠ []) (hb : c.blackPieces ≠ []) :
    ∃ r, c.canCastle p s d = .ok r := by
  unfold canCastle
  by_cases h1 : p.getPiece ≠ PIECE.KING
  · rw [if_pos h1]
    exact ⟨_, rfl⟩
  · rw [if_neg h1]
    cases p.getColor with
    | WHITE =>
      obtain ⟨r, hr⟩ := isWhiteKingUnderAttack_total c hw hb
      simp only [hr]
      split_ifs <;> exact ⟨_, rfl⟩
    | BLACK =>
      obtain ⟨r, hr⟩ := isBlackKingUnderAttack_total c hw hb
      simp only [hr]
      split_ifs <;> exact ⟨_, rfl⟩

theorem canCastle_true_unoccupied (c : Chess) (p : chessPiece) (s d : Square)
    (h : c.canCastle p s d = .ok true) : c.m_chessBoard.isSquareOccupied d = false := by
  unfold canCastle at h
  by_cases hN : p.getPiece ≠ PIECE.KING
  · rw [if_pos hN] at h
    simp at h
  rw [if_neg hN] at h
  cases hcol : p.getColor with
  | WHITE =>
    rw [hcol] at h
    simp only at h
    cases hr : c.isWhiteKingUnderAttack with
    | error e => rw [hr] at h; simp at h
    | ok r =>
      rw [hr] at h
      simp only at h
      by_cases hA : (r || !p.isFirstMove) = true
      · rw [if_pos hA] at h
        simp at h
      · rw [if_neg hA] at h
        by_cases hB : d = g1 ∧
            (c.m_chessBoard.isSquareOccupied f1 || c.m_chessBoard.isSquareOccupied g1 ||
             c.isSquareUnderAttackByBlackPieces f1 || c.isSquareUnderAttackByBlackPieces g1) = true
        · rw [if_pos hB] at h
          simp at h
        · rw [if_neg hB] at h
          by_cases hC : d = g1 ∧ (c.rookStandsOn h1 && p.isFirstMove) = true
          · simp only [not_and, Bool.or_eq_true, not_or, Bool.not_eq_true] at hB
            rw [hC.1]
            exact (hB hC.1).1.1.2
          · rw [if_neg hC] at h
            by_cases hD : d = c1 ∧
                (c.m_chessBoard.isSquareOccupied d1 || c.m_chessBoard.isSquareOccupied c1 ||
                 c.m_chessBoard.isSquareOccupied b1 || c.isSquareUnderAttackByBlackPieces d1 ||
                 c.isSquareUnderAttackByBlackPieces c1) = true
            · rw [if_pos hD] at h
              simp at h
            · rw [if_neg hD] at h
              by_cases hE : d = c1 ∧ (c.rookStandsOn a1 && p.isFirstMove) = true
              · simp only [not_and, Bool.or_eq_true, not_or, Bool.not_eq_true] at hD
                rw [hE.1]
                exact (hD hE.1).1.1.1.2
              · rw [if_neg hE] at h
                simp at h
  | BLACK =>
    rw [hcol] at h
    simp only at h
    cases hr : c.isBlackKingUnderAttack with
    | error e => rw [hr] at h; simp at h
    | ok r =>
      rw [hr] at h
      simp only at h
      by_cases hA : (r || !p.isFirstMove) = true
      · rw [if_pos hA] at h
        simp at h
      · rw [if_neg hA] at h
        by_cases hB : d = g8 ∧
            (c.m_chessBoard.isSquareOccupied f8 || c.m_chessBoard.isSquareOccupied g8 ||
             c.isSquareUnderAttackByWhitePieces f8 || c.isSquareUnderAttackByWhitePieces g8) = true
        · rw [if_pos hB] at h
          simp at h
        · rw [if_neg hB] at h
          by_cases hC : d = g8 ∧ (c.rookStandsOn h8 && p.isFirstMove) = true
          · simp only [not_and, Bool.or_eq_true, not_or, Bool.not_eq_true] at hB
            rw [hC.1]
            exact (hB hC.1).1.1.2
          · rw [if_neg hC] at h
            by_cases hD : d = c8 ∧
                (c.m_chessBoard.isSquareOccupied d8 || c.m_chessBoard.isSquareOccupied c8 ||
                 c.m_chessBoard.isSquareOccupied b8 || c.isSquareUnderAttackByWhitePieces d8 ||
                 c.isSquareUnderAttackByWhitePieces c8) = true
            · rw [if_pos hD] at h
              simp at h
            · rw [if_neg hD] at h
              by_cases hE : d = c8 ∧ (c.rookStandsOn a8 && p.isFirstMove) = true
              · simp only [not_and, Bool.or_eq_true, not_or, Bool.not_eq_true] at hD
                rw [hE.1]
                exact (hD hE.1).1.1.1.2
              · rw [if_neg hE] at h
                simp at h

end OwnColour

section Frames

open Chess

theorem sameButFlags_refl (c : Chess) : sameButFlags c c := ⟨rfl, rfl, rfl, rfl, rfl⟩

theorem sameButFlags_trans {c c1 c2 : Chess} (h1 : sameButFlags c c1)
    (h2 : sameButFlags c1 c2) : sameButFlags c c2 := by
  obtain ⟨a1, a2, a3, a4, a5⟩ := h1
  obtain ⟨b1, b2, b3, b4, b5⟩ := h2
  exact ⟨b1.trans a1, b2.trans a2, b3.trans a3, b4.trans a4, b5.trans a5⟩

theorem isValidMove_rules_frame (c : Chess) (p : chessPiece) (s d : Square)
    (r : Option Bool) (c1 : Chess) (h : c.isValidMove_rules p s d = .ok (r, c1)) :
    sameButFlags c c1 := by
  unfold isValidMove_rules getLastMove at h
  dsimp only at h
  repeat' split at h
  all_goals (cases h <;> exact ⟨rfl, rfl, rfl, rfl, rfl⟩)

theorem isValidMove_frame (c : Chess) (s d : Square) (r : Bool) (c1 : Chess)
    (h : c.isValidMove s d = .ok (r, c1)) : sameButFlags c c1 := by
  unfold isValidMove at h
  cases hp : c.getPieceFromPosition s with
  | none =>
    rw [hp] at h
    cases h
    exact sameButFlags_refl c
  | some p =>
    rw [hp] at h
    dsimp only at h
    cases hr : c.isValidMove_rules p s d with
    | error e => rw [hr] at h; cases h
    | ok x =>
      obtain ⟨o, c0⟩ := x
      have hf := isValidMove_rules_frame c p s d o c0 hr
      rw [hr] at h
      cases o with
      | some b =>
        cases h
        exact hf
      | none =>
        dsimp only at h
        cases hc : c0.isValidMove_checks p s d with
        | error e => rw [hc] at h; cases h
        | ok b =>
          rw [hc] at h
          cases h
          exact hf

theorem tryDestinations_frame (source : Square) :
    ∀ (l : List Square) (c : Chess) (r : Bool) (c1 : Chess),
      tryDestinations source c l = .ok (r, c1) → sameButFlags c c1 := by
  intro l
  induction l with
  | nil =>
    intro c r c1 h
    unfold tryDestinations at h
    cases h
    exact sameButFlags_refl c
  | cons d rest ih =>
    intro c r c1 h
    unfold tryDestinations at h
    cases hv : c.isValidMove source d with
    | error e => rw [hv] at h; cases h
    | ok x =>
      obtain ⟨b, c0⟩ := x
      have hf := isValidMove_frame c source d b c0 hv
      rw [hv] at h
      cases b with
      | true => cases h; exact hf
      | false => exact sameButFlags_trans hf (ih c0 r c1 h)

theorem tryEliminate_frame (source attackerPosition : Square) (attackingPath : List Square) :
    ∀ (l : List Square) (c : Chess) (r : Bool) (c1 : Chess),
      tryEliminate source attackerPosition attackingPath c l = .ok (r, c1) →
        sameButFlags c c1 := by
  intro l
  induction l with
  | nil =>
    intro c r c1 h
    unfold tryEliminate at h
    cases h
    exact sameButFlags_refl c
  | cons sq rest ih =>
    intro c r c1 h
    unfold tryEliminate at h
    dsimp only at h
    have hfirst : ∀ x, (if sq = attackerPosition then c.isValidMove source sq
        else Except.ok (false, c)) = .ok x → sameButFlags c x.2 := by
      intro x hx
      split_ifs at hx
      · exact isValidMove_frame c source sq x.1 x.2 hx
      · cases hx; exact sameButFlags_refl c
    cases h1 : (if sq = attackerPosition then c.isValidMove source sq
        else Except.ok (false, c)) with
    | error e => rw [h1] at h; cases h
    | ok x =>
      obtain ⟨b, c0⟩ := x
      have hf := hfirst _ h1
      rw [h1] at h
      cases b with
      | true => cases h; exact hf
      | false =>
        dsimp only at h
        have hsecond : ∀ y, (if (!attackingPath.isEmpty && attackingPath.contains sq) = true
            then c0.isValidMove source sq else Except.ok (false, c0)) = .ok y →
            sameButFlags c0 y.2 := by
          intro y hy
          split_ifs at hy
          · exact isValidMove_frame c0 source sq y.1 y.2 hy
          · cases hy; exact sameButFlags_refl c0
        cases h2 : (if (!attackingPath.isEmpty && attackingPath.contains sq) = true
            then c0.isValidMove source sq else Except.ok (false, c0)) with
        | error e => rw [h2] at h; cases h
        | ok y =>
          obtain ⟨b2, c00⟩ := y
          have hf2 := hsecond _ h2
          rw [h2] at h
          cases b2 with
          | true => cases h; exact sameButFlags_trans hf hf2
          | false =>
            exact sameButFlags_trans hf (sameButFlags_trans hf2 (ih c00 r c1 h))

theorem tryEliminateAll_frame (attackerPosition : Square) (attackingPath : List Square) :
    ∀ (l : List chessPiece) (c : Chess) (r : Bool) (c1 : Chess),
      tryEliminateAll attackerPosition attackingPath c l = .ok (r, c1) →
        sameButFlags c c1 := by
  intro l
  induction l with
  | nil =>
    intro c r c1 h
    unfold tryEliminateAll at h
    cases h
    exact sameButFlags_refl c
  | cons q rest ih =>
    intro c r c1 h
    unfold tryEliminateAll at h
    cases h1 : tryEliminate q.getPosition attackerPosition attackingPath c
        (c.candidateSquares q) with
    | error e => rw [h1] at h; cases h
    | ok x =>
      obtain ⟨b, c0⟩ := x
      have hf := tryEliminate_frame _ _ _ _ c b c0 h1
      rw [h1] at h
      cases b with
      | true => cases h; exact hf
      | false => exact sameButFlags_trans hf (ih c0 r c1 h)

theorem eliminateAttacker_frame (c : Chess) (attackers : List chessPiece) (kingPos : Square)
    (ownRest : List chessPiece) (r : Bool) (c1 : Chess)
    (h : c.eliminateAttacker attackers kingPos ownRest = .ok (r, c1)) :
    sameButFlags c c1 := by
  unfold eliminateAttacker at h
  split at h
  · cases h
  · split at h
    · cases h
    · exact tryEliminateAll_frame _ _ _ c r c1 h
  · cases h
    exact sameButFlags_refl c

theorem anyPieceCanMove_frame :
    ∀ (l : List chessPiece) (c : Chess) (r : Bool) (c1 : Chess),
      anyPieceCanMove c l = .ok (r, c1) → sameButFlags c c1 := by
  intro l
  induction l with
  | nil =>
    intro c r c1 h
    unfold anyPieceCanMove at h
    cases h
    exact sameButFlags_refl c
  | cons q rest ih =>
    intro c r c1 h
    unfold anyPieceCanMove at h
    cases h1 : tryDestinations q.getPosition c (c.candidateSquares q) with
    | error e => rw [h1] at h; cases h
    | ok x =>
      obtain ⟨b, c0⟩ := x
      have hf := tryDestinations_frame _ _ c b c0 h1
      rw [h1] at h
      cases b with
      | true => cases h; exact hf
      | false => exact sameButFlags_trans hf (ih c0 r c1 h)

theorem whiteKingCheckCanBeEliminated_frame (c : Chess) (r : Bool) (c1 : Chess)
    (h : c.whiteKingCheckCanBeEliminated = .ok (r, c1)) : sameButFlags c c1 := by
  unfold whiteKingCheckCanBeEliminated at h
  split at h
  · cases h
  · rename_i king ownRest _
    cases h1 : tryDestinations king.getPosition c (king.getAttackingSquares c.m_chessBoard) with
    | error e => rw [h1] at h; cases h
    | ok x =>
      obtain ⟨b, c0⟩ := x
      have hf := tryDestinations_frame _ _ c b c0 h1
      rw [h1] at h
      cases b with
      | true => cases h; exact hf
      | false =>
        dsimp only at h
        cases h2 : c0.getWhiteKingAttackers with
        | error e => rw [h2] at h; cases h
        | ok attackers =>
          rw [h2] at h
          exact sameButFlags_trans hf (eliminateAttacker_frame c0 _ _ _ r c1 h)

theorem blackKingCheckCanBeEliminated_frame (c : Chess) (r : Bool) (c1 : Chess)
    (h : c.blackKingCheckCanBeEliminated = .ok (r, c1)) : sameButFlags c c1 := by
  unfold blackKingCheckCanBeEliminated at h
  split at h
  · cases h
  · rename_i king ownRest _
    cases h1 : tryDestinations king.getPosition c (king.getAttackingSquares c.m_chessBoard) with
    | error e => rw [h1] at h; cases h
    | ok x =>
      obtain ⟨b, c0⟩ := x
      have hf := tryDestinations_frame _ _ c b c0 h1
      rw [h1] at h
      cases b with
      | true => cases h; exact hf
      | false =>
        dsimp only at h
        cases h2 : c0.getBlackKingAttackers with
        | error e => rw [h2] at h; cases h
        | ok attackers =>
          rw [h2] at h
          exact sameButFlags_trans hf (eliminateAttacker_frame c0 _ _ _ r c1 h)

theorem isWhiteCheckMated_frame (c : Chess) (r : Bool) (c1 : Chess)
    (h : c.isWhiteCheckMated = .ok (r, c1)) : sameButFlags c c1 := by
  unfold isWhiteCheckMated at h
  cases h0 : c.isWhiteKingUnderAttack with
  | error e => rw [h0] at h; cases h
  | ok a =>
    rw [h0] at h
    cases a with
    | false => cases h; exact sameButFlags_refl c
    | true =>
      dsimp only at h
      cases h1 : c.whiteKingCheckCanBeEliminated with
      | error e => rw [h1] at h; cases h
      | ok x =>
        obtain ⟨b, c0⟩ := x
        have hf := whiteKingCheckCanBeEliminated_frame c b c0 h1
        rw [h1] at h
        cases h
        exact hf

theorem isWhiteStalemate_frame (c : Chess) (r : Bool) (c1 : Chess)
    (h : c.isWhiteStalemate = .ok (r, c1)) : sameButFlags c c1 := by
  unfold isWhiteStalemate at h
  cases h0 : c.isWhiteKingUnderAttack with
  | error e => rw [h0] at h; cases h
  | ok a =>
    rw [h0] at h
    cases a with
    | true => cases h; exact sameButFlags_refl c
    | false =>
      dsimp only at h
      cases h1 : anyPieceCanMove c c.whitePieces with
      | error e => rw [h1] at h; cases h
      | ok x =>
        obtain ⟨b, c0⟩ := x
        have hf := anyPieceCanMove_frame _ c b c0 h1
        rw [h1] at h
        cases h
        exact hf

theorem isBlackCheckMated_frame (c : Chess) (r : Bool) (c1 : Chess)
    (h : c.isBlackCheckMated = .ok (r, c1)) : sameButFlags c c1 := by
  unfold isBlackCheckMated at h
  cases h0 : c.isBlackKingUnderAttack with
  | error e => rw [h0] at h; cases h
  | ok a =>
    rw [h0] at h
    cases a with
    | false => cases h; exact sameButFlags_refl c
    | true =>
      dsimp only at h
      cases h1 : c.blackKingCheckCanBeEliminated with
      | error e => rw [h1] at h; cases h
      | ok x =>
        obtain ⟨b, c0⟩ := x
        have hf := blackKingCheckCanBeEliminated_frame c b c0 h1
        rw [h1] at h
        cases h
        exact hf

theorem isBlackStalemate_frame (c : Chess) (r : Bool) (c1 : Chess)
    (h : c.isBlackStalemate = .ok (r, c1)) : sameButFlags c c1 := by
  unfold isBlackStalemate at h
  cases h0 : c.isBlackKingUnderAttack with
  | error e => rw [h0] at h; cases h
  | ok a =>
    rw [h0] at h
    cases a with
    | true => cases h; exact sameButFlags_refl c
    | false =>
      dsimp only at h
      cases h1 : anyPieceCanMove c c.blackPieces with
      | error e => rw [h1] at h; cases h
      | ok x =>
        obtain ⟨b, c0⟩ := x
        have hf := anyPieceCanMove_frame _ c b c0 h1
        rw [h1] at h
        cases h
        exact hf

end Frames

section Addresses

open Chess

theorem addressesOk_iff (c : Chess) :
    c.addressesOk = true ↔
      (c.pieces.map (fun p => p.ptr)).Nodup ∧ ∀ p ∈ c.pieces, p.ptr < c.heapNext := by
  unfold addressesOk
  simp only [Bool.and_eq_true, distinct_iff_nodup, List.all_eq_true, decide_eq_true_eq]

theorem piece_move_facts (q q1 : chessPiece) (b b1 : chessBoard) (dest : Square)
    (h : q.move b dest = .ok (q1, b1)) :
    q1.ptr = q.ptr ∧ q1.getPosition = dest ∧ q1.isFirstMove = false ∧
      q1.getPiece = q.getPiece ∧ q1.getColor = q.getColor := by
  obtain ⟨ptr, col, kind, pos, fm⟩ := q
  unfold chessPiece.move chessPiece.setPosition at h
  dsimp only at h
  cases hw : b.write dest (chessPiece.glyph col kind) with
  | error e => rw [hw] at h; cases h
  | ok bw =>
    rw [hw] at h
    dsimp only at h
    cases hw2 : bw.write pos emptyCell with
    | error e => rw [hw2] at h; cases h
    | ok b2 =>
      rw [hw2] at h
      cases kind <;> dsimp only at h <;> cases h <;> exact ⟨rfl, rfl, rfl, rfl, rfl⟩

theorem addressesOk_iff_sides (c : Chess) :
    c.addressesOk = true ↔
      (c.whitePieces.map (fun p => p.ptr)).Nodup ∧ (c.blackPieces.map (fun p => p.ptr)).Nodup ∧
      (∀ x ∈ c.whitePieces, ∀ y ∈ c.blackPieces, x.ptr ≠ y.ptr) ∧
      (∀ x ∈ c.whitePieces, x.ptr < c.heapNext) ∧ (∀ y ∈ c.blackPieces, y.ptr < c.heapNext) := by
  rw [addressesOk_iff]
  unfold pieces
  rw [List.map_append, List.nodup_append]
  constructor
  · rintro ⟨⟨hw, hb, hd⟩, hlt⟩
    refine ⟨hw, hb, ?_, fun x hx => hlt x (List.mem_append_left _ hx),
      fun y hy => hlt y (List.mem_append_right _ hy)⟩
    intro x hx y hy e
    exact hd (List.mem_map_of_mem (fun p => p.ptr) hx)
      (e ▸ List.mem_map_of_mem (fun p => p.ptr) hy)
  · rintro ⟨hw, hb, hd, hlw, hlb⟩
    refine ⟨⟨hw, hb, ?_⟩, ?_⟩
    · intro a ha1 ha2
      rw [List.mem_map] at ha1 ha2
      obtain ⟨x, hx, rfl⟩ := ha1
      obtain ⟨y, hy, hye⟩ := ha2
      exact hd x hx y hy hye.symm
    · intro p hp
      rcases List.mem_append.1 hp with h | h
      · exact hlw p h
      · exact hlb p h

theorem stepped_of_sublist (c c1 : Chess)
    (hw : c1.whitePieces.Sublist c.whitePieces) (hb : c1.blackPieces.Sublist c.blackPieces)
    (hh : c.heapNext ≤ c1.heapNext) : stepped c c1 [] := by
  refine ⟨?_, ?_, hh⟩
  · intro q2 hq2
    right
    refine ⟨q2, ?_, rfl, Or.inl rfl⟩
    unfold pieces at hq2 ⊢
    rcases List.mem_append.1 hq2 with h | h
    · exact List.mem_append_left _ (hw.subset h)
    · exact List.mem_append_right _ (hb.subset h)
  · rw [addressesOk_iff_sides, addressesOk_iff_sides]
    rintro ⟨h1, h2, h3, h4, h5⟩
    refine ⟨List.Nodup.sublist (hw.map _) h1, List.Nodup.sublist (hb.map _) h2, ?_, ?_, ?_⟩
    · intro x hx y hy
      exact h3 x (hw.subset hx) y (hb.subset hy)
    · intro x hx
      exact lt_of_lt_of_le (h4 x (hw.subset hx)) hh
    · intro y hy
      exact lt_of_lt_of_le (h5 y (hb.subset hy)) hh

theorem stepped_of_same (c c1 : Chess) (hw : c1.whitePieces = c.whitePieces)
    (hb : c1.blackPieces = c.blackPieces) (hh : c1.heapNext = c.heapNext) :
    stepped c c1 [] :=
  stepped_of_sublist c c1 (hw ▸ List.Sublist.refl _) (hb ▸ List.Sublist.refl _) (le_of_eq hh.symm)

theorem stepped_trans {c c1 c2 : Chess} {ms1 ms2 : List (Nat × Square)}
    (h1 : stepped c c1 ms1) (h2 : stepped c1 c2 ms2) : stepped c c2 (ms1 ++ ms2) := by
  obtain ⟨k1, a1, n1⟩ := h1
  obtain ⟨k2, a2, n2⟩ := h2
  refine ⟨?_, fun h => a2 (a1 h), le_trans n1 n2⟩
  intro q2 hq2
  rcases k2 q2 hq2 with hnew | ⟨q1, hq1, hp1, hrel1⟩
  · exact Or.inl (le_trans n1 hnew)
  · rcases k1 q1 hq1 with hnew | ⟨q, hq, hp, hrel⟩
    · left
      rw [← hp1]
      exact hnew
    · right
      refine ⟨q, hq, hp.trans hp1, ?_⟩
      rcases hrel1 with rfl | ⟨hf, hm⟩
      · rcases hrel with rfl | ⟨hf, hm⟩
        · exact Or.inl rfl
        · exact Or.inr ⟨hf, List.mem_append_left _ hm⟩
      · exact Or.inr ⟨hf, List.mem_append_right _ hm⟩

theorem deref_some_ptr (c : Chess) (a : Nat) (q : chessPiece) (h : c.deref a = some q) :
    q.ptr = a ∧ q ∈ c.pieces := by
  unfold deref at h
  unfold pieces
  cases hw : c.whitePieces.find? (fun p => decide (p.ptr = a)) with
  | some x =>
    rw [hw] at h
    simp only [Option.some.injEq] at h
    subst h
    obtain ⟨h1, h2⟩ := find?_some_mem hw
    exact ⟨by simpa using h2, List.mem_append_left _ h1⟩
  | none =>
    rw [hw] at h
    simp only at h
    obtain ⟨h1, h2⟩ := find?_some_mem h
    exact ⟨by simpa using h2, List.mem_append_right _ h1⟩

theorem movePiece_stepped (c c1 : Chess) (ptr : Option Nat) (dest : Square)
    (h : c.movePiece ptr dest = .ok c1) :
    ∃ a, ptr = some a ∧ stepped c c1 [(a, dest)] ∧ c1.m_moveDB = c.m_moveDB ∧
      c1.m_activatePromotion = c.m_activatePromotion := by
  unfold movePiece at h
  cases ptr with
  | none => cases h
  | some a =>
    refine ⟨a, rfl, ?_⟩
    dsimp only at h
    cases hd : c.deref a with
    | none => rw [hd] at h; cases h
    | some q =>
      rw [hd] at h
      dsimp only at h
      obtain ⟨hqa, hqmem⟩ := deref_some_ptr c a q hd
      cases hm : q.move c.m_chessBoard dest with
      | error e => rw [hm] at h; cases h
      | ok x =>
        obtain ⟨q1, b1⟩ := x
        rw [hm] at h
        dsimp only at h
        obtain ⟨f1, f2, f3, _, _⟩ := piece_move_facts q q1 c.m_chessBoard b1 dest hm
        cases h
        refine ⟨⟨?_, ?_, le_refl _⟩, rfl, rfl⟩
        · intro q2 hq2
          right
          unfold pieces at hq2 ⊢
          dsimp only at hq2
          rw [List.mem_append, mem_storePiece, mem_storePiece] at hq2
          rcases hq2 with (⟨h1, _⟩ | ⟨rfl, x, hx, hxe⟩) | (⟨h1, _⟩ | ⟨rfl, x, hx, hxe⟩)
          · exact ⟨q2, List.mem_append_left _ h1, rfl, Or.inl rfl⟩
          · refine ⟨x, List.mem_append_left _ hx, hxe, Or.inr ⟨f3, ?_⟩⟩
            rw [f1, f2, hqa]
            exact List.mem_singleton.2 rfl
          · exact ⟨q2, List.mem_append_right _ h1, rfl, Or.inl rfl⟩
          · refine ⟨x, List.mem_append_right _ hx, hxe, Or.inr ⟨f3, ?_⟩⟩
            rw [f1, f2, hqa]
            exact List.mem_singleton.2 rfl
        · rw [addressesOk_iff, addressesOk_iff]
          unfold pieces
          dsimp only
          rw [List.map_append, List.map_append, storePiece_map_ptr, storePiece_map_ptr]
          rintro ⟨hn, hlt⟩
          refine ⟨hn, ?_⟩
          intro p hp
          have : p.ptr ∈ (c.whitePieces ++ c.blackPieces).map (fun r => r.ptr) := by
            rw [List.map_append, ← storePiece_map_ptr c.whitePieces q1,
              ← storePiece_map_ptr c.blackPieces q1, ← List.map_append]
            exact List.mem_map_of_mem (fun r => r.ptr) hp
          rw [List.mem_map] at this
          obtain ⟨r, hr, hre⟩ := this
          rw [← hre]
          exact hlt r hr

theorem erasePiece_stepped (c c1 : Chess) (x : Option chessPiece) (what : String)
    (h : c.erasePiece x what = .ok c1) :
    stepped c c1 [] ∧ c1.m_moveDB = c.m_moveDB ∧
      c1.m_activatePromotion = c.m_activatePromotion := by
  unfold erasePiece at h
  cases x with
  | none => cases h
  | some d =>
    dsimp only at h
    split_ifs at h
    · cases h
      exact ⟨stepped_of_sublist _ _ (List.eraseP_sublist _) (List.Sublist.refl _) (le_refl _),
        rfl, rfl⟩
    · cases h
      exact ⟨stepped_of_sublist _ _ (List.Sublist.refl _) (List.eraseP_sublist _) (le_refl _),
        rfl, rfl⟩

theorem pushNew_stepped (c c1 : Chess) (color : COLOR) (kind : PIECE) (pos : Square)
    (h : c.pushNew color kind pos = .ok c1) :
    stepped c c1 [] ∧ c1.m_moveDB = c.m_moveDB := by
  unfold pushNew chessPiece.setPosition at h
  dsimp only at h
  cases hw : c.m_chessBoard.write pos (chessPiece.glyph color kind) with
  | error e => rw [hw] at h; cases h
  | ok b1 =>
    rw [hw] at h
    dsimp only at h
    cases color with
    | WHITE =>
      dsimp only at h
      cases h
      refine ⟨⟨?_, ?_, Nat.le_succ _⟩, rfl⟩
      · intro q2 hq2
        unfold pieces at hq2 ⊢
        dsimp only at hq2
        rw [List.mem_append, List.mem_append, List.mem_singleton] at hq2
        rcases hq2 with (h1 | rfl) | h1
        · exact Or.inr ⟨q2, List.mem_append_left _ h1, rfl, Or.inl rfl⟩
        · exact Or.inl (le_refl _)
        · exact Or.inr ⟨q2, List.mem_append_right _ h1, rfl, Or.inl rfl⟩
      · rw [addressesOk_iff_sides, addressesOk_iff_sides]
        dsimp only
        rintro ⟨h1, h2, h3, h4, h5⟩
        refine ⟨?_, h2, ?_, ?_, ?_⟩
        · rw [List.map_append, List.nodup_append]
          refine ⟨h1, List.nodup_singleton _, ?_⟩
          intro a ha1 ha2
          rw [List.map_singleton, List.mem_singleton] at ha2
          rw [List.mem_map] at ha1
          obtain ⟨x, hx, hxe⟩ := ha1
          have := h4 x hx
          dsimp only at ha2
          omega
        · intro x hx y hy
          rw [List.mem_append, List.mem_singleton] at hx
          rcases hx with hx | rfl
          · exact h3 x hx y hy
          · have := h5 y hy
            dsimp only
            omega
        · intro x hx
          rw [List.mem_append, List.mem_singleton] at hx
          rcases hx with hx | rfl
          · exact Nat.lt_succ_of_lt (h4 x hx)
          · exact Nat.lt_succ_self _
        · intro y hy
          exact Nat.lt_succ_of_lt (h5 y hy)
    | BLACK =>
      dsimp only at h
      cases h
      refine ⟨⟨?_, ?_, Nat.le_succ _⟩, rfl⟩
      · intro q2 hq2
        unfold pieces at hq2 ⊢
        dsimp only at hq2
        rw [List.mem_append, List.mem_append, List.mem_singleton] at hq2
        rcases hq2 with h1 | h1 | rfl
        · exact Or.inr ⟨q2, List.mem_append_left _ h1, rfl, Or.inl rfl⟩
        · exact Or.inr ⟨q2, List.mem_append_right _ h1, rfl, Or.inl rfl⟩
        · exact Or.inl (le_refl _)
      · rw [addressesOk_iff_sides, addressesOk_iff_sides]
        dsimp only
        rintro ⟨h1, h2, h3, h4, h5⟩
        refine ⟨h1, ?_, ?_, ?_, ?_⟩
        · rw [List.map_append, List.nodup_append]
          refine ⟨h2, List.nodup_singleton _, ?_⟩
          intro a ha1 ha2
          rw [List.map_singleton, List.mem_singleton] at ha2
          rw [List.mem_map] at ha1
          obtain ⟨x, hx, hxe⟩ := ha1
          have := h5 x hx
          dsimp only at ha2
          omega
        · intro x hx y hy
          rw [List.mem_append, List.mem_singleton] at hy
          rcases hy with hy | rfl
          · exact h3 x hx y hy
          · have := h4 x hx
            dsimp only
            omega
        · intro x hx
          exact Nat.lt_succ_of_lt (h4 x hx)
        · intro y hy
          rw [List.mem_append, List.mem_singleton] at hy
          rcases hy with hy | rfl
          · exact Nat.lt_succ_of_lt (h5 y hy)
          · exact Nat.lt_succ_self _

theorem stepped_after_sublist {c c0 c1 : Chess} {ms : List (Nat × Square)}
    (h : stepped c0 c1 ms)
    (hw : c0.whitePieces.Sublist c.whitePieces) (hb : c0.blackPieces.Sublist c.blackPieces)
    (hh : c.heapNext ≤ c0.heapNext) : stepped c c1 ms :=
  stepped_trans (stepped_of_sublist c c0 hw hb hh) h

theorem performPromotion_stepped (c c1 : Chess) (a : Nat)
    (h : c.performPromotion a = .ok c1) :
    stepped c c1 [] ∧ c1.m_moveDB = c.m_moveDB := by
  unfold performPromotion at h
  cases hd : c.deref a with
  | none => rw [hd] at h; cases h
  | some p =>
    rw [hd] at h
    dsimp only at h
    split_ifs at h
    all_goals
      first
      | (cases h; done)
      | (cases h; exact ⟨stepped_of_same c c rfl rfl rfl, rfl⟩)
      | exact ⟨stepped_after_sublist (pushNew_stepped _ c1 _ _ _ h).1 (List.eraseP_sublist _)
          (List.Sublist.refl _) (le_refl _), (pushNew_stepped _ c1 _ _ _ h).2⟩
      | exact ⟨stepped_after_sublist (pushNew_stepped _ c1 _ _ _ h).1 (List.Sublist.refl _)
          (List.eraseP_sublist _) (le_refl _), (pushNew_stepped _ c1 _ _ _ h).2⟩

theorem twoMoves_stepped (c c2 : Chess) (a : Nat) (kingTo rookTo : Square)
    (r : Option chessPiece)
    (h : (match c.movePiece (some a) kingTo with
          | Except.error e => (Except.error e : Except Fault Chess)
          | Except.ok c1 => c1.movePiece (r.map (fun x : chessPiece => x.ptr)) rookTo)
        = Except.ok c2) :
    ∃ rr, r = some rr ∧ stepped c c2 [(a, kingTo), (rr.ptr, rookTo)] := by
  cases hm : c.movePiece (some a) kingTo with
  | error e => rw [hm] at h; cases h
  | ok c1 =>
    rw [hm] at h
    dsimp only at h
    obtain ⟨a1, ha1, hs1, _, _⟩ := movePiece_stepped c c1 _ _ hm
    obtain ⟨a2, ha2, hs2, _, _⟩ := movePiece_stepped c1 c2 _ _ h
    cases r with
    | none => cases ha2
    | some rr =>
      simp only [Option.map_some', Option.some.injEq] at ha1 ha2
      subst ha1 ha2
      exact ⟨rr, rfl, stepped_trans hs1 hs2⟩

theorem stepped_flag (c c2 : Chess) (ms : List (Nat × Square)) (b : Bool)
    (h : stepped c c2 ms) : stepped c { c2 with m_activateCastling := b } ms := by
  have := stepped_trans h (stepped_of_same c2 { c2 with m_activateCastling := b } rfl rfl rfl)
  simpa using this

theorem performCastle_stepped (c c2 : Chess) (s d : Square)
    (h : c.performCastle s d = .ok c2) :
    ∃ ms, stepped c c2 ms ∧ ∀ x ∈ ms, relocation c s d x := by
  unfold performCastle at h
  cases hp : c.getPieceFromPosition s with
  | none => rw [hp] at h; cases h
  | some p =>
    rw [hp] at h
    dsimp only at h
    have key : ∀ (kingTo corner rookTo : Square) (c3 : Chess), d = kingTo →
        (corner, rookTo) ∈ [(h1, f1), (a1, d1), (h8, f8), (a8, d8)] →
        (match c.movePiece (some p.ptr) kingTo with
          | Except.error e => (Except.error e : Except Fault Chess)
          | Except.ok c1 =>
            c1.movePiece ((c.getPieceFromPosition corner).map (fun x : chessPiece => x.ptr))
              rookTo)
          = Except.ok c3 →
        ∃ ms, stepped c { c3 with m_activateCastling := false } ms ∧
          ∀ x ∈ ms, relocation c s d x := by
      intro kingTo corner rookTo c3 hd hpair hh
      obtain ⟨rr, hrr, hst⟩ := twoMoves_stepped c c3 p.ptr kingTo rookTo _ hh
      refine ⟨_, stepped_flag c c3 _ false hst, ?_⟩
      intro x hx
      rw [List.mem_cons, List.mem_singleton] at hx
      rcases hx with rfl | rfl
      · exact Or.inl ⟨p, hp, rfl, Or.inl hd.symm⟩
      · exact Or.inr ⟨corner, rr, hrr, rfl, hpair⟩
    have none : ∃ ms, stepped c { c with m_activateCastling := false } ms ∧
        ∀ x ∈ ms, relocation c s d x :=
      ⟨[], stepped_flag c c [] false (stepped_of_same c c rfl rfl rfl),
        fun x hx => absurd hx (List.not_mem_nil x)⟩
    cases hcol : p.getColor with
    | WHITE =>
      rw [hcol] at h
      dsimp only at h
      by_cases hg : d = g1
      · rw [if_pos hg] at h
        split at h
        · cases h
        · rename_i c3 heq
          cases h
          exact key g1 h1 f1 c3 hg (by decide) heq
      · rw [if_neg hg] at h
        by_cases hc : d = c1
        · rw [if_pos hc] at h
          split at h
          · cases h
          · rename_i c3 heq
            cases h
            exact key c1 a1 d1 c3 hc (by decide) heq
        · rw [if_neg hc] at h
          cases h
          exact none
    | BLACK =>
      rw [hcol] at h
      dsimp only at h
      by_cases hg : d = g8
      · rw [if_pos hg] at h
        split at h
        · cases h
        · rename_i c3 heq
          cases h
          exact key g8 h8 f8 c3 hg (by decide) heq
      · rw [if_neg hg] at h
        by_cases hc : d = c8
        · rw [if_pos hc] at h
          split at h
          · cases h
          · rename_i c3 heq
            cases h
            exact key c8 a8 d8 c3 hc (by decide) heq
        · rw [if_neg hc] at h
          cases h
          exact none

theorem performPawnCapture_stepped (c c2 : Chess) (s d : Square)
    (h : c.performPawnCapture s d = .ok c2) :
    ∃ ms, stepped c c2 ms ∧ (∀ x ∈ ms, relocation c s d x) ∧ c2.m_moveDB = c.m_moveDB ∧
      c2.m_activatePromotion = c.m_activatePromotion := by
  unfold performPawnCapture at h
  dsimp only at h
  by_cases he : c.m_enPassant = true
  · rw [if_pos he] at h
    unfold getLastMove at h
    cases hl : c.m_moveDB.getLast? with
    | none => rw [hl] at h; cases h
    | some lm =>
      rw [hl] at h
      dsimp only at h
      cases hm : c.movePiece ((c.getPieceFromPosition s).map (fun r => r.ptr))
          ⟨lm.2.file, Int.tdiv (lm.2.rank + lm.1.rank) 2⟩ with
      | error e => rw [hm] at h; cases h
      | ok c1 =>
        rw [hm] at h
        dsimp only at h
        obtain ⟨a, ha, hs1, hdb1, hpr1⟩ := movePiece_stepped c c1 _ _ hm
        cases he2 : c1.erasePiece (c.getPieceFromPosition lm.2) "En passant failure\n" with
        | error e => rw [he2] at h; cases h
        | ok c3 =>
          rw [he2] at h
          dsimp only at h
          obtain ⟨hs2, hdb2, hpr2⟩ := erasePiece_stepped c1 c3 _ _ he2
          cases hw : c3.m_chessBoard.write lm.2 emptyCell with
          | error e => rw [hw] at h; cases h
          | ok b3 =>
            rw [hw] at h
            dsimp only at h
            cases h
            cases hp : c.getPieceFromPosition s with
            | none => rw [hp] at ha; cases ha
            | some p =>
              rw [hp] at ha
              simp only [Option.map_some', Option.some.injEq] at ha
              subst ha
              refine ⟨_, stepped_trans (stepped_trans hs1 hs2)
                (stepped_of_same c3 _ rfl rfl rfl), ?_, hdb2.trans hdb1, hpr2.trans hpr1⟩
              intro x hx
              simp only [List.append_nil, List.mem_singleton] at hx
              subst hx
              exact Or.inl ⟨p, hp, rfl, Or.inr ⟨he, lm, hl, rfl⟩⟩
  · rw [if_neg he] at h
    by_cases hc : c.m_activatePawnCapturing = true
    · rw [if_pos hc] at h
      cases hm : c.movePiece ((c.getPieceFromPosition s).map (fun r => r.ptr)) d with
      | error e => rw [hm] at h; cases h
      | ok c1 =>
        rw [hm] at h
        dsimp only at h
        obtain ⟨a, ha, hs1, hdb1, hpr1⟩ := movePiece_stepped c c1 _ _ hm
        cases he2 : c1.erasePiece (c.getPieceFromPosition d) "Pawn capturing failure\n" with
        | error e => rw [he2] at h; cases h
        | ok c3 =>
          rw [he2] at h
          dsimp only at h
          obtain ⟨hs2, hdb2, hpr2⟩ := erasePiece_stepped c1 c3 _ _ he2
          cases h
          cases hp : c.getPieceFromPosition s with
          | none => rw [hp] at ha; cases ha
          | some p =>
            rw [hp] at ha
            simp only [Option.map_some', Option.some.injEq] at ha
            subst ha
            refine ⟨_, stepped_trans (stepped_trans hs1 hs2)
              (stepped_of_same c3 _ rfl rfl rfl), ?_, hdb2.trans hdb1, hpr2.trans hpr1⟩
            intro x hx
            simp only [List.append_nil, List.mem_singleton] at hx
            subst hx
            exact Or.inl ⟨p, hp, rfl, Or.inl rfl⟩
    · rw [if_neg hc] at h
      cases h
      exact ⟨[], stepped_of_same c c rfl rfl rfl, fun x hx => absurd hx (List.not_mem_nil x),
        rfl, rfl⟩

theorem getPieceFromPosition_congr (c c0 : Chess) (hw : c0.whitePieces = c.whitePieces)
    (hb : c0.blackPieces = c.blackPieces) (x : Square) :
    c0.getPieceFromPosition x = c.getPieceFromPosition x := by
  unfold getPieceFromPosition
  rw [hw, hb]

theorem relocation_congr (c c0 : Chess) (s d : Square) (x : Nat × Square)
    (hw : c0.whitePieces = c.whitePieces) (hb : c0.blackPieces = c.blackPieces)
    (hdb : c0.m_moveDB = c.m_moveDB) (hep : c0.m_enPassant = c.m_enPassant)
    (h : relocation c0 s d x) : relocation c s d x := by
  unfold relocation at h ⊢
  simp only [getPieceFromPosition_congr c c0 hw hb, hdb, hep] at h
  exact h

theorem move_stepped (c c2 : Chess) (s d : Square) (h : c.move s d = .ok c2) :
    ∃ ms, stepped c c2 ms ∧ ∀ x ∈ ms, relocation c s d x := by
  unfold Chess.move at h
  cases hp : c.getPieceFromPosition s with
  | none => rw [hp] at h; cases h
  | some p =>
    rw [hp] at h
    dsimp only at h
    by_cases hcastle : (decide (p.getPiece = PIECE.KING) && c.m_activateCastling) = true
    · rw [if_pos hcastle] at h
      exact performCastle_stepped c c2 s d h
    · rw [if_neg hcastle] at h
      have hc0 : ∀ c0 : Chess, c0 = (if (decide (p.getPiece = PIECE.PAWN) &&
            (decide (d.rank = 56) || decide (d.rank = 49))) = true then
            { c with m_activatePromotion := true } else c) →
          c0.whitePieces = c.whitePieces ∧ c0.blackPieces = c.blackPieces ∧
          c0.m_moveDB = c.m_moveDB ∧ c0.m_enPassant = c.m_enPassant ∧
          c0.heapNext = c.heapNext := by
        intro c0 e
        subst e
        split_ifs <;> exact ⟨rfl, rfl, rfl, rfl, rfl⟩
      generalize hgen : (if (decide (p.getPiece = PIECE.PAWN) &&
            (decide (d.rank = 56) || decide (d.rank = 49))) = true then
            { c with m_activatePromotion := true } else c) = c0 at h
      obtain ⟨hw0, hb0, hdb0, hep0, hh0⟩ := hc0 c0 hgen.symm
      have hs0 : stepped c c0 [] := stepped_of_same c c0 hw0 hb0 hh0
      have hp0 : c0.getPieceFromPosition s = some p := by
        rw [getPieceFromPosition_congr c c0 hw0 hb0]; exact hp
      by_cases hpc : (decide (p.getPiece = PIECE.PAWN) &&
          (c0.m_activatePawnCapturing || c0.m_enPassant)) = true
      · rw [if_pos hpc] at h
        cases hcap : c0.performPawnCapture s d with
        | error e => rw [hcap] at h; cases h
        | ok c1 =>
          rw [hcap] at h
          dsimp only at h
          obtain ⟨ms, hs1, hrel, _, _⟩ := performPawnCapture_stepped c0 c1 s d hcap
          have hrel2 : ∀ x ∈ ms, relocation c s d x :=
            fun x hx => relocation_congr c c0 s d x hw0 hb0 hdb0 hep0 (hrel x hx)
          split_ifs at h
          · obtain ⟨hs2, _⟩ := performPromotion_stepped c1 c2 _ h
            refine ⟨ms, ?_, hrel2⟩
            have := stepped_trans hs0 (stepped_trans hs1 hs2)
            simpa using this
          · cases h
            exact ⟨ms, stepped_trans hs0 hs1, hrel2⟩
      · rw [if_neg hpc] at h
        cases hm : c0.movePiece (some p.ptr) d with
        | error e => rw [hm] at h; cases h
        | ok c1 =>
          rw [hm] at h
          dsimp only at h
          obtain ⟨a, ha, hs1, _, _⟩ := movePiece_stepped c0 c1 _ _ hm
          simp only [Option.some.injEq] at ha
          subst ha
          have hrel : ∀ x ∈ [(p.ptr, d)], relocation c s d x := by
            intro x hx
            rw [List.mem_singleton] at hx
            subst hx
            exact Or.inl ⟨p, hp, rfl, Or.inl rfl⟩
          have herased : ∀ c3 : Chess,
              (match c0.getPieceFromPosition d with
                | none => (Except.ok c1 : Except Fault Chess)
                | some x => c1.erasePiece (some x) "Piece capturing failure\n") = Except.ok c3 →
              stepped c1 c3 [] := by
            intro c3 h3
            split at h3
            · cases h3
              exact stepped_of_same c1 c1 rfl rfl rfl
            · exact (erasePiece_stepped c1 c3 _ _ h3).1
          cases her : (match c0.getPieceFromPosition d with
                | none => (Except.ok c1 : Except Fault Chess)
                | some x => c1.erasePiece (some x) "Piece capturing failure\n") with
          | error e => rw [her] at h; cases h
          | ok c3 =>
            rw [her] at h
            dsimp only at h
            have hs2 := herased c3 her
            have hpromoted : ∀ c4 : Chess,
                (if c3.m_activatePromotion = true then c3.performPromotion p.ptr
                  else Except.ok c3) = Except.ok c4 → stepped c3 c4 [] := by
              intro c4 h4
              split_ifs at h4
              · exact (performPromotion_stepped c3 c4 _ h4).1
              · cases h4
                exact stepped_of_same c3 c3 rfl rfl rfl
            cases hpr : (if c3.m_activatePromotion = true then c3.performPromotion p.ptr
                  else Except.ok c3) with
            | error e => rw [hpr] at h; cases h
            | ok c4 =>
              rw [hpr] at h
              dsimp only at h
              have hs3 := hpromoted c4 hpr
              cases h
              refine ⟨[(p.ptr, d)], ?_, hrel⟩
              have := stepped_trans hs0 (stepped_trans hs1 (stepped_trans hs2
                (stepped_trans hs3 (stepped_of_same c4
                  { c4 with m_moveDB := c4.m_moveDB ++ [(s, d)] } rfl rfl rfl))))
              simpa using this

end Addresses

section OwnColourMoves

open Chess

/-- A move onto a square that holds a piece of the mover's colour is refused, whatever the
flags are; the history must be non-empty unless the mover is a Pawn that does not attack
the destination (or no Pawn at all). -/
theorem isValidMove_own_colour (c : Chess) (source destination : Square)
    (p q : chessPiece)
    (hc : c.resetFlags.consistent = true)
    (hh : c.m_moveDB ≠ [] ∨ (p.getPiece = PIECE.PAWN →
      (p.getAttackingSquares c.m_chessBoard).contains destination = false))
    (hp : c.getPieceFromPosition source = some p)
    (hq : c.getPieceFromPosition destination = some q)
    (hcol : p.getColor = q.getColor) :
    returned (c.isValidMove source destination) = some false := by
  obtain ⟨_, hboard0, hpos0, hnpos0, _⟩ := consistent_facts c.resetFlags hc
  obtain ⟨hkf0, hwc0, hbc0, _⟩ := consistent_sides c.resetFlags hc
  have hboard : ∀ x, inBoardMap x = true →
      c.m_chessBoard.isSquareOccupied x = c.pieces.any (fun r => decide (r.getPosition = x)) :=
    hboard0
  have hpos : ∀ r ∈ c.pieces, inBoardMap r.getPosition = true := hpos0
  have hnpos : (c.pieces.map (fun r => r.getPosition)).Nodup := hnpos0
  have hkf : c.kingFirst = true := hkf0
  have hwc : ∀ r ∈ c.whitePieces, r.getColor = COLOR.WHITE := hwc0
  have hbc : ∀ r ∈ c.blackPieces, r.getColor = COLOR.BLACK := hbc0
  obtain ⟨hw, hb⟩ := kingFirst_nonempty c hkf
  obtain ⟨hqmem, hqd⟩ := getPieceFromPosition_some c destination q hq
  have hocc : c.m_chessBoard.isSquareOccupied destination = true := by
    rw [hboard destination (hqd ▸ hpos q hqmem), List.any_eq_true]
    exact ⟨q, hqmem, by simpa using hqd⟩
  have hchk : ∀ c1 : Chess, c1.whitePieces = c.whitePieces → c1.blackPieces = c.blackPieces →
      c1.isValidMove_checks p source destination = .ok false := by
    intro c1 e1w e1b
    apply isValidMove_checks_own c1 p q source destination
    · rw [e1w]; exact hw
    · rw [e1b]; exact hb
    · unfold getPieceFromPosition
      rw [e1w, e1b]
      exact hq
    · exact hcol
  have henemy : c.enemyStandsOn p.getColor destination = false := by
    rw [Bool.eq_false_iff]
    intro he
    unfold enemyStandsOn at he
    cases hpc : p.getColor with
    | WHITE =>
      rw [hpc] at he
      simp only [List.any_eq_true, decide_eq_true_eq] at he
      obtain ⟨r, hr, hrd⟩ := he
      have hrq : r = q := List.inj_on_of_nodup_map hnpos
        (List.mem_append_right _ hr) hqmem (by rw [hrd, hqd])
      have := hbc r hr
      rw [hrq, ← hcol, hpc] at this
      exact absurd this (by decide)
    | BLACK =>
      rw [hpc] at he
      simp only [List.any_eq_true, decide_eq_true_eq] at he
      obtain ⟨r, hr, hrd⟩ := he
      have hrq : r = q := List.inj_on_of_nodup_map hnpos
        (List.mem_append_left _ hr) hqmem (by rw [hrd, hqd])
      have := hwc r hr
      rw [hrq, ← hcol, hpc] at this
      exact absurd this (by decide)
  unfold isValidMove
  rw [hp]
  simp only
  unfold isValidMove_rules
  by_cases hA : p.isValidMove c.m_chessBoard source destination = true
  · rw [if_pos hA]
    simp only [hchk c rfl rfl, returned]
  · rw [if_neg hA]
    by_cases hB : p.getPiece = PIECE.KING
    · rw [if_pos hB]
      obtain ⟨r, hr⟩ := canCastle_total c p source destination hw hb
      rw [hr]
      cases r with
      | false => simp only [returned]
      | true =>
        have := canCastle_true_unoccupied c p source destination hr
        rw [hocc] at this
        exact absurd this (by decide)
    · rw [if_neg hB]
      by_cases hC : p.getPiece = PIECE.PAWN
      · rw [if_pos hC]
        by_cases hD : (!(p.getAttackingSquares c.m_chessBoard).contains destination) = true
        · rw [if_pos hD]
          simp only [returned]
        · rw [if_neg hD]
          simp only [henemy, Bool.false_eq_true, if_false]
          by_cases hE : c.m_activatePawnCapturing = true
          · simp only [hE, Bool.not_true, Bool.false_eq_true, if_false, Bool.false_and]
            simp only [hchk c rfl rfl, returned]
          · rw [Bool.not_eq_true] at hE
            simp only [hE, Bool.not_false, if_true, getLastMove]
            cases hl : c.m_moveDB.getLast? with
            | none =>
              rw [List.getLast?_eq_none_iff] at hl
              rcases hh with hh | hh
              · exact absurd hl hh
              · rw [hh hC] at hD
                exact absurd rfl hD
            | some lastMove =>
              simp only
              split_ifs with hF hG
              · rfl
              · rfl
              · dsimp only
                rw [hchk]
                all_goals rfl
      · rw [if_neg hC]
        simp only
        split_ifs with hF
        · simp only [returned]
        · simp only [hchk c rfl rfl, returned]

/-- A Pawn does not attack the square it stands on. -/
theorem pawn_attack_not_own (p : chessPiece) (b : chessBoard) (hk : p.getPiece = PIECE.PAWN) :
    (p.getAttackingSquares b).contains p.getPosition = false := by
  rw [Bool.eq_false_iff]
  intro h
  replace h := List.mem_of_elem_eq_true h
  obtain ⟨ptr, color, kind, pos, fm⟩ := p
  change kind = PIECE.PAWN at hk
  subst hk
  change pos ∈ chessPiece.keepBoardSquares (chessPiece.pawnOffsets color pos) at h
  rw [mem_keepBoardSquares] at h
  obtain ⟨h, _⟩ := h
  cases color <;>
    simp only [chessPiece.pawnOffsets, List.mem_cons, List.mem_singleton, List.not_mem_nil,
      or_false, Square.eq_iff] at h <;> omega

/-- An accepted move does not end on the square it starts from. -/
theorem isValidMove_true_ne (c : Chess) (s d : Square) (c1 : Chess)
    (hc : c.resetFlags.consistent = true) (h : c.isValidMove s d = .ok (true, c1)) :
    s ≠ d := by
  intro e
  subst e
  cases hp : c.getPieceFromPosition s with
  | none =>
    unfold isValidMove at h
    rw [hp] at h
    cases h
  | some p =>
    have hpos := (getPieceFromPosition_some c s p hp).2
    have := isValidMove_own_colour c s s p p hc
      (Or.inr (fun hk => by rw [← hpos]; exact pawn_attack_not_own p _ hk)) hp hp rfl
    rw [h] at this
    simp [returned] at this

end OwnColourMoves

section ValidatedMoves

open Chess

/-- Clearing cleared flags changes nothing. -/
theorem resetFlags_of_cleared (c : Chess) (h : c.flagsCleared = true) : c.resetFlags = c := by
  unfold flagsCleared at h
  simp only [Bool.and_eq_true, Bool.not_eq_true'] at h
  obtain ⟨⟨⟨hA, hB⟩, hC⟩, hD⟩ := h
  cases c
  simp only at hA hB hC hD
  subst hA hB hC hD
  rfl

/-- What a step says about a piece that is identified by its address. -/
theorem stepped_piece (c c2 : Chess) (ms : List (Nat × Square))
    (ha : c.addressesOk = true) (hs : stepped c c2 ms) :
    c2.addressesOk = true ∧
    ∀ q ∈ c.pieces, ∀ q2 ∈ c2.pieces, q2.ptr = q.ptr →
      q2 = q ∨ (q2.isFirstMove = false ∧ (q2.ptr, q2.getPosition) ∈ ms) := by
  obtain ⟨hk, hok, _⟩ := hs
  refine ⟨hok ha, ?_⟩
  rw [addressesOk_iff] at ha
  obtain ⟨hn, hlt⟩ := ha
  intro q hq q2 hq2 e
  rcases hk q2 hq2 with hnew | ⟨q0, hq0, e0, hcase⟩
  · have := hlt q hq
    omega
  · have hqq : q0 = q := List.inj_on_of_nodup_map hn hq0 hq (e0.trans e)
    subst hqq
    exact hcase

/-- Any `move` that returns, from a state whose addresses are in order: a piece found on
another square afterwards reports false, and a piece that reported false still does. -/
theorem move_flags (c c2 : Chess) (s d : Square) (ha : c.addressesOk = true)
    (hm : c.move s d = .ok c2) :
    c2.addressesOk = true ∧
    ∀ q ∈ c.pieces, ∀ q2 ∈ c2.pieces, q2.ptr = q.ptr →
      (q2.getPosition ≠ q.getPosition → q2.isFirstMove = false) ∧
      (q.isFirstMove = false → q2.isFirstMove = false) := by
  obtain ⟨ms, hs, _⟩ := move_stepped c c2 s d hm
  obtain ⟨hok, hp⟩ := stepped_piece c c2 ms ha hs
  refine ⟨hok, ?_⟩
  intro q hq q2 hq2 e
  rcases hp q hq q2 hq2 e with hsame | ⟨hf, _⟩
  · subst hsame
    exact ⟨fun hne => absurd rfl hne, fun hq => hq⟩
  · exact ⟨fun _ => hf, fun _ => hf⟩

/-- The state a validated move starts from has its addresses in order. -/
theorem consistent_addressesOk (c : Chess) (hc : c.consistent = true) :
    c.addressesOk = true := by
  rw [addressesOk_iff]
  exact ⟨(consistent_facts c hc).2.2.2.2, (consistent_sides c hc).2.2.2⟩

/-- A validated move from a consistent state: the flag of a piece changes only if the
piece is found on another square afterwards. -/
theorem validated_flags (c c1 c2 : Chess) (s d : Square)
    (hc : c.consistent = true)
    (hv : c.isValidMove s d = .ok (true, c1))
    (hm : c1.move s d = .ok c2) :
    c2.addressesOk = true ∧
    ∀ q ∈ c.pieces, ∀ q2 ∈ c2.pieces, q2.ptr = q.ptr →
      (q2.getPosition ≠ q.getPosition → q2.isFirstMove = false) ∧
      (q.isFirstMove = false → q2.isFirstMove = false) ∧
      (q2.getPosition = q.getPosition → q2.isFirstMove = q.isFirstMove) := by
  have hfl := (consistent_facts c hc).1
  have hn := (consistent_facts c hc).2.2.2.2
  obtain ⟨hbd, hw, hb, hdb, hh⟩ := isValidMove_frame c s d true c1 hv
  have hpieces : c1.pieces = c.pieces := by
    unfold pieces
    rw [hw, hb]
  have ha1 : c1.addressesOk = true := by
    have := consistent_addressesOk c hc
    rw [addressesOk_iff] at this ⊢
    rw [hpieces, hh]
    exact this
  have hne : s ≠ d :=
    isValidMove_true_ne c s d c1 (by rw [resetFlags_of_cleared c hfl]; exact hc) hv
  obtain ⟨ms, hs, hrel⟩ := move_stepped c1 c2 s d hm
  obtain ⟨hok, hp⟩ := stepped_piece c1 c2 ms ha1 hs
  refine ⟨hok, ?_⟩
  intro q hq q2 hq2 e
  rcases hp q (hpieces ▸ hq) q2 hq2 e with hsame | ⟨hf, hmem⟩
  · subst hsame
    exact ⟨fun hx => absurd rfl hx, fun hq => hq, fun _ => rfl⟩
  · refine ⟨fun _ => hf, fun _ => hf, ?_⟩
    intro hpos
    exfalso
    rcases hrel _ hmem with ⟨p, hp1, hptr, hto⟩ | ⟨corner, r, hr, hptr, hto⟩
    · rw [getPieceFromPosition_congr c c1 hw hb] at hp1
      obtain ⟨hpm, hps⟩ := getPieceFromPosition_some c s p hp1
      have hpq : p = q := List.inj_on_of_nodup_map hn hpm hq (by
        change p.ptr = q.ptr
        rw [← e]
        exact hptr.symm)
      subst hpq
      rcases hto with hto | ⟨hep, lm, hlm, hto⟩
      · change q2.getPosition = d at hto
        rw [hpos, hps] at hto
        exact hne hto
      · change q2.getPosition = _ at hto
        obtain ⟨p0, lastMove, _, hp0, _, hl0, _, _, _, hfile, _, _⟩ :=
          isValidMove_enPassant c s d hfl (by rw [hv]; simp only [value, Option.map, hep])
        rw [hp1] at hp0
        cases hp0
        rw [hdb, hl0] at hlm
        cases hlm
        rw [hpos] at hto
        rw [hto] at hfile
        simp at hfile
    · rw [getPieceFromPosition_congr c c1 hw hb] at hr
      obtain ⟨hrm, hrs⟩ := getPieceFromPosition_some c corner r hr
      have hrq : r = q := List.inj_on_of_nodup_map hn hrm hq (by
        change r.ptr = q.ptr
        rw [← e]
        exact hptr.symm)
      subst hrq
      change (corner, q2.getPosition) ∈ _ at hto
      rw [hpos, hrs] at hto
      simp only [List.mem_cons, List.mem_singleton, List.not_mem_nil, or_false,
        Prod.mk.injEq] at hto
      rcases hto with ⟨hx, hy⟩ | ⟨hx, hy⟩ | ⟨hx, hy⟩ | ⟨hx, hy⟩
      all_goals (rw [hx] at hy; exact absurd hy (by decide))

end ValidatedMoves

section GeometricTest

open Chess

/-- The own rule of a piece that is no Pawn accepts only attacked squares. -/
theorem piece_isValidMove_attacks (p : chessPiece) (b : chessBoard) (s d : Square)
    (hk : p.getPiece ≠ PIECE.PAWN) (h : p.isValidMove b s d = true) :
    d ∈ p.getAttackingSquares b := by
  obtain ⟨ptr, color, kind, pos, fm⟩ := p
  change kind ≠ PIECE.PAWN at hk
  unfold chessPiece.isValidMove at h
  cases kind
  all_goals first
    | exact absurd rfl hk
    | (simp only at h; cases h)
    | (simp only at h
       split_ifs at h
       exact List.mem_of_elem_eq_true h)

/-- With `m_activatePawnCapturing` and `m_enPassant` cleared, an accepted move of a piece
that is neither King nor Pawn passed the piece's own rule, and an accepted move of a King
passed it or `canCastle`. -/
theorem isValidMove_true_rule (c : Chess) (s d : Square) (p : chessPiece)
    (hp : c.getPieceFromPosition s = some p)
    (hA : c.m_activatePawnCapturing = false) (hB : c.m_enPassant = false)
    (hk : p.getPiece ≠ PIECE.PAWN)
    (hv : returned (c.isValidMove s d) = some true) :
    p.isValidMove c.m_chessBoard s d = true ∨
      (p.getPiece = PIECE.KING ∧ c.canCastle p s d = .ok true) := by
  by_cases hr : p.isValidMove c.m_chessBoard s d = true
  · exact Or.inl hr
  right
  unfold isValidMove at hv
  rw [hp] at hv
  dsimp only at hv
  unfold isValidMove_rules at hv
  rw [if_neg hr] at hv
  by_cases hking : p.getPiece = PIECE.KING
  · rw [if_pos hking] at hv
    refine ⟨hking, ?_⟩
    cases hcc : c.canCastle p s d with
    | error e => rw [hcc] at hv; simp [returned] at hv
    | ok r =>
      rw [hcc] at hv
      simp only [returned, Option.some.injEq] at hv
      rw [hv]
  · rw [if_neg hking, if_neg hk] at hv
    simp [hA, hB, returned] at hv

end GeometricTest

section KingEscape

open Chess chessPiece

/-- The step of `Square.beyond` in one coordinate. -/
theorem sign_cases (x : Int) :
    (x < 0 ∧ Int.sign x = -1) ∨ (x = 0 ∧ Int.sign x = 0) ∨ (0 < x ∧ Int.sign x = 1) := by
  rcases lt_trichotomy x 0 with h | h | h
  · exact Or.inl ⟨h, Int.sign_eq_neg_one_of_neg h⟩
  · exact Or.inr (Or.inl ⟨h, by rw [h]; rfl⟩)
  · exact Or.inr (Or.inr ⟨h, Int.sign_eq_one_of_pos h⟩)

theorem beyond_straight (a k : Square) (hne : k ≠ a) (hline : Square.onLine a k) :
    Square.beyond a k ≠ a ∧ Square.onLine a (Square.beyond a k) := by
  rw [Ne, Square.eq_iff] at hne ⊢
  unfold Square.onLine at hline ⊢
  unfold Square.beyond
  dsimp only
  rcases sign_cases (k.file - a.file) with ⟨hA, eA⟩ | ⟨hA, eA⟩ | ⟨hA, eA⟩ <;>
    rcases sign_cases (k.rank - a.rank) with ⟨hB, eB⟩ | ⟨hB, eB⟩ | ⟨hB, eB⟩ <;>
    rw [eA, eB] <;> constructor <;> omega

theorem beyond_diagonal (a k : Square) (hne : k ≠ a) (hd : Square.onDiagonal a k) :
    Square.beyond a k ≠ a ∧ Square.onDiagonal a (Square.beyond a k) ∧
      ¬ Square.onLine a (Square.beyond a k) := by
  rw [Ne, Square.eq_iff] at hne ⊢
  unfold Square.onDiagonal at hd ⊢
  unfold Square.onLine
  unfold Square.beyond
  dsimp only
  rcases sign_cases (k.file - a.file) with ⟨hA, eA⟩ | ⟨hA, eA⟩ | ⟨hA, eA⟩ <;>
    rcases sign_cases (k.rank - a.rank) with ⟨hB, eB⟩ | ⟨hB, eB⟩ | ⟨hB, eB⟩ <;>
    rw [eA, eB] <;> refine ⟨?_, ?_, ?_⟩ <;> omega

/-- A Queen, Rook or Bishop that attacks the square `k` has the square behind `k` on its
path to that square. -/
theorem slider_path_beyond (q : chessPiece) (b : chessBoard) (k : Square)
    (hkind : q.getPiece = PIECE.QUEEN ∨ q.getPiece = PIECE.ROOK ∨ q.getPiece = PIECE.BISHOP)
    (hatt : k ∈ q.getAttackingSquares b) :
    Square.beyond q.getPosition k ∈ q.getAttackingPath (Square.beyond q.getPosition k) := by
  obtain ⟨ptr, color, kind, pos, fm⟩ := q
  change kind = PIECE.QUEEN ∨ kind = PIECE.ROOK ∨ kind = PIECE.BISHOP at hkind
  simp only [getPosition]
  have hstraight : k ∈ rookRays b pos → inBoardMap k = true →
      ∃ L, straightPath pos (Square.beyond pos k) = some L ∧ Square.beyond pos k ∈ L := by
    intro hr hin
    obtain ⟨_, hne, hline, _⟩ := (mem_rookRays_iff b pos k).mp ⟨hr, hin⟩
    obtain ⟨hne2, hline2⟩ := beyond_straight pos k hne hline
    rcases straightPath_spec pos (Square.beyond pos k) with ⟨_, hn⟩ | ⟨L, hL, _, _, _, hmem⟩
    · exact absurd ⟨hne2, hline2⟩ hn
    · exact ⟨L, hL, hmem⟩
  have hdiag : k ∈ bishopRays b pos → inBoardMap k = true →
      straightPath pos (Square.beyond pos k) = none ∧
        Square.beyond pos k ∈ diagonalPath pos (Square.beyond pos k) := by
    intro hr hin
    obtain ⟨_, hne, hd, _⟩ := (mem_bishopRays_iff b pos k).mp ⟨hr, hin⟩
    obtain ⟨hne2, hd2, hnl⟩ := beyond_diagonal pos k hne hd
    exact ⟨straightPath_none pos _ (fun h => hnl h.2),
      (diagonalPath_spec pos _).2.1.mpr ⟨hne2, hd2⟩⟩
  rcases hkind with e | e | e
  · subst e
    change k ∈ keepBoardSquares (queenRays b pos) at hatt
    rw [queenRays_eq, mem_keepBoardSquares, List.mem_append] at hatt
    obtain ⟨hr | hr, hin⟩ := hatt
    · obtain ⟨L, hL, hmem⟩ := hstraight hr hin
      simp only [getAttackingPath, queenPath_eq, hL]
      exact hmem
    · obtain ⟨hn, hmem⟩ := hdiag hr hin
      simp only [getAttackingPath, queenPath_eq, hn]
      exact hmem
  · subst e
    change k ∈ keepBoardSquares (rookRays b pos) at hatt
    rw [mem_keepBoardSquares] at hatt
    obtain ⟨L, hL, hmem⟩ := hstraight hatt.1 hatt.2
    simp only [getAttackingPath, hL, Option.getD_some]
    exact hmem
  · subst e
    change k ∈ keepBoardSquares (bishopRays b pos) at hatt
    rw [mem_keepBoardSquares] at hatt
    exact (hdiag hatt.1 hatt.2).2

end KingEscape

section KingSafety

open Chess

/-- When `canCastle` returns true the king is not under attack and its destination is
not attacked. -/
theorem canCastle_true_safe (c : Chess) (p : chessPiece) (s d : Square)
    (h : c.canCastle p s d = .ok true) :
    (p.getColor = COLOR.WHITE →
      c.isWhiteKingUnderAttack = .ok false ∧ c.isSquareUnderAttackByBlackPieces d = false) ∧
    (p.getColor = COLOR.BLACK →
      c.isBlackKingUnderAttack = .ok false ∧ c.isSquareUnderAttackByWhitePieces d = false) := by
  unfold canCastle at h
  by_cases hN : p.getPiece ≠ PIECE.KING
  · rw [if_pos hN] at h
    simp at h
  rw [if_neg hN] at h
  cases hcol : p.getColor with
  | WHITE =>
    refine ⟨fun _ => ?_, fun hx => by cases hx⟩
    rw [hcol] at h
    simp only at h
    cases hr : c.isWhiteKingUnderAttack with
    | error e => rw [hr] at h; simp at h
    | ok r =>
      rw [hr] at h
      simp only at h
      by_cases hA : (r || !p.isFirstMove) = true
      · rw [if_pos hA] at h
        simp at h
      · rw [if_neg hA] at h
        have hr0 : r = false := by
          cases r
          · rfl
          · simp at hA
        subst hr0
        refine ⟨rfl, ?_⟩
        by_cases hB : d = g1 ∧
            (c.m_chessBoard.isSquareOccupied f1 || c.m_chessBoard.isSquareOccupied g1 ||
             c.isSquareUnderAttackByBlackPieces f1 || c.isSquareUnderAttackByBlackPieces g1) = true
        · rw [if_pos hB] at h
          simp at h
        · rw [if_neg hB] at h
          by_cases hC : d = g1 ∧ (c.rookStandsOn h1 && p.isFirstMove) = true
          · simp only [not_and, Bool.or_eq_true, not_or, Bool.not_eq_true] at hB
            rw [hC.1]
            exact (hB hC.1).2
          · rw [if_neg hC] at h
            by_cases hD : d = c1 ∧
                (c.m_chessBoard.isSquareOccupied d1 || c.m_chessBoard.isSquareOccupied c1 ||
                 c.m_chessBoard.isSquareOccupied b1 || c.isSquareUnderAttackByBlackPieces d1 ||
                 c.isSquareUnderAttackByBlackPieces c1) = true
            · rw [if_pos hD] at h
              simp at h
            · rw [if_neg hD] at h
              by_cases hE : d = c1 ∧ (c.rookStandsOn a1 && p.isFirstMove) = true
              · simp only [not_and, Bool.or_eq_true, not_or, Bool.not_eq_true] at hD
                rw [hE.1]
                exact (hD hE.1).2
              · rw [if_neg hE] at h
                simp at h
  | BLACK =>
    refine ⟨fun hx => (by cases hx), fun _ => ?_⟩
    rw [hcol] at h
    simp only at h
    cases hr : c.isBlackKingUnderAttack with
    | error e => rw [hr] at h; simp at h
    | ok r =>
      rw [hr] at h
      simp only at h
      by_cases hA : (r || !p.isFirstMove) = true
      · rw [if_pos hA] at h
        simp at h
      · rw [if_neg hA] at h
        have hr0 : r = false := by
          cases r
          · rfl
          · simp at hA
        subst hr0
        refine ⟨rfl, ?_⟩
        by_cases hB : d = g8 ∧
            (c.m_chessBoard.isSquareOccupied f8 || c.m_chessBoard.isSquareOccupied g8 ||
             c.isSquareUnderAttackByWhitePieces f8 || c.isSquareUnderAttackByWhitePieces g8) = true
        · rw [if_pos hB] at h
          simp at h
        · rw [if_neg hB] at h
          by_cases hC : d = g8 ∧ (c.rookStandsOn h8 && p.isFirstMove) = true
          · simp only [not_and, Bool.or_eq_true, not_or, Bool.not_eq_true] at hB
            rw [hC.1]
            exact (hB hC.1).2
          · rw [if_neg hC] at h
            by_cases hD : d = c8 ∧
                (c.m_chessBoard.isSquareOccupied d8 || c.m_chessBoard.isSquareOccupied c8 ||
                 c.m_chessBoard.isSquareOccupied b8 || c.isSquareUnderAttackByWhitePieces d8 ||
                 c.isSquareUnderAttackByWhitePieces c8) = true
            · rw [if_pos hD] at h
              simp at h
            · rw [if_neg hD] at h
              by_cases hE : d = c8 ∧ (c.rookStandsOn a8 && p.isFirstMove) = true
              · simp only [not_and, Bool.or_eq_true, not_or, Bool.not_eq_true] at hD
                rw [hE.1]
                exact (hD hE.1).2
              · rw [if_neg hE] at h
                simp at h

/-- A king move is refused when the king-destination block refuses it and `canCastle`
does not return true. -/
theorem king_move_refused (c : Chess) (s d : Square) (p : chessPiece)
    (hw : c.whitePieces ≠ []) (hb : c.blackPieces ≠ [])
    (hp : c.getPieceFromPosition s = some p) (hk : p.getPiece = PIECE.KING)
    (hdanger : c.kingDestinationAttacked p d = .ok true)
    (hcastle : c.canCastle p s d ≠ .ok true) :
    returned (c.isValidMove s d) = some false := by
  unfold isValidMove
  rw [hp]
  dsimp only
  unfold isValidMove_rules
  by_cases hr : p.isValidMove c.m_chessBoard s d = true
  · rw [if_pos hr]
    dsimp only
    unfold isValidMove_checks
    rw [if_neg (by simp [hk]), hdanger]
    rfl
  · rw [if_neg hr, if_pos hk]
    obtain ⟨r, hcc⟩ := canCastle_total c p s d hw hb
    rw [hcc]
    cases r with
    | false => rfl
    | true => exact absurd hcc hcastle

/-- The white king may not go to a square a black piece attacks, nor to a square that an
attacker of the king has on its path. -/
theorem white_king_danger (c : Chess) (s d : Square) (p bk : chessPiece)
    (wrest brest : List chessPiece)
    (hw : c.whitePieces = p :: wrest) (hb : c.blackPieces = bk :: brest)
    (hk : p.getPiece = PIECE.KING) (hcol : p.getColor = COLOR.WHITE)
    (h : (∃ q ∈ c.blackPieces, d ∈ q.getAttackingSquares c.m_chessBoard) ∨
      (∃ a ∈ brest, p.getPosition ∈ a.getAttackingSquares c.m_chessBoard ∧
        d ∈ a.getAttackingPath d)) :
    c.kingDestinationAttacked p d = .ok true ∧ c.canCastle p s d ≠ .ok true := by
  constructor
  · unfold kingDestinationAttacked
    rw [if_neg (not_not.mpr hk), hcol]
    dsimp only
    by_cases hsq : c.isSquareUnderAttackByBlackPieces d = true
    · rw [if_pos hsq]
    · rw [if_neg hsq]
      rcases h with h | ⟨a, ha, hatt, hpath⟩
      · exact absurd ((anyAttacks_iff _ _ _).mpr h) hsq
      · unfold getWhiteKingAttackers
        rw [hw, hb]
        dsimp only
        congr 1
        rw [List.any_eq_true]
        exact ⟨a, List.mem_filter.mpr ⟨ha, List.elem_eq_true_of_mem hatt⟩,
          List.elem_eq_true_of_mem hpath⟩
  · intro hcc
    obtain ⟨hua, hsq⟩ := (canCastle_true_safe c p s d hcc).1 hcol
    rcases h with h | ⟨a, ha, hatt, _⟩
    · have := (anyAttacks_iff _ _ _).mpr h
      unfold isSquareUnderAttackByBlackPieces at hsq
      rw [hsq] at this
      cases this
    · unfold isWhiteKingUnderAttack at hua
      rw [hw, hb] at hua
      dsimp only at hua
      have hfalse : anyAttacks c.m_chessBoard brest p.getPosition = false := by
        injection hua
      rw [anyAttacks_eq_false_iff] at hfalse
      exact hfalse a ha hatt

/-- The black king may not go to a square a white piece attacks, nor to a square that an
attacker of the king has on its path. -/
theorem black_king_danger (c : Chess) (s d : Square) (p wk : chessPiece)
    (wrest brest : List chessPiece)
    (hw : c.whitePieces = wk :: wrest) (hb : c.blackPieces = p :: brest)
    (hk : p.getPiece = PIECE.KING) (hcol : p.getColor = COLOR.BLACK)
    (h : (∃ q ∈ c.whitePieces, d ∈ q.getAttackingSquares c.m_chessBoard) ∨
      (∃ a ∈ wrest, p.getPosition ∈ a.getAttackingSquares c.m_chessBoard ∧
        d ∈ a.getAttackingPath d)) :
    c.kingDestinationAttacked p d = .ok true ∧ c.canCastle p s d ≠ .ok true := by
  constructor
  · unfold kingDestinationAttacked
    rw [if_neg (not_not.mpr hk), hcol]
    dsimp only
    by_cases hsq : c.isSquareUnderAttackByWhitePieces d = true
    · rw [if_pos hsq]
    · rw [if_neg hsq]
      rcases h with h | ⟨a, ha, hatt, hpath⟩
      · exact absurd ((anyAttacks_iff _ _ _).mpr h) hsq
      · unfold getBlackKingAttackers
        rw [hw, hb]
        dsimp only
        congr 1
        rw [List.any_eq_true]
        exact ⟨a, List.mem_filter.mpr ⟨ha, List.elem_eq_true_of_mem hatt⟩,
          List.elem_eq_true_of_mem hpath⟩
  · intro hcc
    obtain ⟨hua, hsq⟩ := (canCastle_true_safe c p s d hcc).2 hcol
    rcases h with h | ⟨a, ha, hatt, _⟩
    · have := (anyAttacks_iff _ _ _).mpr h
      unfold isSquareUnderAttackByWhitePieces at hsq
      rw [hsq] at this
      cases this
    · unfold isBlackKingUnderAttack at hua
      rw [hw, hb] at hua
      dsimp only at hua
      have hfalse : anyAttacks c.m_chessBoard wrest p.getPosition = false := by
        injection hua
      rw [anyAttacks_eq_false_iff] at hfalse
      exact hfalse a ha hatt

/-- In a consistent position (whatever the flags) a king may not go to a square an enemy
piece attacks, nor to the square behind it on the line of an enemy Queen, Rook or Bishop
that attacks it. -/
theorem king_move_into_attack (c : Chess) (s d : Square) (p a : chessPiece)
    (hc : c.resetFlags.consistent = true)
    (hp : c.getPieceFromPosition s = some p) (hk : p.getPiece = PIECE.KING)
    (ha : a ∈ c.pieces) (hcol : a.getColor ≠ p.getColor)
    (hatt : d ∈ a.getAttackingSquares c.m_chessBoard ∨
      ((a.getPiece = PIECE.QUEEN ∨ a.getPiece = PIECE.ROOK ∨ a.getPiece = PIECE.BISHOP) ∧
        s ∈ a.getAttackingSquares c.m_chessBoard ∧ d = Square.beyond a.getPosition s)) :
    returned (c.isValidMove s d) = some false := by
  obtain ⟨hkf0, hwc0, hbc0, _⟩ := consistent_sides c.resetFlags hc
  have hkf : c.kingFirst = true := hkf0
  have hwc : ∀ r ∈ c.whitePieces, r.getColor = COLOR.WHITE := hwc0
  have hbc : ∀ r ∈ c.blackPieces, r.getColor = COLOR.BLACK := hbc0
  obtain ⟨hwne, hbne⟩ := kingFirst_nonempty c hkf
  obtain ⟨wk, wrest, hw, hwk, _, hwrest⟩ := kingFirst_white hkf
  obtain ⟨bk, brest, hb, hbk, _, hbrest⟩ := kingFirst_black hkf
  obtain ⟨hpm, hps⟩ := getPieceFromPosition_some c s p hp
  have hpm2 : p ∈ c.whitePieces ∨ p ∈ c.blackPieces := List.mem_append.mp hpm
  have ham2 : a ∈ c.whitePieces ∨ a ∈ c.blackPieces := List.mem_append.mp ha
  have hpath : ∀ hs : (a.getPiece = PIECE.QUEEN ∨ a.getPiece = PIECE.ROOK ∨
        a.getPiece = PIECE.BISHOP) ∧ s ∈ a.getAttackingSquares c.m_chessBoard ∧
        d = Square.beyond a.getPosition s,
      a.getPiece ≠ PIECE.KING ∧ p.getPosition ∈ a.getAttackingSquares c.m_chessBoard ∧
        d ∈ a.getAttackingPath d := by
    rintro ⟨hkind, hsa, hd⟩
    refine ⟨?_, hps ▸ hsa, ?_⟩
    · rcases hkind with e | e | e <;> rw [e] <;> decide
    · rw [hd]
      exact slider_path_beyond a c.m_chessBoard s hkind hsa
  cases hpc : p.getColor with
  | WHITE =>
    rw [hpc] at hcol
    have hpw : p ∈ c.whitePieces := by
      rcases hpm2 with h | h
      · exact h
      · have := hbc p h
        rw [hpc] at this
        cases this
    have hab : a ∈ c.blackPieces := by
      rcases ham2 with h | h
      · exact absurd (hwc a h) hcol
      · exact h
    have hpk : p = wk := by
      rw [hw] at hpw
      rcases List.mem_cons.mp hpw with h | h
      · exact h
      · exact absurd hk (hwrest p h)
    subst hpk
    obtain ⟨hdanger, hcastle⟩ := white_king_danger c s d p bk wrest brest hw hb hk hpc (by
      rcases hatt with h | h
      · exact Or.inl ⟨a, hab, h⟩
      · obtain ⟨hnk, hq, hq2⟩ := hpath h
        right
        refine ⟨a, ?_, hq, hq2⟩
        rw [hb] at hab
        rcases List.mem_cons.mp hab with e | e
        · rw [e] at hnk
          exact absurd hbk hnk
        · exact e)
    exact king_move_refused c s d p hwne hbne hp hk hdanger hcastle
  | BLACK =>
    rw [hpc] at hcol
    have hpb : p ∈ c.blackPieces := by
      rcases hpm2 with h | h
      · have := hwc p h
        rw [hpc] at this
        cases this
      · exact h
    have haw : a ∈ c.whitePieces := by
      rcases ham2 with h | h
      · exact h
      · exact absurd (hbc a h) hcol
    have hpk : p = bk := by
      rw [hb] at hpb
      rcases List.mem_cons.mp hpb with h | h
      · exact h
      · exact absurd hk (hbrest p h)
    subst hpk
    obtain ⟨hdanger, hcastle⟩ := black_king_danger c s d p wk wrest brest hw hb hk hpc (by
      rcases hatt with h | h
      · exact Or.inl ⟨a, haw, h⟩
      · obtain ⟨hnk, hq, hq2⟩ := hpath h
        right
        refine ⟨a, ?_, hq, hq2⟩
        rw [hw] at haw
        rcases List.mem_cons.mp haw with e | e
        · rw [e] at hnk
          exact absurd hwk hnk
        · exact e)
    exact king_move_refused c s d p hwne hbne hp hk hdanger hcastle

end KingSafety

section PawnOccupancy

open Chess

/-- A Pawn attacks no square of its own file. -/
theorem pawn_attack_other_file (p : chessPiece) (b : chessBoard) (d : Square)
    (hk : p.getPiece = PIECE.PAWN) (hfile : d.file = p.getPosition.file) :
    (p.getAttackingSquares b).contains d = false := by
  rw [Bool.eq_false_iff]
  intro h
  replace h := List.mem_of_elem_eq_true h
  obtain ⟨ptr, color, kind, pos, fm⟩ := p
  change kind = PIECE.PAWN at hk
  change d.file = pos.file at hfile
  subst hk
  change d ∈ chessPiece.keepBoardSquares (chessPiece.pawnOffsets color pos) at h
  rw [mem_keepBoardSquares] at h
  obtain ⟨h, _⟩ := h
  cases color <;>
    simp only [chessPiece.pawnOffsets, List.mem_cons, List.mem_singleton, List.not_mem_nil,
      or_false, Square.eq_iff] at h <;> omega

/-- The Pawn's own rule refuses every destination on another file. -/
theorem pawnIsValidMove_other_file (p : chessPiece) (b : chessBoard) (s d : Square)
    (hfile : d.file ≠ s.file) : p.pawnIsValidMove b s d = false := by
  unfold chessPiece.pawnIsValidMove
  split_ifs
  · rfl
  · rfl
  · rfl
  · have hne : ¬ s.file = d.file := fun e => hfile e.symm
    simp [hne]

/-- Whatever the flags, a pawn move to a square of the pawn's file that the board shows
as occupied (or that is off the board) is refused, and the call changes nothing. -/
theorem pawn_file_occupied (c : Chess) (s d : Square) (p : chessPiece)
    (hp : c.getPieceFromPosition s = some p) (hk : p.getPiece = PIECE.PAWN)
    (hfile : d.file = s.file)
    (hocc : c.m_chessBoard.isSquareOccupied d = true ∨ inBoardMap d = false) :
    c.isValidMove s d = .ok (false, c) := by
  obtain ⟨_, hps⟩ := getPieceFromPosition_some c s p hp
  have hnot : (p.getAttackingSquares c.m_chessBoard).contains d = false :=
    pawn_attack_other_file p _ d hk (by rw [hps]; exact hfile)
  have hmem : d ∉ p.getAttackingSquares c.m_chessBoard := by
    intro hm
    have := List.elem_eq_true_of_mem hm
    rw [List.contains, this] at hnot
    cases hnot
  have hkm : p.m_piece = PIECE.PAWN := hk
  have hr : ¬ p.isValidMove c.m_chessBoard s d = true := by
    rw [Bool.not_eq_true]
    simp only [chessPiece.isValidMove, hkm]
    unfold chessPiece.pawnIsValidMove
    by_cases hX : (!inBoardMap s || !inBoardMap d || decide (s = d)) = true
    · rw [if_pos hX]
    · rw [if_neg hX]
      rcases hocc with hocc | hocc
      · rw [if_pos (by simp [hocc, hmem])]
      · simp [hocc] at hX
  have hnk : ¬ p.getPiece = PIECE.KING := by rw [hk]; decide
  unfold isValidMove
  rw [hp]
  dsimp only
  unfold isValidMove_rules
  rw [if_neg hr, if_neg hnk]
  dsimp only
  rw [if_pos hk, if_pos (by simp [hmem])]

/-- With `m_activatePawnCapturing` cleared and a non-empty history, a pawn move to a
square of another file on which no piece stands is refused unless the four tests the code
makes on the last record hold: a Pawn stands on the record's destination, the record spans
two ranks, and its destination is on a file next to `source` and on the rank of `source`. -/
theorem pawn_diagonal_empty (c : Chess) (s d : Square) (p : chessPiece)
    (lm : Square × Square)
    (hp : c.getPieceFromPosition s = some p) (hk : p.getPiece = PIECE.PAWN)
    (hA : c.m_activatePawnCapturing = false)
    (hfile : d.file ≠ s.file) (hempty : c.getPieceFromPosition d = none)
    (hlast : c.m_moveDB.getLast? = some lm)
    (hnot : ¬ (isPawnPtr (c.getPieceFromPosition lm.2) = true ∧
      (lm.1.rank - lm.2.rank).natAbs = 2 ∧ (s.file - lm.2.file).natAbs = 1 ∧
      s.rank = lm.2.rank)) :
    c.isValidMove s d = .ok (false, c) := by
  obtain ⟨_, hps⟩ := getPieceFromPosition_some c s p hp
  have hkm : p.m_piece = PIECE.PAWN := hk
  have hr : ¬ p.isValidMove c.m_chessBoard s d = true := by
    rw [Bool.not_eq_true]
    simp only [chessPiece.isValidMove, hkm]
    exact pawnIsValidMove_other_file p _ s d hfile
  have hnk : ¬ p.getPiece = PIECE.KING := by rw [hk]; decide
  have henemy : c.enemyStandsOn p.getColor d = false := by
    have hall := (getPieceFromPosition_none c d).mp hempty
    unfold enemyStandsOn
    cases p.getColor
    · simp only [List.any_eq_false, decide_eq_true_eq]
      exact fun q hq => hall q (List.mem_append_right _ hq)
    · simp only [List.any_eq_false, decide_eq_true_eq]
      exact fun q hq => hall q (List.mem_append_left _ hq)
  unfold isValidMove
  rw [hp]
  dsimp only
  unfold isValidMove_rules
  rw [if_neg hr, if_neg hnk]
  dsimp only
  rw [if_pos hk]
  by_cases hC : (!(p.getAttackingSquares c.m_chessBoard).contains d) = true
  · rw [if_pos hC]
  · rw [if_neg hC]
    simp only [henemy, Bool.false_eq_true, if_false, hA, Bool.not_false, if_true,
      getLastMove, hlast]
    rw [if_pos]
    rw [hps]
    simp only [Bool.or_eq_true, Bool.not_eq_true', decide_eq_true_eq]
    by_contra hcon
    simp only [not_or, Bool.not_eq_false, not_not] at hcon
    exact hnot ⟨hcon.1.1.1, hcon.1.1.2, hcon.1.2, hcon.2⟩

end PawnOccupancy

section KingMoveSearch

open Chess

/-- The self-check block returns when both collections are non-empty. -/
theorem exposesOwnKing_total (c : Chess) (p : chessPiece) (pd : Option chessPiece)
    (s d : Square) (hw : c.whitePieces ≠ []) (hb : c.blackPieces ≠ []) :
    ∃ r, c.exposesOwnKing p pd s d = .ok r := by
  unfold exposesOwnKing
  cases p.getColor with
  | WHITE =>
    cases hA : c.whitePieces with
    | nil => exact absurd hA hw
    | cons k ws => exact ⟨_, rfl⟩
  | BLACK =>
    cases hA : c.blackPieces with
    | nil => exact absurd hA hb
    | cons k bs => exact ⟨_, rfl⟩

/-- The second half of `isValidMove` returns when both collections are non-empty. -/
theorem isValidMove_checks_total (c : Chess) (p : chessPiece) (s d : Square)
    (hw : c.whitePieces ≠ []) (hb : c.blackPieces ≠ []) :
    ∃ r, c.isValidMove_checks p s d = .ok r := by
  unfold isValidMove_checks
  split_ifs with hA
  · exact ⟨_, rfl⟩
  · obtain ⟨r, hr⟩ := kingDestinationAttacked_total c p d hw hb
    rw [hr]
    cases r with
    | true => exact ⟨_, rfl⟩
    | false =>
      dsimp only
      split_ifs with hB
      · exact ⟨_, rfl⟩
      · obtain ⟨e, he⟩ := exposesOwnKing_total c p (c.getPieceFromPosition d) s d hw hb
        rw [he]
        exact ⟨_, rfl⟩

/-- A call of `isValidMove` for a square on which a King is found returns, whatever the
flags are. -/
theorem isValidMove_king_total (c : Chess) (s d : Square) (p : chessPiece)
    (hw : c.whitePieces ≠ []) (hb : c.blackPieces ≠ [])
    (hp : c.getPieceFromPosition s = some p) (hk : p.getPiece = PIECE.KING) :
    ∃ r c1, c.isValidMove s d = .ok (r, c1) := by
  unfold isValidMove
  rw [hp]
  dsimp only
  unfold isValidMove_rules
  by_cases hr : p.isValidMove c.m_chessBoard s d = true
  · rw [if_pos hr]
    dsimp only
    obtain ⟨r, hc⟩ := isValidMove_checks_total c p s d hw hb
    rw [hc]
    exact ⟨_, _, rfl⟩
  · rw [if_neg hr, if_pos hk]
    obtain ⟨r, hcc⟩ := canCastle_total c p s d hw hb
    rw [hcc]
    exact ⟨_, _, rfl⟩

/-- The loop over the king's destinations returns. -/
theorem tryDestinations_king_total (s : Square) (p : chessPiece)
    (hk : p.getPiece = PIECE.KING) :
    ∀ (l : List Square) (c : Chess), c.whitePieces ≠ [] → c.blackPieces ≠ [] →
      c.getPieceFromPosition s = some p → ∃ r c1, tryDestinations s c l = .ok (r, c1) := by
  intro l
  induction l with
  | nil =>
    intro c _ _ _
    exact ⟨false, c, rfl⟩
  | cons d rest ih =>
    intro c hw hb hp
    unfold tryDestinations
    obtain ⟨r, c1, hv⟩ := isValidMove_king_total c s d p hw hb hp hk
    rw [hv]
    cases r with
    | true => exact ⟨_, _, rfl⟩
    | false =>
      dsimp only
      obtain ⟨_, hw1, hb1, _, _⟩ := isValidMove_frame c s d false c1 hv
      apply ih c1
      · rw [hw1]; exact hw
      · rw [hb1]; exact hb
      · rw [getPieceFromPosition_congr c c1 hw1 hb1]; exact hp

/-- When the white king is not under attack, `whiteKingCheckCanBeEliminated()` returns
true if the loop over the king's destinations finds a valid one, and throws
`Invalid function use` otherwise. -/
theorem whiteKingCheckCanBeEliminated_unattacked (c : Chess) (wKing : chessPiece)
    (wrest : List chessPiece)
    (hw : c.whitePieces = wKing :: wrest) (hb : c.blackPieces ≠ [])
    (hk : wKing.getPiece = PIECE.KING)
    (hu : c.isWhiteKingUnderAttack = .ok false) :
    (returned c.whiteKingCheckCanBeEliminated = some true ∨
      fault c.whiteKingCheckCanBeEliminated =
        some (Fault.logic_error "Invalid function use")) ∧
    (returned c.whiteKingCheckCanBeEliminated = some true ↔
      returned (tryDestinations wKing.getPosition c
        (wKing.getAttackingSquares c.m_chessBoard)) = some true) := by
  have hwne : c.whitePieces ≠ [] := by rw [hw]; exact List.cons_ne_nil _ _
  have hp : c.getPieceFromPosition wKing.getPosition = some wKing := by
    unfold getPieceFromPosition
    rw [hw]
    simp [List.find?]
  obtain ⟨r, c1, ht⟩ := tryDestinations_king_total wKing.getPosition wKing hk
    (wKing.getAttackingSquares c.m_chessBoard) c hwne hb hp
  unfold whiteKingCheckCanBeEliminated
  rw [hw]
  dsimp only
  rw [ht]
  cases r with
  | true => exact ⟨Or.inl rfl, Iff.rfl⟩
  | false =>
    dsimp only
    obtain ⟨hbd, hw1, hb1, _, _⟩ := tryDestinations_frame _ _ c false c1 ht
    have hatt : c1.getWhiteKingAttackers = .ok [] := by
      unfold isWhiteKingUnderAttack at hu
      unfold getWhiteKingAttackers
      rw [hw1, hb1, hbd, hw]
      rw [hw] at hu
      cases hbl : c.blackPieces with
      | nil => exact absurd hbl hb
      | cons bk brest =>
        rw [hbl] at hu
        dsimp only at hu ⊢
        have hfalse : anyAttacks c.m_chessBoard brest wKing.getPosition = false := by
          injection hu
        rw [anyAttacks_eq_false_iff] at hfalse
        congr 1
        rw [List.filter_eq_nil_iff]
        intro q hq hcon
        exact hfalse q hq (List.mem_of_elem_eq_true hcon)
    rw [hatt]
    dsimp only
    unfold eliminateAttacker
    dsimp only
    refine ⟨Or.inr rfl, ?_⟩
    simp [returned]

/-- When the black king is not under attack, `blackKingCheckCanBeEliminated()` returns
true if the loop over the king's destinations finds a valid one, and throws
`Invalid function use` otherwise. -/
theorem blackKingCheckCanBeEliminated_unattacked (c : Chess) (bKing : chessPiece)
    (brest : List chessPiece)
    (hw : c.whitePieces ≠ []) (hb : c.blackPieces = bKing :: brest)
    (hk : bKing.getPiece = PIECE.KING)
    (hp : c.getPieceFromPosition bKing.getPosition = some bKing)
    (hu : c.isBlackKingUnderAttack = .ok false) :
    (returned c.blackKingCheckCanBeEliminated = some true ∨
      fault c.blackKingCheckCanBeEliminated =
        some (Fault.logic_error "Invalid function use")) ∧
    (returned c.blackKingCheckCanBeEliminated = some true ↔
      returned (tryDestinations bKing.getPosition c
        (bKing.getAttackingSquares c.m_chessBoard)) = some true) := by
  have hbne : c.blackPieces ≠ [] := by rw [hb]; exact List.cons_ne_nil _ _
  obtain ⟨r, c1, ht⟩ := tryDestinations_king_total bKing.getPosition bKing hk
    (bKing.getAttackingSquares c.m_chessBoard) c hw hbne hp
  unfold blackKingCheckCanBeEliminated
  rw [hb]
  dsimp only
  rw [ht]
  cases r with
  | true => exact ⟨Or.inl rfl, Iff.rfl⟩
  | false =>
    dsimp only
    obtain ⟨hbd, hw1, hb1, _, _⟩ := tryDestinations_frame _ _ c false c1 ht
    have hatt : c1.getBlackKingAttackers = .ok [] := by
      unfold isBlackKingUnderAttack at hu
      unfold getBlackKingAttackers
      rw [hw1, hb1, hbd, hb]
      rw [hb] at hu
      cases hwl : c.whitePieces with
      | nil => exact absurd hwl hw
      | cons wk wrest =>
        rw [hwl] at hu
        dsimp only at hu ⊢
        have hfalse : anyAttacks c.m_chessBoard wrest bKing.getPosition = false := by
          injection hu
        rw [anyAttacks_eq_false_iff] at hfalse
        congr 1
        rw [List.filter_eq_nil_iff]
        intro q hq hcon
        exact hfalse q hq (List.mem_of_elem_eq_true hcon)
    rw [hatt]
    dsimp only
    unfold eliminateAttacker
    dsimp only
    refine ⟨Or.inr rfl, ?_⟩
    simp [returned]

end KingMoveSearch

/-! ## The claims -/

/-- C1, the code at the failing input.  Claim: whenever `isValidMove(source, destination)`
returns true, the mover's own king is not under attack after `move(source, destination)`.
In the position the fourteen accepted half-moves of `enPassantPinGame` reach (consistent,
white king on h5 not under attack), `isValidMove("e5", "d6")` returns true and sets
`m_enPassant`, and after `move("e5", "d6")` `isWhiteKingUnderAttack()` is true: the
black rook a5 sees h5 along the fifth rank, which the two pawns have left. -/
theorem C1_en_passant_capture_exposes_own_king :
    (Game.reached enPassantPinGame).map (fun c =>
        (c.consistent, c.isWhiteKingUnderAttack, returned (c.isValidMove e5 d6)))
      = some (true, .ok false, some true) ∧
    (Game.reached enPassantPinGame).map (fun c =>
        (value (c.isValidMove e5 d6)).map (fun r => (r.1, r.2.m_enPassant)))
      = some (some (true, true)) ∧
    (Game.reached enPassantPinGame).map (fun c =>
        (c.validatedMove e5 d6).map (fun c2 => c2.isWhiteKingUnderAttack))
      = some (some (.ok true)) := by
  refine ⟨by decide!, by decide!, by decide!⟩

/-- C2, the code at the failing input.  Claim: `isWhiteCheckMated()` returns true exactly
when the white king is under attack and no `isValidMove(source, destination)` from a
white piece's square, evaluated with cleared flags, returns true.  In
`stickyMatePosition` (consistent) the king is under attack and every such call, for each
of the three white pieces and each of the 64 destinations, returns false; the rejected
call `isValidMove("d4", "e5")` leaves `m_activatePawnCapturing` set, with which
`isValidMove("f3", "e4")` returns true; and `isWhiteCheckMated()` returns false. -/
theorem C2_checkmate_missed_after_rejected_pawn_capture :
    stickyMatePosition.consistent = true ∧
    stickyMatePosition.isWhiteKingUnderAttack = .ok true ∧
    stickyMatePosition.whitePieces.all (fun p => allSquares.all (fun d =>
      returned (stickyMatePosition.isValidMove p.getPosition d) == some false)) = true ∧
    (value (stickyMatePosition.isValidMove d4 e5)).map
        (fun r => (r.1, r.2.m_activatePawnCapturing, returned (r.2.isValidMove f3 e4)))
      = some (false, true, some true) ∧
    returned stickyMatePosition.isWhiteCheckMated = some false := by
  refine ⟨by decide!, by decide!, by decide!, by decide!, by decide!⟩

/-- C3: from the initial position the half-moves f2-f3, e7-e5, g2-g4, d8-h4 are each
accepted by `isValidMove` and applied by `move`, with the flags reset after each; in the
position reached `isWhiteKingUnderAttack()` is true, the white king stands on e1 and
`isValidMove("e1", q)` is false for each of its attacking squares q (f1, f2, e2, d1, d2),
`whiteKingCheckCanBeEliminated()` is false and `isWhiteCheckMated()` is true. -/
theorem C3_fools_mate :
    returned (Game.play foolsMateGame) = some true ∧
    (Game.reached foolsMateGame).map (fun c =>
        (c.isWhiteKingUnderAttack, returned c.whiteKingCheckCanBeEliminated,
         returned c.isWhiteCheckMated))
      = some (.ok true, some false, some true) ∧
    (Game.reached foolsMateGame).map (fun c =>
        c.whitePieces.head?.map (fun k => (k.getPiece, k.getPosition)))
      = some (some (PIECE.KING, e1)) ∧
    (Game.reached foolsMateGame).map (fun c =>
        c.whitePieces.head?.map (fun k =>
          (k.getAttackingSquares c.m_chessBoard).map (fun q =>
            (q, returned (c.isValidMove e1 q)))))
      = some (some [(f1, some false), (f2, some false), (e2, some false), (d1, some false),
                    (d2, some false)]) := by
  refine ⟨by decide!, by decide!, by decide!, by decide!⟩

/-- C4, the code at the failing input.  Claim: `isWhiteStalemate()` returns true exactly
when the white king is not under attack and, for every white piece and every square of
its candidate set, `isValidMove` evaluated on its own with cleared flags is false.  In
`stickyStalematePosition` (consistent) the king is not under attack and each of those
calls (three for the king, four for the pawn) returns false; the rejected call
`isValidMove("g2", "h3")` leaves `m_activatePawnCapturing` set, with which
`isValidMove("g2", "f3")` returns true; and `isWhiteStalemate()` returns false. -/
theorem C4_stalemate_missed_after_rejected_pawn_capture :
    stickyStalematePosition.consistent = true ∧
    stickyStalematePosition.isWhiteKingUnderAttack = .ok false ∧
    stickyStalematePosition.whitePieces.map (fun p =>
        (p.getPosition, (stickyStalematePosition.candidateSquares p).map (fun d =>
          (d, returned (stickyStalematePosition.isValidMove p.getPosition d)))))
      = [(h1, [(h2, some false), (g1, some false), (g2, some false)]),
         (g2, [(h3, some false), (f3, some false), (g3, some false), (g4, some false)])] ∧
    (value (stickyStalematePosition.isValidMove g2 h3)).map
        (fun r => (r.1, r.2.m_activatePawnCapturing, returned (r.2.isValidMove g2 f3)))
      = some (false, true, some true) ∧
    returned stickyStalematePosition.isWhiteStalemate = some false := by
  refine ⟨by decide!, by decide!, by decide!, by decide!, by decide!⟩

set_option maxHeartbeats 4000000 in
/-- C5: in the position with the black king alone on a8, the white king on e1 and the
white queen on b6 (whatever the kings' has-moved flags and the move history),
`isBlackKingUnderAttack()` is false, the black king's attacking squares are b8, b7, a7
and `isValidMove("a8", q)` is false for each of them, and `isBlackStalemate()` is true. -/
theorem C5_queen_stalemate (whiteKingFirstMove blackKingFirstMove : Bool)
    (history : List (Square × Square)) :
    (queenStalematePosition whiteKingFirstMove blackKingFirstMove history).consistent = true ∧
    (queenStalematePosition whiteKingFirstMove blackKingFirstMove history).isBlackKingUnderAttack
      = .ok false ∧
    (queenStalematePosition whiteKingFirstMove blackKingFirstMove history).blackPieces.map
      (fun k =>
        (k.getPiece, k.getPosition,
          (k.getAttackingSquares
            (queenStalematePosition whiteKingFirstMove blackKingFirstMove
              history).m_chessBoard).map
            (fun q => (q, returned
              ((queenStalematePosition whiteKingFirstMove blackKingFirstMove history).isValidMove
                a8 q)))))
      = [(PIECE.KING, a8, [(b8, some false), (b7, some false), (a7, some false)])] ∧
    returned
      (queenStalematePosition whiteKingFirstMove blackKingFirstMove history).isBlackStalemate
      = some true := by
  cases whiteKingFirstMove <;> cases blackKingFirstMove <;> exact ⟨rfl, rfl, rfl, rfl⟩

/-- C6: in a position whose collections each hold their king first, with `wKing` and
`bKing` those first elements, `isWhiteKingUnderAttack()` returns a boolean that is true
exactly when the square of `wKing` is in `getAttackingSquares()` of some black piece
other than the black king, and symmetrically for `isBlackKingUnderAttack()`;
`getWhiteKingAttackers()` / `getBlackKingAttackers()` return the opposing collection
filtered to exactly those pieces (so each as often as the collection holds it: once). -/
theorem C6_check_definition (c : Chess) (h : c.kingFirst = true) :
    ∃ wKing bKing, c.whitePieces.head? = some wKing ∧ c.blackPieces.head? = some bKing ∧
      (∃ r, c.isWhiteKingUnderAttack = .ok r ∧
        (r = true ↔ ∃ q ∈ c.blackPieces, q.getPiece ≠ PIECE.KING ∧
          wKing.getPosition ∈ q.getAttackingSquares c.m_chessBoard)) ∧
      (∃ r, c.isBlackKingUnderAttack = .ok r ∧
        (r = true ↔ ∃ q ∈ c.whitePieces, q.getPiece ≠ PIECE.KING ∧
          bKing.getPosition ∈ q.getAttackingSquares c.m_chessBoard)) ∧
      c.getWhiteKingAttackers = .ok (c.blackPieces.filter (fun q =>
        decide (q.getPiece ≠ PIECE.KING) &&
          (q.getAttackingSquares c.m_chessBoard).contains wKing.getPosition)) ∧
      c.getBlackKingAttackers = .ok (c.whitePieces.filter (fun q =>
        decide (q.getPiece ≠ PIECE.KING) &&
          (q.getAttackingSquares c.m_chessBoard).contains bKing.getPosition)) := by
  obtain ⟨wKing, ws, hw, hwk, -, hws⟩ := kingFirst_white h
  obtain ⟨bKing, bs, hb, hbk, -, hbs⟩ := kingFirst_black h
  refine ⟨wKing, bKing, by simp [hw], by simp [hb], ?_, ?_, ?_, ?_⟩
  · refine ⟨anyAttacks c.m_chessBoard bs wKing.getPosition,
      by simp [isWhiteKingUnderAttack, hw, hb], ?_⟩
    rw [anyAttacks_iff, hb]
    constructor
    · rintro ⟨q, hq, ha⟩
      exact ⟨q, List.mem_cons_of_mem _ hq, hbs q hq, ha⟩
    · rintro ⟨q, hq, hne, ha⟩
      exact ⟨q, (mem_nonKing_iff hbk hbs q).1 ⟨hq, hne⟩, ha⟩
  · refine ⟨anyAttacks c.m_chessBoard ws bKing.getPosition,
      by simp [isBlackKingUnderAttack, hw, hb], ?_⟩
    rw [anyAttacks_iff, hw]
    constructor
    · rintro ⟨q, hq, ha⟩
      exact ⟨q, List.mem_cons_of_mem _ hq, hws q hq, ha⟩
    · rintro ⟨q, hq, hne, ha⟩
      exact ⟨q, (mem_nonKing_iff hwk hws q).1 ⟨hq, hne⟩, ha⟩
  · rw [hb, filter_nonKing hbk hbs]
    simp [getWhiteKingAttackers, hw, hb]
  · rw [hw, filter_nonKing hwk hws]
    simp [getBlackKingAttackers, hw, hb]

/-- C6 at `stickyMatePosition`, where the black queen e5 attacks the white king e3. -/
theorem C6_check_definition_witness :
    stickyMatePosition.isWhiteKingUnderAttack = .ok true ∧
    ∃ wKing bKing, stickyMatePosition.whitePieces.head? = some wKing ∧
      stickyMatePosition.blackPieces.head? = some bKing ∧
      (∃ r, stickyMatePosition.isWhiteKingUnderAttack = .ok r ∧
        (r = true ↔ ∃ q ∈ stickyMatePosition.blackPieces, q.getPiece ≠ PIECE.KING ∧
          wKing.getPosition ∈ q.getAttackingSquares stickyMatePosition.m_chessBoard)) ∧
      (∃ r, stickyMatePosition.isBlackKingUnderAttack = .ok r ∧
        (r = true ↔ ∃ q ∈ stickyMatePosition.whitePieces, q.getPiece ≠ PIECE.KING ∧
          bKing.getPosition ∈ q.getAttackingSquares stickyMatePosition.m_chessBoard)) ∧
      stickyMatePosition.getWhiteKingAttackers =
        .ok (stickyMatePosition.blackPieces.filter (fun q =>
          decide (q.getPiece ≠ PIECE.KING) &&
            (q.getAttackingSquares stickyMatePosition.m_chessBoard).contains
              wKing.getPosition)) ∧
      stickyMatePosition.getBlackKingAttackers =
        .ok (stickyMatePosition.whitePieces.filter (fun q =>
          decide (q.getPiece ≠ PIECE.KING) &&
            (q.getAttackingSquares stickyMatePosition.m_chessBoard).contains
              bKing.getPosition)) :=
  ⟨by decide!, C6_check_definition stickyMatePosition (by decide!)⟩

/-- C7: whenever `canCastle(piece, source, destination)` returns true, the piece is a King
whose `isFirstMove()` is true, the king of its colour is not under attack, and either
(White) the destination is g1 with f1, g1 unoccupied and in no black piece's attacking
squares, or c1 with d1, c1, b1 unoccupied and d1, c1 in no black piece's attacking
squares, or (Black) the same on rank 8 against the white pieces.  For a piece that is
not a King `canCastle` returns false, and so it does (both collections being non-empty)
for a destination that is not a castling square of the king's colour. -/
theorem C7_castling_preconditions (c : Chess) (p : chessPiece) (source destination : Square) :
    (c.canCastle p source destination = .ok true →
      p.getPiece = PIECE.KING ∧ p.isFirstMove = true ∧
      ((p.getColor = COLOR.WHITE ∧ c.isWhiteKingUnderAttack = .ok false ∧
          ((destination = g1 ∧
              c.m_chessBoard.isSquareOccupied f1 = false ∧
              c.m_chessBoard.isSquareOccupied g1 = false ∧
              (∀ q ∈ c.blackPieces, f1 ∉ q.getAttackingSquares c.m_chessBoard) ∧
              (∀ q ∈ c.blackPieces, g1 ∉ q.getAttackingSquares c.m_chessBoard)) ∨
           (destination = c1 ∧
              c.m_chessBoard.isSquareOccupied d1 = false ∧
              c.m_chessBoard.isSquareOccupied c1 = false ∧
              c.m_chessBoard.isSquareOccupied b1 = false ∧
              (∀ q ∈ c.blackPieces, d1 ∉ q.getAttackingSquares c.m_chessBoard) ∧
              (∀ q ∈ c.blackPieces, c1 ∉ q.getAttackingSquares c.m_chessBoard)))) ∨
       (p.getColor = COLOR.BLACK ∧ c.isBlackKingUnderAttack = .ok false ∧
          ((destination = g8 ∧
              c.m_chessBoard.isSquareOccupied f8 = false ∧
              c.m_chessBoard.isSquareOccupied g8 = false ∧
              (∀ q ∈ c.whitePieces, f8 ∉ q.getAttackingSquares c.m_chessBoard) ∧
              (∀ q ∈ c.whitePieces, g8 ∉ q.getAttackingSquares c.m_chessBoard)) ∨
           (destination = c8 ∧
              c.m_chessBoard.isSquareOccupied d8 = false ∧
              c.m_chessBoard.isSquareOccupied c8 = false ∧
              c.m_chessBoard.isSquareOccupied b8 = false ∧
              (∀ q ∈ c.whitePieces, d8 ∉ q.getAttackingSquares c.m_chessBoard) ∧
              (∀ q ∈ c.whitePieces, c8 ∉ q.getAttackingSquares c.m_chessBoard)))))) ∧
    (p.getPiece ≠ PIECE.KING → c.canCastle p source destination = .ok false) ∧
    (c.whitePieces ≠ [] → c.blackPieces ≠ [] →
      ¬ (p.getColor = COLOR.WHITE ∧ (destination = g1 ∨ destination = c1)) →
      ¬ (p.getColor = COLOR.BLACK ∧ (destination = g8 ∨ destination = c8)) →
      c.canCastle p source destination = .ok false) := by
  refine ⟨?_, ?_, ?_⟩
  · intro h
    unfold canCastle at h
    by_cases hk : p.getPiece = PIECE.KING
    · simp only [hk, ne_eq, not_true_eq_false, if_false] at h
      refine ⟨hk, ?_⟩
      cases hc : p.getColor with
      | WHITE =>
        simp only [hc] at h
        cases ha : c.isWhiteKingUnderAttack with
        | error e => simp [ha] at h
        | ok attacked =>
          simp only [ha] at h
          split at h
          · simp at h
          · rename_i h1
            simp only [Bool.or_eq_true, Bool.not_eq_true', not_or, Bool.not_eq_true,
              Bool.not_eq_false] at h1
            obtain ⟨hatt, hfm⟩ := h1
            subst hatt
            refine ⟨hfm, Or.inl ⟨rfl, rfl, ?_⟩⟩
            split at h
            · simp at h
            · rename_i h2
              split at h
              · rename_i h3
                left
                simp only [h3.1, true_and, Bool.or_eq_true, not_or, Bool.not_eq_true] at h2
                refine ⟨h3.1, h2.1.1.1, h2.1.1.2, ?_, ?_⟩
                · exact (anyAttacks_eq_false_iff _ _ _).1 h2.1.2
                · exact (anyAttacks_eq_false_iff _ _ _).1 h2.2
              · split at h
                · simp at h
                · rename_i h4
                  split at h
                  · rename_i h5
                    right
                    simp only [h5.1, true_and, Bool.or_eq_true, not_or,
                      Bool.not_eq_true] at h4
                    refine ⟨h5.1, h4.1.1.1.1, h4.1.1.1.2, h4.1.1.2, ?_, ?_⟩
                    · exact (anyAttacks_eq_false_iff _ _ _).1 h4.1.2
                    · exact (anyAttacks_eq_false_iff _ _ _).1 h4.2
                  · simp at h
      | BLACK =>
        simp only [hc] at h
        cases ha : c.isBlackKingUnderAttack with
        | error e => simp [ha] at h
        | ok attacked =>
          simp only [ha] at h
          split at h
          · simp at h
          · rename_i h1
            simp only [Bool.or_eq_true, Bool.not_eq_true', not_or, Bool.not_eq_true,
              Bool.not_eq_false] at h1
            obtain ⟨hatt, hfm⟩ := h1
            subst hatt
            refine ⟨hfm, Or.inr ⟨rfl, rfl, ?_⟩⟩
            split at h
            · simp at h
            · rename_i h2
              split at h
              · rename_i h3
                left
                simp only [h3.1, true_and, Bool.or_eq_true, not_or, Bool.not_eq_true] at h2
                refine ⟨h3.1, h2.1.1.1, h2.1.1.2, ?_, ?_⟩
                · exact (anyAttacks_eq_false_iff _ _ _).1 h2.1.2
                · exact (anyAttacks_eq_false_iff _ _ _).1 h2.2
              · split at h
                · simp at h
                · rename_i h4
                  split at h
                  · rename_i h5
                    right
                    simp only [h5.1, true_and, Bool.or_eq_true, not_or,
                      Bool.not_eq_true] at h4
                    refine ⟨h5.1, h4.1.1.1.1, h4.1.1.1.2, h4.1.1.2, ?_, ?_⟩
                    · exact (anyAttacks_eq_false_iff _ _ _).1 h4.1.2
                    · exact (anyAttacks_eq_false_iff _ _ _).1 h4.2
                  · simp at h
    · simp [hk] at h
  · intro hk
    simp [canCastle, hk]
  · intro hw hb hnw hnb
    unfold canCastle
    split
    · rfl
    · cases hc : p.getColor with
      | WHITE =>
        obtain ⟨r, hr⟩ := isWhiteKingUnderAttack_total c hw hb
        have h1 : destination ≠ g1 := fun h => hnw ⟨hc, Or.inl h⟩
        have h2 : destination ≠ c1 := fun h => hnw ⟨hc, Or.inr h⟩
        simp [hr, h1, h2]
      | BLACK =>
        obtain ⟨r, hr⟩ := isBlackKingUnderAttack_total c hw hb
        have h1 : destination ≠ g8 := fun h => hnb ⟨hc, Or.inl h⟩
        have h2 : destination ≠ c8 := fun h => hnb ⟨hc, Or.inr h⟩
        simp [hr, h1, h2]

/-- C7 at `castleReadyPosition`: `canCastle(king, "e1", "g1")` returns true there, so the
preconditions hold; for the destination e2 and for the rook h1 it returns false. -/
theorem C7_castling_preconditions_witness :
    castleReadyPosition.canCastle whiteKingAtHome e1 g1 = .ok true ∧
    (whiteKingAtHome.getPiece = PIECE.KING ∧ whiteKingAtHome.isFirstMove = true ∧
      ((whiteKingAtHome.getColor = COLOR.WHITE ∧
          castleReadyPosition.isWhiteKingUnderAttack = .ok false ∧
          ((g1 = g1 ∧
              castleReadyPosition.m_chessBoard.isSquareOccupied f1 = false ∧
              castleReadyPosition.m_chessBoard.isSquareOccupied g1 = false ∧
              (∀ q ∈ castleReadyPosition.blackPieces,
                f1 ∉ q.getAttackingSquares castleReadyPosition.m_chessBoard) ∧
              (∀ q ∈ castleReadyPosition.blackPieces,
                g1 ∉ q.getAttackingSquares castleReadyPosition.m_chessBoard)) ∨
           (g1 = c1 ∧
              castleReadyPosition.m_chessBoard.isSquareOccupied d1 = false ∧
              castleReadyPosition.m_chessBoard.isSquareOccupied c1 = false ∧
              castleReadyPosition.m_chessBoard.isSquareOccupied b1 = false ∧
              (∀ q ∈ castleReadyPosition.blackPieces,
                d1 ∉ q.getAttackingSquares castleReadyPosition.m_chessBoard) ∧
              (∀ q ∈ castleReadyPosition.blackPieces,
                c1 ∉ q.getAttackingSquares castleReadyPosition.m_chessBoard)))) ∨
       (whiteKingAtHome.getColor = COLOR.BLACK ∧
          castleReadyPosition.isBlackKingUnderAttack = .ok false ∧
          ((g1 = g8 ∧
              castleReadyPosition.m_chessBoard.isSquareOccupied f8 = false ∧
              castleReadyPosition.m_chessBoard.isSquareOccupied g8 = false ∧
              (∀ q ∈ castleReadyPosition.whitePieces,
                f8 ∉ q.getAttackingSquares castleReadyPosition.m_chessBoard) ∧
              (∀ q ∈ castleReadyPosition.whitePieces,
                g8 ∉ q.getAttackingSquares castleReadyPosition.m_chessBoard)) ∨
           (g1 = c8 ∧
              castleReadyPosition.m_chessBoard.isSquareOccupied d8 = false ∧
              castleReadyPosition.m_chessBoard.isSquareOccupied c8 = false ∧
              castleReadyPosition.m_chessBoard.isSquareOccupied b8 = false ∧
              (∀ q ∈ castleReadyPosition.whitePieces,
                d8 ∉ q.getAttackingSquares castleReadyPosition.m_chessBoard) ∧
              (∀ q ∈ castleReadyPosition.whitePieces,
                c8 ∉ q.getAttackingSquares castleReadyPosition.m_chessBoard)))))) ∧
    castleReadyPosition.canCastle whiteKingAtHome e1 e2 = .ok false ∧
    castleReadyPosition.canCastle ⟨1, COLOR.WHITE, PIECE.ROOK, h1, true⟩ h1 g1 = .ok false :=
  ⟨by decide!,
   (C7_castling_preconditions castleReadyPosition whiteKingAtHome e1 g1).1 (by decide!),
   (C7_castling_preconditions castleReadyPosition whiteKingAtHome e1 e2).2.2
     (by decide!) (by decide!) (by decide!) (by decide!),
   (C7_castling_preconditions castleReadyPosition ⟨1, COLOR.WHITE, PIECE.ROOK, h1, true⟩ h1
     g1).2.1 (by decide!)⟩

/-- C8, the code at the failing input.  Claim: `canCastle` returns true only if the rook on
the corner has never moved.  After `rookReturnsGame` (the h1 rook went to g1 and came
back) the position is consistent, the unmoved white king is first in its collection, the
rook on h1 reports `isFirstMove()` = false, and `canCastle(king, "e1", "g1")` returns
true. -/
theorem C8_castles_with_moved_rook :
    (Game.reached rookReturnsGame).map (fun c => (c.consistent, c.whitePieces.head?))
      = some (true, some whiteKingAtHome) ∧
    (Game.reached rookReturnsGame).map (fun c => c.getPieceFromPosition h1)
      = some (some ⟨4, COLOR.WHITE, PIECE.ROOK, h1, false⟩) ∧
    (Game.reached rookReturnsGame).map (fun c =>
        (c.getPieceFromPosition h1).map (fun r => r.isFirstMove)) = some (some false) ∧
    (Game.reached rookReturnsGame).map (fun c => c.canCastle whiteKingAtHome e1 g1)
      = some (.ok true) := by
  refine ⟨by decide!, by decide!, by decide!, by decide!⟩

/-- C9: after the accepted half-moves g1-f3, a7-a6, e2-e3, a6-a5, f1-e2, a5-a4 from the
initial position, the white king (first of its collection, unmoved on e1) has
`canCastle(king, "e1", "g1")` = true and `isValidMove("e1", "g1")` = true; and in every
position with the same white pieces that holds a black piece whose attacking squares
contain f1 or g1, `canCastle(king, "e1", "g1")` returns false. -/
theorem C9_castling_scenario :
    (Game.reached castleGame).map (fun c =>
      (c.whitePieces.head?, c.canCastle whiteKingAtHome e1 g1, returned (c.isValidMove e1 g1)))
      = some (some whiteKingAtHome, .ok true, some true) ∧
    ∀ c0, Game.reached castleGame = some c0 →
      ∀ (c : Chess) (q : chessPiece), c.whitePieces = c0.whitePieces → q ∈ c.blackPieces →
        (f1 ∈ q.getAttackingSquares c.m_chessBoard ∨
         g1 ∈ q.getAttackingSquares c.m_chessBoard) →
        c.canCastle whiteKingAtHome e1 g1 = .ok false := by
  refine ⟨by decide!, ?_⟩
  intro c0 hc0 c q hw hq hatt
  have hne : (Game.reached castleGame).map (fun c => c.whitePieces.isEmpty) = some false := by
    decide!
  rw [hc0] at hne
  simp only [Option.map_some', Option.some.injEq, List.isEmpty_eq_false] at hne
  have hwne : c.whitePieces ≠ [] := by rw [hw]; simpa using hne
  have hbne : c.blackPieces ≠ [] := List.ne_nil_of_mem hq
  obtain ⟨r, hr⟩ := isWhiteKingUnderAttack_total c hwne hbne
  have hsafe : c.isSquareUnderAttackByBlackPieces f1 = true ∨
      c.isSquareUnderAttackByBlackPieces g1 = true := by
    rcases hatt with h | h
    · exact Or.inl ((anyAttacks_iff _ _ _).2 ⟨q, hq, h⟩)
    · exact Or.inr ((anyAttacks_iff _ _ _).2 ⟨q, hq, h⟩)
  unfold canCastle
  simp only [whiteKingAtHome, chessPiece.getPiece, chessPiece.getColor, ne_eq,
    not_true_eq_false, if_false, hr]
  rcases hsafe with h | h <;> simp [h]

/-- C9 at the castle position with a black knight added on g3 (it attacks f1):
`canCastle(king, "e1", "g1")` returns false there. -/
theorem C9_castling_scenario_witness :
    ∃ c0, Game.reached castleGame = some c0 ∧
      (withBlackKnightOnG3 c0).canCastle whiteKingAtHome e1 g1 = .ok false := by
  cases h : Game.reached castleGame with
  | none =>
    have hs : (Game.reached castleGame).isSome = true := by decide!
    rw [h] at hs
    exact absurd hs (by simp)
  | some c0 =>
    refine ⟨c0, rfl, C9_castling_scenario.2 c0 h (withBlackKnightOnG3 c0)
      ⟨c0.heapNext, COLOR.BLACK, PIECE.KNIGHT, g3, false⟩ rfl ?_ (Or.inl ?_)⟩
    · simp [withBlackKnightOnG3]
    · simp only [chessPiece.getAttackingSquares]
      decide

/-- C10, the code at the failing input.  Claim: after a castle accepted through
`canCastle`, the history is the previous history with the record (kingSquare,
destination) appended.  In the position `castleGame` reaches, `isValidMove("e1", "g1")`
returns true with `m_activateCastling` set; after `move("e1", "g1")` the king stands on
g1 and the rook on f1, both with `isFirstMove()` = false, but the history is still the
six records of `castleGame`: nothing was appended. -/
theorem C10_castle_leaves_history_unchanged :
    (Game.reached castleGame).map (fun c =>
        (value (c.isValidMove e1 g1)).map (fun r => (r.1, r.2.m_activateCastling)))
      = some (some (true, true)) ∧
    (Game.reached castleGame).map (fun c => c.m_moveDB) = some castleGame ∧
    (Game.reached castleGame).map (fun c => (c.validatedMove e1 g1).map (fun c2 => c2.m_moveDB))
      = some (some castleGame) ∧
    (Game.reached castleGame).map (fun c =>
        (c.validatedMove e1 g1).map (fun c2 => decide (c2.m_moveDB = c.m_moveDB ++ [(e1, g1)])))
      = some (some false) ∧
    (Game.reached castleGame).map (fun c =>
        (c.validatedMove e1 g1).map (fun c2 => c2.getPieceFromPosition g1))
      = some (some (some ⟨0, COLOR.WHITE, PIECE.KING, g1, false⟩)) ∧
    (Game.reached castleGame).map (fun c =>
        (c.validatedMove e1 g1).map (fun c2 => c2.getPieceFromPosition f1))
      = some (some (some ⟨4, COLOR.WHITE, PIECE.ROOK, f1, false⟩)) := by
  refine ⟨by decide!, by decide!, by decide!, by decide!, by decide!, by decide!⟩

section EnPassantGames

open Chess

/-- C11, the code at the failing input.  Claim: if `isValidMove(source, destination)`
returns true for a pawn moving to a forward-diagonal square that holds no enemy piece, the
last record is a pawn move of the opposing colour, two ranks along one file, ending next
to `source`.  In the position the ten accepted half-moves of `ownPawnEnPassantGame` reach
(consistent, White to move) the last record is the bishop move c1-e3 of White, the three
pawn captures after it having left no record; a white pawn stands on d3, e4 is empty, and
`isValidMove("d3", "e4")` returns true with `m_enPassant` set: the pawn found on e3 is
White's own, and c1 and e3 are on different files. -/
theorem C11_en_passant_after_own_bishop_move :
    (Game.reached ownPawnEnPassantGame).map (fun c =>
        (c.consistent, c.m_moveDB.length, c.m_moveDB.getLast?))
      = some (true, 7, some (c1, e3)) ∧
    (Game.reached ownPawnEnPassantGame).map (fun c =>
        ((c.getPieceFromPosition d3).map (fun p => (p.getColor, p.getPiece)),
         (c.getPieceFromPosition e3).map (fun p => (p.getColor, p.getPiece)),
         (c.getPieceFromPosition e4).isSome))
      = some (some (COLOR.WHITE, PIECE.PAWN), some (COLOR.WHITE, PIECE.PAWN), false) ∧
    (Game.reached ownPawnEnPassantGame).map (fun c =>
        (value (c.isValidMove d3 e4)).map (fun r => (r.1, r.2.m_enPassant)))
      = some (some (true, true)) ∧
    c1.file ≠ e3.file := by
  refine ⟨by decide!, by decide!, by decide!, by decide⟩

/-- C12, the code at the failing input.  Claim: a pawn move accepted as en passant has as
destination the square on the file of the last record's destination, midway between the
ranks of that record, and after `move` the capturing pawn stands on `destination`.  After
1.e4 a6 2.e5 f5 (consistent, last record f7-f5) `isValidMove("e5", "d6")` returns true
with `m_enPassant` set, although the midway square is f6; after `move("e5", "d6")` the
white pawn stands on f6, d6 is empty and the black pawn f5 is gone. -/
theorem C12_en_passant_to_the_wrong_file :
    (Game.reached wrongFileEnPassantGame).map (fun c =>
        (c.consistent, c.m_moveDB.getLast?, (c.getPieceFromPosition d6).isSome))
      = some (true, some (f7, f5), false) ∧
    (Game.reached wrongFileEnPassantGame).map (fun c =>
        (value (c.isValidMove e5 d6)).map (fun r => (r.1, r.2.m_enPassant)))
      = some (some (true, true)) ∧
    d6 ≠ (⟨f5.file, Int.tdiv (f5.rank + f7.rank) 2⟩ : Square) ∧
    f6 = (⟨f5.file, Int.tdiv (f5.rank + f7.rank) 2⟩ : Square) ∧
    (Game.reached wrongFileEnPassantGame).map (fun c =>
        (c.validatedMove e5 d6).map (fun c2 =>
          ((c2.getPieceFromPosition d6).isSome,
           (c2.getPieceFromPosition f6).map (fun p => (p.getColor, p.getPiece)),
           (c2.getPieceFromPosition f5).isSome)))
      = some (some (false, some (COLOR.WHITE, PIECE.PAWN), false)) := by
  refine ⟨by decide!, by decide!, by decide, by decide, by decide!⟩

/-- C13, the code at the failing input.  Claim: an en passant capture accepted in some
position is rejected after each side has made one other accepted move that moves neither
of the two pawns nor occupies `destination`.  After the eight half-moves of
`staleEnPassantGame` `isValidMove("e5", "f6")` returns true as en passant.  White then
plays a3xb4 and Black h5xg4, both accepted and applied; neither leaves a record, so the
last record is still f7-f5, the pawns e5 and f5 stand where they stood, f6 is empty, and
`isValidMove("e5", "f6")` with cleared flags returns true again. -/
theorem C13_en_passant_survives_two_pawn_captures :
    (Game.reached staleEnPassantGame).map (fun c =>
        (c.consistent, c.m_moveDB.length, c.m_moveDB.getLast?))
      = some (true, 8, some (f7, f5)) ∧
    (Game.reached staleEnPassantGame).map (fun c =>
        (value (c.isValidMove e5 f6)).map (fun r => (r.1, r.2.m_enPassant)))
      = some (some (true, true)) ∧
    (Game.reached (staleEnPassantGame ++ [(a3, b4), (h5, g4)])).map (fun c =>
        (c.consistent, c.m_moveDB.length, c.m_moveDB.getLast?))
      = some (true, 8, some (f7, f5)) ∧
    (Game.reached (staleEnPassantGame ++ [(a3, b4), (h5, g4)])).map (fun c =>
        ((c.getPieceFromPosition e5).map (fun p => (p.getColor, p.getPiece)),
         (c.getPieceFromPosition f5).map (fun p => (p.getColor, p.getPiece)),
         (c.getPieceFromPosition f6).isSome))
      = some (some (COLOR.WHITE, PIECE.PAWN), some (COLOR.BLACK, PIECE.PAWN), false) ∧
    (Game.reached (staleEnPassantGame ++ [(a3, b4), (h5, g4)])).map (fun c =>
        (value (c.isValidMove e5 f6)).map (fun r => (r.1, r.2.m_enPassant)))
      = some (some (true, true)) := by
  refine ⟨by decide!, by decide!, by decide!, by decide!, by decide!⟩

end EnPassantGames

section EnPassantAppliedClaim

open Chess

/-- What `move` does after an en passant classification.  In a consistent position whose
last record `(a, b)` starts on a board square, let `isValidMove(source, destination)`
return true with `m_enPassant` set.  Then `move(source, destination)` returns, and
afterwards: the pawn that stood on `b`, of whichever colour, is in neither collection; `b` is unoccupied and holds no piece; the capturing pawn (same
object, same colour) stands on the square of file `b` midway between the ranks of `a` and
`b`, which is occupied; `source` is unoccupied and holds no piece; every other piece is
in the collection it was in, unchanged, and no piece was added; and the board cells other
than those three squares are unchanged. -/
theorem enPassant_applied (c : Chess) (source destination a b : Square)
    (hc : c.consistent = true)
    (hl : c.m_moveDB.getLast? = some (a, b)) (ha : inBoardMap a = true)
    (hv : (value (c.isValidMove source destination)).map (fun r => (r.1, r.2.m_enPassant)) =
      some (true, true)) :
    ∃ c2 p lastMover,
      c.validatedMove source destination = some c2 ∧
      c.getPieceFromPosition source = some p ∧ p.getPiece = PIECE.PAWN ∧
      c.getPieceFromPosition b = some lastMover ∧ lastMover.getPiece = PIECE.PAWN ∧
      (∀ q ∈ c2.pieces, q.ptr ≠ lastMover.ptr) ∧
      c2.m_chessBoard.isSquareOccupied b = false ∧ c2.getPieceFromPosition b = none ∧
      c2.deref p.ptr = some { p with m_position := ⟨b.file, Int.tdiv (b.rank + a.rank) 2⟩,
                                     m_firstMove := false } ∧
      c2.m_chessBoard.isSquareOccupied ⟨b.file, Int.tdiv (b.rank + a.rank) 2⟩ = true ∧
      c2.m_chessBoard.isSquareOccupied source = false ∧
      c2.getPieceFromPosition source = none ∧
      (∀ q : chessPiece, q.ptr ≠ p.ptr → q.ptr ≠ lastMover.ptr →
        (q ∈ c2.whitePieces ↔ q ∈ c.whitePieces) ∧
        (q ∈ c2.blackPieces ↔ q ∈ c.blackPieces)) ∧
      (∀ q ∈ c2.pieces, q.ptr = p.ptr →
        q = { p with m_position := ⟨b.file, Int.tdiv (b.rank + a.rank) 2⟩,
                     m_firstMove := false }) ∧
      (∀ x : Square, x ≠ b → x ≠ source → x ≠ ⟨b.file, Int.tdiv (b.rank + a.rank) 2⟩ →
        c2.m_chessBoard.cell x = c.m_chessBoard.cell x) := by
  obtain ⟨hflags, hboard, hpos, hnpos, hnptr⟩ := consistent_facts c hc
  obtain ⟨p, lastMove, lm, hp, hk, hl2, hm, hlk, hr2, hf1, hrk, hval⟩ :=
    isValidMove_enPassant c source destination hflags hv
  rw [hl] at hl2
  simp only [Option.some.injEq] at hl2
  subst hl2
  dsimp only at hm hr2 hf1 hrk
  obtain ⟨hpmem, hps⟩ := getPieceFromPosition_some c source p hp
  obtain ⟨hlmem, hlb⟩ := getPieceFromPosition_some c b lm hm
  have hbin : inBoardMap b = true := hlb ▸ hpos lm hlmem
  have hsin : inBoardMap source = true := hps ▸ hpos p hpmem
  rw [inBoardMap_iff] at ha
  have hbin2 := (inBoardMap_iff b).1 hbin
  obtain ⟨hmr1, hmr2, hmr3⟩ := midway_rank a.rank b.rank ⟨ha.2.2.1, ha.2.2.2⟩
    ⟨hbin2.2.2.1, hbin2.2.2.2⟩ hr2
  have hmid : inBoardMap ⟨b.file, Int.tdiv (b.rank + a.rank) 2⟩ = true := by
    rw [inBoardMap_iff]
    exact ⟨hbin2.1, hbin2.2.1, le_of_lt hmr1, le_of_lt hmr2⟩
  have hsb : source ≠ b := by
    intro e
    rw [hps, e] at hf1
    simp at hf1
  have hne : lm.ptr ≠ p.ptr := by
    intro e
    have := List.inj_on_of_nodup_map hnptr hlmem hpmem e
    rw [this, hps] at hlb
    exact hsb hlb
  have hmb : (⟨b.file, Int.tdiv (b.rank + a.rank) 2⟩ : Square) ≠ b := by
    intro e
    rw [Square.eq_iff] at e
    exact hmr3 e.2
  have hms : (⟨b.file, Int.tdiv (b.rank + a.rank) 2⟩ : Square) ≠ source := by
    intro e
    rw [hps, ← e] at hf1
    simp at hf1
  obtain ⟨c2, hmove, hB, hW, hBl, _⟩ :=
    move_enPassant c source destination a b p lm hnptr hpos hp hk hl hm hmid ⟨hmr1, hmr2⟩ hne
  obtain ⟨hnW, hnB⟩ := nodup_ptr_split _ _ hnptr
  have hc2n : (c2.pieces.map (fun q => q.ptr)).Nodup := by
    unfold pieces
    rw [hW, hBl]
    exact after_capture_nodup _ _ _ _ hnptr
  have hc2p : ({ p with m_position := ⟨b.file, Int.tdiv (b.rank + a.rank) 2⟩,
                        m_firstMove := false } : chessPiece) ∈ c2.pieces := by
    unfold pieces
    rw [hW, hBl]
    exact after_capture_mem _ _ p _ _ hnptr hpmem rfl hne
  have hold : ∀ q ∈ c2.pieces,
      (q ∈ c.pieces ∧ q.ptr ≠ p.ptr ∧ q.ptr ≠ lm.ptr) ∨
      q = { p with m_position := ⟨b.file, Int.tdiv (b.rank + a.rank) 2⟩,
                   m_firstMove := false } := by
    intro q hq
    unfold pieces at hq ⊢
    rw [hW, hBl, List.mem_append, mem_after_capture _ _ _ _ hnW,
      mem_after_capture _ _ _ _ hnB] at hq
    rcases hq with ⟨⟨h1, h2⟩ | ⟨h1, _⟩, h3⟩ | ⟨⟨h1, h2⟩ | ⟨h1, _⟩, h3⟩
    · exact Or.inl ⟨List.mem_append_left _ h1, h2, h3⟩
    · exact Or.inr h1
    · exact Or.inl ⟨List.mem_append_right _ h1, h2, h3⟩
    · exact Or.inr h1
  refine ⟨c2, p, lm, ?_, hp, hk, hm, hlk, ?_, ?_, ?_, ?_, ?_, ?_, ?_, ?_, ?_, ?_⟩
  · unfold validatedMove
    rw [hval]
    simp only
    rw [hmove]
  · intro q hq
    rcases hold q hq with ⟨_, _, h⟩ | h
    · exact h
    · rw [h]
      exact fun e => hne e.symm
  · simp only [chessBoard.isSquareOccupied, hbin, if_true, hB, emptyCell, bne_self_eq_false]
  · rw [getPieceFromPosition_none]
    intro q hq
    rcases hold q hq with ⟨h1, _, h3⟩ | h
    · intro e
      have : q = lm := List.inj_on_of_nodup_map hnpos h1 hlmem (by rw [e, hlb])
      exact h3 (by rw [this])
    · rw [h]
      exact hmb
  · exact deref_of_mem c2 _ hc2n hc2p
  · simp only [chessBoard.isSquareOccupied, hmid, if_true, hB, hmb, hms, if_false]
    cases hcol : p.getColor <;> decide
  · simp only [chessBoard.isSquareOccupied, hsin, if_true, hB, hsb, if_false, emptyCell,
      bne_self_eq_false]
  · rw [getPieceFromPosition_none]
    intro q hq
    rcases hold q hq with ⟨h1, h2, _⟩ | h
    · intro e
      have : q = p := List.inj_on_of_nodup_map hnpos h1 hpmem (by rw [e, hps])
      exact h2 (by rw [this])
    · rw [h]
      exact hms
  · intro q hq1 hq2
    rw [hW, hBl, mem_after_capture _ _ _ _ hnW, mem_after_capture _ _ _ _ hnB]
    constructor
    · constructor
      · rintro ⟨⟨h1, _⟩ | ⟨h1, _⟩, _⟩
        · exact h1
        · rw [h1] at hq1
          exact absurd rfl hq1
      · intro h
        exact ⟨Or.inl ⟨h, hq1⟩, hq2⟩
    · constructor
      · rintro ⟨⟨h1, _⟩ | ⟨h1, _⟩, _⟩
        · exact h1
        · rw [h1] at hq1
          exact absurd rfl hq1
      · intro h
        exact ⟨Or.inl ⟨h, hq1⟩, hq2⟩
  · intro q hq he
    rcases hold q hq with ⟨_, h2, _⟩ | h
    · exact absurd he h2
    · exact h
  · intro x h1 h2 h3
    rw [hB]
    simp only [h1, h2, h3, if_false]

/-- The lemma `enPassant_applied` at `enPassantReadyPosition` for the capture e5 takes f5
en passant, landing on f6. -/
theorem enPassant_applied_example :
    enPassantReadyPosition.consistent = true ∧
    enPassantReadyPosition.m_moveDB.getLast? = some (f7, f5) ∧
    inBoardMap f7 = true ∧
    (value (enPassantReadyPosition.isValidMove e5 f6)).map
        (fun r => (r.1, r.2.m_enPassant)) = some (true, true) ∧
    ∃ c2 p lastMover,
      enPassantReadyPosition.validatedMove e5 f6 = some c2 ∧
      enPassantReadyPosition.getPieceFromPosition e5 = some p ∧ p.getPiece = PIECE.PAWN ∧
      enPassantReadyPosition.getPieceFromPosition f5 = some lastMover ∧
      lastMover.getPiece = PIECE.PAWN ∧
      (∀ q ∈ c2.pieces, q.ptr ≠ lastMover.ptr) ∧
      c2.m_chessBoard.isSquareOccupied f5 = false ∧ c2.getPieceFromPosition f5 = none ∧
      c2.deref p.ptr = some { p with m_position := ⟨f5.file, Int.tdiv (f5.rank + f7.rank) 2⟩,
                                     m_firstMove := false } ∧
      c2.m_chessBoard.isSquareOccupied ⟨f5.file, Int.tdiv (f5.rank + f7.rank) 2⟩ = true ∧
      c2.m_chessBoard.isSquareOccupied e5 = false ∧
      c2.getPieceFromPosition e5 = none ∧
      (∀ q : chessPiece, q.ptr ≠ p.ptr → q.ptr ≠ lastMover.ptr →
        (q ∈ c2.whitePieces ↔ q ∈ enPassantReadyPosition.whitePieces) ∧
        (q ∈ c2.blackPieces ↔ q ∈ enPassantReadyPosition.blackPieces)) ∧
      (∀ q ∈ c2.pieces, q.ptr = p.ptr →
        q = { p with m_position := ⟨f5.file, Int.tdiv (f5.rank + f7.rank) 2⟩,
                     m_firstMove := false }) ∧
      (∀ x : Square, x ≠ f5 → x ≠ e5 → x ≠ ⟨f5.file, Int.tdiv (f5.rank + f7.rank) 2⟩ →
        c2.m_chessBoard.cell x = enPassantReadyPosition.m_chessBoard.cell x) :=
  ⟨by decide!, by decide!, by decide, by decide!,
    enPassant_applied enPassantReadyPosition e5 f6 f7 f5 (by decide!) (by decide!)
      (by decide) (by decide!)⟩

set_option synthInstance.maxSize 1024 in
/-- C14, the code at the failing input.  Claim: after `move` for a move accepted as en
passant, the pawn that made the last recorded two-square advance is no longer in its
side's collection, the capturing pawn stands on the midway square, and no other piece is
added, removed or relocated.  In the position `capturedAdvancerGame` reaches (consistent,
15 white and 15 black pieces) the last record is Black's advance f7-f5, but the pawn that
made it has been captured: no black pawn is left on the f-file, and the white pawn that
took it stands on f5.  `isValidMove("g5", "f6")` returns true with `m_enPassant` set, and
after `move("g5", "f6")` the white pawn g5 stands on f6, White has 14 pieces and Black
still 15: the piece removed is White's own pawn f5. -/
theorem C14_en_passant_removes_own_pawn :
    (Game.reached capturedAdvancerGame).map (fun c =>
        (c.consistent, c.m_moveDB.getLast?, c.whitePieces.length, c.blackPieces.length))
      = some (true, some (f7, f5), 15, 15) ∧
    (Game.reached capturedAdvancerGame).map (fun c =>
        ((c.getPieceFromPosition f5).map (fun p => (p.ptr, p.getColor, p.getPiece)),
         (c.getPieceFromPosition g5).map (fun p => (p.ptr, p.getColor, p.getPiece)),
         c.pieces.any (fun p => decide (p.getColor = COLOR.BLACK ∧ p.getPiece = PIECE.PAWN ∧
           p.getPosition.file = f5.file))))
      = some (some (12, COLOR.WHITE, PIECE.PAWN), some (14, COLOR.WHITE, PIECE.PAWN),
          false) ∧
    (Game.reached capturedAdvancerGame).map (fun c =>
        (value (c.isValidMove g5 f6)).map (fun r => (r.1, r.2.m_enPassant)))
      = some (some (true, true)) ∧
    (Game.reached capturedAdvancerGame).map (fun c =>
        (c.validatedMove g5 f6).map (fun c2 =>
          (c2.whitePieces.length, c2.blackPieces.length,
           (c2.getPieceFromPosition f6).map (fun p => (p.ptr, p.getColor, p.getPiece)),
           (c2.getPieceFromPosition f5).isSome,
           c2.pieces.any (fun p => decide (p.ptr = 12)))))
      = some (some (14, 15, some (14, COLOR.WHITE, PIECE.PAWN), false, false)) := by
  refine ⟨by decide!, by decide!, by decide!, by decide!⟩

end EnPassantAppliedClaim

section PromotionGame

open Chess

/-- C15, the code at the failing input.  Claim: after every validated pawn move whose
destination is on rank 8 for a White pawn, the pawn is no longer in its collection and a
Queen of its colour stands on `destination`.  In the position the eighteen accepted
half-moves of `falsePromotionGame` reach (consistent, White to move, last record the rook
move h5-h7) a white pawn stands on g7 and h8 is empty; `isValidMove("g7", "h8")` returns
true, classified as en passant; after `move("g7", "h8")` no piece stands on h8, the pawn
is still in the white collection, now on h6, and White's own pawn h7 is gone. -/
theorem C15_pawn_move_to_rank_eight_without_promotion :
    (Game.reached falsePromotionGame).map (fun c =>
        (c.consistent, c.m_moveDB.getLast?))
      = some (true, some (h5, h7)) ∧
    (Game.reached falsePromotionGame).map (fun c =>
        ((c.getPieceFromPosition g7).map (fun p => (p.ptr, p.getColor, p.getPiece)),
         (c.getPieceFromPosition h7).map (fun p => (p.getColor, p.getPiece)),
         (c.getPieceFromPosition h8).isSome))
      = some (some (13, COLOR.WHITE, PIECE.PAWN), some (COLOR.WHITE, PIECE.PAWN), false) ∧
    h8.rank = 56 ∧
    (Game.reached falsePromotionGame).map (fun c =>
        (value (c.isValidMove g7 h8)).map (fun r => (r.1, r.2.m_enPassant)))
      = some (some (true, true)) ∧
    (Game.reached falsePromotionGame).map (fun c =>
        (c.validatedMove g7 h8).map (fun c2 =>
          ((c2.getPieceFromPosition h8).isSome,
           (c2.whitePieces.find? (fun p => decide (p.ptr = 13))).map
              (fun p => (p.getPiece, p.getPosition)),
           c2.pieces.any (fun p => decide (p.getPiece = PIECE.QUEEN ∧ p.getPosition = h8)),
           (c2.getPieceFromPosition h7).isSome)))
      = some (some (false, some (PIECE.PAWN, h6), false, false)) := by
  refine ⟨by decide!, by decide!, by decide, by decide!, by decide!⟩

end PromotionGame

section RepetitionClaim

open Chess

/-- C16: the repetition heuristic.  For a history of length `n`, `isRepetition()` is true
if and only if `n ≥ 12` and for every `i` in 0..3 the records at `n-12+i`, `n-8+i` and
`n-4+i` are equal.  So it is false for a history shorter than 12, true for a history that
ends in three copies of a cycle of four records, false when one of the last 12 records of
a history found repeating is replaced by a different record, and it does not depend on
the records before the last 12. -/
theorem C16_repetition_heuristic (c : Chess) :
    (c.isRepetition = true ↔
      12 ≤ c.m_moveDB.length ∧ ∀ i, i < 4 →
        c.m_moveDB[c.m_moveDB.length - 12 + i]? = c.m_moveDB[c.m_moveDB.length - 8 + i]? ∧
        c.m_moveDB[c.m_moveDB.length - 8 + i]? = c.m_moveDB[c.m_moveDB.length - 4 + i]?) ∧
    (c.m_moveDB.length < 12 → c.isRepetition = false) ∧
    (∀ pre cycle : List (Square × Square), cycle.length = 4 →
      c.m_moveDB = pre ++ (cycle ++ cycle ++ cycle) → c.isRepetition = true) ∧
    (∀ (pre last : List (Square × Square)) (i : Nat) (x : Square × Square),
      last.length = 12 → c.m_moveDB = pre ++ last → c.isRepetition = true →
      i < 12 → last[i]? ≠ some x →
      isRepetition { c with m_moveDB := pre ++ last.set i x } = false) ∧
    (∀ pre pre2 last : List (Square × Square), last.length = 12 →
      c.m_moveDB = pre ++ last →
      isRepetition { c with m_moveDB := pre2 ++ last } = c.isRepetition) := by
  have hshort : ∀ c : Chess, c.m_moveDB.length < 12 → c.isRepetition = false := by
    intro c hlt
    have : ((c.m_moveDB.reverse).take 12).length < 12 := by
      rw [List.length_take, List.length_reverse]; omega
    unfold isRepetition
    simp only [this, if_true]
  have hidx : ∀ (pre l : List (Square × Square)) (j : Nat),
      (pre ++ l)[pre.length + j]? = l[j]? := by
    intro pre l j
    rw [List.getElem?_append_right (Nat.le_add_right _ _), Nat.add_sub_cancel_left]
  have htwelve : ∀ last : List (Square × Square), last.length = 12 →
      ∃ x0 x1 x2 x3 x4 x5 x6 x7 x8 x9 x10 x11,
        last = [x0, x1, x2, x3, x4, x5, x6, x7, x8, x9, x10, x11] := by
    intro last hl
    match last, hl with
    | [x0, x1, x2, x3, x4, x5, x6, x7, x8, x9, x10, x11], _ =>
      exact ⟨x0, x1, x2, x3, x4, x5, x6, x7, x8, x9, x10, x11, rfl⟩
  refine ⟨?_, hshort c, ?_, ?_, ?_⟩
  · by_cases hn : 12 ≤ c.m_moveDB.length
    · obtain ⟨pre, x0, x1, x2, x3, x4, x5, x6, x7, x8, x9, x10, x11, h, hlen⟩ :=
        exists_last_twelve c.m_moveDB hn
      rw [isRepetition_eq c pre x0 x1 x2 x3 x4 x5 x6 x7 x8 x9 x10 x11 h]
      have e12 : ∀ i, c.m_moveDB.length - 12 + i = pre.length + i := by intro i; omega
      have e8 : ∀ i, c.m_moveDB.length - 8 + i = pre.length + (4 + i) := by intro i; omega
      have e4 : ∀ i, c.m_moveDB.length - 4 + i = pre.length + (8 + i) := by intro i; omega
      simp only [e12, e8, e4, Bool.and_eq_true, decide_eq_true_eq]
      rw [h]
      simp only [hidx]
      constructor
      · rintro ⟨⟨⟨⟨⟨⟨⟨h1, h2⟩, h3⟩, h4⟩, h5⟩, h6⟩, h7⟩, h8⟩
        refine ⟨by simp, ?_⟩
        intro i hi
        interval_cases i <;> simp [h1, h2, h3, h4, h5, h6, h7, h8]
      · rintro ⟨_, hall⟩
        have h0 := hall 0 (by decide)
        have h1 := hall 1 (by decide)
        have h2 := hall 2 (by decide)
        have h3 := hall 3 (by decide)
        simp at h0 h1 h2 h3
        obtain ⟨a0, b0⟩ := h0
        obtain ⟨a1, b1⟩ := h1
        obtain ⟨a2, b2⟩ := h2
        obtain ⟨a3, b3⟩ := h3
        subst a0 b0 a1 b1 a2 b2 a3 b3
        simp
    · rw [hshort c (by omega)]
      constructor
      · intro hf; exact absurd hf Bool.false_ne_true
      · rintro ⟨h12, _⟩; exact absurd h12 hn
  · intro pre cycle hc h
    match cycle, hc with
    | [y0, y1, y2, y3], _ =>
      rw [isRepetition_eq c pre y0 y1 y2 y3 y0 y1 y2 y3 y0 y1 y2 y3 h]
      simp
  · intro pre last i x hl h hrep hi hx
    obtain ⟨x0, x1, x2, x3, x4, x5, x6, x7, x8, x9, x10, x11, rfl⟩ := htwelve last hl
    rw [isRepetition_eq c pre x0 x1 x2 x3 x4 x5 x6 x7 x8 x9 x10 x11 h] at hrep
    simp only [Bool.and_eq_true, decide_eq_true_eq] at hrep
    obtain ⟨⟨⟨⟨⟨⟨⟨h1, h2⟩, h3⟩, h4⟩, h5⟩, h6⟩, h7⟩, h8⟩ := hrep
    subst h1 h2 h3 h4 h5 h6 h7 h8
    interval_cases i <;>
      simp only [List.set_cons_zero, List.set_cons_succ, List.getElem?_cons_zero,
        List.getElem?_cons_succ, ne_eq, Option.some.injEq] at hx ⊢ <;>
      rw [isRepetition_eq _ pre _ _ _ _ _ _ _ _ _ _ _ _ rfl] <;>
      simp [hx, Ne.symm hx]
  · intro pre pre2 last hl h
    obtain ⟨x0, x1, x2, x3, x4, x5, x6, x7, x8, x9, x10, x11, rfl⟩ := htwelve last hl
    rw [isRepetition_eq c pre x0 x1 x2 x3 x4 x5 x6 x7 x8 x9 x10 x11 h,
      isRepetition_eq _ pre2 x0 x1 x2 x3 x4 x5 x6 x7 x8 x9 x10 x11 rfl]

end RepetitionClaim

section AttackSets

open chessPiece

/-- C17: exact characterisation of the sliding attack sets.  For a Rook (Bishop, Queen) on
`pos` and every board `b`, a square `q` is in `getAttackingSquares()` if and only if it is a
board square other than `pos` on a rank/file line (a diagonal, either) through `pos` with
every square strictly between unoccupied; and whether `q` is attacked does not depend on
what stands on `q`: two boards that agree off `q` give the same answer, so the first
blocker of a ray is included whatever its colour. -/
theorem C17_sliding_attack_sets (ptr : Nat) (color : COLOR) (pos : Square) (fm : Bool)
    (b : chessBoard) (q : Square) :
    (q ∈ getAttackingSquares ⟨ptr, color, PIECE.ROOK, pos, fm⟩ b ↔
      inBoardMap q = true ∧ q ≠ pos ∧ Square.onLine pos q ∧
        ∀ s, Square.between pos q s → b.isSquareOccupied s = false) ∧
    (q ∈ getAttackingSquares ⟨ptr, color, PIECE.BISHOP, pos, fm⟩ b ↔
      inBoardMap q = true ∧ q ≠ pos ∧ Square.onDiagonal pos q ∧
        ∀ s, Square.between pos q s → b.isSquareOccupied s = false) ∧
    (q ∈ getAttackingSquares ⟨ptr, color, PIECE.QUEEN, pos, fm⟩ b ↔
      inBoardMap q = true ∧ q ≠ pos ∧ (Square.onLine pos q ∨ Square.onDiagonal pos q) ∧
        ∀ s, Square.between pos q s → b.isSquareOccupied s = false) ∧
    (∀ (kind : PIECE) (b2 : chessBoard),
      kind = PIECE.ROOK ∨ kind = PIECE.BISHOP ∨ kind = PIECE.QUEEN →
      (∀ s, s ≠ q → b2.isSquareOccupied s = b.isSquareOccupied s) →
      (q ∈ getAttackingSquares ⟨ptr, color, kind, pos, fm⟩ b2 ↔
        q ∈ getAttackingSquares ⟨ptr, color, kind, pos, fm⟩ b)) := by
  have hR : ∀ b : chessBoard, (q ∈ getAttackingSquares ⟨ptr, color, PIECE.ROOK, pos, fm⟩ b ↔
      inBoardMap q = true ∧ q ≠ pos ∧ Square.onLine pos q ∧
        ∀ s, Square.between pos q s → b.isSquareOccupied s = false) := by
    intro b
    simp only [getAttackingSquares, mem_keepBoardSquares]
    exact mem_rookRays_iff b pos q
  have hB : ∀ b : chessBoard, (q ∈ getAttackingSquares ⟨ptr, color, PIECE.BISHOP, pos, fm⟩ b ↔
      inBoardMap q = true ∧ q ≠ pos ∧ Square.onDiagonal pos q ∧
        ∀ s, Square.between pos q s → b.isSquareOccupied s = false) := by
    intro b
    simp only [getAttackingSquares, mem_keepBoardSquares]
    exact mem_bishopRays_iff b pos q
  have hQ : ∀ b : chessBoard, (q ∈ getAttackingSquares ⟨ptr, color, PIECE.QUEEN, pos, fm⟩ b ↔
      inBoardMap q = true ∧ q ≠ pos ∧ (Square.onLine pos q ∨ Square.onDiagonal pos q) ∧
        ∀ s, Square.between pos q s → b.isSquareOccupied s = false) := by
    intro b
    simp only [getAttackingSquares, queenRays_eq, mem_keepBoardSquares, List.mem_append,
      or_and_right]
    rw [mem_rookRays_iff b pos q, mem_bishopRays_iff b pos q]
    tauto
  refine ⟨hR b, hB b, hQ b, ?_⟩
  intro kind b2 hkind hagree
  have hbetween : (∀ s, Square.between pos q s → b2.isSquareOccupied s = false) ↔
      (∀ s, Square.between pos q s → b.isSquareOccupied s = false) := by
    constructor
    · intro h s hs
      rw [← hagree s (between_ne pos q s hs)]
      exact h s hs
    · intro h s hs
      rw [hagree s (between_ne pos q s hs)]
      exact h s hs
  rcases hkind with rfl | rfl | rfl
  · rw [hR b2, hR b, hbetween]
  · rw [hB b2, hB b, hbetween]
  · rw [hQ b2, hQ b, hbetween]

end AttackSets

section AttackSetShape

open chessPiece

/-- C18: for a piece of any kind other than the king, on any square and any board, the
attack set does not contain the piece's own square and has no duplicates; for a sliding
piece it contains no square `q` beyond an occupied square `s`, that is, with `s` strictly
between the piece and `q` on their common line. -/
theorem C18_attack_set_shape (ptr : Nat) (color : COLOR) (kind : PIECE) (pos : Square)
    (fm : Bool) (b : chessBoard) (hkind : kind ≠ PIECE.KING) :
    pos ∉ getAttackingSquares ⟨ptr, color, kind, pos, fm⟩ b ∧
    (getAttackingSquares ⟨ptr, color, kind, pos, fm⟩ b).Nodup ∧
    (kind = PIECE.QUEEN ∨ kind = PIECE.ROOK ∨ kind = PIECE.BISHOP →
      ∀ s q : Square, Square.between pos q s → b.isSquareOccupied s = true →
        q ∉ getAttackingSquares ⟨ptr, color, kind, pos, fm⟩ b) := by
  have hocc : ∀ s q : Square, Square.between pos q s → b.isSquareOccupied s = true →
      ¬ (∀ s, Square.between pos q s → b.isSquareOccupied s = false) := by
    intro s q hs ho hall
    rw [hall s hs] at ho
    exact Bool.false_ne_true ho
  cases kind with
  | KING => exact absurd rfl hkind
  | QUEEN =>
    refine ⟨?_, ?_, fun _ s q hs ho => ?_⟩
    · simp only [getAttackingSquares, queenRays_eq, mem_keepBoardSquares, List.mem_append]
      rintro ⟨h | h, -⟩
      · have := rookRays_line b pos pos h
        omega
      · have := bishopRays_diagonal b pos pos h
        omega
    · simp only [getAttackingSquares, queenRays_eq]
      exact List.Nodup.filter _ (queenRays_nodup b pos)
    · simp only [getAttackingSquares, queenRays_eq, mem_keepBoardSquares, List.mem_append,
      or_and_right]
      rw [mem_rookRays_iff b pos q, mem_bishopRays_iff b pos q]
      have := hocc s q hs ho
      tauto
  | KNIGHT =>
    refine ⟨?_, ?_, fun h => ?_⟩
    · simp only [getAttackingSquares, mem_keepBoardSquares, knightOffsets, List.mem_cons,
        List.mem_singleton, List.not_mem_nil, or_false, Square.eq_iff]
      omega
    · refine List.Nodup.filter _ ?_
      simp only [knightOffsets, List.nodup_cons, List.mem_cons, List.mem_singleton,
        List.not_mem_nil, or_false, Square.eq_iff, List.nodup_nil, not_false_eq_true,
        and_true]
      omega
    · simp at h
  | BISHOP =>
    refine ⟨?_, ?_, fun _ s q hs ho => ?_⟩
    · simp only [getAttackingSquares, mem_keepBoardSquares]
      rintro ⟨h, -⟩
      have := bishopRays_diagonal b pos pos h
      omega
    · exact List.Nodup.filter _ (bishopRays_nodup b pos)
    · simp only [getAttackingSquares, mem_keepBoardSquares]
      rw [mem_bishopRays_iff b pos q]
      have := hocc s q hs ho
      tauto
  | ROOK =>
    refine ⟨?_, ?_, fun _ s q hs ho => ?_⟩
    · simp only [getAttackingSquares, mem_keepBoardSquares]
      rintro ⟨h, -⟩
      have := rookRays_line b pos pos h
      omega
    · exact List.Nodup.filter _ (rookRays_nodup b pos)
    · simp only [getAttackingSquares, mem_keepBoardSquares]
      rw [mem_rookRays_iff b pos q]
      have := hocc s q hs ho
      tauto
  | PAWN =>
    refine ⟨?_, ?_, fun h => ?_⟩
    · cases color <;>
        simp only [getAttackingSquares, mem_keepBoardSquares, pawnOffsets, List.mem_cons,
          List.mem_singleton, List.not_mem_nil, or_false, Square.eq_iff] <;>
        omega
    · refine List.Nodup.filter _ ?_
      cases color <;>
        simp only [pawnOffsets, List.nodup_cons, List.mem_cons, List.mem_singleton,
          List.not_mem_nil, or_false, Square.eq_iff, List.nodup_nil, not_false_eq_true,
          and_true] <;>
        omega
    · simp at h
  | NONE =>
    refine ⟨?_, ?_, fun h => ?_⟩
    · simp [getAttackingSquares]
    · simp [getAttackingSquares]
    · simp at h

/-- C18 for a White Queen on d1 with the squares d2 and e2 occupied: the set does not
contain d1, has no duplicates, and contains no square beyond an occupied one. -/
theorem C18_attack_set_shape_witness :
    PIECE.QUEEN ≠ PIECE.KING ∧
    (d1 ∉ getAttackingSquares ⟨0, COLOR.WHITE, PIECE.QUEEN, d1, true⟩
        ⟨fun q => if q = d2 ∨ q = e2 then 9817 else emptyCell⟩ ∧
    (getAttackingSquares ⟨0, COLOR.WHITE, PIECE.QUEEN, d1, true⟩
        ⟨fun q => if q = d2 ∨ q = e2 then 9817 else emptyCell⟩).Nodup ∧
    (PIECE.QUEEN = PIECE.QUEEN ∨ PIECE.QUEEN = PIECE.ROOK ∨ PIECE.QUEEN = PIECE.BISHOP →
      ∀ s q : Square, Square.between d1 q s →
        chessBoard.isSquareOccupied ⟨fun q => if q = d2 ∨ q = e2 then 9817 else emptyCell⟩ s
          = true →
        q ∉ getAttackingSquares ⟨0, COLOR.WHITE, PIECE.QUEEN, d1, true⟩
          ⟨fun q => if q = d2 ∨ q = e2 then 9817 else emptyCell⟩)) :=
  ⟨by decide, C18_attack_set_shape 0 COLOR.WHITE PIECE.QUEEN d1 true
    ⟨fun q => if q = d2 ∨ q = e2 then 9817 else emptyCell⟩ (by decide)⟩

end AttackSetShape

section Paths

open chessPiece

/-- C19, counterexample: a Bishop on c1 asked for its path to e2, a board square that is
on none of its diagonals, returns the non-empty path c1, d2, whose last element is not e2. -/
theorem C19_bishop_path_off_diagonal :
    inBoardMap c1 = true ∧ inBoardMap e2 = true ∧ ¬ Square.onDiagonal c1 e2 ∧
    getAttackingPath ⟨0, COLOR.WHITE, PIECE.BISHOP, c1, true⟩ e2 = [c1, d2] ∧
    getAttackingPath ⟨0, COLOR.WHITE, PIECE.BISHOP, c1, true⟩ e2 ≠ [] ∧
    (getAttackingPath ⟨0, COLOR.WHITE, PIECE.BISHOP, c1, true⟩ e2).getLast? ≠ some e2 := by
  decide

/-- C19, amended: for a sliding piece on `pos` and a destination `d`, the attacking path
contains `d` if and only if `d ≠ pos` and `d` lies on one of the piece's ray directions from
`pos` (file or rank for Rook and Queen, diagonal for Bishop and Queen), and whenever the
path contains `d`, its last element is `d`.  The Rook's path is non-empty exactly in that
case; the Bishop's path is non-empty whenever file and rank both differ, and the Queen's
whenever `d ≠ pos`, also for a destination on no ray. -/
theorem C19_attacking_path (ptr : Nat) (color : COLOR) (pos : Square) (fm : Bool)
    (d : Square) :
    ((getAttackingPath ⟨ptr, color, PIECE.ROOK, pos, fm⟩ d ≠ [] ↔
        d ≠ pos ∧ Square.onLine pos d) ∧
      (d ∈ getAttackingPath ⟨ptr, color, PIECE.ROOK, pos, fm⟩ d ↔
        d ≠ pos ∧ Square.onLine pos d) ∧
      (getAttackingPath ⟨ptr, color, PIECE.ROOK, pos, fm⟩ d ≠ [] →
        (getAttackingPath ⟨ptr, color, PIECE.ROOK, pos, fm⟩ d).getLast? = some d)) ∧
    ((d ∈ getAttackingPath ⟨ptr, color, PIECE.BISHOP, pos, fm⟩ d ↔
        d ≠ pos ∧ Square.onDiagonal pos d) ∧
      (d ∈ getAttackingPath ⟨ptr, color, PIECE.BISHOP, pos, fm⟩ d →
        (getAttackingPath ⟨ptr, color, PIECE.BISHOP, pos, fm⟩ d).getLast? = some d) ∧
      (getAttackingPath ⟨ptr, color, PIECE.BISHOP, pos, fm⟩ d ≠ [] ↔
        pos.file ≠ d.file ∧ pos.rank ≠ d.rank)) ∧
    ((d ∈ getAttackingPath ⟨ptr, color, PIECE.QUEEN, pos, fm⟩ d ↔
        d ≠ pos ∧ (Square.onLine pos d ∨ Square.onDiagonal pos d)) ∧
      (d ∈ getAttackingPath ⟨ptr, color, PIECE.QUEEN, pos, fm⟩ d →
        (getAttackingPath ⟨ptr, color, PIECE.QUEEN, pos, fm⟩ d).getLast? = some d) ∧
      (getAttackingPath ⟨ptr, color, PIECE.QUEEN, pos, fm⟩ d ≠ [] ↔ d ≠ pos)) := by
  obtain ⟨dne, dmem, dlast⟩ := diagonalPath_spec pos d
  refine ⟨?_, ⟨dmem, dlast, dne⟩, ?_⟩
  · simp only [getAttackingPath]
    rcases straightPath_spec pos d with ⟨hnone, hno⟩ | ⟨L, hL, hyes, hne, hlast, hmem⟩
    · rw [hnone]
      simp only [Option.getD_none, ne_eq, not_true_eq_false, List.not_mem_nil, false_iff,
        false_imp_iff, and_true]
      exact ⟨hno, hno⟩
    · rw [hL]
      simp only [Option.getD_some]
      exact ⟨⟨fun _ => hyes, fun _ => hne⟩, ⟨fun _ => hyes, fun _ => hmem⟩, fun _ => hlast⟩
  · simp only [getAttackingPath, queenPath_eq]
    rcases straightPath_spec pos d with ⟨hnone, hno⟩ | ⟨L, hL, hyes, hne, hlast, hmem⟩
    · rw [hnone]
      dsimp only
      refine ⟨?_, dlast, ?_⟩
      · rw [dmem]; tauto
      · rw [dne]
        simp only [Square.onLine, ne_eq, Square.eq_iff] at hno ⊢
        omega
    · rw [hL]
      dsimp only
      exact ⟨⟨fun _ => ⟨hyes.1, Or.inl hyes.2⟩, fun _ => hmem⟩, fun _ => hlast,
        ⟨fun _ => hyes.1, fun _ => hne⟩⟩

end Paths

section FixedOffsets

open chessPiece

/-- C20: fixed-offset attack sets.  The attack set of a King on `pos` is exactly the set
of board squares adjacent to `pos`; of a Knight, the board squares at offsets (±1,±2),
(±2,±1); of a White Pawn, the board squares (file±1, rank+1), of a Black Pawn (file±1,
rank−1).  The sets have at most 8, 8 and 2 elements and do not depend on the board
occupancy.  None contains a straight-ahead square, which is the Pawn's forward push: no
square of `getValidMovesWithoutAttack()` (one ahead, two ahead) is in the Pawn's set, and
indeed the Pawn's and the Knight's sets contain no square of the piece's own file. -/
theorem C20_fixed_offset_attack_sets (ptr : Nat) (color : COLOR) (pos : Square) (fm : Bool)
    (b : chessBoard) (q : Square) :
    (q ∈ getAttackingSquares ⟨ptr, color, PIECE.KING, pos, fm⟩ b ↔
      inBoardMap q = true ∧ q ≠ pos ∧
        (q.file - pos.file).natAbs ≤ 1 ∧ (q.rank - pos.rank).natAbs ≤ 1) ∧
    (q ∈ getAttackingSquares ⟨ptr, color, PIECE.KNIGHT, pos, fm⟩ b ↔
      inBoardMap q = true ∧
        (((q.file - pos.file).natAbs = 1 ∧ (q.rank - pos.rank).natAbs = 2) ∨
         ((q.file - pos.file).natAbs = 2 ∧ (q.rank - pos.rank).natAbs = 1))) ∧
    (q ∈ getAttackingSquares ⟨ptr, COLOR.WHITE, PIECE.PAWN, pos, fm⟩ b ↔
      inBoardMap q = true ∧ (q.file - pos.file).natAbs = 1 ∧ q.rank = pos.rank + 1) ∧
    (q ∈ getAttackingSquares ⟨ptr, COLOR.BLACK, PIECE.PAWN, pos, fm⟩ b ↔
      inBoardMap q = true ∧ (q.file - pos.file).natAbs = 1 ∧ q.rank = pos.rank - 1) ∧
    ((getAttackingSquares ⟨ptr, color, PIECE.KING, pos, fm⟩ b).length ≤ 8 ∧
      (getAttackingSquares ⟨ptr, color, PIECE.KNIGHT, pos, fm⟩ b).length ≤ 8 ∧
      (getAttackingSquares ⟨ptr, color, PIECE.PAWN, pos, fm⟩ b).length ≤ 2) ∧
    (∀ (kind : PIECE) (b2 : chessBoard),
      kind = PIECE.KING ∨ kind = PIECE.KNIGHT ∨ kind = PIECE.PAWN →
        getAttackingSquares ⟨ptr, color, kind, pos, fm⟩ b2 =
          getAttackingSquares ⟨ptr, color, kind, pos, fm⟩ b) ∧
    (∀ rank : Int,
      (⟨pos.file, rank⟩ : Square) ∉ getAttackingSquares ⟨ptr, color, PIECE.KNIGHT, pos, fm⟩ b ∧
      (⟨pos.file, rank⟩ : Square) ∉ getAttackingSquares ⟨ptr, color, PIECE.PAWN, pos, fm⟩ b) ∧
    (∀ s ∈ getValidMovesWithoutAttack ⟨ptr, color, PIECE.PAWN, pos, fm⟩,
      s ∉ getAttackingSquares ⟨ptr, color, PIECE.PAWN, pos, fm⟩ b) := by
  have hK : ∀ q : Square, q ∈ getAttackingSquares ⟨ptr, color, PIECE.KING, pos, fm⟩ b ↔
      inBoardMap q = true ∧ q ≠ pos ∧
        (q.file - pos.file).natAbs ≤ 1 ∧ (q.rank - pos.rank).natAbs ≤ 1 := by
    intro q
    simp only [getAttackingSquares, mem_keepBoardSquares, kingOffsets, List.mem_cons,
      List.mem_singleton, List.not_mem_nil, or_false, Square.eq_iff, ne_eq]
    constructor
    · rintro ⟨h, hb⟩
      refine ⟨hb, ?_⟩
      omega
    · rintro ⟨hb, h⟩
      refine ⟨?_, hb⟩
      omega
  have hN : ∀ q : Square, q ∈ getAttackingSquares ⟨ptr, color, PIECE.KNIGHT, pos, fm⟩ b ↔
      inBoardMap q = true ∧
        (((q.file - pos.file).natAbs = 1 ∧ (q.rank - pos.rank).natAbs = 2) ∨
         ((q.file - pos.file).natAbs = 2 ∧ (q.rank - pos.rank).natAbs = 1)) := by
    intro q
    simp only [getAttackingSquares, mem_keepBoardSquares, knightOffsets, List.mem_cons,
      List.mem_singleton, List.not_mem_nil, or_false, Square.eq_iff]
    constructor
    · rintro ⟨h, hb⟩
      refine ⟨hb, ?_⟩
      omega
    · rintro ⟨hb, h⟩
      refine ⟨?_, hb⟩
      have hf : q.file = pos.file + 1 ∨ q.file = pos.file - 1 ∨ q.file = pos.file + 2 ∨
          q.file = pos.file - 2 := by omega
      have hr : q.rank = pos.rank + 1 ∨ q.rank = pos.rank - 1 ∨ q.rank = pos.rank + 2 ∨
          q.rank = pos.rank - 2 := by omega
      rcases hf with hf | hf | hf | hf <;> rcases hr with hr | hr | hr | hr <;>
        first
        | (exfalso; omega)
        | simp [hf, hr]
  have hW : ∀ q : Square, q ∈ getAttackingSquares ⟨ptr, COLOR.WHITE, PIECE.PAWN, pos, fm⟩ b ↔
      inBoardMap q = true ∧ (q.file - pos.file).natAbs = 1 ∧ q.rank = pos.rank + 1 := by
    intro q
    simp only [getAttackingSquares, mem_keepBoardSquares, pawnOffsets, List.mem_cons,
      List.mem_singleton, List.not_mem_nil, or_false, Square.eq_iff]
    constructor
    · rintro ⟨h, hb⟩
      refine ⟨hb, ?_⟩
      omega
    · rintro ⟨hb, h⟩
      refine ⟨?_, hb⟩
      omega
  have hB : ∀ q : Square, q ∈ getAttackingSquares ⟨ptr, COLOR.BLACK, PIECE.PAWN, pos, fm⟩ b ↔
      inBoardMap q = true ∧ (q.file - pos.file).natAbs = 1 ∧ q.rank = pos.rank - 1 := by
    intro q
    simp only [getAttackingSquares, mem_keepBoardSquares, pawnOffsets, List.mem_cons,
      List.mem_singleton, List.not_mem_nil, or_false, Square.eq_iff]
    constructor
    · rintro ⟨h, hb⟩
      refine ⟨hb, ?_⟩
      omega
    · rintro ⟨hb, h⟩
      refine ⟨?_, hb⟩
      omega
  have hfile : ∀ rank : Int,
      (⟨pos.file, rank⟩ : Square) ∉ getAttackingSquares ⟨ptr, color, PIECE.KNIGHT, pos, fm⟩ b ∧
      (⟨pos.file, rank⟩ : Square) ∉
        getAttackingSquares ⟨ptr, color, PIECE.PAWN, pos, fm⟩ b := by
    intro rank
    constructor
    · rw [hN]
      dsimp only
      omega
    · cases color
      · rw [hW]
        dsimp only
        omega
      · rw [hB]
        dsimp only
        omega
  refine ⟨hK q, hN q, hW q, hB q, ⟨?_, ?_, ?_⟩, ?_, hfile, ?_⟩
  · exact le_trans (List.length_filter_le _ _) (by simp [kingOffsets])
  · exact le_trans (List.length_filter_le _ _) (by simp [knightOffsets])
  · cases color <;> exact le_trans (List.length_filter_le _ _) (by simp [pawnOffsets])
  · intro kind b2 hkind
    rcases hkind with rfl | rfl | rfl <;> rfl
  · intro s hs
    have hsf : s.file = pos.file := by
      cases color <;> cases fm <;>
        simp only [getValidMovesWithoutAttack, List.mem_cons, List.mem_singleton,
          List.not_mem_nil, or_false, if_true, if_false, Bool.false_eq_true] at hs
      all_goals (rcases hs with rfl | rfl <;> rfl)
    have hs2 : s = ⟨pos.file, s.rank⟩ := by
      rw [Square.eq_iff]
      exact ⟨hsf, rfl⟩
    rw [hs2]
    exact (hfile s.rank).2

end FixedOffsets

section C21PawnForward

open Chess

/-- C21: pawn forward moves.  `getValidMovesWithoutAttack()` of a Pawn is the square one
rank ahead, followed by the square two ranks ahead exactly when `m_firstMove` is set.  And
in every state of the object (any collections, board, history and flags), if a Pawn stands
on `source`, `destination` is on the file of `source` and `isValidMove(source,
destination)` returns true, then `destination` is the square one rank ahead of `source`,
or the square two ranks ahead and `isFirstMove()` is true. -/
theorem C21_pawn_forward_moves (c : Chess) (source destination : Square) (p : chessPiece)
    (hp : c.getPieceFromPosition source = some p) (hk : p.getPiece = PIECE.PAWN)
    (hfile : destination.file = source.file)
    (hv : returned (c.isValidMove source destination) = some true) :
    (destination = Square.ahead p.getColor source 1 ∨
      (destination = Square.ahead p.getColor source 2 ∧ p.isFirstMove = true)) ∧
    (∀ (ptr : Nat) (color : COLOR) (pos : Square) (fm : Bool),
      chessPiece.getValidMovesWithoutAttack ⟨ptr, color, PIECE.PAWN, pos, fm⟩ =
        if fm then [Square.ahead color pos 1, Square.ahead color pos 2]
        else [Square.ahead color pos 1]) := by
  constructor
  · obtain ⟨_, hps⟩ := getPieceFromPosition_some c source p hp
    have hkm : p.m_piece = PIECE.PAWN := hk
    have hfm : p.isFirstMove = p.m_firstMove := by
      simp only [chessPiece.isFirstMove, hkm]
    by_cases h1 : p.isValidMove c.m_chessBoard source destination = true
    · -- the pawn's own rule accepted the move
      simp only [chessPiece.isValidMove, hkm, chessPiece.pawnIsValidMove] at h1
      split_ifs at h1 with ha hb hc
      simp only [Bool.or_eq_true, Bool.and_eq_true, decide_eq_true_eq, not_or, not_and,
        Bool.not_eq_true] at hc h1
      rw [hfm]
      cases hcol : p.m_color with
      | WHITE =>
        have hc1 := hc.1
        simp only [hcol, decide_True, Bool.true_and, decide_eq_false_iff_not, not_le,
          true_implies] at hc1
        simp only [chessPiece.getColor, hcol, Square.ahead, Square.eq_iff]
        rcases h1 with ⟨⟨_, h2⟩, h3⟩ | ⟨_, h2⟩
        · right
          exact ⟨⟨hfile, by omega⟩, h3⟩
        · left
          exact ⟨hfile, by omega⟩
      | BLACK =>
        have hc2 := hc.2
        simp only [hcol, decide_True, Bool.true_and, decide_eq_false_iff_not, not_le,
          true_implies, ge_iff_le] at hc2
        simp only [chessPiece.getColor, hcol, Square.ahead, Square.eq_iff]
        rcases h1 with ⟨⟨_, h2⟩, h3⟩ | ⟨_, h2⟩
        · right
          exact ⟨⟨hfile, by omega⟩, h3⟩
        · left
          exact ⟨hfile, by omega⟩
    · -- otherwise the destination would have to be an attacked square, on another file
      exfalso
      have hkk : ¬ p.getPiece = PIECE.KING := by rw [hk]; decide
      have hnot : (p.getAttackingSquares c.m_chessBoard).contains destination = false := by
        rw [Bool.eq_false_iff]
        intro hcon
        have hmem : destination ∈ p.getAttackingSquares c.m_chessBoard := by
          simpa using hcon
        simp only [chessPiece.getAttackingSquares, hkm, mem_keepBoardSquares] at hmem
        have hpos : p.m_position = source := hps
        cases hcol : p.m_color <;>
          simp only [hcol, chessPiece.pawnOffsets, List.mem_cons, List.mem_singleton,
            List.not_mem_nil, or_false, Square.eq_iff, hpos] at hmem <;>
          omega
      unfold isValidMove at hv
      rw [hp] at hv
      simp only at hv
      unfold isValidMove_rules at hv
      simp only [h1, Bool.false_eq_true, if_false, hkk, hk, if_true, hnot, Bool.not_false]
        at hv
      simp [returned] at hv
  · intro ptr color pos fm
    cases color <;> cases fm <;> rfl

/-- C21 for the white pawn e5 of `enPassantReadyPosition` (which has moved) and the
destination e6. -/
theorem C21_pawn_forward_moves_witness :
    enPassantReadyPosition.getPieceFromPosition e5 =
      some ⟨1, COLOR.WHITE, PIECE.PAWN, e5, false⟩ ∧
    chessPiece.getPiece ⟨1, COLOR.WHITE, PIECE.PAWN, e5, false⟩ = PIECE.PAWN ∧
    e6.file = e5.file ∧
    returned (enPassantReadyPosition.isValidMove e5 e6) = some true ∧
    ((e6 = Square.ahead (chessPiece.getColor ⟨1, COLOR.WHITE, PIECE.PAWN, e5, false⟩) e5 1 ∨
      (e6 = Square.ahead (chessPiece.getColor ⟨1, COLOR.WHITE, PIECE.PAWN, e5, false⟩) e5 2 ∧
        chessPiece.isFirstMove ⟨1, COLOR.WHITE, PIECE.PAWN, e5, false⟩ = true)) ∧
    (∀ (ptr : Nat) (color : COLOR) (pos : Square) (fm : Bool),
      chessPiece.getValidMovesWithoutAttack ⟨ptr, color, PIECE.PAWN, pos, fm⟩ =
        if fm then [Square.ahead color pos 1, Square.ahead color pos 2]
        else [Square.ahead color pos 1])) :=
  ⟨by decide!, by decide, by decide, by decide!,
    C21_pawn_forward_moves enPassantReadyPosition e5 e6 ⟨1, COLOR.WHITE, PIECE.PAWN, e5, false⟩
      (by decide!) (by decide) (by decide) (by decide!)⟩

end C21PawnForward

section C22HasMoved

open Chess

/-- C22: the has-moved flag.  (1) In the object `Chess::Chess()` builds, every King, Rook
and Pawn reports `isFirstMove() = true`.  (2) Let a move be accepted by `isValidMove` in a
consistent state and then made by `move`: both calls return, and for every piece of the
state before, identified by its address among the pieces after, the flag is false if the
piece stands on another square than before, stays false if it was false, and is unchanged
if the piece stands where it stood.  (3) Any call of `move` that returns, from any state
whose piece addresses are distinct and allocated, leaves such a state, turns the flag of a
piece found on another square to false and keeps a false flag false.  (4) `isValidMove`,
the four mate and stalemate tests and `resetFlags` leave the board, both collections,
the history and the allocator as they were.  (5) In the game Nf3 a6 e3 a5 Be2 a4 followed
by the castle e1-g1, the king on g1 and the rook on f1 both report false afterwards, and
the rook on a1 still reports true. -/
theorem C22_has_moved_flag (c : Chess) (source destination : Square)
    (hc : c.consistent = true)
    (hv : (c.validatedMove source destination).isSome = true) :
    (value Chess.construct).map (fun c0 => Chess.pieces c0 |>.all (fun p =>
        !(decide (p.getPiece = PIECE.KING) || decide (p.getPiece = PIECE.ROOK) ||
          decide (p.getPiece = PIECE.PAWN)) || p.isFirstMove)) = some true ∧
    (∃ c2, c.validatedMove source destination = some c2 ∧ c2.addressesOk = true ∧
      ∀ q ∈ c.pieces, ∀ q2 ∈ c2.pieces, q2.ptr = q.ptr →
        (q2.getPosition ≠ q.getPosition → q2.isFirstMove = false) ∧
        (q.isFirstMove = false → q2.isFirstMove = false) ∧
        (q2.getPosition = q.getPosition → q2.isFirstMove = q.isFirstMove)) ∧
    (∀ (c3 c4 : Chess) (s d : Square), c3.addressesOk = true → c3.move s d = .ok c4 →
      c4.addressesOk = true ∧
      ∀ q ∈ c3.pieces, ∀ q2 ∈ c4.pieces, q2.ptr = q.ptr →
        (q2.getPosition ≠ q.getPosition → q2.isFirstMove = false) ∧
        (q.isFirstMove = false → q2.isFirstMove = false)) ∧
    (∀ (c3 c4 : Chess) (s d : Square) (r : Bool),
      (c3.isValidMove s d = .ok (r, c4) ∨ c3.isWhiteCheckMated = .ok (r, c4) ∨
        c3.isBlackCheckMated = .ok (r, c4) ∨ c3.isWhiteStalemate = .ok (r, c4) ∨
        c3.isBlackStalemate = .ok (r, c4) ∨ c4 = c3.resetFlags) →
      sameButFlags c3 c4) ∧
    ((Game.reached castleGame).bind (fun g => Chess.validatedMove g e1 g1)).map
        (fun c2 : Chess =>
          ((c2.getPieceFromPosition g1).map (fun p => (p.getPiece, p.isFirstMove)),
           (c2.getPieceFromPosition f1).map (fun p => (p.getPiece, p.isFirstMove)),
           (c2.getPieceFromPosition a1).map (fun p => (p.getPiece, p.isFirstMove)))) =
      some (some (PIECE.KING, false), some (PIECE.ROOK, false), some (PIECE.ROOK, true)) := by
  refine ⟨by decide!, ?_, ?_, ?_, by decide!⟩
  · unfold validatedMove at hv ⊢
    cases hA : c.isValidMove source destination with
    | error e => rw [hA] at hv; cases hv
    | ok rc =>
      obtain ⟨r, c1⟩ := rc
      rw [hA] at hv
      cases r with
      | false => cases hv
      | true =>
        dsimp only at hv ⊢
        cases hB : c1.move source destination with
        | error e => rw [hB] at hv; cases hv
        | ok c2 =>
          obtain ⟨hok, hflags⟩ := validated_flags c c1 c2 source destination hc hA hB
          exact ⟨c2, rfl, hok, hflags⟩
  · intro c3 c4 s d ha hm
    exact move_flags c3 c4 s d ha hm
  · intro c3 c4 s d r h
    rcases h with h | h | h | h | h | h
    · exact isValidMove_frame c3 s d r c4 h
    · exact isWhiteCheckMated_frame c3 r c4 h
    · exact isBlackCheckMated_frame c3 r c4 h
    · exact isWhiteStalemate_frame c3 r c4 h
    · exact isBlackStalemate_frame c3 r c4 h
    · subst h
      exact ⟨rfl, rfl, rfl, rfl, rfl⟩

/-- C22 at `castleReadyPosition`: the castle e1-g1 is accepted and made there. -/
theorem C22_has_moved_flag_witness :
    castleReadyPosition.consistent = true ∧
    (castleReadyPosition.validatedMove e1 g1).isSome = true ∧
    ((value Chess.construct).map (fun c0 => Chess.pieces c0 |>.all (fun p =>
        !(decide (p.getPiece = PIECE.KING) || decide (p.getPiece = PIECE.ROOK) ||
          decide (p.getPiece = PIECE.PAWN)) || p.isFirstMove)) = some true ∧
    (∃ c2, castleReadyPosition.validatedMove e1 g1 = some c2 ∧ c2.addressesOk = true ∧
      ∀ q ∈ castleReadyPosition.pieces, ∀ q2 ∈ c2.pieces, q2.ptr = q.ptr →
        (q2.getPosition ≠ q.getPosition → q2.isFirstMove = false) ∧
        (q.isFirstMove = false → q2.isFirstMove = false) ∧
        (q2.getPosition = q.getPosition → q2.isFirstMove = q.isFirstMove)) ∧
    (∀ (c3 c4 : Chess) (s d : Square), c3.addressesOk = true → c3.move s d = .ok c4 →
      c4.addressesOk = true ∧
      ∀ q ∈ c3.pieces, ∀ q2 ∈ c4.pieces, q2.ptr = q.ptr →
        (q2.getPosition ≠ q.getPosition → q2.isFirstMove = false) ∧
        (q.isFirstMove = false → q2.isFirstMove = false)) ∧
    (∀ (c3 c4 : Chess) (s d : Square) (r : Bool),
      (c3.isValidMove s d = .ok (r, c4) ∨ c3.isWhiteCheckMated = .ok (r, c4) ∨
        c3.isBlackCheckMated = .ok (r, c4) ∨ c3.isWhiteStalemate = .ok (r, c4) ∨
        c3.isBlackStalemate = .ok (r, c4) ∨ c4 = c3.resetFlags) →
      sameButFlags c3 c4) ∧
    ((Game.reached castleGame).bind (fun g => Chess.validatedMove g e1 g1)).map
        (fun c2 : Chess =>
          ((c2.getPieceFromPosition g1).map (fun p => (p.getPiece, p.isFirstMove)),
           (c2.getPieceFromPosition f1).map (fun p => (p.getPiece, p.isFirstMove)),
           (c2.getPieceFromPosition a1).map (fun p => (p.getPiece, p.isFirstMove)))) =
      some (some (PIECE.KING, false), some (PIECE.ROOK, false), some (PIECE.ROOK, true))) :=
  ⟨by decide!, by decide!,
    C22_has_moved_flag castleReadyPosition e1 g1 (by decide!) (by decide!)⟩

end C22HasMoved

section C23Game

open Chess

/-- C23, the code at the failing input.  Claim: after every `move` that follows a
successful `isValidMove` with cleared flags from a state satisfying the invariant, a square
is occupied if and only if exactly one live piece stands on it, and no two live pieces
share a square.  The position the ten accepted half-moves of `ownPawnEnPassantGame` reach
is consistent (no two pieces on one square, occupancy agrees with the collections);
`isValidMove("d3", "e4")` returns true there, and after `move("d3", "e4")` two white pawns
(the objects at addresses 11 and 12) both have position e2. -/
theorem C23_two_pawns_on_one_square :
    (Game.reached ownPawnEnPassantGame).map (fun c =>
        (c.consistent, c.boardAgrees, distinct (c.pieces.map (fun p => p.getPosition)),
         returned (c.isValidMove d3 e4)))
      = some (true, true, true, some true) ∧
    (Game.reached ownPawnEnPassantGame).map (fun c =>
        (c.validatedMove d3 e4).map (fun c2 =>
          (distinct (c2.pieces.map (fun p => p.getPosition)),
           c2.m_chessBoard.isSquareOccupied e2)))
      = some (some (false, true)) ∧
    (Game.reached ownPawnEnPassantGame).map (fun c =>
        (c.validatedMove d3 e4).map (fun c2 =>
          (c2.pieces.filter (fun p => decide (p.getPosition = e2))).map
            (fun p => (p.ptr, p.getColor, p.getPiece))))
      = some (some [(11, COLOR.WHITE, PIECE.PAWN), (12, COLOR.WHITE, PIECE.PAWN)]) := by
  refine ⟨by decide!, by decide!, by decide!⟩

end C23Game

section C24Game

open Chess

/-- C24, the code at the failing input.  Claim: the boolean `isValidMove` returns does
not depend on the values the four flags had before the call.  In the position the eight
accepted half-moves of `pinnedPawnGame` reach (consistent, flags cleared)
`isValidMove("a1", "a5")` and `isValidMove("c3", "c4")` return false.  The call
`isValidMove("e4", "d5")` returns false (the pawn is pinned) and leaves
`m_activatePawnCapturing` set; made right after it, `isValidMove("a1", "a5")` (a rook
through its own pawn a2) and `isValidMove("c3", "c4")` (a knight one square ahead) return
true. -/
theorem C24_answer_depends_on_earlier_call :
    (Game.reached pinnedPawnGame).map (fun c =>
        (c.consistent, returned (c.isValidMove a1 a5), returned (c.isValidMove c3 c4)))
      = some (true, some false, some false) ∧
    (Game.reached pinnedPawnGame).map (fun c =>
        (value (c.isValidMove e4 d5)).map (fun r =>
          (r.1, r.2.m_activateCastling, r.2.m_activatePawnCapturing, r.2.m_enPassant,
           r.2.m_activatePromotion)))
      = some (some (false, false, true, false, false)) ∧
    (Game.reached pinnedPawnGame).map (fun c =>
        (value (c.isValidMove e4 d5)).map (fun r =>
          (returned (r.2.isValidMove a1 a5), returned (r.2.isValidMove c3 c4))))
      = some (some (some true, some true)) := by
  refine ⟨by decide!, by decide!, by decide!⟩

end C24Game

section C25Game

open Chess

/-- C25, the code at the failing input.  Claim: after every `move` that follows a
successful `isValidMove`, pawn captures included, the history is the history before with
the record (source, destination) appended.  After 1.e4 d5 `isValidMove("e4", "d5")` returns
true; after `move("e4", "d5")` the white pawn stands on d5 and Black has 15 pieces, but the
history still holds the two records e2-e4 and d7-d5 and nothing else. -/
theorem C25_pawn_capture_leaves_no_record :
    (Game.reached pawnCaptureReadyGame).map (fun c =>
        (c.consistent, c.m_moveDB, returned (c.isValidMove e4 d5)))
      = some (true, [(e2, e4), (d7, d5)], some true) ∧
    (Game.reached pawnCaptureReadyGame).map (fun c =>
        (c.validatedMove e4 d5).map (fun c2 =>
          (c2.m_moveDB, decide (c2.m_moveDB = c.m_moveDB ++ [(e4, d5)]))))
      = some (some ([(e2, e4), (d7, d5)], false)) ∧
    (Game.reached pawnCaptureReadyGame).map (fun c =>
        (c.validatedMove e4 d5).map (fun c2 =>
          ((c2.getPieceFromPosition d5).map (fun p => (p.getColor, p.getPiece)),
           c2.blackPieces.length)))
      = some (some (some (COLOR.WHITE, PIECE.PAWN), 15)) := by
  refine ⟨by decide!, by decide!, by decide!⟩

end C25Game

section C26Game

open Chess

/-- C26, the code at the failing input.  Claim: in every consistent position with cleared
flags, also with an empty history, `isValidMove` returns a boolean without reading a
record that does not exist; in the initial position `isValidMove("e2", "f3")` returns
false.  The initial position is consistent, its history is empty, a white pawn stands on
e2 and f3 is empty; `isValidMove("e2", "f3")` does not return: it evaluates
`m_moveDB[m_moveDB.size() - 1]` on the empty vector, which is undefined. -/
theorem C26_diagonal_pawn_move_reads_empty_history :
    (value Chess.construct).map (fun c =>
        (c.consistent, c.m_moveDB.length,
         (c.getPieceFromPosition e2).map (fun p => (p.getColor, p.getPiece)),
         (c.getPieceFromPosition f3).isSome))
      = some (true, 0, some (COLOR.WHITE, PIECE.PAWN), false) ∧
    (value Chess.construct).map (fun c =>
        (returned (c.isValidMove e2 f3), fault (c.isValidMove e2 f3), fault c.getLastMove))
      = some (none, some Fault.undefinedBehaviour, some Fault.undefinedBehaviour) := by
  refine ⟨by decide!, by decide!⟩

end C26Game

section C27Game

open Chess

/-- C27, counterexample.  Claim: in every position in which the king is not under
attack, `whiteKingCheckCanBeEliminated()` (`blackKingCheckCanBeEliminated()`) fails with a
logic error and never returns a boolean.  After 1.e4 e5 (consistent) neither king is under
attack, and both calls return true: the loop over the king's moves finds e1-e2 (e8-e7)
valid and returns before the attackers are looked at.  In the initial position, where the
king has no move, the call does throw `Invalid function use`. -/
theorem C27_check_elimination_returns_without_check :
    (Game.reached openKingsGame).map (fun c =>
        (c.consistent, c.isWhiteKingUnderAttack, c.isBlackKingUnderAttack))
      = some (true, .ok false, .ok false) ∧
    (Game.reached openKingsGame).map (fun c =>
        (returned c.whiteKingCheckCanBeEliminated, returned c.blackKingCheckCanBeEliminated,
         returned (c.isValidMove e1 e2), returned (c.isValidMove e8 e7)))
      = some (some true, some true, some true, some true) ∧
    (value Chess.construct).map (fun c =>
        (c.isWhiteKingUnderAttack, fault c.whiteKingCheckCanBeEliminated,
         c.isBlackKingUnderAttack, fault c.blackKingCheckCanBeEliminated))
      = some (.ok false, some (Fault.logic_error "Invalid function use"),
          .ok false, some (Fault.logic_error "Invalid function use")) := by
  refine ⟨by decide!, by decide!, by decide!⟩

/-- C27, amended.  In a position that is consistent (whatever the flags) let the white
king not be under attack.  Then `isWhiteCheckMated()`, the only caller of
`whiteKingCheckCanBeEliminated()`, returns false without calling it; and a call of
`whiteKingCheckCanBeEliminated()` either returns true or throws the logic error
`Invalid function use`: it returns true exactly when its loop over the king's attacking
squares finds one for which `isValidMove` returns true, it never returns false and it ends
in no other fault.  The same for Black. -/
theorem C27_check_elimination_without_check (c : Chess)
    (hc : c.resetFlags.consistent = true) :
    (c.isWhiteKingUnderAttack = .ok false →
      c.isWhiteCheckMated = .ok (false, c) ∧
      (returned c.whiteKingCheckCanBeEliminated = some true ∨
        fault c.whiteKingCheckCanBeEliminated =
          some (Fault.logic_error "Invalid function use")) ∧
      ∃ wKing, c.whitePieces.head? = some wKing ∧
        (returned c.whiteKingCheckCanBeEliminated = some true ↔
          returned (tryDestinations wKing.getPosition c
            (wKing.getAttackingSquares c.m_chessBoard)) = some true)) ∧
    (c.isBlackKingUnderAttack = .ok false →
      c.isBlackCheckMated = .ok (false, c) ∧
      (returned c.blackKingCheckCanBeEliminated = some true ∨
        fault c.blackKingCheckCanBeEliminated =
          some (Fault.logic_error "Invalid function use")) ∧
      ∃ bKing, c.blackPieces.head? = some bKing ∧
        (returned c.blackKingCheckCanBeEliminated = some true ↔
          returned (tryDestinations bKing.getPosition c
            (bKing.getAttackingSquares c.m_chessBoard)) = some true)) := by
  obtain ⟨hkf0, _, _, _⟩ := consistent_sides c.resetFlags hc
  obtain ⟨_, _, _, hnpos0, _⟩ := consistent_facts c.resetFlags hc
  have hkf : c.kingFirst = true := hkf0
  have hnpos : (c.pieces.map (fun r => r.getPosition)).Nodup := hnpos0
  obtain ⟨hwne, hbne⟩ := kingFirst_nonempty c hkf
  obtain ⟨wk, wrest, hw, hwk, _, _⟩ := kingFirst_white hkf
  obtain ⟨bk, brest, hb, hbk, _, _⟩ := kingFirst_black hkf
  constructor
  · intro hu
    obtain ⟨hA, hB⟩ := whiteKingCheckCanBeEliminated_unattacked c wk wrest hw hbne hwk hu
    refine ⟨?_, hA, wk, by rw [hw]; rfl, hB⟩
    unfold isWhiteCheckMated
    rw [hu]
  · intro hu
    have hbm : bk ∈ c.pieces := by
      unfold pieces
      rw [hb]
      exact List.mem_append_right _ (List.mem_cons_self _ _)
    have hp : c.getPieceFromPosition bk.getPosition = some bk := by
      cases hg : c.getPieceFromPosition bk.getPosition with
      | none => exact absurd rfl ((getPieceFromPosition_none c _).mp hg bk hbm)
      | some q =>
        obtain ⟨hqm, hqp⟩ := getPieceFromPosition_some c _ q hg
        rw [List.inj_on_of_nodup_map hnpos hqm hbm hqp]
    obtain ⟨hA, hB⟩ :=
      blackKingCheckCanBeEliminated_unattacked c bk brest hwne hb hbk hp hu
    refine ⟨?_, hA, bk, by rw [hb]; rfl, hB⟩
    unfold isBlackCheckMated
    rw [hu]

/-- C27 (amended) at the king-and-queen stalemate: the black king a8 is not under attack
and has no valid move, and `blackKingCheckCanBeEliminated()` throws. -/
theorem C27_check_elimination_without_check_witness :
    (queenStalematePosition false false []).resetFlags.consistent = true ∧
    (queenStalematePosition false false []).isBlackKingUnderAttack = .ok false ∧
    fault (queenStalematePosition false false []).blackKingCheckCanBeEliminated =
      some (Fault.logic_error "Invalid function use") ∧
    ((queenStalematePosition false false []).isBlackCheckMated =
        .ok (false, queenStalematePosition false false []) ∧
      (returned (queenStalematePosition false false []).blackKingCheckCanBeEliminated =
          some true ∨
        fault (queenStalematePosition false false []).blackKingCheckCanBeEliminated =
          some (Fault.logic_error "Invalid function use")) ∧
      ∃ bKing, (queenStalematePosition false false []).blackPieces.head? = some bKing ∧
        (returned (queenStalematePosition false false []).blackKingCheckCanBeEliminated =
            some true ↔
          returned (tryDestinations bKing.getPosition (queenStalematePosition false false [])
            (bKing.getAttackingSquares
              (queenStalematePosition false false []).m_chessBoard)) = some true)) :=
  ⟨by decide!, by decide!, by decide!,
    (C27_check_elimination_without_check (queenStalematePosition false false [])
      (by decide!)).2 (by decide!)⟩

end C27Game

section C28Setup

open Chess

/-- C28: the constructor returns; the state it builds holds 16 white and 16 black pieces,
all of the colour of their collection; on each of the 64 squares the colour and class of
the piece found there is the one `standardArrangement` gives; each collection starts with
its King; the board reports as occupied exactly the squares of ranks 1, 2, 7 and 8; the
history is empty and the four flags are false. -/
theorem C28_initial_setup :
    (value Chess.construct).map (fun c => (c.whitePieces.length, c.blackPieces.length))
      = some (16, 16) ∧
    (value Chess.construct).map (fun c =>
        (c.whitePieces.all (fun p => decide (p.getColor = COLOR.WHITE)),
         c.blackPieces.all (fun p => decide (p.getColor = COLOR.BLACK)),
         distinct (c.pieces.map (fun p => p.getPosition))))
      = some (true, true, true) ∧
    (value Chess.construct).map (fun c =>
        allSquares.all (fun q =>
          decide ((c.getPieceFromPosition q).map (fun p => (p.getColor, p.getPiece)) =
            standardArrangement q)))
      = some true ∧
    (value Chess.construct).map (fun c =>
        (c.whitePieces.head?.map (fun p => (p.getColor, p.getPiece, p.getPosition)),
         c.blackPieces.head?.map (fun p => (p.getColor, p.getPiece, p.getPosition))))
      = some (some (COLOR.WHITE, PIECE.KING, e1), some (COLOR.BLACK, PIECE.KING, e8)) ∧
    (value Chess.construct).map (fun c =>
        allSquares.all (fun q =>
          c.m_chessBoard.isSquareOccupied q ==
            decide (q.rank = 49 ∨ q.rank = 50 ∨ q.rank = 55 ∨ q.rank = 56)))
      = some true ∧
    (value Chess.construct).map (fun c =>
        ((allSquares.filter (fun q => c.m_chessBoard.isSquareOccupied q)).length,
         c.m_moveDB,
         c.m_activateCastling, c.m_activatePawnCapturing, c.m_enPassant,
         c.m_activatePromotion))
      = some (32, [], false, false, false, false) := by
  refine ⟨by decide!, by decide!, by decide!, by decide!, by decide!, by decide!⟩

end C28Setup

section C29Game

open Chess

/-- C29, the code at the failing input.  Claim: after every `move` that follows a
successful `isValidMove` with cleared flags in a consistent position the mover's own
collection keeps its number of pieces, and the opponent's loses exactly one piece when the
move is a capture.  In the position `ownPawnEnPassantGame` reaches (consistent, 14 white
and 15 black pieces, White to move) `isValidMove("d3", "e4")` returns true; after
`move("d3", "e4")` White has 13 pieces and Black still 15: the pawn removed is White's own
pawn e3. -/
theorem C29_mover_loses_own_pawn :
    (Game.reached ownPawnEnPassantGame).map (fun c =>
        (c.consistent, c.whitePieces.length, c.blackPieces.length,
         returned (c.isValidMove d3 e4)))
      = some (true, 14, 15, some true) ∧
    (Game.reached ownPawnEnPassantGame).map (fun c =>
        ((c.getPieceFromPosition d3).map (fun p => (p.getColor, p.getPiece)),
         (c.getPieceFromPosition e3).map (fun p => (p.ptr, p.getColor, p.getPiece))))
      = some (some (COLOR.WHITE, PIECE.PAWN), some (13, COLOR.WHITE, PIECE.PAWN)) ∧
    (Game.reached ownPawnEnPassantGame).map (fun c =>
        (c.validatedMove d3 e4).map (fun c2 =>
          (c2.whitePieces.length, c2.blackPieces.length,
           c2.pieces.any (fun p => decide (p.ptr = 13)))))
      = some (some (13, 15, false)) := by
  refine ⟨by decide!, by decide!, by decide!⟩

end C29Game

section C30OwnColour

open Chess

set_option synthInstance.maxSize 1024 in
/-- C30, the code at the failing input, with what does hold.  Claim: for every position,
every flag setting and every pair of squares, if the destination holds a piece of the
colour of the piece on the source, `isValidMove` returns false.  (1) After 1.e4 e6 2.e5
Bd6 3.a3 d5 (consistent) `isValidMove("e5", "f6")` returns true with `m_enPassant` set,
and `move("e5", "f6")` puts the white pawn on d6, where the black bishop stands.  (2) In
the position reached, with cleared flags, the black queen stands on d8, Black's own
bishop on d6, and `isValidMove("d8", "d6")` returns true: `getPieceFromPosition("d6")`
finds the white pawn first.  After `move("d8", "d6")` the black queen and the black bishop
both stand on d6.  (3) In a position that is consistent apart from its flags and has a
non-empty history the claim holds: the call returns, and returns false.  (4) So it does
in the initial position for each of the sixteen flag settings and each pair of pieces of
one colour. -/
theorem C30_queen_moves_onto_own_bishop :
    (Game.reached bishopBehindPawnGame).map (fun c =>
        (c.consistent, (value (c.isValidMove e5 f6)).map (fun r => (r.1, r.2.m_enPassant)),
         (c.getPieceFromPosition d6).map (fun p => (p.getColor, p.getPiece))))
      = some (true, some (true, true), some (COLOR.BLACK, PIECE.BISHOP)) ∧
    (Game.reached (bishopBehindPawnGame ++ [(e5, f6)])).map (fun c =>
        (c.flagsCleared,
         (c.pieces.filter (fun p => decide (p.getPosition = d6))).map
           (fun p => (p.getColor, p.getPiece)),
         (c.getPieceFromPosition d8).map (fun p => (p.getColor, p.getPiece)),
         returned (c.isValidMove d8 d6)))
      = some (true, [(COLOR.WHITE, PIECE.PAWN), (COLOR.BLACK, PIECE.BISHOP)],
          some (COLOR.BLACK, PIECE.QUEEN), some true) ∧
    (Game.reached (bishopBehindPawnGame ++ [(e5, f6), (d8, d6)])).map (fun c =>
        (c.pieces.filter (fun p => decide (p.getPosition = d6))).map
          (fun p => (p.getColor, p.getPiece)))
      = some [(COLOR.BLACK, PIECE.QUEEN), (COLOR.BLACK, PIECE.BISHOP)] ∧
    (∀ (c : Chess) (source destination : Square) (p q : chessPiece),
      c.resetFlags.consistent = true → c.m_moveDB ≠ [] →
      c.getPieceFromPosition source = some p →
      c.getPieceFromPosition destination = some q → p.getColor = q.getColor →
      returned (c.isValidMove source destination) = some false) ∧
    (value Chess.construct).map (fun c0 =>
      [true, false].all (fun f1 => [true, false].all (fun f2 =>
      [true, false].all (fun f3 => [true, false].all (fun f4 =>
        Chess.pieces c0 |>.all (fun p1 => Chess.pieces c0 |>.all (fun q1 =>
          !(decide (p1.getColor = q1.getColor)) ||
            (returned (Chess.isValidMove
                { c0 with m_activateCastling := f1, m_activatePawnCapturing := f2,
                          m_enPassant := f3, m_activatePromotion := f4 }
                p1.getPosition q1.getPosition) == some false)))))))) = some true := by
  refine ⟨by decide!, by decide!, by decide!, ?_, by decide!⟩
  intro c source destination p q hc hh hp hq hcol
  exact isValidMove_own_colour c source destination p q hc (Or.inl hh) hp hq hcol

end C30OwnColour

section C31PawnOccupancy

open Chess

set_option synthInstance.maxSize 1024 in
/-- C31, the code at the failing input, with what does hold.  Claim: in every consistent
position and for every flag setting `isValidMove` returns false for a pawn move to an
occupied square of the pawn's file; and with cleared flags it returns false for a pawn
move to an empty forward-diagonal square unless the en passant conditions on the last
history record hold.  (1) The first part holds in every state: if the board shows the
destination as occupied, the call returns false and changes nothing; (2) so it does in a
position that is consistent apart from its flags when a piece stands on the destination.
(3) With `m_activatePawnCapturing` cleared and a last record, a pawn move to an empty
square of another file returns false unless a Pawn stands on the record's destination,
the record spans two ranks and ends beside `source` on its rank.  (4) In the initial
position, where there is no record, `isValidMove("d2", "c3")` does not return false: it
reads `m_moveDB[m_moveDB.size() - 1]` on the empty vector.  (5) In the position
`ownPawnEnPassantGame` reaches, the last record is the bishop move c1-e3, and
`isValidMove("d3", "e4")`, a pawn move to the empty forward-diagonal square e4, returns
true. -/
theorem C31_pawn_occupancy_test :
    (∀ (c : Chess) (s d : Square) (p : chessPiece),
      c.getPieceFromPosition s = some p → p.getPiece = PIECE.PAWN → d.file = s.file →
      c.m_chessBoard.isSquareOccupied d = true → c.isValidMove s d = .ok (false, c)) ∧
    (∀ (c : Chess) (s d : Square) (p q : chessPiece),
      c.resetFlags.consistent = true →
      c.getPieceFromPosition s = some p → p.getPiece = PIECE.PAWN → d.file = s.file →
      c.getPieceFromPosition d = some q → c.isValidMove s d = .ok (false, c)) ∧
    (∀ (c : Chess) (s d : Square) (p : chessPiece) (lm : Square × Square),
      c.m_activatePawnCapturing = false →
      c.getPieceFromPosition s = some p → p.getPiece = PIECE.PAWN → d.file ≠ s.file →
      c.getPieceFromPosition d = none → c.m_moveDB.getLast? = some lm →
      ¬ (isPawnPtr (c.getPieceFromPosition lm.2) = true ∧
        (lm.1.rank - lm.2.rank).natAbs = 2 ∧ (s.file - lm.2.file).natAbs = 1 ∧
        s.rank = lm.2.rank) →
      c.isValidMove s d = .ok (false, c)) ∧
    (value Chess.construct).map (fun c =>
        (c.consistent, c.m_moveDB.length,
         (c.getPieceFromPosition d2).map (fun p => (p.getColor, p.getPiece)),
         (c.getPieceFromPosition c3).isSome, c.m_chessBoard.isSquareOccupied c3))
      = some (true, 0, some (COLOR.WHITE, PIECE.PAWN), false, false) ∧
    (value Chess.construct).map (fun c =>
        (returned (c.isValidMove d2 c3), fault (c.isValidMove d2 c3)))
      = some (none, some Fault.undefinedBehaviour) ∧
    (Game.reached ownPawnEnPassantGame).map (fun c =>
        (c.consistent, c.m_moveDB.getLast?,
         (c.getPieceFromPosition d3).map (fun p => (p.getColor, p.getPiece)),
         (c.getPieceFromPosition e4).isSome, returned (c.isValidMove d3 e4)))
      = some (true, some (c1, e3), some (COLOR.WHITE, PIECE.PAWN), false, some true) := by
  refine ⟨?_, ?_, ?_, by decide!, by decide!, by decide!⟩
  · intro c s d p hp hk hfile hocc
    exact pawn_file_occupied c s d p hp hk hfile (Or.inl hocc)
  · intro c s d p q hc hp hk hfile hq
    obtain ⟨_, hboard0, hpos0, _, _⟩ := consistent_facts c.resetFlags hc
    have hboard : ∀ x, inBoardMap x = true →
        c.m_chessBoard.isSquareOccupied x =
          c.pieces.any (fun r => decide (r.getPosition = x)) := hboard0
    have hpos : ∀ r ∈ c.pieces, inBoardMap r.getPosition = true := hpos0
    obtain ⟨hqm, hqd⟩ := getPieceFromPosition_some c d q hq
    apply pawn_file_occupied c s d p hp hk hfile
    left
    rw [hboard d (hqd ▸ hpos q hqm), List.any_eq_true]
    exact ⟨q, hqm, by simpa using hqd⟩
  · intro c s d p lm hA hp hk hfile hempty hlast hnot
    exact pawn_diagonal_empty c s d p lm hp hk hA hfile hempty hlast hnot

end C31PawnOccupancy

section C32KingEscape

open Chess

/-- C32: the king cannot escape along the attacker's ray.  In a position that is
consistent (whatever the flags), let a King stand on `source` and let `a` be a piece of
the other colour.  If `destination` is in `a`'s `getAttackingSquares()`, or if `a` is a
Queen, Rook or Bishop whose `getAttackingSquares()` hold `source` and `destination` is the
square next to `source` on the far side from `a` on their common line, then
`isValidMove(source, destination)` returns, and it returns false.  In
`rookCheckPosition` the rook a1 does not have f1 among its attacking squares (the king e1
ends its ray), and of the king moves e1-f1, e1-d1 and e1-e2 only the last is valid. -/
theorem C32_king_cannot_escape_along_ray (c : Chess) (source destination : Square)
    (p a : chessPiece)
    (hc : c.resetFlags.consistent = true)
    (hp : c.getPieceFromPosition source = some p) (hk : p.getPiece = PIECE.KING)
    (ha : a ∈ c.pieces) (hcol : a.getColor ≠ p.getColor)
    (hatt : destination ∈ a.getAttackingSquares c.m_chessBoard ∨
      ((a.getPiece = PIECE.QUEEN ∨ a.getPiece = PIECE.ROOK ∨ a.getPiece = PIECE.BISHOP) ∧
        source ∈ a.getAttackingSquares c.m_chessBoard ∧
        destination = Square.beyond a.getPosition source)) :
    returned (c.isValidMove source destination) = some false ∧
    ((rookCheckPosition.getPieceFromPosition a1).map
        (fun r => (r.getPiece, (r.getAttackingSquares rookCheckPosition.m_chessBoard).contains e1,
          (r.getAttackingSquares rookCheckPosition.m_chessBoard).contains f1)),
      returned (rookCheckPosition.isValidMove e1 f1),
      returned (rookCheckPosition.isValidMove e1 d1),
      returned (rookCheckPosition.isValidMove e1 e2))
      = (some (PIECE.ROOK, true, false), some false, some false, some true) :=
  ⟨king_move_into_attack c source destination p a hc hp hk ha hcol hatt, by decide!⟩

/-- C32 at `rookCheckPosition`: the king e1, attacked by the rook a1 along the first
rank, may not step to f1. -/
theorem C32_king_cannot_escape_along_ray_witness :
    rookCheckPosition.resetFlags.consistent = true ∧
    rookCheckPosition.getPieceFromPosition e1 = some ⟨0, COLOR.WHITE, PIECE.KING, e1, false⟩ ∧
    (⟨2, COLOR.BLACK, PIECE.ROOK, a1, false⟩ : chessPiece) ∈ rookCheckPosition.pieces ∧
    e1 ∈ chessPiece.getAttackingSquares ⟨2, COLOR.BLACK, PIECE.ROOK, a1, false⟩
      rookCheckPosition.m_chessBoard ∧
    f1 = Square.beyond a1 e1 ∧
    returned (rookCheckPosition.isValidMove e1 f1) = some false :=
  ⟨by decide!, by decide!, by decide!, by decide!, by decide!,
    (C32_king_cannot_escape_along_ray rookCheckPosition e1 f1
      ⟨0, COLOR.WHITE, PIECE.KING, e1, false⟩ ⟨2, COLOR.BLACK, PIECE.ROOK, a1, false⟩
      (by decide!) (by decide!) rfl (by decide!) (by decide)
      (Or.inr ⟨Or.inr (Or.inl rfl), by decide!, by decide!⟩)).1⟩

end C32KingEscape

section C33Geometric

open Chess

/-- C33: the geometric test.  Let the flags be cleared and let `isValidMove(source,
destination)` return true for the piece `p` found on `source`, in any state of the object.
If `p` is a Queen, Rook, Bishop or Knight, `destination` is in `p`'s
`getAttackingSquares()`; if `p` is a King, `destination` is in its `getAttackingSquares()`
or `canCastle(p, source, destination)` returns true.  And whenever no piece stands on
`source`, `isValidMove` returns false and changes nothing. -/
theorem C33_geometric_test (c : Chess) (source destination : Square) (p : chessPiece)
    (hf : c.flagsCleared = true)
    (hp : c.getPieceFromPosition source = some p)
    (hv : returned (c.isValidMove source destination) = some true) :
    ((p.getPiece = PIECE.QUEEN ∨ p.getPiece = PIECE.ROOK ∨ p.getPiece = PIECE.BISHOP ∨
        p.getPiece = PIECE.KNIGHT) →
      destination ∈ p.getAttackingSquares c.m_chessBoard) ∧
    (p.getPiece = PIECE.KING →
      destination ∈ p.getAttackingSquares c.m_chessBoard ∨
        c.canCastle p source destination = .ok true) ∧
    (∀ (c0 : Chess) (s0 d0 : Square), c0.getPieceFromPosition s0 = none →
      c0.isValidMove s0 d0 = .ok (false, c0)) := by
  unfold flagsCleared at hf
  simp only [Bool.and_eq_true, Bool.not_eq_true'] at hf
  obtain ⟨⟨⟨_, hA⟩, hB⟩, _⟩ := hf
  refine ⟨?_, ?_, ?_⟩
  · intro hkind
    have hk : p.getPiece ≠ PIECE.PAWN := by
      rcases hkind with e | e | e | e <;> rw [e] <;> decide
    have hnk : p.getPiece ≠ PIECE.KING := by
      rcases hkind with e | e | e | e <;> rw [e] <;> decide
    rcases isValidMove_true_rule c source destination p hp hA hB hk hv with hr | ⟨hking, _⟩
    · exact piece_isValidMove_attacks p _ source destination hk hr
    · exact absurd hking hnk
  · intro hking
    have hk : p.getPiece ≠ PIECE.PAWN := by rw [hking]; decide
    rcases isValidMove_true_rule c source destination p hp hA hB hk hv with hr | ⟨_, hcc⟩
    · exact Or.inl (piece_isValidMove_attacks p _ source destination hk hr)
    · exact Or.inr hcc
  · intro c0 s0 d0 h0
    unfold isValidMove
    rw [h0]

/-- C33 at `castleReadyPosition`: the rook h1 may go to h5, and h5 is in its attacking
squares. -/
theorem C33_geometric_test_witness :
    castleReadyPosition.flagsCleared = true ∧
    castleReadyPosition.getPieceFromPosition h1 = some ⟨1, COLOR.WHITE, PIECE.ROOK, h1, true⟩ ∧
    returned (castleReadyPosition.isValidMove h1 h5) = some true ∧
    (((chessPiece.getPiece ⟨1, COLOR.WHITE, PIECE.ROOK, h1, true⟩ = PIECE.QUEEN ∨
        chessPiece.getPiece ⟨1, COLOR.WHITE, PIECE.ROOK, h1, true⟩ = PIECE.ROOK ∨
        chessPiece.getPiece ⟨1, COLOR.WHITE, PIECE.ROOK, h1, true⟩ = PIECE.BISHOP ∨
        chessPiece.getPiece ⟨1, COLOR.WHITE, PIECE.ROOK, h1, true⟩ = PIECE.KNIGHT) →
      h5 ∈ chessPiece.getAttackingSquares ⟨1, COLOR.WHITE, PIECE.ROOK, h1, true⟩
        castleReadyPosition.m_chessBoard) ∧
    (chessPiece.getPiece ⟨1, COLOR.WHITE, PIECE.ROOK, h1, true⟩ = PIECE.KING →
      h5 ∈ chessPiece.getAttackingSquares ⟨1, COLOR.WHITE, PIECE.ROOK, h1, true⟩
          castleReadyPosition.m_chessBoard ∨
        castleReadyPosition.canCastle ⟨1, COLOR.WHITE, PIECE.ROOK, h1, true⟩ h1 h5 =
          .ok true) ∧
    (∀ (c0 : Chess) (s0 d0 : Square), c0.getPieceFromPosition s0 = none →
      c0.isValidMove s0 d0 = .ok (false, c0))) :=
  ⟨by decide!, by decide!, by decide!,
    C33_geometric_test castleReadyPosition h1 h5 ⟨1, COLOR.WHITE, PIECE.ROOK, h1, true⟩
      (by decide!) (by decide!) (by decide!)⟩

end C33Geometric

section C34InputBoundary

open Chess

/-- C34: the input boundary.  For every state and every two strings,
`Game::isValidInput(source, destination)` returns true if and only if both strings have
length exactly 2, each has its first character in 'a'..'h' and its second in '1'..'8', the
strings differ, and a piece stands on `source`.  When it returns false, the pass through
the input loop of `Game::play`, for either side, calls neither `isWhiteMoved`/
`isBlackMoved` nor `isValidMove` nor `move`: it returns with nothing changed but the
flags, which `resetFlags()` clears.  In the initial position "e2","e4" is accepted and
"e2","e9", "e3","e4", "e2","e2", "e2 ","e4" and "","e4" are rejected. -/
theorem C34_input_boundary (c : Chess) (source destination : List Int) :
    (Game.isValidInput c source destination = true ↔
      Game.validInputSpec c source destination) ∧
    (Game.isValidInput c source destination = false →
      ∀ white : Bool, Game.inputTurn white c source destination = .ok (false, c.resetFlags)) ∧
    (value Chess.construct).map (fun c0 =>
        [Game.isValidInput c0 [101, 50] [101, 52], Game.isValidInput c0 [101, 50] [101, 57],
         Game.isValidInput c0 [101, 51] [101, 52], Game.isValidInput c0 [101, 50] [101, 50],
         Game.isValidInput c0 [101, 50, 32] [101, 52], Game.isValidInput c0 [] [101, 52]])
      = some [true, false, false, false, false, false] := by
  refine ⟨?_, ?_, by decide!⟩
  · unfold Game.isValidInput Game.validInputSpec
    constructor
    · intro h
      split_ifs at h with hA
      simp only [not_or, not_not] at hA
      obtain ⟨hls, hld, hne⟩ := hA
      obtain ⟨s0, s1, rfl⟩ := List.length_eq_two.mp hls
      obtain ⟨d0, d1, rfl⟩ := List.length_eq_two.mp hld
      simp only at h
      split_ifs at h with hB hC
      simp only [not_or, not_lt] at hB
      refine ⟨rfl, rfl, ?_, hne, ?_⟩
      · intro x hx
        simp only [List.mem_cons, List.mem_singleton, List.not_mem_nil, or_false] at hx
        rcases hx with rfl | rfl
        · exact ⟨⟨s0, rfl, by omega, by omega⟩, ⟨s1, rfl, by omega, by omega⟩⟩
        · exact ⟨⟨d0, rfl, by omega, by omega⟩, ⟨d1, rfl, by omega, by omega⟩⟩
      · cases hg : c.getPieceFromPosition ⟨s0, s1⟩ with
        | none => rw [hg] at hC; simp at hC
        | some p => exact ⟨s0, s1, p, rfl, hg⟩
    · rintro ⟨hls, hld, hrange, hne, f, r, p, rfl, hp⟩
      obtain ⟨d0, d1, rfl⟩ := List.length_eq_two.mp hld
      obtain ⟨⟨f0, hf0, hsA, hsB⟩, ⟨r0, hr0, hsC, hsD⟩⟩ := hrange [f, r] (by simp)
      obtain ⟨⟨f1, hf1, hdA, hdB⟩, ⟨r1, hr1, hdC, hdD⟩⟩ := hrange [d0, d1] (by simp)
      simp only [List.getElem?_cons_zero, List.getElem?_cons_succ, Option.some.injEq]
        at hf0 hr0 hf1 hr1
      subst hf0 hr0 hf1 hr1
      rw [if_neg (by simp [hne])]
      simp only
      rw [if_neg (by omega), hp]
      simp
  · intro h white
    unfold Game.inputTurn
    rw [h]
    rfl

end C34InputBoundary

section C35Game

open Chess

set_option synthInstance.maxSize 1024 in
/-- C35, the code at the failing input.  Claim: in every consistent position in which an
unmoved pawn stands on its home rank and the square directly in front of it is occupied,
`isValidMove(source, destination)` is false for the destination two squares straight
ahead.  After 1.Nf3 a6 (consistent) the unmoved white pawn stands on f2, the white knight
on f3 right in front of it, and f4 is empty; `isValidMove("f2", "f4")` returns true, and
after `move("f2", "f4")` the pawn stands on f4 behind which the knight still stands on
f3. -/
theorem C35_pawn_jumps_over_knight :
    (Game.reached pawnJumpGame).map (fun c =>
        (c.consistent,
         (c.getPieceFromPosition f2).map (fun p => (p.getColor, p.getPiece, p.isFirstMove)),
         (c.getPieceFromPosition f3).map (fun p => (p.getColor, p.getPiece)),
         c.m_chessBoard.isSquareOccupied f3))
      = some (true, some (COLOR.WHITE, PIECE.PAWN, true),
          some (COLOR.WHITE, PIECE.KNIGHT), true) ∧
    (Game.reached pawnJumpGame).map (fun c =>
        ((c.getPieceFromPosition f4).isSome, c.m_chessBoard.isSquareOccupied f4,
         returned (c.isValidMove f2 f4)))
      = some (false, false, some true) ∧
    (Game.reached pawnJumpGame).map (fun c =>
        (c.validatedMove f2 f4).map (fun c2 =>
          ((c2.getPieceFromPosition f4).map (fun p => (p.getColor, p.getPiece)),
           (c2.getPieceFromPosition f3).map (fun p => (p.getColor, p.getPiece)),
           (c2.getPieceFromPosition f2).isSome)))
      = some (some (some (COLOR.WHITE, PIECE.PAWN), some (COLOR.WHITE, PIECE.KNIGHT),
          false)) := by
  refine ⟨by decide!, by decide!, by decide!⟩

end C35Game

section C36Mirror

open Chess

set_option synthInstance.maxSize 1024 in
/-- C36, the code at the failing input.  Claim: in every consistent position with cleared
flags `isValidMove` gives the same result on the mirrored position for the mirrored move;
in particular a Black piece other than the king may capture a White Bishop that is the
only piece attacking the Black king exactly when the mirrored White capture is accepted.
In `bishopCheckPosition` (consistent; the black bishop b4 is the only piece attacking the
white king) `isValidMove("a3", "b4")` returns true, and the capture ends the check.  In the
mirrored position (consistent; White Ke1 and Bb5, Black Ke8 and pawn a6, the bishop the
only piece attacking the black king) the mirrored call `isValidMove("a6", "b5")` returns
false.  The same in play: after 1.a3 e5 2.d3 Bb4+ the capture a3xb4 is accepted, after
1.e4 a6 2.h3 d6 3.Bb5+ the capture a6xb5 is refused. -/
theorem C36_black_may_not_capture_checking_bishop :
    (bishopCheckPosition.consistent, bishopCheckPosition.mirror.consistent,
      decide (Square.mirror a3 = a6), decide (Square.mirror b4 = b5),
      bishopCheckPosition.mirror.pieces.map
        (fun p => (p.getColor, p.getPiece, p.getPosition)))
      = (true, true, true, true,
          [(COLOR.WHITE, PIECE.KING, e1), (COLOR.WHITE, PIECE.BISHOP, b5),
           (COLOR.BLACK, PIECE.KING, e8), (COLOR.BLACK, PIECE.PAWN, a6)]) ∧
    ((value bishopCheckPosition.getWhiteKingAttackers).map
        (fun l => l.map (fun p => (p.getPiece, p.getPosition))),
      (value bishopCheckPosition.mirror.getBlackKingAttackers).map
        (fun l => l.map (fun p => (p.getPiece, p.getPosition))))
      = (some [(PIECE.BISHOP, b4)], some [(PIECE.BISHOP, b5)]) ∧
    (returned (bishopCheckPosition.isValidMove a3 b4),
      (bishopCheckPosition.validatedMove a3 b4).map (fun c2 => c2.isWhiteKingUnderAttack),
      returned (bishopCheckPosition.mirror.isValidMove (Square.mirror a3) (Square.mirror b4)))
      = (some true, some (.ok false), some false) ∧
    (Game.reached bishopCheckGameMirrored).map (fun c =>
        (c.consistent, c.isWhiteKingUnderAttack, returned (c.isValidMove a3 b4)))
      = some (true, .ok true, some true) ∧
    (Game.reached bishopCheckGame).map (fun c =>
        (c.consistent, c.isBlackKingUnderAttack,
         (value c.getBlackKingAttackers).map
           (fun l => l.map (fun p => (p.getPiece, p.getPosition))),
         returned (c.isValidMove a6 b5)))
      = some (true, .ok true, some [(PIECE.BISHOP, b5)], some false) := by
  refine ⟨by decide!, by decide!, by decide!, by decide!, by decide!⟩

end C36Mirror

section C37Game

open Chess

set_option synthInstance.maxSize 1024 in
/-- C37, the code at the failing input.  Claim: when the king is attacked by exactly one
piece, a Knight or a Pawn, and has no valid move, `whiteKingCheckCanBeEliminated()`
(`blackKingCheckCanBeEliminated()`) never removes an element from an empty path and
returns true exactly when an own non-king piece has a valid move onto the attacker's
square.  After 1.a3 Nc6 2.a4 Ne5 3.a5 Nd3+ (consistent) the knight d3 is the only attacker
of the white king, its `getAttackingPath("e1")` is empty, none of the king's five
attacking squares is a valid destination, and c2xd3 and e2xd3 are valid; yet
`whiteKingCheckCanBeEliminated()` and `isWhiteCheckMated()` do not return: they call
`pop_back()` on the empty path.  The same for Black after 1.Nc3 a6 2.Ne4 a5 3.Nd6+. -/
theorem C37_pop_back_on_empty_path :
    (Game.reached knightCheckGame).map (fun c =>
        (c.consistent, c.isWhiteKingUnderAttack,
         (value c.getWhiteKingAttackers).map (fun l => l.map (fun p =>
           (p.getPiece, p.getPosition, p.getAttackingPath e1)))))
      = some (true, .ok true, some [(PIECE.KNIGHT, d3, [])]) ∧
    (Game.reached knightCheckGame).map (fun c =>
        ((c.whitePieces.head?).map (fun k => (k.getPiece, k.getPosition,
           (k.getAttackingSquares c.m_chessBoard).map
             (fun d => returned (c.isValidMove k.getPosition d)))),
         returned (c.isValidMove c2 d3), returned (c.isValidMove e2 d3)))
      = some (some (PIECE.KING, e1, [some false, some false, some false, some false,
          some false]), some true, some true) ∧
    (Game.reached knightCheckGame).map (fun c =>
        (returned c.whiteKingCheckCanBeEliminated, fault c.whiteKingCheckCanBeEliminated,
         fault c.isWhiteCheckMated))
      = some (none, some Fault.undefinedBehaviour, some Fault.undefinedBehaviour) ∧
    (Game.reached knightCheckGameBlack).map (fun c =>
        (c.consistent, c.isBlackKingUnderAttack,
         (value c.getBlackKingAttackers).map (fun l => l.map (fun p =>
           (p.getPiece, p.getPosition, p.getAttackingPath e8))),
         returned (c.isValidMove c7 d6)))
      = some (true, .ok true, some [(PIECE.KNIGHT, d6, [])], some true) ∧
    (Game.reached knightCheckGameBlack).map (fun c =>
        (returned c.blackKingCheckCanBeEliminated, fault c.blackKingCheckCanBeEliminated,
         fault c.isBlackCheckMated))
      = some (none, some Fault.undefinedBehaviour, some Fault.undefinedBehaviour) := by
  refine ⟨by decide!, by decide!, by decide!, by decide!, by decide!⟩

end C37Game

section C38Queries

open Chess

/-- C38: queries do not change the game.  If `isValidMove`, `isWhiteCheckMated`,
`isBlackCheckMated`, `isWhiteStalemate`, `isBlackStalemate`,
`whiteKingCheckCanBeEliminated` or `blackKingCheckCanBeEliminated` returns, in any state
of the object, then both collections (hence every piece's square, colour, kind and
has-moved flag), the board and the history are what they were, and the object differs
from the one before at most in its four flags.  `canCastle`, `isWhiteKingUnderAttack`,
`isBlackKingUnderAttack` and `isRepetition` assign to no member and call no function that
does; they are functions of the state here. -/
theorem C38_queries_keep_the_game (c c1 : Chess) (source destination : Square) (r : Bool)
    (h : c.isValidMove source destination = .ok (r, c1) ∨
      c.isWhiteCheckMated = .ok (r, c1) ∨ c.isBlackCheckMated = .ok (r, c1) ∨
      c.isWhiteStalemate = .ok (r, c1) ∨ c.isBlackStalemate = .ok (r, c1) ∨
      c.whiteKingCheckCanBeEliminated = .ok (r, c1) ∨
      c.blackKingCheckCanBeEliminated = .ok (r, c1)) :
    c1.whitePieces = c.whitePieces ∧ c1.blackPieces = c.blackPieces ∧
    c1.m_chessBoard = c.m_chessBoard ∧ c1.m_moveDB = c.m_moveDB ∧
    c1 = { c with m_activateCastling := c1.m_activateCastling,
                  m_activatePawnCapturing := c1.m_activatePawnCapturing,
                  m_enPassant := c1.m_enPassant,
                  m_activatePromotion := c1.m_activatePromotion } := by
  have hs : sameButFlags c c1 := by
    rcases h with h | h | h | h | h | h | h
    · exact isValidMove_frame c source destination r c1 h
    · exact isWhiteCheckMated_frame c r c1 h
    · exact isBlackCheckMated_frame c r c1 h
    · exact isWhiteStalemate_frame c r c1 h
    · exact isBlackStalemate_frame c r c1 h
    · exact whiteKingCheckCanBeEliminated_frame c r c1 h
    · exact blackKingCheckCanBeEliminated_frame c r c1 h
  obtain ⟨hb, hw, hbl, hdb, hh⟩ := hs
  refine ⟨hw, hbl, hb, hdb, ?_⟩
  cases c
  cases c1
  simp only at hb hw hbl hdb hh
  subst hb hw hbl hdb hh
  rfl

/-- C38 at `enPassantReadyPosition`: `isValidMove("e5", "f6")` returns true and sets
`m_enPassant`; nothing else changes. -/
theorem C38_queries_keep_the_game_witness :
    ∃ c1 : Chess, enPassantReadyPosition.isValidMove e5 f6 = .ok (true, c1) ∧
      c1.m_enPassant = true ∧ enPassantReadyPosition.m_enPassant = false ∧
      c1.whitePieces = enPassantReadyPosition.whitePieces ∧
      c1.blackPieces = enPassantReadyPosition.blackPieces ∧
      c1.m_chessBoard = enPassantReadyPosition.m_chessBoard ∧
      c1.m_moveDB = enPassantReadyPosition.m_moveDB ∧
      c1 = { enPassantReadyPosition with
               m_activateCastling := c1.m_activateCastling,
               m_activatePawnCapturing := c1.m_activatePawnCapturing,
               m_enPassant := c1.m_enPassant,
               m_activatePromotion := c1.m_activatePromotion } := by
  obtain ⟨_, _, _, _, _, _, _, _, _, _, _, h⟩ :=
    isValidMove_enPassant enPassantReadyPosition e5 f6 (by decide!) (by decide!)
  exact ⟨_, h, rfl, by decide,
    C38_queries_keep_the_game enPassantReadyPosition _ e5 f6 true (Or.inl h)⟩

end C38Queries

section C39QueenRefinement

open Chess chessPiece

/-- C39: the Queen is Rook plus Bishop.  The Queen's two functions are `queenRays` (with
the board-key filter) and `queenPath`, written from the Queen's own eight loops and eight
branches.  For every square `p`, every board and every destination `d` (whatever the
address, colour and has-moved flag of the three pieces):
`Queen::getAttackingSquares()` from `p` is the list `Rook::getAttackingSquares()` from `p`
followed by `Bishop::getAttackingSquares()` from `p`; `Queen::getAttackingPath(d)` is
`Rook::getAttackingPath(d)` when that is non-empty and `Bishop::getAttackingPath(d)`
otherwise; and the Rook's and the Bishop's path are never both non-empty. -/
theorem C39_queen_is_rook_plus_bishop (b : chessBoard) (p d : Square)
    (ptrQ ptrR ptrB : Nat) (colorQ colorR colorB : COLOR) (fmQ fmR fmB : Bool) :
    getAttackingSquares ⟨ptrQ, colorQ, PIECE.QUEEN, p, fmQ⟩ b =
      getAttackingSquares ⟨ptrR, colorR, PIECE.ROOK, p, fmR⟩ b ++
        getAttackingSquares ⟨ptrB, colorB, PIECE.BISHOP, p, fmB⟩ b ∧
    getAttackingPath ⟨ptrQ, colorQ, PIECE.QUEEN, p, fmQ⟩ d =
      (if getAttackingPath ⟨ptrR, colorR, PIECE.ROOK, p, fmR⟩ d ≠ [] then
        getAttackingPath ⟨ptrR, colorR, PIECE.ROOK, p, fmR⟩ d
       else getAttackingPath ⟨ptrB, colorB, PIECE.BISHOP, p, fmB⟩ d) ∧
    ¬ (getAttackingPath ⟨ptrR, colorR, PIECE.ROOK, p, fmR⟩ d ≠ [] ∧
       getAttackingPath ⟨ptrB, colorB, PIECE.BISHOP, p, fmB⟩ d ≠ []) := by
  refine ⟨?_, ?_, ?_⟩
  · simp only [getAttackingSquares, queenRays_eq, keepBoardSquares, List.filter_append]
  · simp only [getAttackingPath, queenPath_eq]
    rcases straightPath_spec p d with ⟨hn, _⟩ | ⟨L, hL, _, hne, _, _⟩
    · rw [hn]
      simp
    · rw [hL]
      simp [hne]
  · simp only [getAttackingPath]
    rintro ⟨hr, hb⟩
    rcases straightPath_spec p d with ⟨hn, _⟩ | ⟨L, hL, ⟨_, hline⟩, _, _, _⟩
    · rw [hn] at hr
      simp at hr
    · apply hb
      apply diagonalPath_nil
      rintro ⟨hf, hk⟩
      rcases hline with hline | hline
      · exact hf hline
      · exact hk hline

end C39QueenRefinement

section C40Game

open Chess

set_option synthInstance.maxSize 1024 in
/-- C40, the code at the failing input.  Claim: in every state reachable from the initial
position by accepted moves, sides alternating and flags reset around each turn, the first
element of `whitePieces` is the White King and the first element of `blackPieces` the
Black King.  The fourteen half-moves of `enPassantPinGame` and White's en passant capture
e5xd6 are accepted; the white king h5 is then under attack, Black is neither mated nor
stalemated, and `isValidMove("a5", "h5")` returns true (also with the flags
`isBlackStalemate()` leaves behind).  After `move("a5", "h5")` `whitePieces` has 15
elements, none of them a King, and its first element is the Queen d1. -/
theorem C40_white_king_is_captured :
    (Game.reached (enPassantPinGame ++ [(e5, d6)])).map (fun c =>
        (c.kingFirst, c.isWhiteKingUnderAttack, returned c.isBlackCheckMated,
         returned c.isBlackStalemate, c.isRepetition, returned (c.isValidMove a5 h5)))
      = some (true, .ok true, some false, some false, false, some true) ∧
    (Game.reached (enPassantPinGame ++ [(e5, d6)])).map (fun c =>
        (value c.isBlackStalemate).map (fun r => returned (r.2.isValidMove a5 h5)))
      = some (some (some true)) ∧
    (Game.reached (enPassantPinGame ++ [(e5, d6)])).map (fun c =>
        ((c.getPieceFromPosition a5).map (fun p => (p.getColor, p.getPiece)),
         (c.getPieceFromPosition h5).map (fun p => (p.getColor, p.getPiece))))
      = some (some (COLOR.BLACK, PIECE.ROOK), some (COLOR.WHITE, PIECE.KING)) ∧
    (Game.reached kingCaptureGame).map (fun c =>
        (c.kingFirst, c.whitePieces.length,
         c.whitePieces.any (fun p => decide (p.getPiece = PIECE.KING)),
         (c.whitePieces.head?).map (fun p => (p.getColor, p.getPiece, p.getPosition)),
         (c.blackPieces.head?).map (fun p => (p.getColor, p.getPiece, p.getPosition))))
      = some (false, 15, false, some (COLOR.WHITE, PIECE.QUEEN, d1),
          some (COLOR.BLACK, PIECE.KING, e8)) := by
  refine ⟨by decide!, by decide!, by decide!, by decide!⟩

end C40Game

end CHESS
